import Mathlib

/-!
# Landsat 8 surface reflectance: `compute_refl.c`

A shallow embedding of `compute_toa_refl` and of the passes of
`compute_sr_refl` (source: `src/c_version/src/compute_refl.c`).

Conventions of the embedding

* C `float` / `double` values are exact rationals (`ℚ`). Rounding is
  represented where a statement depends on it: the block sums of the aerosol
  interpolation are embedded a second time with the `float` and `double`
  roundings (`blockAccumRounded`, `gapFillBlockRounded`).
* the quotients of the auxiliary pass (the cirrus threshold
  `100.0 / (tp * ONE_DIV_1013)`, the NDWI, the NDVI, `raot / xmus` and the
  normalised difference of the acceptance test) are C quotients with values
  in `FVal`: an infinity or NaN at a zero denominator, compared as C
  compares them. The quotients of the other passes are rational; a statement
  that depends on one assumes its denominator non-zero.
* `(int) x` on a floating value is truncation toward zero (`truncToInt`).
* a store into an `int16` array goes through `toInt16` (wrap modulo `2^16`),
  a store into the `uint8` cloud mask is taken modulo `256`.
* per-pixel arrays are functions `Nat → _` indexed by the pixel number
  `line * nsamps + samp`; a band set is `Nat → Nat → Int` (band, pixel).
* `l8_sr.h` is not part of the sources: its numeric constants are the fields
  of `Consts` and `GridConsts`, parameters of every definition that uses
  one.
* functions of other translation units (`get_input_refl_lines`,
  `get_input_th_lines`, `atmcorlamb2`, `subaeroret`, `from_space`, libm
  `log` and `exp`) are parameters; a failing call is `none`. The factors
  `facl` and `fack` of the shadow casting, computed with `cosf`, `sinf` and
  `tanf`, are parameters as well.
-/

namespace L8SR

/-! ## Constants -/

/-- Numeric macros of `l8_sr.h` used by `compute_refl.c`. -/
structure Consts where
  FILL_VALUE : Int
  MIN_VALID : Int
  MAX_VALID : Int
  MIN_VALID_TH : Int
  MAX_VALID_TH : Int
  MULT_FACTOR : ℚ
  MULT_FACTOR_TH : ℚ
  SCALE_FACTOR : ℚ
  SCALE_FACTOR_TH : ℚ

/-- The customary Landsat 8 product scaling, used for concrete evaluations. -/
def l8 : Consts where
  FILL_VALUE := -9999
  MIN_VALID := -2000
  MAX_VALID := 16000
  MIN_VALID_TH := 1500
  MAX_VALID_TH := 3500
  MULT_FACTOR := 10000
  MULT_FACTOR_TH := 10
  SCALE_FACTOR := 1 / 10000
  SCALE_FACTOR_TH := 1 / 10

/-- Modelled from the spec: the input band enumeration of `l8_sr.h`
(`DN_BAND1 .. DN_BAND11`, consecutive from zero, pan band 8 included). -/
def DN_BAND1 : Nat := 0
/-- Modelled from the spec: input band 2. -/
def DN_BAND2 : Nat := 1
/-- Modelled from the spec: input band 4. -/
def DN_BAND4 : Nat := 3
/-- Modelled from the spec: input band 5. -/
def DN_BAND5 : Nat := 4
/-- Modelled from the spec: input band 7. -/
def DN_BAND7 : Nat := 6
/-- Modelled from the spec: the pan band. -/
def DN_BAND8 : Nat := 7
/-- Modelled from the spec: input band 9. -/
def DN_BAND9 : Nat := 8
/-- Modelled from the spec: input band 10. -/
def DN_BAND10 : Nat := 9
/-- Modelled from the spec: input band 11. -/
def DN_BAND11 : Nat := 10

/-- Modelled from the spec: the output band enumeration of `l8_sr.h`
(reflective bands 1-7 at indices 0-6, the pan band is not counted). -/
def SR_BAND7 : Nat := 6
/-- Modelled from the spec: output index of band 9. -/
def SR_BAND9 : Nat := 7
/-- Modelled from the spec: output index of band 10. -/
def SR_BAND10 : Nat := 8
/-- Modelled from the spec: output index of band 11. -/
def SR_BAND11 : Nat := 9

/-- Reflectance multiplier for bands 1-9 (`2.0E-05`). -/
def refl_mult : ℚ := 2 / 100000
/-- Reflectance additive for bands 1-9 (`-0.1`). -/
def refl_add : ℚ := -1 / 10
/-- Radiance multiplier for bands 10 and 11 (`3.3420E-04`). -/
def xcals : ℚ := 3342 / 10000000
/-- Radiance additive for bands 10 and 11 (`0.10000`). -/
def xcalo : ℚ := 1 / 10
/-- Temperature constant K1 for band 10 (`774.89`). -/
def k1b10 : ℚ := 77489 / 100
/-- Temperature constant K1 for band 11 (`480.89`). -/
def k1b11 : ℚ := 48089 / 100
/-- Temperature constant K2 for band 10 (`1321.08`). -/
def k2b10 : ℚ := 132108 / 100
/-- Temperature constant K2 for band 11 (`1201.14`). -/
def k2b11 : ℚ := 120114 / 100

/-! ## Machine conversions -/

/-- The C cast `(int) x` of a floating value: truncation toward zero. -/
def truncToInt (x : ℚ) : Int := if 0 ≤ x then ⌊x⌋ else ⌈x⌉

/-- Conversion of an `int` to `int16` (two's complement wrap). -/
def toInt16 (v : Int) : Int := (v + 32768) % 65536 - 32768

/-- A value representable as `int16`. -/
def FitsInt16 (v : Int) : Prop := -32768 ≤ v ∧ v ≤ 32767

instance (v : Int) : Decidable (FitsInt16 v) :=
  inferInstanceAs (Decidable (-32768 ≤ v ∧ v ≤ 32767))

/-! ## `compute_toa_refl` -/

/-- Lines 116-117: the scaled TOA reflectance of a pixel with digital number
`dn`, corrected for the scene-centre sun angle. -/
def toaReflScaled (c : Consts) (xmus : ℚ) (dn : Nat) : ℚ :=
  let rotoa : ℚ := ((dn : ℚ) * refl_mult) + refl_add
  rotoa * c.MULT_FACTOR / xmus

/-- Lines 116-126: the value stored for a non-fill pixel of a reflective
band with digital number `dn`. -/
def toaReflValue (c : Consts) (xmus : ℚ) (dn : Nat) : Int :=
  let rotoa : ℚ := toaReflScaled c xmus dn
  if rotoa < (c.MIN_VALID : ℚ) then toInt16 c.MIN_VALID
  else if rotoa > (c.MAX_VALID : ℚ) then toInt16 c.MAX_VALID
  else toInt16 (truncToInt rotoa)

/-- Lines 152-157: the scaled at-satellite brightness temperature of a
thermal pixel; `ln` is libm `log`. -/
def thermalScaled (c : Consts) (ln : ℚ → ℚ) (k1 k2 : ℚ) (dn : Nat) : ℚ :=
  let tmpf : ℚ := xcals * (dn : ℚ) + xcalo
  let tmpf : ℚ := k2 / ln (k1 / tmpf + 1)
  tmpf * c.MULT_FACTOR_TH

/-- Lines 152-166 (band 10) and 190-204 (band 11): the value stored for a
non-fill pixel of a thermal band. -/
def thermalValue (c : Consts) (ln : ℚ → ℚ) (k1 k2 : ℚ) (dn : Nat) : Int :=
  let tmpf : ℚ := thermalScaled c ln k1 k2 dn
  if tmpf < (c.MIN_VALID_TH : ℚ) then toInt16 c.MIN_VALID_TH
  else if tmpf > (c.MAX_VALID_TH : ℚ) then toInt16 c.MAX_VALID_TH
  else toInt16 (truncToInt (tmpf + 1 / 2))

/-- Body of the pixel loops of `compute_toa_refl`: pixel `i` of the output
band receives `val (uband i)` when it is not fill, `FILL_VALUE` otherwise. -/
def toaPixel (c : Consts) (qaband uband : Nat → Nat) (val : Nat → Int)
    (band : Nat → Int) (i : Nat) : Nat → Int :=
  if qaband i ≠ 1 then Function.update band i (val (uband i))
  else Function.update band i (toInt16 c.FILL_VALUE)

/-- The loop `for (i = 0; i < nlines*nsamps; i++)` over one band. -/
def toaBand (c : Consts) (qaband uband : Nat → Nat) (val : Nat → Int)
    (npix : Nat) (band : Nat → Int) : Nat → Int :=
  (List.range npix).foldl (toaPixel c qaband uband val) band

/-- Lines 90-99: the index `iband` (and `sband_ib`) of a reflective input
band: the band itself up to band 7, one less after the pan band. -/
def reflBandIndex (ib : Nat) : Nat := if ib ≤ DN_BAND7 then ib else ib - 1

/-- A band read followed by the pixel loop into output band `sband_ib`:
a failed read returns `ERROR`. -/
def calibrateBand (c : Consts) (qaband : Nat → Nat) (npix : Nat)
    (read : Option (Nat → Nat)) (val : Nat → Int) (sband_ib : Nat)
    (sband : Nat → Nat → Int) : Option (Nat → Nat → Int) :=
  match read with
  | none => none
  | some uband =>
    some (Function.update sband sband_ib
      (toaBand c qaband uband val npix (sband sband_ib)))

/-- One iteration of the band loop (lines 78-210) for input band `ib`.
`get_input_refl_lines iband` and `get_input_th_lines k` read a whole band of
digital numbers or fail. -/
def toaBandStep (c : Consts) (ln : ℚ → ℚ)
    (get_input_refl_lines get_input_th_lines : Nat → Option (Nat → Nat))
    (qaband : Nat → Nat) (npix : Nat) (xmus : ℚ) (instrument : String)
    (sband : Nat → Nat → Int) (ib : Nat) : Option (Nat → Nat → Int) :=
  if ib = DN_BAND8 then some sband
  else if ib ≤ DN_BAND9 then
    calibrateBand c qaband npix (get_input_refl_lines (reflBandIndex ib))
      (toaReflValue c xmus) (reflBandIndex ib) sband
  else if ib = DN_BAND10 ∧ instrument ≠ "OLI" then
    calibrateBand c qaband npix (get_input_th_lines 0)
      (thermalValue c ln k1b10 k2b10) SR_BAND10 sband
  else if ib = DN_BAND11 ∧ instrument ≠ "OLI" then
    calibrateBand c qaband npix (get_input_th_lines 1)
      (thermalValue c ln k1b11 k2b11) SR_BAND11 sband
  else some sband

/-- The band loop over a list of input bands; a failed read returns at once. -/
def toaBands (c : Consts) (ln : ℚ → ℚ)
    (get_input_refl_lines get_input_th_lines : Nat → Option (Nat → Nat))
    (qaband : Nat → Nat) (npix : Nat) (xmus : ℚ) (instrument : String) :
    List Nat → (Nat → Nat → Int) → Option (Nat → Nat → Int)
  | [], sband => some sband
  | ib :: rest, sband =>
    match toaBandStep c ln get_input_refl_lines get_input_th_lines qaband npix
        xmus instrument sband ib with
    | none => none
    | some s =>
      toaBands c ln get_input_refl_lines get_input_th_lines qaband npix xmus
        instrument rest s

/-- `compute_toa_refl`: `some sband` is `SUCCESS` with the output bands,
`none` is `ERROR`. The band loop runs `ib = DN_BAND1 .. DN_BAND11`. -/
def compute_toa_refl (c : Consts) (ln : ℚ → ℚ)
    (get_input_refl_lines get_input_th_lines : Nat → Option (Nat → Nat))
    (qaband : Nat → Nat) (nlines nsamps : Nat) (xmus : ℚ)
    (instrument : String) (sband : Nat → Nat → Int) :
    Option (Nat → Nat → Int) :=
  toaBands c ln get_input_refl_lines get_input_th_lines qaband
    (nlines * nsamps) xmus instrument (List.range (DN_BAND11 + 1)) sband

/-- The output band written by iteration `ib` of the band loop (the pan band
writes none; its entry is never consulted). -/
def toaTarget (ib : Nat) : Nat :=
  if ib ≤ DN_BAND9 then reflBandIndex ib
  else if ib = DN_BAND10 then SR_BAND10 else SR_BAND11

/-! ## `compute_sr_refl`: the two atmospheric-correction passes -/

/-- Modelled from the spec: the QA bit numbers of `l8_sr.h`; the mask
arithmetic of `compute_refl.c` adds 1 for cirrus, 2 for cloud, 4 for
adjacent cloud, 8 for cloud shadow, 16 for the temporary shadow marker and
stores 128 for water. -/
def CIR_QA : Nat := 0
/-- Modelled from the spec: cloud bit (value 2). -/
def CLD_QA : Nat := 1
/-- Modelled from the spec: adjacent-cloud bit (value 4). -/
def CLDA_QA : Nat := 2
/-- Modelled from the spec: cloud-shadow bit (value 8). -/
def CLDS_QA : Nat := 3
/-- Modelled from the spec: temporary shadow marker (value 16). -/
def CLDT_QA : Nat := 4
/-- Modelled from the spec: water bit (value 128). -/
def WAT_QA : Nat := 7

/-- Modelled from the spec: `btest (byte_val, bit_n)` of the support library
tests bit number `bit_n` of a mask byte. -/
def btest (byte_val bit_n : Nat) : Bool := Nat.testBit byte_val bit_n

/-- The outputs of `atmcorlamb2` that `compute_sr_refl` reads: the
Lambertian surface reflectance, the other-gas transmittance, the atmospheric
reflectance, the total transmittance and the spherical albedo. -/
structure AtmCorr where
  roslamb : ℚ
  tgo : ℚ
  roatm : ℚ
  ttatmg : ℚ
  satm : ℚ

/-- Lines 495-498: the inverse Lambertian correction of a TOA reflectance. -/
def lambertInverse (tgo roatm ttatmg satm rotoa : ℚ) : ℚ :=
  let roslamb : ℚ := rotoa / tgo
  let roslamb : ℚ := roslamb - roatm
  let roslamb : ℚ := roslamb / ttatmg
  roslamb / (1 + satm * roslamb)

/-- Lines 1087-1088: the TOA reflectance recomputed from a first-pass
surface reflectance and the saved band parameters. -/
def lambertForward (btgo broatm bttatmg bsatm rsurf : ℚ) : ℚ :=
  (rsurf * bttatmg / (1 - bsatm * rsurf) + broatm) * btgo

/-- A sequential loop whose body can abort the run (`exit (ERROR)`). -/
def foldOpt {σ β : Type} (f : σ → β → Option σ) : List β → σ → Option σ
  | [], s => some s
  | x :: xs, s =>
    match f s x with
    | none => none
    | some s1 => foldOpt f xs s1

/-- Update of one pixel of one band of a band set. -/
def setPixel (bands : Nat → Nat → Int) (ib i : Nat) (v : Int) :
    Nat → Nat → Int :=
  Function.update bands ib (Function.update (bands ib) i v)

/-- The arrays written by the constant-AOT pass: the band set, the saved TOA
bands `aerob1, aerob2, aerob4, aerob5, aerob7` (indexed by band) and the
per-band parameters `btgo, broatm, bttatmg, bsatm`. -/
structure FirstPass where
  sband : Nat → Nat → Int
  aerob : Nat → Nat → Int
  btgo : Nat → ℚ
  broatm : Nat → ℚ
  bttatmg : Nat → ℚ
  bsatm : Nat → ℚ

/-- Lines 477-500: the body of the pixel loop of the constant-AOT pass for
band `ib`, with `p` the parameters `atmcorlamb2` returned for the band. -/
def constAotPixel (c : Consts) (qaband : Nat → Nat) (ib : Nat) (p : AtmCorr)
    (st : FirstPass) (i : Nat) : FirstPass :=
  if qaband i ≠ 1 then
    let rotoa : ℚ := (st.sband ib i : ℚ) * c.SCALE_FACTOR
    let aerob :=
      if ib = DN_BAND1 ∨ ib = DN_BAND2 ∨ ib = DN_BAND4 ∨ ib = DN_BAND5 ∨
          ib = DN_BAND7 then setPixel st.aerob ib i (st.sband ib i)
      else st.aerob
    let roslamb : ℚ := lambertInverse p.tgo p.roatm p.ttatmg p.satm rotoa
    { st with
      aerob := aerob
      sband := setPixel st.sband ib i
        (toInt16 (truncToInt (roslamb * c.MULT_FACTOR))) }
  else st

/-- Lines 443-502, one iteration of the band loop: the call of `atmcorlamb2`
with the nominal AOT (a failure exits), the saving of the band parameters and
the pixel loop. -/
def constAotBand (c : Consts)
    (atmcorlamb2 : ℚ → Nat → ℚ → ℚ → ℚ → ℚ → Option AtmCorr)
    (qaband : Nat → Nat) (npix : Nat) (raot550nm pres uoz uwv : ℚ)
    (st : FirstPass) (ib : Nat) : Option FirstPass :=
  match atmcorlamb2 raot550nm ib pres uoz uwv 0 with
  | none => none
  | some p =>
    let st : FirstPass :=
      { st with
        btgo := Function.update st.btgo ib p.tgo
        broatm := Function.update st.broatm ib p.roatm
        bttatmg := Function.update st.bttatmg ib p.ttatmg
        bsatm := Function.update st.bsatm ib p.satm }
    some ((List.range npix).foldl (constAotPixel c qaband ib p) st)

/-- Lines 443-502: the constant-AOT pass over bands `0 .. SR_BAND7`.
`atmcorlamb2 raot550nm ib pres uoz uwv rotoa` stands for the call with the
scene geometry and the lookup tables fixed. -/
def constAotPass (c : Consts)
    (atmcorlamb2 : ℚ → Nat → ℚ → ℚ → ℚ → ℚ → Option AtmCorr)
    (qaband : Nat → Nat) (npix : Nat) (raot550nm pres uoz uwv : ℚ)
    (st : FirstPass) : Option FirstPass :=
  foldOpt (constAotBand c atmcorlamb2 qaband npix raot550nm pres uoz uwv)
    (List.range (SR_BAND7 + 1)) st

/-- The arrays written by the final per-pixel pass. -/
structure FinalPass where
  sband : Nat → Nat → Int
  taero : Nat → ℚ
  cloud : Nat → Nat

/-- The per-pixel inputs of the final pass that it only reads: residual,
interpolated pressure, water vapour and ozone, and the saved band
parameters. -/
structure FinalInputs where
  tresi : Nat → ℚ
  tp : Nat → ℚ
  twvi : Nat → ℚ
  tozi : Nat → ℚ
  btgo : Nat → ℚ
  broatm : Nat → ℚ
  bttatmg : Nat → ℚ
  bsatm : Nat → ℚ

/-- Lines 1156-1162: the clamped store of the scaled surface reflectance. -/
def srStoreValue (c : Consts) (roslamb : ℚ) : Int :=
  let roslamb : ℚ := roslamb * c.MULT_FACTOR
  if roslamb < (c.MIN_VALID : ℚ) then toInt16 c.MIN_VALID
  else if roslamb > (c.MAX_VALID : ℚ) then toInt16 c.MAX_VALID
  else toInt16 (truncToInt roslamb)

/-- Lines 1136-1150: the aerosol QA pattern added to the mask byte. -/
def aerosolQaBits (rsurf roslamb : ℚ) : Nat :=
  if |rsurf - roslamb| ≤ 15 / 1000 then 16
  else if |rsurf - roslamb| < 3 / 100 then 32
  else 48

/-- Lines 1080-1164: the body of the pixel loop of the final pass for band
`ib`; `none` is `exit (ERROR)` after a failed `atmcorlamb2`. -/
def finalPixel (c : Consts)
    (atmcorlamb2 : ℚ → Nat → ℚ → ℚ → ℚ → ℚ → Option AtmCorr)
    (qaband : Nat → Nat) (inp : FinalInputs) (ib : Nat) (st : FinalPass)
    (i : Nat) : Option FinalPass :=
  if qaband i ≠ 1 then
    if inp.tresi i > 0 ∧ btest (st.cloud i) CIR_QA = false ∧
        btest (st.cloud i) CLD_QA = false then
      let rsurf : ℚ := (st.sband ib i : ℚ) * c.SCALE_FACTOR
      let rotoa : ℚ :=
        lambertForward (inp.btgo ib) (inp.broatm ib) (inp.bttatmg ib)
          (inp.bsatm ib) rsurf
      match atmcorlamb2 (st.taero i) ib (inp.tp i) (inp.tozi i) (inp.twvi i)
          rotoa with
      | none => none
      | some r =>
        if ib = DN_BAND1 then
          if r.roslamb < -5 / 1000 then
            match atmcorlamb2 (5 / 100) ib (inp.tp i) (inp.tozi i) (inp.twvi i)
                rotoa with
            | none => none
            | some r2 =>
              some { st with
                taero := Function.update st.taero i (5 / 100)
                sband := setPixel st.sband ib i (srStoreValue c r2.roslamb) }
          else
            some { st with
              cloud := Function.update st.cloud i
                ((st.cloud i + aerosolQaBits rsurf r.roslamb) % 256)
              sband := setPixel st.sband ib i (srStoreValue c r.roslamb) }
        else
          some { st with
            sband := setPixel st.sband ib i (srStoreValue c r.roslamb) }
    else some st
  else some st

/-- Lines 1073-1166: the final pass over bands `0 .. DN_BAND7` and all
pixels. -/
def finalPass (c : Consts)
    (atmcorlamb2 : ℚ → Nat → ℚ → ℚ → ℚ → ℚ → Option AtmCorr)
    (qaband : Nat → Nat) (npix : Nat) (inp : FinalInputs) (st : FinalPass) :
    Option FinalPass :=
  foldOpt
    (fun st ib =>
      foldOpt (finalPixel c atmcorlamb2 qaband inp ib) (List.range npix) st)
    (List.range (DN_BAND7 + 1)) st

/-! ## `compute_sr_refl`: neighbourhood dilation of the mask -/

/-- The values `center - r, ..., center + r` taken by the window loops
`for (k = i-5; k <= i+5; k++)` and `for (l = j-5; l <= j+5; l++)`. -/
def windowRange (center r : Nat) : List Int :=
  (List.range (2 * r + 1)).map
    (fun d : Nat => (center : Int) - (r : Int) + (d : Int))

/-- Innermost body of a dilation pass at window line `k` and window sample
`l`: an out-of-raster sample is skipped; otherwise `add` is added to the mask
byte of `win_pix = k * nsamps + l` when the byte passes the test `tgt`. -/
def dilateCell (nsamps : Nat) (tgt : Nat → Nat → Bool) (add : Nat) (k : Nat)
    (cloud : Nat → Nat) (l : Int) : Nat → Nat :=
  if l < 0 ∨ l ≥ (nsamps : Int) then cloud
  else
    let win_pix := k * nsamps + l.toNat
    if tgt win_pix (cloud win_pix) then
      Function.update cloud win_pix ((cloud win_pix + add) % 256)
    else cloud

/-- The loop over the window samples of window line `k`; an out-of-raster
line is skipped. -/
def dilateLine (nlines nsamps : Nat) (tgt : Nat → Nat → Bool) (add r : Nat)
    (j : Nat) (cloud : Nat → Nat) (k : Int) : Nat → Nat :=
  if k < 0 ∨ k ≥ (nlines : Int) then cloud
  else (windowRange j r).foldl (dilateCell nsamps tgt add k.toNat) cloud

/-- Body of the pixel loop of a dilation pass at line `i`, sample `j`: when
the mask byte of the current pixel passes the test `src`, the window of
radius `r` around it is scanned. -/
def dilatePixel (nlines nsamps : Nat) (src tgt : Nat → Nat → Bool)
    (add r : Nat) (i : Nat) (cloud : Nat → Nat) (j : Nat) : Nat → Nat :=
  let curr_pix := i * nsamps + j
  if src curr_pix (cloud curr_pix) then
    (windowRange i r).foldl (dilateLine nlines nsamps tgt add r j) cloud
  else cloud

/-- A dilation pass over the raster, in place on the mask: lines 836-868
(adjacent cloud) and 935-975 (cloud shadow expansion) share this shape. -/
def dilatePass (nlines nsamps : Nat) (src tgt : Nat → Nat → Bool)
    (add r : Nat) (cloud : Nat → Nat) : Nat → Nat :=
  (List.range nlines).foldl
    (fun cloud i =>
      (List.range nsamps).foldl (dilatePixel nlines nsamps src tgt add r i)
        cloud)
    cloud

/-- Lines 841-842: the current pixel is cloud or cirrus. -/
def adjSource (_ : Nat) (v : Nat) : Bool := btest v CLD_QA || btest v CIR_QA

/-- Lines 858-860: the window pixel is neither cloud, cirrus nor already
adjacent. -/
def adjTarget (_ : Nat) (v : Nat) : Bool :=
  !btest v CLD_QA && !btest v CIR_QA && !btest v CLDA_QA

/-- Lines 836-868: the adjacent-cloud pass (window of 11 x 11 pixels, 4 added
to the mask byte). -/
def adjacencyPass (nlines nsamps : Nat) (cloud : Nat → Nat) : Nat → Nat :=
  dilatePass nlines nsamps adjSource adjTarget 4 5 cloud

/-- Pixels reached by a dilation pass from the mask `c0`: the in-raster
window cells of the pixels whose byte passes `src`. -/
def Reached (nlines nsamps : Nat) (src : Nat → Nat → Bool) (r : Nat)
    (c0 : Nat → Nat) (p : Nat) : Prop :=
  ∃ i, i < nlines ∧ ∃ j, j < nsamps ∧
    src (i * nsamps + j) (c0 (i * nsamps + j)) = true ∧
    ∃ k, k < nlines ∧ ∃ l, l < nsamps ∧ p = k * nsamps + l ∧
      i ≤ k + r ∧ k ≤ i + r ∧ j ≤ l + r ∧ l ≤ j + r

/-- State of the mask during a dilation pass started from `c0`: the pixels
of `S` that pass `tgt` in `c0` have received `add`, all others are as in
`c0`. -/
def DilInv (tgt : Nat → Nat → Bool) (add : Nat) (c0 : Nat → Nat)
    (S : Nat → Prop) (c : Nat → Nat) : Prop :=
  ∀ p, (S p ∧ tgt p (c0 p) = true → c p = c0 p + add) ∧
    (¬ (S p ∧ tgt p (c0 p) = true) → c p = c0 p)

/-- The line of a pixel index. -/
def lineOf (nsamps p : Nat) : Nat := p / nsamps

/-- The sample of a pixel index. -/
def sampOf (nsamps p : Nat) : Nat := p % nsamps

/-- Pixel `p` lies in the `(2r+1) x (2r+1)` window centred on pixel `q`:
`|line(p) - line(q)| <= r` and `|samp(p) - samp(q)| <= r`. -/
def InWindow (nsamps r p q : Nat) : Prop :=
  |(lineOf nsamps p : Int) - (lineOf nsamps q : Int)| ≤ (r : Int) ∧
  |(sampOf nsamps p : Int) - (sampOf nsamps q : Int)| ≤ (r : Int)

/-- Mask of a 4 x 4 scene whose only flagged pixel is the cloud pixel 5. -/
def demoMask : Nat → Nat := fun p => if p = 5 then 2 else 0

/-! ## `compute_sr_refl`: aerosol interpolation -/

/-- The per-pixel aerosol arrays: the aerosol value `taero` and the
residual `tresi`. -/
structure AotField where
  taero : Nat → ℚ
  tresi : Nat → ℚ

/-- The accumulators `nbaot`, `aaot`, `sresi` of one block. -/
structure BlockSum where
  nbaot : Nat
  aaot : ℚ
  sresi : ℚ

/-- The values taken by a loop `for (i = 0; i < n; i += step)`: the
multiples of `step` below `n`. -/
def strideRange (n step : Nat) : List Nat :=
  (List.range n).filter (fun i => i % step = 0)

/-- The pixels `win_pix = k * nsamps + l` visited by the two window loops of
a block at `(i, j)`, `k = i .. i+step-1` and `l = j .. j+step-1`, in scan
order; lines and samples outside the raster are skipped. -/
def blockWindow (nlines nsamps step i j : Nat) : List Nat :=
  (((List.range step).map (fun d => i + d)).filter (fun k => k < nlines)).flatMap
    (fun k =>
      (((List.range step).map (fun d => j + d)).filter (fun l => l < nsamps)).map
        (fun l => k * nsamps + l))

/-- Lines 1019-1024: a pixel with positive residual and an empty mask byte
contributes to the block sums. -/
def blockAccum (cloud : Nat → Nat) (f : AotField) (acc : BlockSum)
    (win_pix : Nat) : BlockSum :=
  if f.tresi win_pix > 0 ∧ cloud win_pix = 0 then
    { nbaot := acc.nbaot + 1
      aaot := acc.aaot + f.taero win_pix / f.tresi win_pix
      sresi := acc.sresi + 1 / f.tresi win_pix }
  else acc

/-- Lines 1047-1054: a pixel with negative residual and none of the cirrus,
cloud and water bits receives the block average and residual `1.0`. -/
def blockFill (cloud : Nat → Nat) (aaot : ℚ) (f : AotField) (win_pix : Nat) :
    AotField :=
  if f.tresi win_pix < 0 ∧ btest (cloud win_pix) CIR_QA = false ∧
      btest (cloud win_pix) CLD_QA = false ∧
      btest (cloud win_pix) WAT_QA = false then
    { taero := Function.update f.taero win_pix aaot
      tresi := Function.update f.tresi win_pix 1 }
  else f

/-- Lines 1001-1061: one block at `(i, j)`. The state is the aerosol field
and the counter `hole`. -/
def gapFillBlock (nlines nsamps step : Nat) (cloud : Nat → Nat) (i : Nat)
    (st : AotField × Nat) (j : Nat) : AotField × Nat :=
  let acc := (blockWindow nlines nsamps step i j).foldl (blockAccum cloud st.1)
    { nbaot := 0, aaot := 0, sresi := 0 }
  if acc.nbaot ≠ 0 then
    ((blockWindow nlines nsamps step i j).foldl
      (blockFill cloud (acc.aaot / acc.sresi)) st.1, st.2)
  else (st.1, st.2 + 1)

/-- Lines 996-1063: one round over all blocks of size `step`, starting with
`hole = 0`. -/
def gapFillSweep (nlines nsamps step : Nat) (cloud : Nat → Nat)
    (f : AotField) : AotField × Nat :=
  (strideRange nlines step).foldl
    (fun st i =>
      (strideRange nsamps step).foldl (gapFillBlock nlines nsamps step cloud i)
        st)
    (f, 0)

/-- Lines 994-1067: the loop `while ((hole != 0) && (step < 1000))` with an
iteration allowance; the result is the field with the final `hole` and
`step`. -/
def gapFillLoop (nlines nsamps : Nat) (cloud : Nat → Nat) :
    Nat → AotField → Nat → Nat → AotField × Nat × Nat
  | 0, f, hole, step => (f, hole, step)
  | fuel + 1, f, hole, step =>
    if hole ≠ 0 ∧ step < 1000 then
      let r := gapFillSweep nlines nsamps step cloud f
      gapFillLoop nlines nsamps cloud fuel r.1 r.2 (step * 2)
    else (f, hole, step)

/-- Lines 992-1067: the aerosol interpolation, entered with `hole = 1` and
`step = 10`; seven rounds reach `step = 1280`. -/
def aerosolInterp (nlines nsamps : Nat) (cloud : Nat → Nat) (f : AotField) :
    AotField × Nat × Nat :=
  gapFillLoop nlines nsamps cloud 7 f 1 10

/-- A pixel the fill would write: negative residual and none of the cirrus,
cloud and water bits. -/
def Fillable (cloud : Nat → Nat) (f : AotField) (p : Nat) : Prop :=
  f.tresi p < 0 ∧ btest (cloud p) CIR_QA = false ∧
    btest (cloud p) CLD_QA = false ∧ btest (cloud p) WAT_QA = false

/-- A field without holes: no raster pixel is fillable. -/
def HoleFree (nlines nsamps : Nat) (cloud : Nat → Nat) (f : AotField) : Prop :=
  ∀ p, p < nlines * nsamps → ¬ Fillable cloud f p

/-- Mask of a scene without any flagged pixel. -/
def demoClearMask : Nat → Nat := fun _ => 0

/-- Aerosol field of the three-pixel scene: pixel 1 has a retrieval
(`taero = 0.2`, `tresi = 0.01`), the others have none. -/
def demoField : AotField where
  taero := fun p => if p = 1 then 1 / 5 else 0
  tresi := fun p => if p = 1 then 1 / 100 else -1 / 100

/-- A filled aerosol field: every residual is positive. -/
def demoFilledField : AotField where
  taero := fun _ => 1 / 5
  tresi := fun _ => 1

/-! ## `compute_sr_refl`: refining the cloud mask -/

/-- Modelled from the spec: output index of band 2. -/
def SR_BAND2 : Nat := 1
/-- Modelled from the spec: output index of band 3. -/
def SR_BAND3 : Nat := 2
/-- Modelled from the spec: output index of band 4. -/
def SR_BAND4 : Nat := 3
/-- Modelled from the spec: output index of band 5. -/
def SR_BAND5 : Nat := 4
/-- Modelled from the spec: output index of band 6. -/
def SR_BAND6 : Nat := 5

/-- The counters and sums of lines 786-789: `nbval`, `nbclear`, `mclear`,
`mall`. -/
structure TempStats where
  nbval : Nat
  nbclear : Nat
  mclear : ℚ
  mall : ℚ

/-- Lines 793-807: the body of the loop that sums the band 10 temperature
over the non-fill pixels and over the clear ones. -/
def tempStatsPixel (c : Consts) (qaband : Nat → Nat)
    (sband : Nat → Nat → Int) (cloud : Nat → Nat) (acc : TempStats) (i : Nat) :
    TempStats :=
  if qaband i ≠ 1 then
    let acc : TempStats :=
      { acc with
        nbval := acc.nbval + 1
        mall := acc.mall + (sband SR_BAND10 i : ℚ) * c.SCALE_FACTOR_TH }
    if btest (cloud i) CIR_QA = false ∧ sband SR_BAND5 i > 300 then
      let anom : ℚ := (sband SR_BAND2 i : ℚ) - (sband SR_BAND4 i : ℚ) * (1 / 2)
      if anom < 300 then
        { acc with
          nbclear := acc.nbclear + 1
          mclear := acc.mclear + (sband SR_BAND10 i : ℚ) * c.SCALE_FACTOR_TH }
      else acc
    else acc
  else acc

/-- Lines 786-808: the loop over all pixels. -/
def tempStats (c : Consts) (qaband : Nat → Nat) (sband : Nat → Nat → Int)
    (cloud : Nat → Nat) (npix : Nat) : TempStats :=
  (List.range npix).foldl (tempStatsPixel c qaband sband cloud)
    { nbval := 0, nbclear := 0, mclear := 0, mall := 0 }

/-- Lines 810-813: `mclear`, the mean temperature of the clear pixels, or
275.0 when there is none. -/
def meanClearTemp (c : Consts) (qaband : Nat → Nat) (sband : Nat → Nat → Int)
    (cloud : Nat → Nat) (npix : Nat) : ℚ :=
  if (tempStats c qaband sband cloud npix).nbclear > 0 then
    (tempStats c qaband sband cloud npix).mclear
      / ((tempStats c qaband sband cloud npix).nbclear : ℚ)
  else 275

/-- Lines 815-816: `mall`, the mean temperature of the non-fill pixels. -/
def meanAllTemp (c : Consts) (qaband : Nat → Nat) (sband : Nat → Nat → Int)
    (cloud : Nat → Nat) (npix : Nat) : ℚ :=
  if (tempStats c qaband sband cloud npix).nbval > 0 then
    (tempStats c qaband sband cloud npix).mall
      / ((tempStats c qaband sband cloud npix).nbval : ℚ)
  else (tempStats c qaband sband cloud npix).mall

/-- Lines 824-831: the body of the cloud test for pixel `i`. -/
def cloudTestPixel (c : Consts) (sband : Nat → Nat → Int) (tresi : Nat → ℚ)
    (mclear : ℚ) (cloud : Nat → Nat) (i : Nat) : Nat → Nat :=
  if tresi i < 0 then
    if (sband SR_BAND2 i : ℚ) - (sband SR_BAND4 i : ℚ) * (1 / 2) > 500 ∧
        (sband SR_BAND10 i : ℚ) * c.SCALE_FACTOR_TH < mclear - 2 then
      Function.update cloud i ((cloud i + 2) % 256)
    else cloud
  else cloud

/-- Lines 822-832: the cloud test over all pixels. -/
def cloudTestPass (c : Consts) (sband : Nat → Nat → Int) (tresi : Nat → ℚ)
    (mclear : ℚ) (npix : Nat) (cloud : Nat → Nat) : Nat → Nat :=
  (List.range npix).foldl (cloudTestPixel c sband tresi mclear) cloud

/-- A clear pixel for the mean temperature: non-fill, no cirrus bit, band 5
above 300 and band2/band4 anomaly below 300. -/
def ClearPixel (qaband : Nat → Nat) (sband : Nat → Nat → Int)
    (cloud : Nat → Nat) (i : Nat) : Prop :=
  qaband i ≠ 1 ∧ btest (cloud i) CIR_QA = false ∧ sband SR_BAND5 i > 300 ∧
    (sband SR_BAND2 i : ℚ) - (sband SR_BAND4 i : ℚ) * (1 / 2) < 300

instance (qaband : Nat → Nat) (sband : Nat → Nat → Int) (cloud : Nat → Nat)
    (i : Nat) : Decidable (ClearPixel qaband sband cloud i) :=
  inferInstanceAs (Decidable (_ ∧ _ ∧ _ ∧ _))

/-- The clear pixels of the raster, in scan order. -/
def clearPixels (qaband : Nat → Nat) (sband : Nat → Nat → Int)
    (cloud : Nat → Nat) (npix : Nat) : List Nat :=
  (List.range npix).filter (fun i => decide (ClearPixel qaband sband cloud i))

/-- The condition of the cloud test at pixel `i`. -/
def CloudTest (c : Consts) (sband : Nat → Nat → Int) (tresi : Nat → ℚ)
    (mclear : ℚ) (i : Nat) : Prop :=
  tresi i < 0 ∧
    (sband SR_BAND2 i : ℚ) - (sband SR_BAND4 i : ℚ) * (1 / 2) > 500 ∧
    (sband SR_BAND10 i : ℚ) * c.SCALE_FACTOR_TH < mclear - 2

instance (c : Consts) (sband : Nat → Nat → Int) (tresi : Nat → ℚ) (mclear : ℚ)
    (i : Nat) : Decidable (CloudTest c sband tresi mclear i) :=
  inferInstanceAs (Decidable (_ ∧ _ ∧ _))

/-- Line 941: the current pixel is a cloud shadow pixel. -/
def shadowSource (_ : Nat) (v : Nat) : Bool := btest v CLDS_QA

/-- Lines 957-967: the window pixel is neither cloud nor cloud shadow, does
not carry the temporary bit yet, and its residual is negative. -/
def shadowTarget (tresi : Nat → ℚ) (p : Nat) (v : Nat) : Bool :=
  !(btest v CLD_QA || btest v CLDS_QA) && !btest v CLDT_QA &&
    decide (tresi p < 0)

/-- Lines 935-975: the expansion of the cloud shadow (window of 13 x 13
pixels, 16 added to the mask byte). -/
def shadowExpandPass (nlines nsamps : Nat) (tresi : Nat → ℚ)
    (cloud : Nat → Nat) : Nat → Nat :=
  dilatePass nlines nsamps shadowSource (shadowTarget tresi) 16 6 cloud

/-- Lines 982-987: the body of the update loop; `cloud[i] -= 8` on an
unsigned byte is the byte of `cloud[i] + 256 - 8`. -/
def shadowUpdatePixel (cloud : Nat → Nat) (i : Nat) : Nat → Nat :=
  if btest (cloud i) CLDT_QA then
    Function.update cloud i ((cloud i + 248) % 256)
  else cloud

/-- Lines 979-988: the update of the cloud shadow over all pixels. -/
def shadowUpdatePass (npix : Nat) (cloud : Nat → Nat) : Nat → Nat :=
  (List.range npix).foldl shadowUpdatePixel cloud

/-- The running minimum of the cloud-height search: `mband5`, `mband5k`,
`mband5l`. -/
structure ShadowMin where
  mband5 : Int
  mband5k : Int
  mband5l : Int

/-- Line 345: `float cfac = 6.0`. -/
def cfac : ℚ := 6

/-- Line 893: the values taken by `icldh` in
`for (icldh = cldhmin * 0.1; icldh <= cldhmax * 0.1; icldh++)`: the integers
from `(int) (cldhmin * 0.1)` up to the largest one not above
`cldhmax * 0.1`. -/
def cldhRange (cldhmin cldhmax : Int) : List Int :=
  (List.range
      (⌊(cldhmax : ℚ) * (1 / 10)⌋ + 1
        - truncToInt ((cldhmin : ℚ) * (1 / 10))).toNat).map
    (fun d : Nat => truncToInt ((cldhmin : ℚ) * (1 / 10)) + (d : Int))

/-- Lines 882-893: the cloud heights searched for the cloud pixel
`curr_pix`. -/
def shadowHeights (c : Consts) (sband : Nat → Nat → Int) (mclear : ℚ)
    (curr_pix : Nat) : List Int :=
  let tcloud : ℚ := (sband SR_BAND10 curr_pix : ℚ) * c.SCALE_FACTOR_TH
  let cldh : ℚ := (mclear - tcloud) * 1000 / cfac
  let cldh : ℚ := if cldh < 0 then 0 else cldh
  let cldhmin : Int := truncToInt (cldh - 1000)
  let cldhmax : Int := truncToInt (cldh + 1000)
  let cldhmin : Int := if cldhmin < 0 then 0 else cldhmin
  cldhRange cldhmin cldhmax

/-- Lines 895-923: the body of the cloud-height loop for the cloud pixel at
line `i`, sample `j`. -/
def shadowStep (nlines nsamps : Nat) (sband : Nat → Nat → Int)
    (cloud : Nat → Nat) (facl fack : ℚ) (i j : Nat) (m : ShadowMin)
    (icldh : Int) : ShadowMin :=
  let cldh : ℚ := (icldh : ℚ) * 10
  let k : Int := truncToInt ((i : ℚ) + facl * cldh)
  let l : Int := truncToInt ((j : ℚ) - fack * cldh)
  if k < 0 ∨ k ≥ (nlines : Int) ∨ l < 0 ∨ l ≥ (nsamps : Int) then m
  else
    let win_pix : Nat := (k * (nsamps : Int) + l).toNat
    if sband SR_BAND6 win_pix < 800 ∧
        sband SR_BAND3 win_pix - sband SR_BAND4 win_pix < 100 then
      if btest (cloud win_pix) CLD_QA = true ∨
          btest (cloud win_pix) CIR_QA = true ∨
          btest (cloud win_pix) CLDS_QA = true then m
      else if sband SR_BAND6 win_pix < m.mband5 then
        { mband5 := sband SR_BAND6 win_pix, mband5k := k, mband5l := l }
      else m
    else m

/-- Lines 879-929: the body of the pixel loop of the shadow casting at line
`i`, sample `j`. `facl` and `fack` are the factors of lines 872-873, computed
once from the solar angles with `cosf`, `sinf` and `tanf`. -/
def shadowCastPixel (c : Consts) (nlines nsamps : Nat)
    (sband : Nat → Nat → Int) (facl fack mclear : ℚ) (i : Nat)
    (cloud : Nat → Nat) (j : Nat) : Nat → Nat :=
  let curr_pix := i * nsamps + j
  if btest (cloud curr_pix) CLD_QA = true ∨
      btest (cloud curr_pix) CIR_QA = true then
    let m := (shadowHeights c sband mclear curr_pix).foldl
      (shadowStep nlines nsamps sband cloud facl fack i j)
      { mband5 := 9999, mband5k := -9999, mband5l := -9999 }
    if m.mband5 < 9999 then
      let win := (m.mband5k * (nsamps : Int) + m.mband5l).toNat
      Function.update cloud win ((cloud win + 8) % 256)
    else cloud
  else cloud

/-- Lines 874-931: the shadow casting over the raster, in place on the
mask. -/
def shadowCastPass (c : Consts) (nlines nsamps : Nat)
    (sband : Nat → Nat → Int) (facl fack mclear : ℚ) (cloud : Nat → Nat) :
    Nat → Nat :=
  (List.range nlines).foldl
    (fun cloud i =>
      (List.range nsamps).foldl
        (shadowCastPixel c nlines nsamps sband facl fack mclear i) cloud)
    cloud

/-- The pixel index of a line and sample pair. -/
def shadowPix (nsamps : Nat) (kl : Int × Int) : Nat :=
  (kl.1 * (nsamps : Int) + kl.2).toNat

/-- The line and sample projected from the cloud pixel at line `i`, sample
`j` for the height index `icldh`, when they fall inside the raster. -/
def shadowProject (nlines nsamps : Nat) (facl fack : ℚ) (i j : Nat)
    (icldh : Int) : Option (Int × Int) :=
  if truncToInt ((i : ℚ) + facl * ((icldh : ℚ) * 10)) < 0 ∨
      truncToInt ((i : ℚ) + facl * ((icldh : ℚ) * 10)) ≥ (nlines : Int) ∨
      truncToInt ((j : ℚ) - fack * ((icldh : ℚ) * 10)) < 0 ∨
      truncToInt ((j : ℚ) - fack * ((icldh : ℚ) * 10)) ≥ (nsamps : Int) then
    none
  else
    some (truncToInt ((i : ℚ) + facl * ((icldh : ℚ) * 10)),
      truncToInt ((j : ℚ) - fack * ((icldh : ℚ) * 10)))

/-- A shadow candidate: band 6 below 800, band 3 minus band 4 below 100, and
none of the cloud, cirrus and cloud shadow bits. -/
def ShadowCandidate (sband : Nat → Nat → Int) (cloud : Nat → Nat)
    (w : Nat) : Prop :=
  (sband SR_BAND6 w < 800 ∧ sband SR_BAND3 w - sband SR_BAND4 w < 100) ∧
    ¬ (btest (cloud w) CLD_QA = true ∨ btest (cloud w) CIR_QA = true ∨
      btest (cloud w) CLDS_QA = true)

instance (sband : Nat → Nat → Int) (cloud : Nat → Nat) (w : Nat) :
    Decidable (ShadowCandidate sband cloud w) :=
  inferInstanceAs (Decidable (_ ∧ _))

/-- The candidate visited at height index `icldh`, if any. -/
def shadowCandidateAt (nlines nsamps : Nat) (sband : Nat → Nat → Int)
    (cloud : Nat → Nat) (facl fack : ℚ) (i j : Nat) (icldh : Int) :
    Option (Int × Int) :=
  match shadowProject nlines nsamps facl fack i j icldh with
  | none => none
  | some kl =>
    if ShadowCandidate sband cloud (shadowPix nsamps kl) then some kl else none

/-- The candidates visited along the cloud-height search of the cloud pixel
at line `i`, sample `j`, in the order of the search. -/
def shadowCandidates (c : Consts) (nlines nsamps : Nat)
    (sband : Nat → Nat → Int) (cloud : Nat → Nat) (facl fack mclear : ℚ)
    (i j : Nat) : List (Int × Int) :=
  (shadowHeights c sband mclear (i * nsamps + j)).filterMap
    (shadowCandidateAt nlines nsamps sband cloud facl fack i j)

/-- Lines 782-988: the refinement of the cloud mask, from the mean clear
temperature to the update of the cloud shadow, in the order of the source.
`facl` and `fack` are the factors of lines 872-873. -/
def refineCloudMask (c : Consts) (qaband : Nat → Nat) (nlines nsamps : Nat)
    (sband : Nat → Nat → Int) (tresi : Nat → ℚ) (facl fack : ℚ)
    (cloud : Nat → Nat) : Nat → Nat :=
  let mclear := meanClearTemp c qaband sband cloud (nlines * nsamps)
  let cloud := cloudTestPass c sband tresi mclear (nlines * nsamps) cloud
  let cloud := adjacencyPass nlines nsamps cloud
  let cloud := shadowCastPass c nlines nsamps sband facl fack mclear cloud
  let cloud := shadowExpandPass nlines nsamps tresi cloud
  shadowUpdatePass (nlines * nsamps) cloud

/-! ## `compute_sr_refl`: auxiliary data and aerosol retrieval -/

/-- Modelled from the spec: the constants of the header `l8_sr.h` used by
the auxiliary pass: the size of the climate modelling grid
(`CMG_NBLAT` lines of `CMG_NBLON` samples) and the conversion factors
`RAD2DEG`, `ONE_DIV_8500` and `ONE_DIV_1013`. -/
structure GridConsts where
  CMG_NBLAT : Int
  CMG_NBLON : Int
  RAD2DEG : ℚ
  ONE_DIV_8500 : ℚ
  ONE_DIV_1013 : ℚ

/-- The lookup tables on the climate modelling grid passed to
`compute_sr_refl`, indexed by line and sample: `dem`, the NDWI and band
ratio tables (`int16`), `wv` (`uint16`) and `oz` (`uint8`). -/
structure AuxTables where
  dem : Nat → Nat → Int
  andwi : Nat → Nat → Int
  sndwi : Nat → Nat → Int
  ratiob1 : Nat → Nat → Int
  intratiob1 : Nat → Nat → Int
  intratiob2 : Nat → Nat → Int
  intratiob7 : Nat → Nat → Int
  slpratiob1 : Nat → Nat → Int
  slpratiob2 : Nat → Nat → Int
  slpratiob7 : Nat → Nat → Int
  wv : Nat → Nat → Nat
  oz : Nat → Nat → Nat

/-- The value of a C floating-point expression in which a division by zero
can occur: a finite value (a rational), one of the two infinities, or NaN. -/
inductive FVal where
  | fin (q : ℚ)
  | posInf
  | negInf
  | nan
  deriving DecidableEq

/-- The C quotient `num / den` of two finite values. A zero denominator is
`+0.0`: the denominators `band5 + band4`, `band5 + 0.5*band7` and
`ros5 + ros4` are sums, and a sum that is zero is `+0.0` (at `0 + 0` with
both zeros negative the numerator is zero as well); a zero `xmus` and a zero
product `tp * ONE_DIV_1013` are taken as `+0.0`. The quotient is then
`+inf`, `-inf` or NaN as the numerator is positive, negative or zero. -/
def cdiv (num den : ℚ) : FVal :=
  if den ≠ 0 then FVal.fin (num / den)
  else if num > 0 then FVal.posInf
  else if num < 0 then FVal.negInf
  else FVal.nan

/-- The C comparison `x < c` with a finite `c`: false when `x` is NaN. -/
def FVal.lt (x : FVal) (c : ℚ) : Prop :=
  match x with
  | FVal.fin q => q < c
  | FVal.posInf => False
  | FVal.negInf => True
  | FVal.nan => False

/-- The C comparison `x > c` with a finite `c`: false when `x` is NaN. -/
def FVal.gt (x : FVal) (c : ℚ) : Prop :=
  match x with
  | FVal.fin q => q > c
  | FVal.posInf => True
  | FVal.negInf => False
  | FVal.nan => False

instance (x : FVal) (c : ℚ) : Decidable (FVal.lt x c) :=
  match x with
  | FVal.fin q => inferInstanceAs (Decidable (q < c))
  | FVal.posInf => isFalse not_false
  | FVal.negInf => isTrue trivial
  | FVal.nan => isFalse not_false

instance (x : FVal) (c : ℚ) : Decidable (FVal.gt x c) :=
  match x with
  | FVal.fin q => inferInstanceAs (Decidable (q > c))
  | FVal.posInf => isTrue trivial
  | FVal.negInf => isFalse not_false
  | FVal.nan => isFalse not_false

/-- The C product `x * k` with a finite `k`: an infinity times zero is NaN. -/
def FVal.mulq (x : FVal) (k : ℚ) : FVal :=
  match x with
  | FVal.fin q => FVal.fin (q * k)
  | FVal.posInf =>
    if k > 0 then FVal.posInf else if k < 0 then FVal.negInf else FVal.nan
  | FVal.negInf =>
    if k > 0 then FVal.negInf else if k < 0 then FVal.posInf else FVal.nan
  | FVal.nan => FVal.nan

/-- The C sum `x + c` with a finite `c`. -/
def FVal.addq (x : FVal) (c : ℚ) : FVal :=
  match x with
  | FVal.fin q => FVal.fin (q + c)
  | FVal.posInf => FVal.posInf
  | FVal.negInf => FVal.negInf
  | FVal.nan => FVal.nan

/-- The C quotient `x / k` by a finite non-zero constant `k`. -/
def FVal.divq (x : FVal) (k : ℚ) : FVal :=
  match x with
  | FVal.fin q => cdiv q k
  | FVal.posInf => if k < 0 then FVal.negInf else FVal.posInf
  | FVal.negInf => if k < 0 then FVal.posInf else FVal.negInf
  | FVal.nan => FVal.nan

/-- The functions the auxiliary pass calls and the scene values it passes
to them. `from_space l s` maps an image line and sample to latitude and
longitude in radians (`none` when the mapping fails); `exp` is the libm
exponential; `subaeroret iband1 iband3 pres uoz uwv erelc troatm` returns
`(raot, residual)` and `atmcorlamb2 raot550nm ib pres uoz uwv rotoa` the band
parameters, with the scene geometry and the lookup tables fixed (`none`
when the call fails). -/
structure AuxEnv where
  from_space : ℚ → ℚ → Option (ℚ × ℚ)
  exp : ℚ → ℚ
  subaeroret : Nat → Nat → ℚ → ℚ → ℚ → (Nat → FVal) → (Nat → ℚ) → Option (ℚ × ℚ)
  atmcorlamb2 : ℚ → Nat → ℚ → ℚ → ℚ → ℚ → Option AtmCorr
  xmus : ℚ
  pres : ℚ
  uoz : ℚ
  uwv : ℚ

/-- The arrays written by the auxiliary pass: the mask, the interpolated
water vapour, ozone and pressure, the residual and the aerosol optical
thickness of every pixel, and the two work arrays `erelc` and `troatm`. -/
structure AuxState where
  cloud : Nat → Nat
  twvi : Nat → ℚ
  tozi : Nat → ℚ
  tp : Nat → ℚ
  tresi : Nat → ℚ
  taero : Nat → ℚ
  erelc : Nat → FVal
  troatm : Nat → ℚ

/-- The position of a pixel in the climate modelling grid: `ycmg`, `xcmg`
and their integer parts `lcmg`, `scmg`. -/
structure CmgLoc where
  ycmg : ℚ
  xcmg : ℚ
  lcmg : Int
  scmg : Int

/-- Lines 548-557: from the latitude and longitude (radians) of a pixel to
its position in the grid. -/
def cmgLocate (g : GridConsts) (geo : ℚ × ℚ) : CmgLoc :=
  let lat : ℚ := geo.1 * g.RAD2DEG
  let lon : ℚ := geo.2 * g.RAD2DEG
  let ycmg : ℚ := (89975 / 1000 - lat) * 20
  let xcmg : ℚ := (179975 / 1000 + lon) * 20
  { ycmg := ycmg, xcmg := xcmg, lcmg := truncToInt ycmg,
    scmg := truncToInt xcmg }

/-- Lines 558-559: the test on the grid indices that aborts the run. -/
def OutOfGrid (g : GridConsts) (loc : CmgLoc) : Prop :=
  (loc.lcmg < 0 ∨ loc.lcmg ≥ g.CMG_NBLAT) ∨
    (loc.scmg < 0 ∨ loc.scmg ≥ g.CMG_NBLON)

instance (g : GridConsts) (loc : CmgLoc) : Decidable (OutOfGrid g loc) :=
  inferInstanceAs (Decidable (_ ∨ _))

/-- Lines 569-574, 593-596 and 623-626: the bilinear combination of the four
cells around the position, with `u = ycmg - lcmg` and `v = xcmg - scmg`. -/
def interpolate (loc : CmgLoc) (cell : Nat → Nat → ℚ) : ℚ :=
  let u : ℚ := loc.ycmg - (loc.lcmg : ℚ)
  let v : ℚ := loc.xcmg - (loc.scmg : ℚ)
  cell loc.lcmg.toNat loc.scmg.toNat * (1 - u) * (1 - v) +
    cell loc.lcmg.toNat (loc.scmg.toNat + 1) * (1 - u) * v +
    cell (loc.lcmg.toNat + 1) loc.scmg.toNat * u * (1 - v) +
    cell (loc.lcmg.toNat + 1) (loc.scmg.toNat + 1) * u * v

/-- Lines 577-591: an ozone cell, with the value 0 replaced by 120. -/
def ozoneCorner (oz : Nat) : ℚ := if oz = 0 then 120 else (oz : ℚ)

/-- Lines 599-621: the pressure of a DEM cell, 1013 when the cell holds
-9999. -/
def presCorner (g : GridConsts) (exp : ℚ → ℚ) (dem : Int) : ℚ :=
  if dem ≠ -9999 then 1013 * exp (((-dem : Int) : ℚ) * g.ONE_DIV_8500)
  else 1013

/-- Lines 569-626: the interpolation of water vapour, ozone and pressure for
the pixel `curr_pix`; when the DEM cell `[lcmg][scmg]` holds -9999 the mask
byte is set to 128 (water) and the residual to -1. -/
def auxSample (g : GridConsts) (env : AuxEnv) (t : AuxTables) (curr_pix : Nat)
    (loc : CmgLoc) (st : AuxState) : AuxState :=
  let st : AuxState :=
    { st with
      twvi := Function.update st.twvi curr_pix
        (interpolate loc (fun l s => (t.wv l s : ℚ)) * (1 / 100)) }
  let st : AuxState :=
    { st with
      tozi := Function.update st.tozi curr_pix
        (interpolate loc (fun l s => ozoneCorner (t.oz l s)) * (25 / 10000)) }
  let st : AuxState :=
    if t.dem loc.lcmg.toNat loc.scmg.toNat ≠ -9999 then st
    else
      { st with
        cloud := Function.update st.cloud curr_pix 128
        tresi := Function.update st.tresi curr_pix (-1) }
  { st with
    tp := Function.update st.tp curr_pix
      (interpolate loc (fun l s => presCorner g env.exp (t.dem l s))) }

/-- Lines 648-660: the NDWI of the pixel after the two clamping tests
against `th1` and `th2`. With bands 5 and 7 both zero the quotient is NaN,
which passes both tests unchanged. -/
def clampedNdwi (t : AuxTables) (sband : Nat → Nat → Int)
    (curr_pix lcmg scmg : Nat) : FVal :=
  let xndwi : FVal :=
    cdiv ((sband SR_BAND5 curr_pix : ℚ) - (sband SR_BAND7 curr_pix : ℚ) * (1 / 2))
      ((sband SR_BAND5 curr_pix : ℚ) + (sband SR_BAND7 curr_pix : ℚ) * (1 / 2))
  let th1 : ℚ := ((t.andwi lcmg scmg : ℚ) + 2 * (t.sndwi lcmg scmg : ℚ)) * (1 / 1000)
  let th2 : ℚ := ((t.andwi lcmg scmg : ℚ) - 2 * (t.sndwi lcmg scmg : ℚ)) * (1 / 1000)
  let xndwi : FVal := if FVal.gt xndwi th1 then FVal.fin th1 else xndwi
  if FVal.lt xndwi th2 then FVal.fin th2 else xndwi

/-- Lines 637-669: the expected band ratios written to `erelc`. -/
def expectedRatios (t : AuxTables) (sband : Nat → Nat → Int)
    (curr_pix lcmg scmg : Nat) (erelc : Nat → FVal) : Nat → FVal :=
  if t.ratiob1 lcmg scmg = 0 then
    let erelc := Function.update erelc DN_BAND1 (FVal.fin (4817 / 10000))
    let erelc := Function.update erelc DN_BAND2
      (FVal.divq (erelc DN_BAND1) (844239 / 1000000))
    let erelc := Function.update erelc DN_BAND4 (FVal.fin 1)
    Function.update erelc DN_BAND7 (FVal.fin (179 / 100))
  else
    let xndwi : FVal := clampedNdwi t sband curr_pix lcmg scmg
    let erelc := Function.update erelc DN_BAND1
      (FVal.mulq
        (FVal.addq (FVal.mulq xndwi (t.slpratiob1 lcmg scmg : ℚ))
          (t.intratiob1 lcmg scmg : ℚ))
        (1 / 1000))
    let erelc := Function.update erelc DN_BAND2
      (FVal.mulq
        (FVal.addq (FVal.mulq xndwi (t.slpratiob2 lcmg scmg : ℚ))
          (t.intratiob2 lcmg scmg : ℚ))
        (1 / 1000))
    let erelc := Function.update erelc DN_BAND4 (FVal.fin 1)
    Function.update erelc DN_BAND7
      (FVal.mulq
        (FVal.addq (FVal.mulq xndwi (t.slpratiob7 lcmg scmg : ℚ))
          (t.intratiob7 lcmg scmg : ℚ))
        (1 / 1000))

/-- Lines 671-674: the TOA reflectances written to `troatm`. -/
def toaRatios (c : Consts) (aerob : Nat → Nat → Int) (curr_pix : Nat)
    (troatm : Nat → ℚ) : Nat → ℚ :=
  let troatm := Function.update troatm DN_BAND1
    ((aerob DN_BAND1 curr_pix : ℚ) * c.SCALE_FACTOR)
  let troatm := Function.update troatm DN_BAND2
    ((aerob DN_BAND2 curr_pix : ℚ) * c.SCALE_FACTOR)
  let troatm := Function.update troatm DN_BAND4
    ((aerob DN_BAND4 curr_pix : ℚ) * c.SCALE_FACTOR)
  Function.update troatm DN_BAND7
    ((aerob DN_BAND7 curr_pix : ℚ) * c.SCALE_FACTOR)

/-- Lines 680-683: the NDVI of the pixel from bands 5 and 4. With
`band5 + band4` zero it is `+inf`, `-inf` or NaN. -/
def fndvi (sband : Nat → Nat → Int) (curr_pix : Nat) : FVal :=
  cdiv ((sband SR_BAND5 curr_pix : ℚ) - (sband SR_BAND4 curr_pix : ℚ))
    ((sband SR_BAND5 curr_pix : ℚ) + (sband SR_BAND4 curr_pix : ℚ))

/-- The assignments `taero[curr_pix] = ...; tresi[curr_pix] = ...;`. -/
def setAerosol (st : AuxState) (curr_pix : Nat) (taero tresi : ℚ) : AuxState :=
  { st with
    taero := Function.update st.taero curr_pix taero
    tresi := Function.update st.tresi curr_pix tresi }

/-- Lines 692-766: the aerosol retrieval of a pixel and its acceptance
test. A failure of `subaeroret` or `atmcorlamb2` exits. -/
def aerosolInversion (c : Consts) (env : AuxEnv) (aerob : Nat → Nat → Int)
    (curr_pix : Nat) (st : AuxState) : Option AuxState :=
  match env.subaeroret DN_BAND4 DN_BAND1 env.pres env.uoz env.uwv st.erelc
      st.troatm with
  | none => none
  | some (raot, residual) =>
    let corf : FVal := cdiv raot env.xmus
    if FVal.gt (FVal.addq (FVal.mulq corf (5 / 1000)) (15 / 1000)) residual then
      match env.atmcorlamb2 raot DN_BAND5 env.pres env.uoz env.uwv
          ((aerob DN_BAND5 curr_pix : ℚ) * c.SCALE_FACTOR) with
      | none => none
      | some r5 =>
        match env.atmcorlamb2 raot DN_BAND4 env.pres env.uoz env.uwv
            ((aerob DN_BAND4 curr_pix : ℚ) * c.SCALE_FACTOR) with
        | none => none
        | some r4 =>
          if r5.roslamb > 1 / 10 ∧
              FVal.gt (cdiv (r5.roslamb - r4.roslamb) (r5.roslamb + r4.roslamb))
                0 then
            some (setAerosol st curr_pix raot residual)
          else some (setAerosol st curr_pix 0 (-1 / 100))
    else some (setAerosol st curr_pix 0 (-1 / 100))

/-- Lines 630-767: the cirrus test and the aerosol inversion of the pixel
`curr_pix`, whose grid cell is `[lcmg][scmg]`. -/
def auxRetrieve (c : Consts) (g : GridConsts) (env : AuxEnv) (t : AuxTables)
    (sband aerob : Nat → Nat → Int) (curr_pix lcmg scmg : Nat)
    (st : AuxState) : Option AuxState :=
  if FVal.lt (cdiv 100 (st.tp curr_pix * g.ONE_DIV_1013))
        (sband SR_BAND9 curr_pix : ℚ) then
    some { st with
      cloud := Function.update st.cloud curr_pix ((st.cloud curr_pix + 1) % 256) }
  else
    let st : AuxState :=
      { st with
        erelc := expectedRatios t sband curr_pix lcmg scmg st.erelc
        troatm := toaRatios c aerob curr_pix st.troatm }
    if btest (st.cloud curr_pix) WAT_QA = true then
      if FVal.lt (fndvi sband curr_pix) (1 / 10) then
        some (setAerosol st curr_pix 0 (-1 / 100))
      else aerosolInversion c env aerob curr_pix st
    else aerosolInversion c env aerob curr_pix st

/-- Lines 533-767: the body of the pixel loop of the auxiliary pass at line
`i`, sample `j`. A failed geolocation and a position outside the grid
exit. -/
def auxPixel (c : Consts) (g : GridConsts) (env : AuxEnv) (t : AuxTables)
    (qaband : Nat → Nat) (sband aerob : Nat → Nat → Int) (nsamps i : Nat)
    (st : AuxState) (j : Nat) : Option AuxState :=
  let curr_pix := i * nsamps + j
  if qaband curr_pix = 1 then some st
  else
    match env.from_space ((i : ℚ) - 1 / 2) ((j : ℚ) + 1 / 2) with
    | none => none
    | some geo =>
      if OutOfGrid g (cmgLocate g geo) then none
      else
        auxRetrieve c g env t sband aerob curr_pix
          (cmgLocate g geo).lcmg.toNat (cmgLocate g geo).scmg.toNat
          (auxSample g env t curr_pix (cmgLocate g geo) st)

/-- Lines 506-769: the initialisation of `erelc` and `troatm` and the
auxiliary pass over the raster. -/
def auxPass (c : Consts) (g : GridConsts) (env : AuxEnv) (t : AuxTables)
    (qaband : Nat → Nat) (sband aerob : Nat → Nat → Int) (nlines nsamps : Nat)
    (st : AuxState) : Option AuxState :=
  foldOpt
    (fun st i =>
      foldOpt (auxPixel c g env t qaband sband aerob nsamps i)
        (List.range nsamps) st)
    (List.range nlines)
    { st with erelc := fun _ => FVal.fin (-1), troatm := fun _ => 0 }

/-! ## `compute_toa_refl`: the state of `sband` at the return -/

/-- What `compute_toa_refl` leaves when it returns: the status (`true` is
SUCCESS, `false` is ERROR) and the contents of `sband`. -/
structure ToaExit where
  success : Bool
  sband : Nat → Nat → Int

/-- The band loop with the contents of `sband` at the return: as `toaBands`,
where a failed read returns ERROR at once, with the bands written by the
earlier iterations. -/
def toaBandsExit (c : Consts) (ln : ℚ → ℚ)
    (get_input_refl_lines get_input_th_lines : Nat → Option (Nat → Nat))
    (qaband : Nat → Nat) (npix : Nat) (xmus : ℚ) (instrument : String) :
    List Nat → (Nat → Nat → Int) → ToaExit
  | [], sband => { success := true, sband := sband }
  | ib :: rest, sband =>
    match toaBandStep c ln get_input_refl_lines get_input_th_lines qaband npix
        xmus instrument sband ib with
    | none => { success := false, sband := sband }
    | some s =>
      toaBandsExit c ln get_input_refl_lines get_input_th_lines qaband npix xmus
        instrument rest s

/-- Lines 67-214: `compute_toa_refl` with the contents of `sband` at the
return. `uband_allocated` tells whether the `calloc` of the work band
succeeded; when it did not, the function returns ERROR before the band
loop. -/
def compute_toa_refl_exit (c : Consts) (ln : ℚ → ℚ)
    (get_input_refl_lines get_input_th_lines : Nat → Option (Nat → Nat))
    (qaband : Nat → Nat) (nlines nsamps : Nat) (xmus : ℚ)
    (instrument : String) (uband_allocated : Bool)
    (sband : Nat → Nat → Int) : ToaExit :=
  if uband_allocated = false then { success := false, sband := sband }
  else
    toaBandsExit c ln get_input_refl_lines get_input_th_lines qaband
      (nlines * nsamps) xmus instrument (List.range (DN_BAND11 + 1)) sband

/-- A qualifying pixel of the aerosol interpolation: positive residual and an
empty mask byte. -/
def Qualifying (cloud : Nat → Nat) (f : AotField) (w : Nat) : Prop :=
  f.tresi w > 0 ∧ cloud w = 0

instance (cloud : Nat → Nat) (f : AotField) (w : Nat) :
    Decidable (Qualifying cloud f w) :=
  inferInstanceAs (Decidable (_ ∧ _))

/-- The qualifying pixels among the pixels `ws` of a block, in scan
order. -/
def qualifyingPixels (cloud : Nat → Nat) (f : AotField) (ws : List Nat) :
    List Nat :=
  ws.filter (fun w => decide (Qualifying cloud f w))

/-- The block average: the sum of `taero/tresi` over the qualifying pixels
divided by the sum of `1/tresi` over them. -/
def blockAverage (cloud : Nat → Nat) (f : AotField) (ws : List Nat) : ℚ :=
  ((qualifyingPixels cloud f ws).map (fun w => f.taero w / f.tresi w)).sum /
    ((qualifyingPixels cloud f ws).map (fun w => 1 / f.tresi w)).sum

/-- The blocks of a round, in the order of the two block loops: the pairs of
a multiple of `step` below `nlines` and a multiple of `step` below
`nsamps`. -/
def roundBlocks (nlines nsamps step : Nat) : List (Nat × Nat) :=
  (strideRange nlines step).flatMap
    (fun i => (strideRange nsamps step).map (fun j => (i, j)))

/-- The state of the loop `while ((hole != 0) && (step < 1000))` after one
more round: the field and the hole count left by the round, and the doubled
step. -/
def gapFillRound (nlines nsamps : Nat) (cloud : Nat → Nat)
    (s : AotField × Nat × Nat) : AotField × Nat × Nat :=
  ((gapFillSweep nlines nsamps s.2.2 cloud s.1).1,
    (gapFillSweep nlines nsamps s.2.2 cloud s.1).2, s.2.2 * 2)

/-! ## `compute_sr_refl`: the block average in binary floating point -/

/-- Two arrays hold the same values at every pixel of a raster of `npix`
pixels. -/
def SameOnRaster {α : Type} (npix : Nat) (a b : Nat → α) : Prop :=
  ∀ p, p < npix → a p = b p

/-- No donor at block size `S`: no fillable raster pixel shares its block of
size `S` (lines and samples with the same quotient by `S`) with a qualifying
raster pixel. -/
def BlockedAt (S nlines nsamps : Nat) (cloud : Nat → Nat) (f : AotField) :
    Prop :=
  ∀ k l k' l', k < nlines → l < nsamps → k' < nlines → l' < nsamps →
    k' / S = k / S → l' / S = l / S →
    Fillable cloud f (k * nsamps + l) →
    ¬ Qualifying cloud f (k' * nsamps + l')

/-- Retrieval and cloud flags exclude each other: a pixel with a positive
residual carries neither the cirrus bit nor the cloud bit. -/
def Exclusive (cloud : Nat → Nat) (tresi : Nat → ℚ) : Prop :=
  ∀ p, tresi p > 0 →
    btest (cloud p) CIR_QA = false ∧ btest (cloud p) CLD_QA = false

/-- The mask byte `v` carries no bit outside the pattern `M`. -/
def SubMask (M v : Nat) : Prop := v ||| M = M

instance (M v : Nat) : Decidable (SubMask M v) :=
  inferInstanceAs (Decidable (_ = _))

/-- Adding `add` to the mask byte `v` sets only bits that are clear: no bit
of `add` is set in `v`, the sum is the bitwise OR (nothing is carried into
another bit) and it still fits the `uint8`. -/
def CleanAdd (add v : Nat) : Prop :=
  v &&& add = 0 ∧ v + add = v ||| add ∧ v + add < 256

instance (add v : Nat) : Decidable (CleanAdd add v) :=
  inferInstanceAs (Decidable (_ ∧ _ ∧ _))

/-- From the mask `m` to the mask `n`, every byte is either untouched or has
received `add` once, by an addition that sets only clear bits. -/
def AddsOnce (add : Nat) (m n : Nat → Nat) : Prop :=
  ∀ p, n p = m p ∨ (CleanAdd add (m p) ∧ n p = m p + add)

/-- A clamped store: `v` is `lo` when `x` is below `lo`, `hi` when `x` is
above `hi`, and lies within `[lo, hi]` when `x` does. -/
def ClampedStore (lo hi : Int) (x : ℚ) (v : Int) : Prop :=
  (x < (lo : ℚ) → v = lo) ∧ ((hi : ℚ) < x → v = hi) ∧
  ((lo : ℚ) ≤ x → x ≤ (hi : ℚ) → lo ≤ v ∧ v ≤ hi)

/-- The brightness temperature scaled by the reflective factor
`MULT_FACTOR` in place of the thermal factor `MULT_FACTOR_TH` of lines 157
and 195. -/
def thermalScaledByMultFactor (c : Consts) (ln : ℚ → ℚ) (k1 k2 : ℚ)
    (dn : Nat) : ℚ :=
  (k2 / ln (k1 / (xcals * (dn : ℚ) + xcalo) + 1)) * c.MULT_FACTOR

/-- The C test `lo <= x && x <= hi` on a value that may be infinite or
NaN: `x` is a finite value of the interval `[lo, hi]`. -/
def FVal.within (x : FVal) (lo hi : ℚ) : Prop :=
  match x with
  | FVal.fin q => lo ≤ q ∧ q ≤ hi
  | FVal.posInf => False
  | FVal.negInf => False
  | FVal.nan => False

/-! ## A small scene for concrete evaluations -/

/-- QA band of a three-pixel scene: pixel 0 is fill. -/
def demoQa : Nat → Nat := fun i => if i = 0 then 1 else 0

/-- Reflective band reader: every band holds the digital numbers
`10000, 10004, 10008`. -/
def demoReflLines : Nat → Option (Nat → Nat) :=
  fun _ => some (fun i => 10000 + 4 * i)

/-- Thermal band reader: every pixel has digital number `30000`. -/
def demoThLines : Nat → Option (Nat → Nat) := fun _ => some (fun _ => 30000)

/-- Stand-in for `log` near the argument reached at digital number `30000`
(`log 77.5 = 4.3506...`). -/
def demoLn : ℚ → ℚ := fun _ => 87 / 20

/-- Output bands before calibration. -/
def demoSband : Nat → Nat → Int := fun _ _ => 0

/-- Stand-in for `atmcorlamb2` in concrete evaluations: constant band
parameters `tgo = 0.9`, `roatm = 0.05`, `ttatmg = 0.8`, `satm = 0.1`. -/
def demoAtmcorlamb2 : ℚ → Nat → ℚ → ℚ → ℚ → ℚ → Option AtmCorr :=
  fun _ _ _ _ _ _ => some ⟨1 / 10, 9 / 10, 1 / 20, 4 / 5, 1 / 10⟩

/-- Entry state of the constant-AOT pass for concrete evaluations: every TOA
value is 1000, fill pixels excepted. -/
def demoFirstPass : FirstPass where
  sband := fun _ i => if i = 0 then -9999 else 1000
  aerob := fun _ _ => 0
  btgo := fun _ => 0
  broatm := fun _ => 0
  bttatmg := fun _ => 0
  bsatm := fun _ => 0

/-- Read-only inputs of the final pass for concrete evaluations: every
residual is positive. -/
def demoFinalInputs : FinalInputs where
  tresi := fun _ => 1 / 100
  tp := fun _ => 1013
  twvi := fun _ => 1
  tozi := fun _ => 3 / 10
  btgo := fun _ => 9 / 10
  broatm := fun _ => 1 / 20
  bttatmg := fun _ => 4 / 5
  bsatm := fun _ => 1 / 10

/-- Mask of the three-pixel scene in which pixel 1 carries the cirrus
bit. -/
def demoCirrusMask : Nat → Nat := fun p => if p = 1 then 1 else 0

/-- Entry state of the constant-AOT pass with the brightest TOA value the
calibration can store (16000) at every non-fill pixel. -/
def demoBrightFirstPass : FirstPass :=
  { demoFirstPass with sband := fun _ i => if i = 0 then -9999 else 16000 }

/-- First-pass bands of a three-pixel scene: pixel 2 is bright and cold
(band 2 is 3000, band 4 is 1000, band 10 is 2500, that is 250 K), the other
pixels are dark and warm (band 2 is 500, band 4 is 600, band 10 is 2900);
band 5 is 400 everywhere. -/
def demoCloudBands : Nat → Nat → Int := fun b i =>
  if i = 2 then
    (if b = SR_BAND2 then 3000 else if b = SR_BAND4 then 1000
      else if b = SR_BAND5 then 400 else if b = SR_BAND10 then 2500 else 0)
  else
    (if b = SR_BAND2 then 500 else if b = SR_BAND4 then 600
      else if b = SR_BAND5 then 400 else if b = SR_BAND10 then 2900 else 0)

/-- A 4 x 4 mask whose only flagged pixel is the cloud shadow pixel 5. -/
def demoShadowMask : Nat → Nat := fun p => if p = 5 then 8 else 0

/-- Residuals of a 4 x 4 raster: negative everywhere except at pixel 3. -/
def demoShadowResidual : Nat → ℚ := fun p => if p = 3 then 1 / 100 else -1 / 100

/-- Bands of a 1 x 2 scene after the first pass: pixel 0 is fill (every band
holds -9999); pixel 1 holds 1000 in the reflective bands and in band 9, and
2900 (290 K) in band 10. -/
def demoShadowBands : Nat → Nat → Int := fun b i =>
  if i = 0 then -9999 else if b = SR_BAND10 then 2900 else 1000

/-- Mask of the 1 x 2 scene after the adjacency pass: pixel 0 carries the
adjacent bit, pixel 1 the cirrus bit. -/
def demoAdjacentMask : Nat → Nat := fun p =>
  if p = 0 then 4 else if p = 1 then 1 else 0

/-- Mask of the 1 x 2 scene after the shadow casting: pixel 0 carries the
adjacent and the cloud shadow bits, pixel 1 the cirrus bit. -/
def demoCastMask : Nat → Nat := fun p =>
  if p = 0 then 12 else if p = 1 then 1 else 0

/-- Customary values of the grid constants: a grid of 3600 x 7200 cells of
0.05 degree. -/
def cmg : GridConsts where
  CMG_NBLAT := 3600
  CMG_NBLON := 7200
  RAD2DEG := 5729577951308232 / 100000000000000
  ONE_DIV_8500 := 1 / 8500
  ONE_DIV_1013 := 1 / 1013

/-- Lookup tables of a land scene at sea level: every DEM cell holds 0, the
band ratio tables are empty. -/
def demoLandTables : AuxTables where
  dem := fun _ _ => 0
  andwi := fun _ _ => 0
  sndwi := fun _ _ => 0
  ratiob1 := fun _ _ => 0
  intratiob1 := fun _ _ => 0
  intratiob2 := fun _ _ => 0
  intratiob7 := fun _ _ => 0
  slpratiob1 := fun _ _ => 0
  slpratiob2 := fun _ _ => 0
  slpratiob7 := fun _ _ => 0
  wv := fun _ _ => 0
  oz := fun _ _ => 0

/-- Lookup tables of a water scene: every DEM cell holds -9999. -/
def demoWaterTables : AuxTables :=
  { demoLandTables with dem := fun _ _ => -9999 }

/-- Stand-ins for the functions called by the auxiliary pass: every pixel is
located at latitude 0, longitude 0; `exp` is 1 (exact at 0, the only
argument of a scene at sea level); `subaeroret` returns `raot = 0.2` with
residual 0.01; `atmcorlamb2` returns the surface reflectance 0.3 for band 5
and 0.1 for the other bands. -/
def demoAuxEnv : AuxEnv where
  from_space := fun _ _ => some (0, 0)
  exp := fun _ => 1
  subaeroret := fun _ _ _ _ _ _ _ => some (1 / 5, 1 / 100)
  atmcorlamb2 := fun _ ib _ _ _ _ =>
    some ⟨if ib = DN_BAND5 then 3 / 10 else 1 / 10, 9 / 10, 1 / 20, 4 / 5, 1 / 10⟩
  xmus := 1
  pres := 1013
  uoz := 3 / 10
  uwv := 1 / 2

/-- First-pass bands of a dark scene: band 9 holds 50, every other band
1000. -/
def demoAuxBands : Nat → Nat → Int := fun b _ =>
  if b = SR_BAND9 then 50 else 1000

/-- Saved TOA bands: 1000 everywhere. -/
def demoAerob : Nat → Nat → Int := fun _ _ => 1000

/-- Entry state of the auxiliary pass: every array holds zeros. -/
def demoAuxState : AuxState where
  cloud := fun _ => 0
  twvi := fun _ => 0
  tozi := fun _ => 0
  tp := fun _ => 0
  tresi := fun _ => 0
  taero := fun _ => 0
  erelc := fun _ => FVal.fin 0
  troatm := fun _ => 0

/-- Geolocation of a scene at the north pole: latitude 90 degrees,
longitude 0. -/
def demoPolarEnv : AuxEnv :=
  { demoAuxEnv with from_space := fun _ _ => some (90 / cmg.RAD2DEG, 0) }

/-- Geolocation that falls east of the grid: latitude 0, longitude 185
degrees. -/
def demoOffGridEnv : AuxEnv :=
  { demoAuxEnv with from_space := fun _ _ => some (0, 185 / cmg.RAD2DEG) }

/-- Geolocation of a scene at the antimeridian: latitude 0, longitude 179.98
degrees. -/
def demoDatelineEnv : AuxEnv :=
  { demoAuxEnv with
    from_space := fun _ _ => some (0, (17998 / 100) / cmg.RAD2DEG) }

/-- Lookup tables that agree with those of the land scene on every cell of
the 3600 x 7200 grid and hold 100 in the water vapour column of index
7200, one past the last sample of the grid. -/
def demoEdgeTables : AuxTables :=
  { demoLandTables with wv := fun _ s => if s = 7200 then 100 else 0 }

/-- Lookup tables with a band ratio climatology: NDWI mean 200 and deviation
50 (envelope `[0.1, 0.3]`), slopes 1000 and intercepts 500. -/
def demoRatioTables : AuxTables :=
  { demoLandTables with
    ratiob1 := fun _ _ => 1
    andwi := fun _ _ => 200
    sndwi := fun _ _ => 50
    slpratiob1 := fun _ _ => 1000
    slpratiob2 := fun _ _ => 1000
    slpratiob7 := fun _ _ => 1000
    intratiob1 := fun _ _ => 500
    intratiob2 := fun _ _ => 500
    intratiob7 := fun _ _ => 500 }

/-- First-pass bands of a scene whose every band value is 0. -/
def demoDarkBands : Nat → Nat → Int := fun _ _ => 0

/-- Reflective band reader that succeeds for band 1 and fails for every
other band. -/
def demoFailingReflLines : Nat → Option (Nat → Nat) :=
  fun k => if k = 0 then some (fun i => 10000 + 4 * i) else none

theorem foldl_update_range {α : Type} (h : Nat → α → α) (n : Nat)
    (arr : Nat → α) (j : Nat) :
    ((List.range n).foldl (fun a i => Function.update a i (h i (a i))) arr) j
      = if j < n then h j (arr j) else arr j := by
  induction n with
  | zero => simp
  | succ n ih =>
    rw [List.range_succ, List.foldl_append]
    simp only [List.foldl_cons, List.foldl_nil]
    by_cases hj : j = n
    · subst hj
      simp [ih]
    · rw [Function.update_noteq hj, ih]
      by_cases h1 : j < n
      · simp [h1, Nat.lt_succ_of_lt h1]
      · have : ¬ j < n + 1 := by omega
        simp [h1, this]

theorem toInt16_of_fits {v : Int} (h : FitsInt16 v) : toInt16 v = v := by
  unfold FitsInt16 at h
  unfold toInt16
  omega

/-! ### `compute_toa_refl`: the pixel loop -/

theorem toaBand_apply (c : Consts) (qaband uband : Nat → Nat) (val : Nat → Int)
    (npix : Nat) (band : Nat → Int) (j : Nat) :
    toaBand c qaband uband val npix band j
      = if j < npix then
          (if qaband j ≠ 1 then val (uband j) else toInt16 c.FILL_VALUE)
        else band j := by
  have hbody : toaPixel c qaband uband val
      = fun a i => Function.update a i
          (if qaband i ≠ 1 then val (uband i) else toInt16 c.FILL_VALUE) := by
    funext a i
    unfold toaPixel
    split <;> simp_all
  unfold toaBand
  rw [hbody]
  exact foldl_update_range
    (fun i _ => if qaband i ≠ 1 then val (uband i) else toInt16 c.FILL_VALUE)
    npix band j

theorem calibrateBand_some (c : Consts) (qaband : Nat → Nat) (npix : Nat)
    (read : Option (Nat → Nat)) (val : Nat → Int) (sb : Nat)
    (s s1 : Nat → Nat → Int)
    (h : calibrateBand c qaband npix read val sb s = some s1) :
    ∃ uband, read = some uband ∧
      s1 = Function.update s sb (toaBand c qaband uband val npix (s sb)) := by
  cases read with
  | none => simp [calibrateBand] at h
  | some uband =>
    simp only [calibrateBand, Option.some.injEq] at h
    exact ⟨uband, rfl, h.symm⟩

/-! ### `compute_toa_refl`: what each output band holds -/

theorem toaBands_success (c : Consts) (ln : ℚ → ℚ)
    (rd th : Nat → Option (Nat → Nat)) (qaband : Nat → Nat) (npix : Nat)
    (xmus : ℚ) (instrument : String)
    (hrd : ∀ k, ∃ u, rd k = some u) (hth : ∀ k, ∃ u, th k = some u)
    (l : List Nat) :
    ∀ s : Nat → Nat → Int,
      ∃ out, toaBands c ln rd th qaband npix xmus instrument l s = some out := by
  induction l with
  | nil => intro s; exact ⟨s, rfl⟩
  | cons ib rest ih =>
    intro s
    have hstep : ∃ s1,
        toaBandStep c ln rd th qaband npix xmus instrument s ib = some s1 := by
      unfold toaBandStep
      split_ifs
      · exact ⟨_, rfl⟩
      · obtain ⟨u, hu⟩ := hrd (reflBandIndex ib)
        rw [hu]; exact ⟨_, rfl⟩
      · obtain ⟨u, hu⟩ := hth 0
        rw [hu]; exact ⟨_, rfl⟩
      · obtain ⟨u, hu⟩ := hth 1
        rw [hu]; exact ⟨_, rfl⟩
      · exact ⟨_, rfl⟩
    obtain ⟨s1, hs1⟩ := hstep
    obtain ⟨out, hout⟩ := ih s1
    exact ⟨out, by simp only [toaBands, hs1, hout]⟩

/-- When every band read succeeds, `compute_toa_refl` returns SUCCESS. -/
theorem compute_toa_refl_success (c : Consts) (ln : ℚ → ℚ)
    (rd th : Nat → Option (Nat → Nat)) (qaband : Nat → Nat)
    (nlines nsamps : Nat) (xmus : ℚ) (instrument : String)
    (sband : Nat → Nat → Int)
    (hrd : ∀ k, ∃ u, rd k = some u) (hth : ∀ k, ∃ u, th k = some u) :
    ∃ out, compute_toa_refl c ln rd th qaband nlines nsamps xmus instrument
      sband = some out :=
  toaBands_success c ln rd th qaband _ xmus instrument hrd hth _ sband

theorem toaBandStep_untouched (c : Consts) (ln : ℚ → ℚ)
    (rd th : Nat → Option (Nat → Nat)) (qaband : Nat → Nat) (npix : Nat)
    (xmus : ℚ) (instrument : String) (s s1 : Nat → Nat → Int) (ib b : Nat)
    (hb : ib = DN_BAND8 ∨ b ≠ toaTarget ib)
    (hstep : toaBandStep c ln rd th qaband npix xmus instrument s ib = some s1) :
    s1 b = s b := by
  unfold toaBandStep at hstep
  split_ifs at hstep with h1 h2 h3 h4
  · injection hstep with hstep; rw [← hstep]
  · obtain ⟨u, -, hu⟩ := calibrateBand_some _ _ _ _ _ _ _ _ hstep
    have hne : b ≠ reflBandIndex ib := by
      rcases hb with hb | hb
      · exact absurd hb h1
      · simpa [toaTarget, h2] using hb
    rw [hu, Function.update_noteq hne]
  · obtain ⟨u, -, hu⟩ := calibrateBand_some _ _ _ _ _ _ _ _ hstep
    have hne : b ≠ SR_BAND10 := by
      rcases hb with hb | hb
      · exact absurd hb h1
      · simpa [toaTarget, h2, h3.1] using hb
    rw [hu, Function.update_noteq hne]
  · obtain ⟨u, -, hu⟩ := calibrateBand_some _ _ _ _ _ _ _ _ hstep
    have hne : b ≠ SR_BAND11 := by
      rcases hb with hb | hb
      · exact absurd hb h1
      · have h10 : ib ≠ DN_BAND10 := by rw [h4.1]; decide
        simpa [toaTarget, h2, h10] using hb
    rw [hu, Function.update_noteq hne]
  · injection hstep with hstep; rw [← hstep]

theorem toaBands_untouched (c : Consts) (ln : ℚ → ℚ)
    (rd th : Nat → Option (Nat → Nat)) (qaband : Nat → Nat) (npix : Nat)
    (xmus : ℚ) (instrument : String) (b : Nat) (l : List Nat)
    (hl : ∀ a ∈ l, a = DN_BAND8 ∨ b ≠ toaTarget a) :
    ∀ (s out : Nat → Nat → Int),
      toaBands c ln rd th qaband npix xmus instrument l s = some out →
      out b = s b := by
  induction l with
  | nil =>
    intro s out h
    simp only [toaBands, Option.some.injEq] at h
    rw [h]
  | cons a rest ih =>
    intro s out h
    simp only [toaBands] at h
    cases hs : toaBandStep c ln rd th qaband npix xmus instrument s a with
    | none => rw [hs] at h; cases h
    | some s1 =>
      rw [hs] at h
      rw [ih (fun x hx => hl x (List.mem_cons_of_mem _ hx)) s1 out h]
      exact toaBandStep_untouched c ln rd th qaband npix xmus instrument s s1 a
        b (hl a (List.mem_cons_self _ _)) hs

/-- The band loop writes output band `b` in iteration `ib` only: if that
iteration maps the band through `F` and the other iterations of a
duplicate-free band list leave it alone, the result is `F` of the entry
band. -/
theorem toaBands_band (c : Consts) (ln : ℚ → ℚ)
    (rd th : Nat → Option (Nat → Nat)) (qaband : Nat → Nat) (npix : Nat)
    (xmus : ℚ) (instrument : String) (b ib : Nat)
    (F : (Nat → Int) → (Nat → Int))
    (hF : ∀ s s1 : Nat → Nat → Int,
      toaBandStep c ln rd th qaband npix xmus instrument s ib = some s1 →
      s1 b = F (s b))
    (l : List Nat) (hnodup : l.Nodup) (hmem : ib ∈ l)
    (hl : ∀ a ∈ l, a ≠ ib → (a = DN_BAND8 ∨ b ≠ toaTarget a)) :
    ∀ (s out : Nat → Nat → Int),
      toaBands c ln rd th qaband npix xmus instrument l s = some out →
      out b = F (s b) := by
  induction l with
  | nil => cases hmem
  | cons a rest ih =>
    intro s out h
    simp only [toaBands] at h
    cases hs : toaBandStep c ln rd th qaband npix xmus instrument s a with
    | none => rw [hs] at h; cases h
    | some s1 =>
      rw [hs] at h
      have hnd := List.nodup_cons.mp hnodup
      by_cases ha : a = ib
      · subst ha
        have hrest : ∀ x ∈ rest, x = DN_BAND8 ∨ b ≠ toaTarget x := by
          intro x hx
          exact hl x (List.mem_cons_of_mem _ hx)
            (fun hxa => hnd.1 (hxa ▸ hx))
        rw [toaBands_untouched c ln rd th qaband npix xmus instrument b rest
          hrest s1 out h]
        exact hF s s1 hs
      · have hin : ib ∈ rest := by
          rcases List.mem_cons.mp hmem with h1 | h1
          · exact absurd h1.symm ha
          · exact h1
        rw [ih hnd.2 hin (fun x hx => hl x (List.mem_cons_of_mem _ hx)) s1 out h]
        rw [toaBandStep_untouched c ln rd th qaband npix xmus instrument s s1 a
          b (hl a (List.mem_cons_self _ _) ha) hs]

theorem toaBands_step_of_mem (c : Consts) (ln : ℚ → ℚ)
    (rd th : Nat → Option (Nat → Nat)) (qaband : Nat → Nat) (npix : Nat)
    (xmus : ℚ) (instrument : String) (ib : Nat) (l : List Nat)
    (hmem : ib ∈ l) :
    ∀ (s out : Nat → Nat → Int),
      toaBands c ln rd th qaband npix xmus instrument l s = some out →
      ∃ s0 s1, toaBandStep c ln rd th qaband npix xmus instrument s0 ib
        = some s1 := by
  induction l with
  | nil => cases hmem
  | cons a rest ih =>
    intro s out h
    simp only [toaBands] at h
    cases hs : toaBandStep c ln rd th qaband npix xmus instrument s a with
    | none => rw [hs] at h; cases h
    | some s1 =>
      rw [hs] at h
      rcases List.mem_cons.mp hmem with h1 | h1
      · subst h1; exact ⟨s, s1, hs⟩
      · exact ih h1 s1 out h

/-- On SUCCESS, reflective output band `b` (0..7) is the pixel loop over the
digital numbers read for it, applied to the entry band. -/
theorem compute_toa_refl_refl_band (c : Consts) (ln : ℚ → ℚ)
    (rd th : Nat → Option (Nat → Nat)) (qaband : Nat → Nat)
    (nlines nsamps : Nat) (xmus : ℚ) (instrument : String)
    (sband out : Nat → Nat → Int) (b : Nat) (hb : b ≤ 7)
    (hrun : compute_toa_refl c ln rd th qaband nlines nsamps xmus instrument
      sband = some out) :
    ∃ uband, rd b = some uband ∧
      out b = toaBand c qaband uband (toaReflValue c xmus) (nlines * nsamps)
        (sband b) := by
  unfold compute_toa_refl at hrun
  -- the iteration that writes `b`
  obtain ⟨ib, hib, hne8, hle9, hidx⟩ :
      ∃ ib, ib ∈ List.range (DN_BAND11 + 1) ∧ ib ≠ DN_BAND8 ∧ ib ≤ DN_BAND9 ∧
        reflBandIndex ib = b := by
    by_cases h7 : b = 7
    · exact ⟨8, by decide, by decide, by decide, by subst h7; decide⟩
    · refine ⟨b, ?_, ?_, ?_, ?_⟩
      · rw [List.mem_range]; unfold DN_BAND11; omega
      · unfold DN_BAND8; omega
      · unfold DN_BAND9; omega
      · unfold reflBandIndex DN_BAND7; rw [if_pos (by omega)]
  obtain ⟨s0, s1, hs⟩ := toaBands_step_of_mem c ln rd th qaband _ xmus
    instrument ib _ hib sband out hrun
  have hs' := hs
  unfold toaBandStep at hs'
  rw [if_neg hne8, if_pos hle9, hidx] at hs'
  obtain ⟨uband, hrd, -⟩ := calibrateBand_some _ _ _ _ _ _ _ _ hs'
  refine ⟨uband, hrd, ?_⟩
  refine toaBands_band c ln rd th qaband _ xmus instrument b ib
    (toaBand c qaband uband (toaReflValue c xmus) (nlines * nsamps)) ?_ _
    (List.nodup_range _) hib ?_ sband out hrun
  · intro s s1 hstep
    unfold toaBandStep at hstep
    rw [if_neg hne8, if_pos hle9, hidx] at hstep
    obtain ⟨u, hu, hs1⟩ := calibrateBand_some _ _ _ _ _ _ _ _ hstep
    rw [hrd] at hu
    injection hu with hu
    subst hu
    rw [hs1, Function.update_same]
  · intro a ha hane
    rw [List.mem_range] at ha
    unfold DN_BAND11 at ha
    unfold DN_BAND8 DN_BAND9 at *
    unfold toaTarget reflBandIndex DN_BAND9 DN_BAND7 DN_BAND10 SR_BAND10
      SR_BAND11
    unfold reflBandIndex DN_BAND7 at hidx
    by_cases ha7 : a = 7
    · exact Or.inl ha7
    · right
      split_ifs at hidx ⊢ <;> omega

/-- On SUCCESS with an instrument other than "OLI", the thermal output bands
are the pixel loops over the digital numbers read for bands 10 and 11. -/
theorem compute_toa_refl_thermal_bands (c : Consts) (ln : ℚ → ℚ)
    (rd th : Nat → Option (Nat → Nat)) (qaband : Nat → Nat)
    (nlines nsamps : Nat) (xmus : ℚ) (instrument : String)
    (sband out : Nat → Nat → Int) (hinst : instrument ≠ "OLI")
    (hrun : compute_toa_refl c ln rd th qaband nlines nsamps xmus instrument
      sband = some out) :
    (∃ uband, th 0 = some uband ∧
      out SR_BAND10 = toaBand c qaband uband (thermalValue c ln k1b10 k2b10)
        (nlines * nsamps) (sband SR_BAND10)) ∧
    (∃ uband, th 1 = some uband ∧
      out SR_BAND11 = toaBand c qaband uband (thermalValue c ln k1b11 k2b11)
        (nlines * nsamps) (sband SR_BAND11)) := by
  unfold compute_toa_refl at hrun
  have h11 : ¬ (DN_BAND11 = DN_BAND10 ∧ instrument ≠ "OLI") :=
    fun h => absurd h.1 (by decide)
  constructor
  · obtain ⟨s0, s1, hs⟩ := toaBands_step_of_mem c ln rd th qaband _ xmus
      instrument DN_BAND10 _ (by decide) sband out hrun
    have hs' := hs
    unfold toaBandStep at hs'
    rw [if_neg (by decide), if_neg (by decide), if_pos ⟨rfl, hinst⟩] at hs'
    obtain ⟨uband, hrd, -⟩ := calibrateBand_some _ _ _ _ _ _ _ _ hs'
    refine ⟨uband, hrd, ?_⟩
    refine toaBands_band c ln rd th qaband _ xmus instrument SR_BAND10
      DN_BAND10
      (toaBand c qaband uband (thermalValue c ln k1b10 k2b10) (nlines * nsamps))
      ?_ _ (List.nodup_range _) (by decide) ?_ sband out hrun
    · intro s s1 hstep
      unfold toaBandStep at hstep
      rw [if_neg (by decide), if_neg (by decide), if_pos ⟨rfl, hinst⟩] at hstep
      obtain ⟨u, hu, hs1⟩ := calibrateBand_some _ _ _ _ _ _ _ _ hstep
      rw [hrd] at hu
      injection hu with hu
      subst hu
      rw [hs1, Function.update_same]
    · intro a ha hane
      rw [List.mem_range] at ha
      unfold DN_BAND11 at ha
      unfold DN_BAND10 at hane
      unfold toaTarget reflBandIndex DN_BAND9 DN_BAND7 DN_BAND10 SR_BAND10
        SR_BAND11 DN_BAND8
      by_cases ha7 : a = 7
      · exact Or.inl ha7
      · right
        split_ifs <;> omega
  · obtain ⟨s0, s1, hs⟩ := toaBands_step_of_mem c ln rd th qaband _ xmus
      instrument DN_BAND11 _ (by decide) sband out hrun
    have hs' := hs
    unfold toaBandStep at hs'
    rw [if_neg (by decide), if_neg (by decide), if_neg h11,
      if_pos ⟨rfl, hinst⟩] at hs'
    obtain ⟨uband, hrd, -⟩ := calibrateBand_some _ _ _ _ _ _ _ _ hs'
    refine ⟨uband, hrd, ?_⟩
    refine toaBands_band c ln rd th qaband _ xmus instrument SR_BAND11
      DN_BAND11
      (toaBand c qaband uband (thermalValue c ln k1b11 k2b11) (nlines * nsamps))
      ?_ _ (List.nodup_range _) (by decide) ?_ sband out hrun
    · intro s s1 hstep
      unfold toaBandStep at hstep
      rw [if_neg (by decide), if_neg (by decide), if_neg h11,
        if_pos ⟨rfl, hinst⟩] at hstep
      obtain ⟨u, hu, hs1⟩ := calibrateBand_some _ _ _ _ _ _ _ _ hstep
      rw [hrd] at hu
      injection hu with hu
      subst hu
      rw [hs1, Function.update_same]
    · intro a ha hane
      rw [List.mem_range] at ha
      unfold DN_BAND11 at ha hane
      unfold toaTarget reflBandIndex DN_BAND9 DN_BAND7 DN_BAND10 SR_BAND10
        SR_BAND11 DN_BAND8
      by_cases ha7 : a = 7
      · exact Or.inl ha7
      · right
        split_ifs <;> omega

/-- The value `compute_toa_refl` stores at a non-fill pixel of reflective
output band `b`. -/
theorem compute_toa_refl_refl_pixel (c : Consts) (ln : ℚ → ℚ)
    (rd th : Nat → Option (Nat → Nat)) (qaband : Nat → Nat)
    (nlines nsamps : Nat) (xmus : ℚ) (instrument : String)
    (sband out : Nat → Nat → Int) (b : Nat) (uband : Nat → Nat) (i : Nat)
    (hb : b ≤ 7) (hrd : rd b = some uband)
    (hrun : compute_toa_refl c ln rd th qaband nlines nsamps xmus instrument
      sband = some out)
    (hi : i < nlines * nsamps) (hq : qaband i ≠ 1) :
    out b i = toaReflValue c xmus (uband i) := by
  obtain ⟨u, hu, hout⟩ := compute_toa_refl_refl_band c ln rd th qaband nlines
    nsamps xmus instrument sband out b hb hrun
  rw [hrd] at hu
  injection hu with hu
  subst hu
  rw [hout, toaBand_apply, if_pos hi, if_pos hq]

/-- The values `compute_toa_refl` stores at a non-fill pixel of the two
thermal output bands. -/
theorem compute_toa_refl_thermal_pixel (c : Consts) (ln : ℚ → ℚ)
    (rd th : Nat → Option (Nat → Nat)) (qaband : Nat → Nat)
    (nlines nsamps : Nat) (xmus : ℚ) (instrument : String)
    (sband out : Nat → Nat → Int) (u10 u11 : Nat → Nat) (i : Nat)
    (hinst : instrument ≠ "OLI")
    (h10 : th 0 = some u10) (h11 : th 1 = some u11)
    (hrun : compute_toa_refl c ln rd th qaband nlines nsamps xmus instrument
      sband = some out)
    (hi : i < nlines * nsamps) (hq : qaband i ≠ 1) :
    out SR_BAND10 i = thermalValue c ln k1b10 k2b10 (u10 i) ∧
    out SR_BAND11 i = thermalValue c ln k1b11 k2b11 (u11 i) := by
  obtain ⟨⟨a, ha, houta⟩, ⟨b, hb, houtb⟩⟩ := compute_toa_refl_thermal_bands c ln
    rd th qaband nlines nsamps xmus instrument sband out hinst hrun
  rw [h10] at ha
  rw [h11] at hb
  injection ha with ha
  injection hb with hb
  subst ha
  subst hb
  rw [houta, houtb, toaBand_apply, toaBand_apply, if_pos hi, if_pos hi,
    if_pos hq, if_pos hq]
  exact ⟨rfl, rfl⟩

/-! ### Truncation and clamping -/

theorem truncToInt_mono {x y : ℚ} (h : x ≤ y) : truncToInt x ≤ truncToInt y := by
  unfold truncToInt
  split_ifs with hx hy hy
  · exact Int.floor_mono h
  · exact absurd (le_trans hx h) hy
  · have h1 : ⌈x⌉ ≤ 0 := Int.ceil_le.mpr (by push_cast; exact le_of_lt (not_le.mp hx))
    have h2 : (0 : Int) ≤ ⌊y⌋ := Int.le_floor.mpr (by push_cast; exact hy)
    exact le_trans h1 h2
  · exact Int.ceil_mono h

theorem le_truncToInt {m : Int} {x : ℚ} (h : (m : ℚ) ≤ x) : m ≤ truncToInt x := by
  unfold truncToInt
  split_ifs with hx
  · exact Int.le_floor.mpr h
  · have h1 : (m : ℚ) ≤ (⌈x⌉ : ℚ) := le_trans h (Int.le_ceil x)
    exact_mod_cast h1

theorem truncToInt_le {m : Int} {x : ℚ} (h : x ≤ (m : ℚ)) : truncToInt x ≤ m := by
  unfold truncToInt
  split_ifs with hx
  · have h1 : (⌊x⌋ : ℚ) ≤ (m : ℚ) := le_trans (Int.floor_le x) h
    exact_mod_cast h1
  · exact Int.ceil_le.mpr h

theorem truncToInt_of_nonneg {x : ℚ} (h : 0 ≤ x) : truncToInt x = ⌊x⌋ := by
  unfold truncToInt
  rw [if_pos h]

theorem fitsInt16_of_between {lo hi v : Int} (hlo : FitsInt16 lo)
    (hhi : FitsInt16 hi) (h1 : lo ≤ v) (h2 : v ≤ hi) : FitsInt16 v := by
  unfold FitsInt16 at *
  omega

theorem toaReflValue_in_range (c : Consts) (xmus : ℚ) (dn : Nat)
    (hmin : FitsInt16 c.MIN_VALID) (hmax : FitsInt16 c.MAX_VALID)
    (h1 : (c.MIN_VALID : ℚ) ≤ toaReflScaled c xmus dn)
    (h2 : toaReflScaled c xmus dn ≤ (c.MAX_VALID : ℚ)) :
    toaReflValue c xmus dn = truncToInt (toaReflScaled c xmus dn) := by
  unfold toaReflValue
  simp only []
  rw [if_neg (not_lt.mpr h1), if_neg (not_lt.mpr h2)]
  exact toInt16_of_fits
    (fitsInt16_of_between hmin hmax (le_truncToInt h1) (truncToInt_le h2))

theorem toaReflScaled_mono (c : Consts) (xmus : ℚ) (dn1 dn2 : Nat)
    (hmult : 0 < c.MULT_FACTOR) (hxmus : 0 < xmus) (h : dn1 ≤ dn2) :
    toaReflScaled c xmus dn1 ≤ toaReflScaled c xmus dn2 := by
  unfold toaReflScaled
  simp only []
  have hd : (dn1 : ℚ) ≤ (dn2 : ℚ) := by exact_mod_cast h
  have hrm : (0 : ℚ) ≤ refl_mult := by unfold refl_mult; norm_num
  have h1 : (dn1 : ℚ) * refl_mult + refl_add ≤ (dn2 : ℚ) * refl_mult + refl_add := by
    have := mul_le_mul_of_nonneg_right hd hrm
    linarith
  have h2 := mul_le_mul_of_nonneg_right h1 (le_of_lt hmult)
  exact div_le_div_of_nonneg_right h2 (le_of_lt hxmus)

theorem toaReflValue_clamped (c : Consts) (xmus : ℚ) (dn : Nat)
    (hmin : FitsInt16 c.MIN_VALID) (hmax : FitsInt16 c.MAX_VALID)
    (hle : c.MIN_VALID ≤ c.MAX_VALID) :
    ClampedStore c.MIN_VALID c.MAX_VALID (toaReflScaled c xmus dn)
      (toaReflValue c xmus dn) := by
  refine ⟨?_, ?_, ?_⟩
  · intro h
    unfold toaReflValue
    simp only []
    rw [if_pos h, toInt16_of_fits hmin]
  · intro h
    have hge : ¬ toaReflScaled c xmus dn < (c.MIN_VALID : ℚ) := by
      have : (c.MIN_VALID : ℚ) ≤ (c.MAX_VALID : ℚ) := by exact_mod_cast hle
      exact not_lt.mpr (le_of_lt (lt_of_le_of_lt this h))
    unfold toaReflValue
    simp only []
    rw [if_neg hge, if_pos h, toInt16_of_fits hmax]
  · intro h1 h2
    rw [toaReflValue_in_range c xmus dn hmin hmax h1 h2]
    exact ⟨le_truncToInt h1, truncToInt_le h2⟩

theorem thermal_round_bounds {lo hi : Int} {t : ℚ} (hhi : 0 ≤ hi)
    (h1 : (lo : ℚ) ≤ t) (h2 : t ≤ (hi : ℚ)) :
    lo ≤ truncToInt (t + 1 / 2) ∧ truncToInt (t + 1 / 2) ≤ hi := by
  constructor
  · exact le_truncToInt (by linarith)
  · unfold truncToInt
    split_ifs with hx
    · have h3 : ⌊t + 1 / 2⌋ < hi + 1 := by
        rw [Int.floor_lt]
        push_cast
        linarith
      omega
    · have h3 : ⌈t + 1 / 2⌉ ≤ 0 :=
        Int.ceil_le.mpr (by push_cast; exact le_of_lt (not_le.mp hx))
      omega

theorem thermalValue_in_range (c : Consts) (ln : ℚ → ℚ) (k1 k2 : ℚ) (dn : Nat)
    (hmin : FitsInt16 c.MIN_VALID_TH) (hmax : FitsInt16 c.MAX_VALID_TH)
    (hhi : 0 ≤ c.MAX_VALID_TH)
    (h1 : (c.MIN_VALID_TH : ℚ) ≤ thermalScaled c ln k1 k2 dn)
    (h2 : thermalScaled c ln k1 k2 dn ≤ (c.MAX_VALID_TH : ℚ)) :
    thermalValue c ln k1 k2 dn
      = truncToInt (thermalScaled c ln k1 k2 dn + 1 / 2) := by
  unfold thermalValue
  simp only []
  rw [if_neg (not_lt.mpr h1), if_neg (not_lt.mpr h2)]
  have hb := thermal_round_bounds hhi h1 h2
  exact toInt16_of_fits (fitsInt16_of_between hmin hmax hb.1 hb.2)

theorem thermalValue_clamped (c : Consts) (ln : ℚ → ℚ) (k1 k2 : ℚ) (dn : Nat)
    (hmin : FitsInt16 c.MIN_VALID_TH) (hmax : FitsInt16 c.MAX_VALID_TH)
    (hle : c.MIN_VALID_TH ≤ c.MAX_VALID_TH) (hhi : 0 ≤ c.MAX_VALID_TH) :
    ClampedStore c.MIN_VALID_TH c.MAX_VALID_TH (thermalScaled c ln k1 k2 dn)
      (thermalValue c ln k1 k2 dn) := by
  refine ⟨?_, ?_, ?_⟩
  · intro h
    unfold thermalValue
    simp only []
    rw [if_pos h, toInt16_of_fits hmin]
  · intro h
    have hge : ¬ thermalScaled c ln k1 k2 dn < (c.MIN_VALID_TH : ℚ) := by
      have : (c.MIN_VALID_TH : ℚ) ≤ (c.MAX_VALID_TH : ℚ) := by exact_mod_cast hle
      exact not_lt.mpr (le_of_lt (lt_of_le_of_lt this h))
    unfold thermalValue
    simp only []
    rw [if_neg hge, if_pos h, toInt16_of_fits hmax]
  · intro h1 h2
    rw [thermalValue_in_range c ln k1 k2 dn hmin hmax hhi h1 h2]
    exact thermal_round_bounds hhi h1 h2

/-! ### Claims about `compute_toa_refl` -/

/-- Fill pixels of the reflective output bands hold the converted fill
value after a successful `compute_toa_refl`. -/
theorem compute_toa_refl_fill_refl (c : Consts) (ln : ℚ → ℚ)
    (rd th : Nat → Option (Nat → Nat)) (qaband : Nat → Nat)
    (nlines nsamps : Nat) (xmus : ℚ) (instrument : String)
    (sband out : Nat → Nat → Int) (b i : Nat) (hb : b ≤ 7)
    (hrun : compute_toa_refl c ln rd th qaband nlines nsamps xmus instrument
      sband = some out)
    (hi : i < nlines * nsamps) (hq : qaband i = 1) :
    out b i = toInt16 c.FILL_VALUE := by
  obtain ⟨u, -, hout⟩ := compute_toa_refl_refl_band c ln rd th qaband nlines
    nsamps xmus instrument sband out b hb hrun
  rw [hout, toaBand_apply, if_pos hi, if_neg (not_not.mpr hq)]

/-- C1: after `compute_toa_refl` returns SUCCESS, every fill pixel
(`qaband[i] == 1`) holds `FILL_VALUE` in each reflective output band 0..7
(bands 1-7 and 9) and, when the instrument is not "OLI", in `SR_BAND10` and
`SR_BAND11`. `FILL_VALUE` is an `int16` value. -/
theorem compute_toa_refl_fill (c : Consts) (ln : ℚ → ℚ)
    (rd th : Nat → Option (Nat → Nat)) (qaband : Nat → Nat)
    (nlines nsamps : Nat) (xmus : ℚ) (instrument : String)
    (sband out : Nat → Nat → Int) (i : Nat)
    (hfill : FitsInt16 c.FILL_VALUE)
    (hrun : compute_toa_refl c ln rd th qaband nlines nsamps xmus instrument
      sband = some out)
    (hi : i < nlines * nsamps) (hq : qaband i = 1) :
    (∀ b, b ≤ 7 → out b i = c.FILL_VALUE) ∧
    (instrument ≠ "OLI" →
      out SR_BAND10 i = c.FILL_VALUE ∧ out SR_BAND11 i = c.FILL_VALUE) := by
  constructor
  · intro b hb
    rw [compute_toa_refl_fill_refl c ln rd th qaband nlines nsamps xmus
      instrument sband out b i hb hrun hi hq, toInt16_of_fits hfill]
  · intro hinst
    obtain ⟨⟨u10, -, h10⟩, ⟨u11, -, h11⟩⟩ := compute_toa_refl_thermal_bands c
      ln rd th qaband nlines nsamps xmus instrument sband out hinst hrun
    rw [h10, h11, toaBand_apply, toaBand_apply, if_pos hi, if_pos hi,
      if_neg (not_not.mpr hq), if_neg (not_not.mpr hq), toInt16_of_fits hfill]
    exact ⟨rfl, rfl⟩

/-- Witness for C1: in the three-pixel scene the fill pixel 0 holds the fill
value in band 1 and in both thermal bands. -/
theorem compute_toa_refl_fill_witness :
    ∃ out, compute_toa_refl l8 demoLn demoReflLines demoThLines demoQa 1 3 1
        "OLI_TIRS" demoSband = some out ∧
      out 0 0 = -9999 ∧ out SR_BAND10 0 = -9999 ∧ out SR_BAND11 0 = -9999 := by
  obtain ⟨out, h⟩ := compute_toa_refl_success l8 demoLn demoReflLines
    demoThLines demoQa 1 3 1 "OLI_TIRS" demoSband (fun _ => ⟨_, rfl⟩)
    (fun _ => ⟨_, rfl⟩)
  have key := compute_toa_refl_fill l8 demoLn demoReflLines demoThLines demoQa
    1 3 1 "OLI_TIRS" demoSband out 0 (by decide) h (by decide) (by decide)
  exact ⟨out, h, key.1 0 (by decide), key.2 (by decide)⟩

/-- C5: reflective calibration is monotonic in digital number. For `xmus > 0`
and two non-fill pixels of a reflective band whose digital numbers satisfy
`dn1 <= dn2` and whose scaled values both lie within
`[MIN_VALID, MAX_VALID]`, the value stored for the first is at most the value
stored for the second (header with `MULT_FACTOR > 0` and `int16` bounds). -/
theorem toa_refl_monotone_in_dn (c : Consts) (ln : ℚ → ℚ)
    (rd th : Nat → Option (Nat → Nat)) (qaband : Nat → Nat)
    (nlines nsamps : Nat) (xmus : ℚ) (instrument : String)
    (sband out : Nat → Nat → Int) (b : Nat) (uband : Nat → Nat) (i1 i2 : Nat)
    (hmin : FitsInt16 c.MIN_VALID) (hmax : FitsInt16 c.MAX_VALID)
    (hmult : 0 < c.MULT_FACTOR)
    (hb : b ≤ 7) (hrd : rd b = some uband)
    (hrun : compute_toa_refl c ln rd th qaband nlines nsamps xmus instrument
      sband = some out)
    (hxmus : 0 < xmus)
    (hi1 : i1 < nlines * nsamps) (hi2 : i2 < nlines * nsamps)
    (hq1 : qaband i1 ≠ 1) (hq2 : qaband i2 ≠ 1)
    (hdn : uband i1 ≤ uband i2)
    (hr1 : (c.MIN_VALID : ℚ) ≤ toaReflScaled c xmus (uband i1) ∧
      toaReflScaled c xmus (uband i1) ≤ (c.MAX_VALID : ℚ))
    (hr2 : (c.MIN_VALID : ℚ) ≤ toaReflScaled c xmus (uband i2) ∧
      toaReflScaled c xmus (uband i2) ≤ (c.MAX_VALID : ℚ)) :
    out b i1 ≤ out b i2 := by
  rw [compute_toa_refl_refl_pixel c ln rd th qaband nlines nsamps xmus
      instrument sband out b uband i1 hb hrd hrun hi1 hq1,
    compute_toa_refl_refl_pixel c ln rd th qaband nlines nsamps xmus
      instrument sband out b uband i2 hb hrd hrun hi2 hq2,
    toaReflValue_in_range c xmus _ hmin hmax hr1.1 hr1.2,
    toaReflValue_in_range c xmus _ hmin hmax hr2.1 hr2.2]
  exact truncToInt_mono (toaReflScaled_mono c xmus _ _ hmult hxmus hdn)

/-- Witness for C5: pixels 1 and 2 of the three-pixel scene (digital numbers
10004 and 10008, scaled values 1000.8 and 1001.6). -/
theorem toa_refl_monotone_in_dn_witness :
    ∃ out, compute_toa_refl l8 demoLn demoReflLines demoThLines demoQa 1 3 1
        "OLI_TIRS" demoSband = some out ∧ out 0 1 ≤ out 0 2 := by
  obtain ⟨out, h⟩ := compute_toa_refl_success l8 demoLn demoReflLines
    demoThLines demoQa 1 3 1 "OLI_TIRS" demoSband (fun _ => ⟨_, rfl⟩)
    (fun _ => ⟨_, rfl⟩)
  refine ⟨out, h, toa_refl_monotone_in_dn l8 demoLn demoReflLines demoThLines
    demoQa 1 3 1 "OLI_TIRS" demoSband out 0 (fun i => 10000 + 4 * i) 1 2
    (by decide) (by decide) (by norm_num [l8]) (by decide) rfl h (by norm_num)
    (by decide) (by decide) (by decide) (by decide) (by decide) ?_ ?_⟩
  · constructor <;> norm_num [toaReflScaled, l8, refl_mult, refl_add]
  · constructor <;> norm_num [toaReflScaled, l8, refl_mult, refl_add]

/-- C6: calibration clamps exactly. At every non-fill pixel a reflective band
stores `MIN_VALID` when the scaled reflectance is below `MIN_VALID`,
`MAX_VALID` when it is above `MAX_VALID`, and otherwise a value within
`[MIN_VALID, MAX_VALID]`; each thermal band does the same with
`MIN_VALID_TH` and `MAX_VALID_TH` (header bounds ordered, `int16`, and
`MAX_VALID_TH` not negative). -/
theorem toa_clamps_exactly (c : Consts) (ln : ℚ → ℚ)
    (rd th : Nat → Option (Nat → Nat)) (qaband : Nat → Nat)
    (nlines nsamps : Nat) (xmus : ℚ) (instrument : String)
    (sband out : Nat → Nat → Int) (i : Nat)
    (hmin : FitsInt16 c.MIN_VALID) (hmax : FitsInt16 c.MAX_VALID)
    (hle : c.MIN_VALID ≤ c.MAX_VALID)
    (hminT : FitsInt16 c.MIN_VALID_TH) (hmaxT : FitsInt16 c.MAX_VALID_TH)
    (hleT : c.MIN_VALID_TH ≤ c.MAX_VALID_TH) (hposT : 0 ≤ c.MAX_VALID_TH)
    (hrun : compute_toa_refl c ln rd th qaband nlines nsamps xmus instrument
      sband = some out)
    (hi : i < nlines * nsamps) (hq : qaband i ≠ 1) :
    (∀ b uband, b ≤ 7 → rd b = some uband →
      ClampedStore c.MIN_VALID c.MAX_VALID (toaReflScaled c xmus (uband i))
        (out b i)) ∧
    (instrument ≠ "OLI" → ∀ u10 u11, th 0 = some u10 → th 1 = some u11 →
      ClampedStore c.MIN_VALID_TH c.MAX_VALID_TH
        (thermalScaled c ln k1b10 k2b10 (u10 i)) (out SR_BAND10 i) ∧
      ClampedStore c.MIN_VALID_TH c.MAX_VALID_TH
        (thermalScaled c ln k1b11 k2b11 (u11 i)) (out SR_BAND11 i)) := by
  constructor
  · intro b uband hb hrd
    rw [compute_toa_refl_refl_pixel c ln rd th qaband nlines nsamps xmus
      instrument sband out b uband i hb hrd hrun hi hq]
    exact toaReflValue_clamped c xmus _ hmin hmax hle
  · intro hinst u10 u11 h10 h11
    obtain ⟨e10, e11⟩ := compute_toa_refl_thermal_pixel c ln rd th qaband
      nlines nsamps xmus instrument sband out u10 u11 i hinst h10 h11 hrun hi hq
    rw [e10, e11]
    exact ⟨thermalValue_clamped c ln _ _ _ hminT hmaxT hleT hposT,
      thermalValue_clamped c ln _ _ _ hminT hmaxT hleT hposT⟩

/-- Witness for C6: pixel 1 of the three-pixel scene, band 1 and band 10. -/
theorem toa_clamps_exactly_witness :
    ∃ out, compute_toa_refl l8 demoLn demoReflLines demoThLines demoQa 1 3 1
        "OLI_TIRS" demoSband = some out ∧
      ClampedStore l8.MIN_VALID l8.MAX_VALID (toaReflScaled l8 1 10004)
        (out 0 1) ∧
      ClampedStore l8.MIN_VALID_TH l8.MAX_VALID_TH
        (thermalScaled l8 demoLn k1b10 k2b10 30000) (out SR_BAND10 1) := by
  obtain ⟨out, h⟩ := compute_toa_refl_success l8 demoLn demoReflLines
    demoThLines demoQa 1 3 1 "OLI_TIRS" demoSband (fun _ => ⟨_, rfl⟩)
    (fun _ => ⟨_, rfl⟩)
  have key := toa_clamps_exactly l8 demoLn demoReflLines demoThLines demoQa 1 3
    1 "OLI_TIRS" demoSband out 1 (by decide) (by decide) (by decide)
    (by decide) (by decide) (by decide) (by decide) h (by decide) (by decide)
  exact ⟨out, h, key.1 0 (fun i => 10000 + 4 * i) (by decide) rfl,
    (key.2 (by decide) (fun _ => 30000) (fun _ => 30000) rfl rfl).1⟩

/-- C7 (evaluation): for a reflective pixel with digital number 10004 and
`xmus = 1` the scaled value is 1000.8; `compute_toa_refl` stores the
truncation 1000, while the nearest integer is 1001. -/
theorem toa_refl_truncates_at_10004 :
    ∃ out, compute_toa_refl l8 demoLn demoReflLines demoThLines demoQa 1 3 1
        "OLI_TIRS" demoSband = some out ∧
      toaReflScaled l8 1 10004 = 5004 / 5 ∧
      (l8.MIN_VALID : ℚ) ≤ toaReflScaled l8 1 10004 ∧
      toaReflScaled l8 1 10004 ≤ (l8.MAX_VALID : ℚ) ∧
      out 0 1 = 1000 ∧ round (toaReflScaled l8 1 10004) = 1001 := by
  obtain ⟨out, h⟩ := compute_toa_refl_success l8 demoLn demoReflLines
    demoThLines demoQa 1 3 1 "OLI_TIRS" demoSband (fun _ => ⟨_, rfl⟩)
    (fun _ => ⟨_, rfl⟩)
  have hs : toaReflScaled l8 1 10004 = 5004 / 5 := by
    norm_num [toaReflScaled, l8, refl_mult, refl_add]
  have hpix := compute_toa_refl_refl_pixel l8 demoLn demoReflLines demoThLines
    demoQa 1 3 1 "OLI_TIRS" demoSband out 0 (fun i => 10000 + 4 * i) 1
    (by decide) rfl h (by decide) (by decide)
  refine ⟨out, h, hs, ?_, ?_, ?_, ?_⟩
  · rw [hs]; norm_num [l8]
  · rw [hs]; norm_num [l8]
  · rw [hpix]
    norm_num [toaReflValue, toaReflScaled, l8, refl_mult, refl_add, truncToInt,
      toInt16]
  · rw [hs, round_eq, Int.floor_eq_iff]
    norm_num

/-- The premise of a thermal store worded with the reflective factor cannot
hold. With `MULT_FACTOR = 10000` (the scaling the reflectance thresholds of
this file assume), `MAX_VALID_TH` an `int16` value and a logarithm with
`0 < ln x <= 9` for `1 < x <= 7750` (as `log 7750 = 8.955...`), the
brightness temperature of every digital number scaled by `MULT_FACTOR` is
above `MAX_VALID_TH`: the temperature is at least `K2 / 9`, more than 133
kelvin. -/
theorem thermal_mult_factor_premise_unreachable (c : Consts) (ln : ℚ → ℚ)
    (hm : c.MULT_FACTOR = 10000) (hmax : FitsInt16 c.MAX_VALID_TH)
    (hln : ∀ x : ℚ, 1 < x → x ≤ 7750 → 0 < ln x ∧ ln x ≤ 9) (dn : Nat) :
    (c.MAX_VALID_TH : ℚ) < thermalScaledByMultFactor c ln k1b10 k2b10 dn ∧
    (c.MAX_VALID_TH : ℚ) < thermalScaledByMultFactor c ln k1b11 k2b11 dn := by
  have hmain : ∀ k1 k2 : ℚ, 0 < k1 → k1 ≤ 77489 / 100 → 120114 / 100 ≤ k2 →
      (c.MAX_VALID_TH : ℚ) < thermalScaledByMultFactor c ln k1 k2 dn := by
    intro k1 k2 hk1 hk1le hk2
    have hdn : (0 : ℚ) ≤ (dn : ℚ) := Nat.cast_nonneg dn
    have hrad : (1 : ℚ) / 10 ≤ xcals * (dn : ℚ) + xcalo := by
      unfold xcals xcalo
      nlinarith
    have hradpos : (0 : ℚ) < xcals * (dn : ℚ) + xcalo := by linarith
    have hq1 : 0 < k1 / (xcals * (dn : ℚ) + xcalo) := div_pos hk1 hradpos
    have hq2 : k1 / (xcals * (dn : ℚ) + xcalo) ≤ 77489 / 10 := by
      rw [div_le_iff₀ hradpos]
      nlinarith
    obtain ⟨hl1, hl2⟩ := hln (k1 / (xcals * (dn : ℚ) + xcalo) + 1) (by linarith)
      (by linarith)
    have ht : k2 / 9 ≤ k2 / ln (k1 / (xcals * (dn : ℚ) + xcalo) + 1) := by
      rw [div_le_div_iff₀ (by norm_num) hl1]
      nlinarith
    have hM : (c.MAX_VALID_TH : ℚ) ≤ 32767 := by
      have : c.MAX_VALID_TH ≤ 32767 := by
        unfold FitsInt16 at hmax
        omega
      exact_mod_cast this
    unfold thermalScaledByMultFactor
    rw [hm]
    nlinarith
  exact ⟨hmain k1b10 k2b10 (by norm_num [k1b10]) (by norm_num [k1b10])
      (by norm_num [k2b10]),
    hmain k1b11 k2b11 (by norm_num [k1b11]) (by norm_num [k1b11])
      (by norm_num [k2b11])⟩

/-- The thermal store: at a non-fill pixel of a thermal band (instrument not
"OLI") whose brightness temperature scaled by `MULT_FACTOR_TH`,
`t = (K2 / ln (K1 / (xcals*dn + xcalo) + 1)) * MULT_FACTOR_TH`, lies within
`[MIN_VALID_TH, MAX_VALID_TH]`, the stored value is `floor (t + 0.5)` and is
itself within `[MIN_VALID_TH, MAX_VALID_TH]` (header with
`0 <= MIN_VALID_TH` and `MAX_VALID_TH` an `int16` value). -/
theorem thermal_rounds_half_up (c : Consts) (ln : ℚ → ℚ)
    (rd th : Nat → Option (Nat → Nat)) (qaband : Nat → Nat)
    (nlines nsamps : Nat) (xmus : ℚ) (instrument : String)
    (sband out : Nat → Nat → Int) (u10 u11 : Nat → Nat) (i : Nat)
    (hlo : 0 ≤ c.MIN_VALID_TH) (hmaxT : FitsInt16 c.MAX_VALID_TH)
    (hinst : instrument ≠ "OLI")
    (h10 : th 0 = some u10) (h11 : th 1 = some u11)
    (hrun : compute_toa_refl c ln rd th qaband nlines nsamps xmus instrument
      sband = some out)
    (hi : i < nlines * nsamps) (hq : qaband i ≠ 1) :
    ((c.MIN_VALID_TH : ℚ) ≤ thermalScaled c ln k1b10 k2b10 (u10 i) →
      thermalScaled c ln k1b10 k2b10 (u10 i) ≤ (c.MAX_VALID_TH : ℚ) →
      out SR_BAND10 i = ⌊thermalScaled c ln k1b10 k2b10 (u10 i) + 1 / 2⌋ ∧
      c.MIN_VALID_TH ≤ out SR_BAND10 i ∧ out SR_BAND10 i ≤ c.MAX_VALID_TH) ∧
    ((c.MIN_VALID_TH : ℚ) ≤ thermalScaled c ln k1b11 k2b11 (u11 i) →
      thermalScaled c ln k1b11 k2b11 (u11 i) ≤ (c.MAX_VALID_TH : ℚ) →
      out SR_BAND11 i = ⌊thermalScaled c ln k1b11 k2b11 (u11 i) + 1 / 2⌋ ∧
      c.MIN_VALID_TH ≤ out SR_BAND11 i ∧ out SR_BAND11 i ≤ c.MAX_VALID_TH) := by
  obtain ⟨e10, e11⟩ := compute_toa_refl_thermal_pixel c ln rd th qaband
    nlines nsamps xmus instrument sband out u10 u11 i hinst h10 h11 hrun hi hq
  have hmain : ∀ (k1 k2 : ℚ) (dn : Nat),
      (c.MIN_VALID_TH : ℚ) ≤ thermalScaled c ln k1 k2 dn →
      thermalScaled c ln k1 k2 dn ≤ (c.MAX_VALID_TH : ℚ) →
      thermalValue c ln k1 k2 dn = ⌊thermalScaled c ln k1 k2 dn + 1 / 2⌋ ∧
      c.MIN_VALID_TH ≤ thermalValue c ln k1 k2 dn ∧
      thermalValue c ln k1 k2 dn ≤ c.MAX_VALID_TH := by
    intro k1 k2 dn h1 h2
    have hle : c.MIN_VALID_TH ≤ c.MAX_VALID_TH := by
      have : (c.MIN_VALID_TH : ℚ) ≤ (c.MAX_VALID_TH : ℚ) := le_trans h1 h2
      exact_mod_cast this
    have hhi : 0 ≤ c.MAX_VALID_TH := le_trans hlo hle
    have hminT : FitsInt16 c.MIN_VALID_TH := by
      unfold FitsInt16 at *
      omega
    have hnn : (0 : ℚ) ≤ thermalScaled c ln k1 k2 dn + 1 / 2 := by
      have : (0 : ℚ) ≤ (c.MIN_VALID_TH : ℚ) := by exact_mod_cast hlo
      linarith
    have hv := thermalValue_in_range c ln k1 k2 dn hminT hmaxT hhi h1 h2
    have hb := thermal_round_bounds hhi h1 h2
    rw [hv]
    exact ⟨truncToInt_of_nonneg hnn, hb.1, hb.2⟩
  rw [e10, e11]
  exact ⟨hmain _ _ _, hmain _ _ _⟩

/-- The thermal store at pixel 1 of the three-pixel scene, whose band 10
temperature scaled by `MULT_FACTOR_TH = 10` is 3036.97. -/
theorem thermal_rounds_half_up_witness :
    ∃ out, compute_toa_refl l8 demoLn demoReflLines demoThLines demoQa 1 3 1
        "OLI_TIRS" demoSband = some out ∧
      out SR_BAND10 1 = ⌊thermalScaled l8 demoLn k1b10 k2b10 30000 + 1 / 2⌋ ∧
      l8.MIN_VALID_TH ≤ out SR_BAND10 1 ∧ out SR_BAND10 1 ≤ l8.MAX_VALID_TH := by
  obtain ⟨out, h⟩ := compute_toa_refl_success l8 demoLn demoReflLines
    demoThLines demoQa 1 3 1 "OLI_TIRS" demoSband (fun _ => ⟨_, rfl⟩)
    (fun _ => ⟨_, rfl⟩)
  have ht : thermalScaled l8 demoLn k1b10 k2b10 30000 = 88072 / 29 := by
    norm_num [thermalScaled, l8, demoLn, k2b10]
  have key := (thermal_rounds_half_up l8 demoLn demoReflLines demoThLines
    demoQa 1 3 1 "OLI_TIRS" demoSband out (fun _ => 30000) (fun _ => 30000) 1
    (by decide) (by decide) (by decide) rfl rfl h (by decide) (by decide)).1
    (by rw [ht]; norm_num [l8]) (by rw [ht]; norm_num [l8])
  exact ⟨out, h, key⟩

/-! ### The Lambertian correction -/

/-- C2: forward/inverse consistency of the Lambertian correction over exact
rational arithmetic. For `tgo != 0`, `ttatmg != 0` and `1 - satm*r != 0`, the
first-pass inversion applied to the final-pass forward model
`(r*ttatmg / (1 - satm*r) + roatm) * tgo` returns exactly `r`. -/
theorem lambert_round_trip (r tgo roatm ttatmg satm : ℚ) (h1 : tgo ≠ 0)
    (h2 : ttatmg ≠ 0) (h3 : 1 - satm * r ≠ 0) :
    lambertInverse tgo roatm ttatmg satm
      (lambertForward tgo roatm ttatmg satm r) = r := by
  unfold lambertInverse lambertForward
  simp only []
  have hx : ((r * ttatmg / (1 - satm * r) + roatm) * tgo / tgo - roatm) / ttatmg
      = r / (1 - satm * r) := by
    field_simp
    ring
  rw [hx]
  have hden : 1 + satm * (r / (1 - satm * r)) = 1 / (1 - satm * r) := by
    field_simp
  rw [hden]
  field_simp

/-- Witness for C2: `r = 0.3` with `tgo = 0.9`, `roatm = 0.05`,
`ttatmg = 0.8`, `satm = 0.1`. -/
theorem lambert_round_trip_witness :
    lambertInverse (9 / 10) (1 / 20) (4 / 5) (1 / 10)
      (lambertForward (9 / 10) (1 / 20) (4 / 5) (1 / 10) (3 / 10)) = 3 / 10 :=
  lambert_round_trip (3 / 10) (9 / 10) (1 / 20) (4 / 5) (1 / 10) (by norm_num)
    (by norm_num) (by norm_num)

/-! ### Loops that can abort -/

theorem foldOpt_preserves {σ β : Type} (f : σ → β → Option σ)
    (R : σ → σ → Prop) (hrefl : ∀ s, R s s)
    (htrans : ∀ a b c, R a b → R b c → R a c) (l : List β)
    (hstep : ∀ x, x ∈ l → ∀ s s1, f s x = some s1 → R s s1) :
    ∀ s out, foldOpt f l s = some out → R s out := by
  induction l with
  | nil =>
    intro s out h
    simp only [foldOpt, Option.some.injEq] at h
    rw [← h]; exact hrefl s
  | cons x xs ih =>
    intro s out h
    simp only [foldOpt] at h
    cases hx : f s x with
    | none => rw [hx] at h; cases h
    | some s1 =>
      rw [hx] at h
      exact htrans _ _ _ (hstep x (List.mem_cons_self _ _) s s1 hx)
        (ih (fun y hy => hstep y (List.mem_cons_of_mem _ hy)) s1 out h)

theorem foldOpt_step_of_mem {σ β : Type} (f : σ → β → Option σ) (x0 : β)
    (l : List β) (hmem : x0 ∈ l) :
    ∀ s out, foldOpt f l s = some out → ∃ s0 s1, f s0 x0 = some s1 := by
  induction l with
  | nil => cases hmem
  | cons x xs ih =>
    intro s out h
    simp only [foldOpt] at h
    cases hx : f s x with
    | none => rw [hx] at h; cases h
    | some s1 =>
      rw [hx] at h
      rcases List.mem_cons.mp hmem with h1 | h1
      · subst h1; exact ⟨s, s1, hx⟩
      · exact ih h1 s1 out h

/-- A component `π` of the state that iteration `x0` maps through `F` and
that every other iteration of a duplicate-free loop leaves alone is `F` of
its entry value at the end. -/
theorem foldOpt_component {σ β α : Type} (f : σ → β → Option σ) (π : σ → α)
    (F : α → α) (x0 : β)
    (hF : ∀ s s1, f s x0 = some s1 → π s1 = F (π s))
    (hother : ∀ x, x ≠ x0 → ∀ s s1, f s x = some s1 → π s1 = π s)
    (l : List β) (hnodup : l.Nodup) (hmem : x0 ∈ l) :
    ∀ s out, foldOpt f l s = some out → π out = F (π s) := by
  induction l with
  | nil => cases hmem
  | cons x xs ih =>
    intro s out h
    simp only [foldOpt] at h
    cases hx : f s x with
    | none => rw [hx] at h; cases h
    | some s1 =>
      rw [hx] at h
      have hnd := List.nodup_cons.mp hnodup
      by_cases hxe : x = x0
      · subst hxe
        have hrest : π out = π s1 := by
          refine foldOpt_preserves f (fun a b => π b = π a) (fun _ => rfl)
            (fun a b c hab hbc => hbc.trans hab) xs ?_ s1 out h
          intro y hy a a1 hya
          exact hother y (fun hyx => hnd.1 (hyx ▸ hy)) a a1 hya
        rw [hrest]; exact hF s s1 hx
      · have hin : x0 ∈ xs := by
          rcases List.mem_cons.mp hmem with h1 | h1
          · exact absurd h1.symm hxe
          · exact h1
        rw [ih hnd.2 hin s1 out h, hother x hxe s s1 hx]

theorem foldOpt_success {σ β : Type} (f : σ → β → Option σ)
    (hf : ∀ s x, ∃ s1, f s x = some s1) (l : List β) :
    ∀ s, ∃ out, foldOpt f l s = some out := by
  induction l with
  | nil => intro s; exact ⟨s, rfl⟩
  | cons x xs ih =>
    intro s
    obtain ⟨s1, h1⟩ := hf s x
    obtain ⟨out, hout⟩ := ih s1
    exact ⟨out, by simp only [foldOpt, h1, hout]⟩

/-! ### The constant-AOT pass -/

theorem setPixel_apply (bands : Nat → Nat → Int) (ib i : Nat) (v : Int)
    (b j : Nat) :
    setPixel bands ib i v b j = if b = ib ∧ j = i then v else bands b j := by
  unfold setPixel
  by_cases hb : b = ib
  · subst hb
    rw [Function.update_same]
    by_cases hj : j = i
    · subst hj; simp
    · rw [Function.update_noteq hj]; simp [hj]
  · rw [Function.update_noteq hb]; simp [hb]

theorem constAotPixel_sband (c : Consts) (qaband : Nat → Nat) (ib : Nat)
    (p : AtmCorr) (s : FirstPass) (i b j : Nat) :
    (constAotPixel c qaband ib p s i).sband b j
      = if qaband i ≠ 1 ∧ b = ib ∧ j = i then
          toInt16 (truncToInt
            (lambertInverse p.tgo p.roatm p.ttatmg p.satm
              ((s.sband ib i : ℚ) * c.SCALE_FACTOR) * c.MULT_FACTOR))
        else s.sband b j := by
  unfold constAotPixel
  by_cases hq : qaband i ≠ 1
  · rw [if_pos hq]
    simp only []
    rw [setPixel_apply]
    simp [hq]
  · rw [if_neg hq]
    simp [hq]

/-- The value the constant-AOT pass writes back for a TOA value of a band
with parameters `p`. -/
theorem constAotPixels_sband (c : Consts) (qaband : Nat → Nat) (ib : Nat)
    (p : AtmCorr) (n : Nat) (st : FirstPass) (b j : Nat) :
    ((List.range n).foldl (constAotPixel c qaband ib p) st).sband b j
      = if b = ib ∧ j < n ∧ qaband j ≠ 1 then
          toInt16 (truncToInt
            (lambertInverse p.tgo p.roatm p.ttatmg p.satm
              ((st.sband ib j : ℚ) * c.SCALE_FACTOR) * c.MULT_FACTOR))
        else st.sband b j := by
  induction n generalizing b j with
  | zero => simp
  | succ n ih =>
    rw [List.range_succ, List.foldl_append]
    simp only [List.foldl_cons, List.foldl_nil]
    have hcur : ((List.range n).foldl (constAotPixel c qaband ib p) st).sband ib n
        = st.sband ib n := by
      rw [ih]; simp
    rw [constAotPixel_sband, hcur, ih]
    by_cases hj : j = n
    · subst hj
      by_cases hq : qaband j ≠ 1
      · by_cases hb : b = ib
        · simp [hq, hb]
        · simp [hb]
      · simp [hq]
    · have h1 : (j < n + 1) ↔ (j < n) := by omega
      simp [hj, h1]

theorem constAotBand_some (c : Consts)
    (atmcorlamb2 : ℚ → Nat → ℚ → ℚ → ℚ → ℚ → Option AtmCorr)
    (qaband : Nat → Nat) (npix : Nat) (raot550nm pres uoz uwv : ℚ)
    (st s1 : FirstPass) (ib : Nat)
    (h : constAotBand c atmcorlamb2 qaband npix raot550nm pres uoz uwv st ib
      = some s1) :
    ∃ p, atmcorlamb2 raot550nm ib pres uoz uwv 0 = some p ∧
      ∀ b j, s1.sband b j
        = if b = ib ∧ j < npix ∧ qaband j ≠ 1 then
            toInt16 (truncToInt
              (lambertInverse p.tgo p.roatm p.ttatmg p.satm
                ((st.sband ib j : ℚ) * c.SCALE_FACTOR) * c.MULT_FACTOR))
          else st.sband b j := by
  unfold constAotBand at h
  cases hp : atmcorlamb2 raot550nm ib pres uoz uwv 0 with
  | none => rw [hp] at h; cases h
  | some p =>
    rw [hp] at h
    simp only [Option.some.injEq] at h
    refine ⟨p, rfl, ?_⟩
    intro b j
    rw [← h, constAotPixels_sband]

theorem constAotPass_success (c : Consts)
    (atmcorlamb2 : ℚ → Nat → ℚ → ℚ → ℚ → ℚ → Option AtmCorr)
    (qaband : Nat → Nat) (npix : Nat) (raot550nm pres uoz uwv : ℚ)
    (st : FirstPass)
    (hatm : ∀ ib, ∃ p, atmcorlamb2 raot550nm ib pres uoz uwv 0 = some p) :
    ∃ out, constAotPass c atmcorlamb2 qaband npix raot550nm pres uoz uwv st
      = some out := by
  unfold constAotPass
  refine foldOpt_success _ ?_ _ st
  intro s ib
  obtain ⟨p, hp⟩ := hatm ib
  unfold constAotBand
  rw [hp]
  exact ⟨_, rfl⟩

/-- C9: in the constant-AOT pass, for every band `ib` in 0..6 and every
non-fill pixel, the surface reflectance computed from
`rotoa = sband[ib][i] * SCALE_FACTOR` is `x / (1 + satm*x)` with
`x = ((rotoa / tgo) - roatm) / ttatmg`, where `tgo, roatm, ttatmg, satm` are
the values `atmcorlamb2` returned for the band, and the value written back is
that reflectance times `MULT_FACTOR` converted to an integer. -/
theorem const_aot_pass_inverts (c : Consts)
    (atmcorlamb2 : ℚ → Nat → ℚ → ℚ → ℚ → ℚ → Option AtmCorr)
    (qaband : Nat → Nat) (npix : Nat) (raot550nm pres uoz uwv : ℚ)
    (st out : FirstPass) (ib : Nat)
    (hrun : constAotPass c atmcorlamb2 qaband npix raot550nm pres uoz uwv st
      = some out)
    (hib : ib ≤ 6) :
    ∃ p, atmcorlamb2 raot550nm ib pres uoz uwv 0 = some p ∧
      ∀ i, i < npix → qaband i ≠ 1 →
        out.sband ib i
          = toInt16 (truncToInt
              ((((st.sband ib i : ℚ) * c.SCALE_FACTOR / p.tgo - p.roatm)
                  / p.ttatmg)
                / (1 + p.satm *
                    (((st.sband ib i : ℚ) * c.SCALE_FACTOR / p.tgo - p.roatm)
                      / p.ttatmg))
                * c.MULT_FACTOR)) := by
  unfold constAotPass at hrun
  have hmem : ib ∈ List.range (SR_BAND7 + 1) := by
    rw [List.mem_range]; unfold SR_BAND7; omega
  obtain ⟨s0, s1, hs⟩ := foldOpt_step_of_mem _ ib _ hmem st out hrun
  obtain ⟨p, hp, -⟩ := constAotBand_some c atmcorlamb2 qaband npix raot550nm
    pres uoz uwv s0 s1 ib hs
  refine ⟨p, hp, ?_⟩
  have hcomp := foldOpt_component
    (constAotBand c atmcorlamb2 qaband npix raot550nm pres uoz uwv)
    (fun s : FirstPass => s.sband ib)
    (fun band j =>
      if j < npix ∧ qaband j ≠ 1 then
        toInt16 (truncToInt
          (lambertInverse p.tgo p.roatm p.ttatmg p.satm
            ((band j : ℚ) * c.SCALE_FACTOR) * c.MULT_FACTOR))
      else band j)
    ib ?_ ?_ _ (List.nodup_range _) hmem st out hrun
  · intro i hi hq
    have := congrFun hcomp i
    simp only [] at this
    rw [this, if_pos ⟨hi, hq⟩]
    rfl
  · intro s s1 hs1
    obtain ⟨p', hp', hval⟩ := constAotBand_some c atmcorlamb2 qaband npix
      raot550nm pres uoz uwv s s1 ib hs1
    rw [hp] at hp'
    injection hp' with hp'
    subst hp'
    funext j
    show s1.sband ib j = _
    rw [hval]
    simp
  · intro x hx s s1 hs1
    obtain ⟨p', -, hval⟩ := constAotBand_some c atmcorlamb2 qaband npix
      raot550nm pres uoz uwv s s1 x hs1
    funext j
    show s1.sband ib j = s.sband ib j
    rw [hval]
    have : ¬ (ib = x ∧ j < npix ∧ qaband j ≠ 1) := fun h => hx h.1.symm
    rw [if_neg this]

/-- Witness for C9: band 1, pixel 1 of the three-pixel scene with TOA value
1000 and band parameters `tgo = 0.9`, `roatm = 0.05`, `ttatmg = 0.8`,
`satm = 0.1`: the value written back is 758. -/
theorem const_aot_pass_inverts_witness :
    ∃ out, constAotPass l8 demoAtmcorlamb2 demoQa 3 (1 / 10) 1013 (3 / 10) 1
        demoFirstPass = some out ∧ out.sband 0 1 = 758 := by
  obtain ⟨out, h⟩ := constAotPass_success l8 demoAtmcorlamb2 demoQa 3 (1 / 10)
    1013 (3 / 10) 1 demoFirstPass (fun _ => ⟨_, rfl⟩)
  obtain ⟨p, hp, hval⟩ := const_aot_pass_inverts l8 demoAtmcorlamb2 demoQa 3
    (1 / 10) 1013 (3 / 10) 1 demoFirstPass out 0 h (by decide)
  refine ⟨out, h, ?_⟩
  have hp' : p = ⟨1 / 10, 9 / 10, 1 / 20, 4 / 5, 1 / 10⟩ := by
    simp only [demoAtmcorlamb2, Option.some.injEq] at hp
    exact hp.symm
  rw [hval 1 (by decide) (by decide), hp']
  norm_num [demoFirstPass, l8, truncToInt, toInt16]

/-! ### The final per-pixel pass -/

/-- An iteration of the final pixel loop writes the band set at its own
pixel only, and not at all when that pixel is fill. -/
theorem finalPixel_other_pixel (c : Consts)
    (atmcorlamb2 : ℚ → Nat → ℚ → ℚ → ℚ → ℚ → Option AtmCorr)
    (qaband : Nat → Nat) (inp : FinalInputs) (ib : Nat) (st st1 : FinalPass)
    (i' b i : Nat) (hne : qaband i' = 1 ∨ i ≠ i')
    (h : finalPixel c atmcorlamb2 qaband inp ib st i' = some st1) :
    st1.sband b i = st.sband b i := by
  unfold finalPixel at h
  by_cases hq' : qaband i' ≠ 1
  · have hi : i ≠ i' := by
      rcases hne with h1 | h1
      · exact absurd h1 hq'
      · exact h1
    rw [if_pos hq'] at h
    dsimp only at h
    repeat' split at h
    all_goals first
      | (injection h with h; subst h; first | rfl | simp [setPixel_apply, hi])
      | cases h
  · rw [if_neg hq'] at h
    injection h with h
    rw [h]

theorem finalPass_fill (c : Consts)
    (atmcorlamb2 : ℚ → Nat → ℚ → ℚ → ℚ → ℚ → Option AtmCorr)
    (qaband : Nat → Nat) (npix : Nat) (inp : FinalInputs) (st out : FinalPass)
    (b i : Nat) (hq : qaband i = 1)
    (h : finalPass c atmcorlamb2 qaband npix inp st = some out) :
    out.sband b i = st.sband b i := by
  unfold finalPass at h
  refine foldOpt_preserves _ (fun a b' : FinalPass => b'.sband b i = a.sband b i)
    (fun _ => rfl) (fun _ _ _ hab hbc => hbc.trans hab) _ ?_ st out h
  intro ib _ s s1 hs
  refine foldOpt_preserves _ (fun a b' : FinalPass => b'.sband b i = a.sband b i)
    (fun _ => rfl) (fun _ _ _ hab hbc => hbc.trans hab) _ ?_ s s1 hs
  intro i' _ a a1 ha
  by_cases hii : i = i'
  · subst hii
    exact finalPixel_other_pixel c atmcorlamb2 qaband inp ib a a1 i b i
      (Or.inl hq) ha
  · exact finalPixel_other_pixel c atmcorlamb2 qaband inp ib a a1 i' b i
      (Or.inr hii) ha

theorem constAotPass_fill (c : Consts)
    (atmcorlamb2 : ℚ → Nat → ℚ → ℚ → ℚ → ℚ → Option AtmCorr)
    (qaband : Nat → Nat) (npix : Nat) (raot550nm pres uoz uwv : ℚ)
    (st out : FirstPass) (b i : Nat) (hq : qaband i = 1)
    (h : constAotPass c atmcorlamb2 qaband npix raot550nm pres uoz uwv st
      = some out) :
    out.sband b i = st.sband b i := by
  unfold constAotPass at h
  refine foldOpt_preserves _ (fun a b' : FirstPass => b'.sband b i = a.sband b i)
    (fun _ => rfl) (fun _ _ _ hab hbc => hbc.trans hab) _ ?_ st out h
  intro ib _ s s1 hs
  obtain ⟨p, -, hval⟩ := constAotBand_some c atmcorlamb2 qaband npix raot550nm
    pres uoz uwv s s1 ib hs
  show s1.sband b i = s.sband b i
  rw [hval]
  have : ¬ (b = ib ∧ i < npix ∧ qaband i ≠ 1) := fun h => h.2.2 hq
  rw [if_neg this]

theorem finalPass_success (c : Consts)
    (atmcorlamb2 : ℚ → Nat → ℚ → ℚ → ℚ → ℚ → Option AtmCorr)
    (qaband : Nat → Nat) (npix : Nat) (inp : FinalInputs) (st : FinalPass)
    (hatm : ∀ a ib p o w r, ∃ x, atmcorlamb2 a ib p o w r = some x) :
    ∃ out, finalPass c atmcorlamb2 qaband npix inp st = some out := by
  unfold finalPass
  refine foldOpt_success _ ?_ _ st
  intro s ib
  refine foldOpt_success _ ?_ _ s
  intro a i
  unfold finalPixel
  dsimp only
  obtain ⟨r, hr⟩ := hatm (a.taero i) ib (inp.tp i) (inp.tozi i) (inp.twvi i)
    (lambertForward (inp.btgo ib) (inp.broatm ib) (inp.bttatmg ib)
      (inp.bsatm ib) ((a.sband ib i : ℚ) * c.SCALE_FACTOR))
  obtain ⟨r2, hr2⟩ := hatm (5 / 100) ib (inp.tp i) (inp.tozi i) (inp.twvi i)
    (lambertForward (inp.btgo ib) (inp.broatm ib) (inp.bttatmg ib)
      (inp.bsatm ib) ((a.sband ib i : ℚ) * c.SCALE_FACTOR))
  rw [hr, hr2]
  dsimp only
  split_ifs <;> exact ⟨_, rfl⟩

/-- C10: fill pixels are left unchanged by surface-reflectance processing.
For every pixel with `qaband[i] == 1` and every band, the band value after
the constant-AOT pass and after the final per-pixel pass (the only two passes
of `compute_sr_refl` that write `sband`; the mask, AOT and auxiliary arrays
the final pass receives are arbitrary) equals its value on entry, which is
`FILL_VALUE` when the entry bands were produced by `compute_toa_refl`. -/
theorem sr_passes_keep_fill_pixels (c : Consts)
    (atmcorlamb2 : ℚ → Nat → ℚ → ℚ → ℚ → ℚ → Option AtmCorr)
    (qaband : Nat → Nat) (nlines nsamps : Nat) (raot550nm pres uoz uwv : ℚ)
    (st st1 : FirstPass) (inp : FinalInputs) (taero : Nat → ℚ)
    (cloud : Nat → Nat) (st2 : FinalPass) (ib i : Nat)
    (h1 : constAotPass c atmcorlamb2 qaband (nlines * nsamps) raot550nm pres
      uoz uwv st = some st1)
    (h2 : finalPass c atmcorlamb2 qaband (nlines * nsamps) inp
      ⟨st1.sband, taero, cloud⟩ = some st2)
    (hq : qaband i = 1) :
    st1.sband ib i = st.sband ib i ∧ st2.sband ib i = st.sband ib i ∧
    ∀ (ln : ℚ → ℚ) (rd th : Nat → Option (Nat → Nat)) (xmus : ℚ)
      (instrument : String) (sband0 : Nat → Nat → Int),
      compute_toa_refl c ln rd th qaband nlines nsamps xmus instrument sband0
        = some st.sband →
      FitsInt16 c.FILL_VALUE → ib ≤ 6 → i < nlines * nsamps →
      st2.sband ib i = c.FILL_VALUE := by
  have e1 := constAotPass_fill c atmcorlamb2 qaband _ raot550nm pres uoz uwv st
    st1 ib i hq h1
  have e2 := finalPass_fill c atmcorlamb2 qaband _ inp _ st2 ib i hq h2
  have e3 : st2.sband ib i = st.sband ib i := e2.trans e1
  refine ⟨e1, e3, ?_⟩
  intro ln rd th xmus instrument sband0 htoa hfill hib hi
  rw [e3, compute_toa_refl_fill_refl c ln rd th qaband nlines nsamps xmus
    instrument sband0 st.sband ib i (by omega) htoa hi hq,
    toInt16_of_fits hfill]

/-- Witness for C10: the fill pixel 0 of the three-pixel scene, calibrated
by `compute_toa_refl`, keeps the fill value in band 1 through both passes. -/
theorem sr_passes_keep_fill_pixels_witness :
    ∃ out st1 st2,
      compute_toa_refl l8 demoLn demoReflLines demoThLines demoQa 1 3 1
        "OLI_TIRS" demoSband = some out ∧
      constAotPass l8 demoAtmcorlamb2 demoQa (1 * 3) (1 / 10) 1013 (3 / 10) 1
        { demoFirstPass with sband := out } = some st1 ∧
      finalPass l8 demoAtmcorlamb2 demoQa (1 * 3) demoFinalInputs
        ⟨st1.sband, fun _ => 1 / 10, fun _ => 0⟩ = some st2 ∧
      st1.sband 0 0 = out 0 0 ∧ st2.sband 0 0 = out 0 0 ∧
      st2.sband 0 0 = -9999 := by
  obtain ⟨out, h⟩ := compute_toa_refl_success l8 demoLn demoReflLines
    demoThLines demoQa 1 3 1 "OLI_TIRS" demoSband (fun _ => ⟨_, rfl⟩)
    (fun _ => ⟨_, rfl⟩)
  obtain ⟨st1, h1⟩ := constAotPass_success l8 demoAtmcorlamb2 demoQa (1 * 3)
    (1 / 10) 1013 (3 / 10) 1 { demoFirstPass with sband := out }
    (fun _ => ⟨_, rfl⟩)
  obtain ⟨st2, h2⟩ := finalPass_success l8 demoAtmcorlamb2 demoQa (1 * 3)
    demoFinalInputs ⟨st1.sband, fun _ => 1 / 10, fun _ => 0⟩
    (fun _ _ _ _ _ _ => ⟨_, rfl⟩)
  have key := sr_passes_keep_fill_pixels l8 demoAtmcorlamb2 demoQa 1 3 (1 / 10)
    1013 (3 / 10) 1 { demoFirstPass with sband := out } st1 demoFinalInputs
    (fun _ => 1 / 10) (fun _ => 0) st2 0 0 h1 h2 (by decide)
  exact ⟨out, st1, st2, h, h1, h2, key.1, key.2.1,
    key.2.2 demoLn demoReflLines demoThLines 1 "OLI_TIRS" demoSband h
      (by decide) (by decide) (by decide)⟩

/-! ### Dilation passes -/

theorem mem_windowRange (center r : Nat) (k : Int) :
    k ∈ windowRange center r ↔
      (center : Int) - (r : Int) ≤ k ∧ k ≤ (center : Int) + (r : Int) := by
  unfold windowRange
  rw [List.mem_map]
  constructor
  · rintro ⟨d, hd, rfl⟩
    rw [List.mem_range] at hd
    omega
  · intro h
    refine ⟨(k - center + r).toNat, ?_, ?_⟩
    · rw [List.mem_range]; omega
    · omega

theorem DilInv_congr (tgt : Nat → Nat → Bool) (add : Nat) (c0 : Nat → Nat)
    (S S' : Nat → Prop) (c : Nat → Nat) (h : ∀ p, S p ↔ S' p)
    (hinv : DilInv tgt add c0 S c) : DilInv tgt add c0 S' c := by
  intro p
  rw [← h p]
  exact hinv p

/-- A loop whose every iteration extends the set of treated pixels by `T x`
treats, in the end, the union of the `T x`. -/
theorem foldl_DilInv {β : Type} (tgt : Nat → Nat → Bool) (add : Nat)
    (c0 : Nat → Nat) (f : (Nat → Nat) → β → (Nat → Nat))
    (T : β → Nat → Prop)
    (hstep : ∀ S c x, DilInv tgt add c0 S c →
      DilInv tgt add c0 (fun p => S p ∨ T x p) (f c x))
    (l : List β) :
    ∀ S c, DilInv tgt add c0 S c →
      DilInv tgt add c0 (fun p => S p ∨ ∃ x, x ∈ l ∧ T x p) (l.foldl f c) := by
  induction l with
  | nil =>
    intro S c h
    exact DilInv_congr tgt add c0 S _ c (fun p => by simp) h
  | cons x xs ih =>
    intro S c h
    rw [List.foldl_cons]
    refine DilInv_congr tgt add c0 _ _ _ ?_ (ih _ _ (hstep S c x h))
    intro p
    simp only [List.mem_cons]
    constructor
    · rintro (⟨h1 | h1⟩ | ⟨y, hy, hT⟩)
      · exact Or.inl h1
      · exact Or.inr ⟨x, Or.inl rfl, h1⟩
      · exact Or.inr ⟨y, Or.inr hy, hT⟩
    · rintro (h1 | ⟨y, rfl | hy, hT⟩)
      · exact Or.inl (Or.inl h1)
      · exact Or.inl (Or.inr hT)
      · exact Or.inr ⟨y, hy, hT⟩

theorem dilateCell_apply (nsamps : Nat) (tgt : Nat → Nat → Bool) (add : Nat)
    (k : Nat) (c : Nat → Nat) (l : Int) (hl0 : 0 ≤ l)
    (hl1 : l < (nsamps : Int)) (p : Nat) :
    dilateCell nsamps tgt add k c l p
      = if p = k * nsamps + l.toNat ∧
            tgt (k * nsamps + l.toNat) (c (k * nsamps + l.toNat)) = true
        then (c (k * nsamps + l.toNat) + add) % 256 else c p := by
  unfold dilateCell
  rw [if_neg (by omega)]
  by_cases ht : tgt (k * nsamps + l.toNat) (c (k * nsamps + l.toNat)) = true
  · rw [if_pos ht]
    by_cases hp : p = k * nsamps + l.toNat
    · rw [if_pos ⟨hp, ht⟩, hp, Function.update_same]
    · rw [if_neg (fun h => hp h.1), Function.update_noteq hp]
  · rw [if_neg ht, if_neg (fun h => ht h.2)]

theorem dilateCell_inv (nsamps : Nat) (tgt : Nat → Nat → Bool) (add : Nat)
    (c0 : Nat → Nat) (hbyte : ∀ p, c0 p < 256)
    (hadd : ∀ p v, v < 256 → tgt p v = true →
      v + add < 256 ∧ tgt p (v + add) = false)
    (k : Nat) (S : Nat → Prop) (c : Nat → Nat) (l : Int)
    (hinv : DilInv tgt add c0 S c) :
    DilInv tgt add c0
      (fun p => S p ∨ (0 ≤ l ∧ l < (nsamps : Int) ∧ p = k * nsamps + l.toNat))
      (dilateCell nsamps tgt add k c l) := by
  by_cases hl : l < 0 ∨ l ≥ (nsamps : Int)
  · have hc : dilateCell nsamps tgt add k c l = c := by
      unfold dilateCell
      rw [if_pos hl]
    rw [hc]
    refine DilInv_congr tgt add c0 S _ c (fun p => ?_) hinv
    constructor
    · exact Or.inl
    · rintro (h | ⟨h1, h2, -⟩)
      · exact h
      · omega
  · have hl0 : 0 ≤ l := by omega
    have hl1 : l < (nsamps : Int) := by omega
    intro p
    rw [dilateCell_apply nsamps tgt add k c l hl0 hl1 p]
    by_cases hp : p = k * nsamps + l.toNat
    · rw [← hp]
      by_cases ht0 : tgt p (c0 p) = true
      · by_cases hS : S p
        · have hc := (hinv p).1 ⟨hS, ht0⟩
          have hf : tgt p (c p) = false := by
            rw [hc]; exact (hadd p _ (hbyte p) ht0).2
          have hnot : ¬ (p = p ∧ tgt p (c p) = true) := by
            rw [hf]; simp
          rw [if_neg hnot]
          exact ⟨fun _ => hc, fun hn => absurd ⟨Or.inl hS, ht0⟩ hn⟩
        · have hc := (hinv p).2 (fun h => hS h.1)
          have ht : tgt p (c p) = true := by rw [hc]; exact ht0
          rw [if_pos ⟨rfl, ht⟩, hc]
          have hlt := (hadd p _ (hbyte p) ht0).1
          exact ⟨fun _ => Nat.mod_eq_of_lt hlt,
            fun hn => absurd ⟨Or.inr ⟨hl0, hl1, rfl⟩, ht0⟩ hn⟩
      · have hc := (hinv p).2 (fun h => ht0 h.2)
        have hnot : ¬ (p = p ∧ tgt p (c p) = true) := by
          rw [hc]; exact fun h => ht0 h.2
        rw [if_neg hnot]
        exact ⟨fun h => absurd h.2 ht0, fun _ => hc⟩
    · rw [if_neg (fun h => hp h.1)]
      constructor
      · rintro ⟨h1 | ⟨-, -, h3⟩, h2⟩
        · exact (hinv p).1 ⟨h1, h2⟩
        · exact absurd h3 hp
      · intro hn
        exact (hinv p).2 (fun h => hn ⟨Or.inl h.1, h.2⟩)

theorem dilateLine_inv (nlines nsamps : Nat) (tgt : Nat → Nat → Bool)
    (add r : Nat) (c0 : Nat → Nat) (hbyte : ∀ p, c0 p < 256)
    (hadd : ∀ p v, v < 256 → tgt p v = true →
      v + add < 256 ∧ tgt p (v + add) = false)
    (j : Nat) (S : Nat → Prop) (c : Nat → Nat) (k : Int)
    (hinv : DilInv tgt add c0 S c) :
    DilInv tgt add c0
      (fun p => S p ∨ (0 ≤ k ∧ k < (nlines : Int) ∧
        ∃ l, l ∈ windowRange j r ∧
          (0 ≤ l ∧ l < (nsamps : Int) ∧ p = k.toNat * nsamps + l.toNat)))
      (dilateLine nlines nsamps tgt add r j c k) := by
  unfold dilateLine
  by_cases hk : k < 0 ∨ k ≥ (nlines : Int)
  · rw [if_pos hk]
    refine DilInv_congr tgt add c0 S _ c (fun p => ?_) hinv
    constructor
    · exact Or.inl
    · rintro (h | ⟨h1, h2, -⟩)
      · exact h
      · omega
  · rw [if_neg hk]
    have h := foldl_DilInv tgt add c0 (dilateCell nsamps tgt add k.toNat)
      (fun l p => 0 ≤ l ∧ l < (nsamps : Int) ∧ p = k.toNat * nsamps + l.toNat)
      (fun S c l hi => dilateCell_inv nsamps tgt add c0 hbyte hadd k.toNat S c l hi)
      (windowRange j r) S c hinv
    refine DilInv_congr tgt add c0 _ _ _ (fun p => ?_) h
    constructor
    · rintro (h1 | h1)
      · exact Or.inl h1
      · exact Or.inr ⟨by omega, by omega, h1⟩
    · rintro (h1 | ⟨-, -, h1⟩)
      · exact Or.inl h1
      · exact Or.inr h1

theorem dilatePixel_inv (nlines nsamps : Nat) (src tgt : Nat → Nat → Bool)
    (add r : Nat) (c0 : Nat → Nat) (hbyte : ∀ p, c0 p < 256)
    (hadd : ∀ p v, v < 256 → tgt p v = true →
      v + add < 256 ∧ tgt p (v + add) = false)
    (hsrc : ∀ p v, v < 256 → tgt p v = true → src p (v + add) = src p v)
    (i : Nat) (S : Nat → Prop) (c : Nat → Nat) (j : Nat)
    (hinv : DilInv tgt add c0 S c) :
    DilInv tgt add c0
      (fun p => S p ∨ (src (i * nsamps + j) (c0 (i * nsamps + j)) = true ∧
        ∃ k, k ∈ windowRange i r ∧ (0 ≤ k ∧ k < (nlines : Int) ∧
          ∃ l, l ∈ windowRange j r ∧
            (0 ≤ l ∧ l < (nsamps : Int) ∧ p = k.toNat * nsamps + l.toNat))))
      (dilatePixel nlines nsamps src tgt add r i c j) := by
  have hcur : src (i * nsamps + j) (c (i * nsamps + j))
      = src (i * nsamps + j) (c0 (i * nsamps + j)) := by
    by_cases h : S (i * nsamps + j) ∧
        tgt (i * nsamps + j) (c0 (i * nsamps + j)) = true
    · rw [(hinv _).1 h]
      exact hsrc _ _ (hbyte _) h.2
    · rw [(hinv _).2 h]
  unfold dilatePixel
  dsimp only
  rw [hcur]
  by_cases hs : src (i * nsamps + j) (c0 (i * nsamps + j)) = true
  · rw [if_pos hs]
    have h := foldl_DilInv tgt add c0 (dilateLine nlines nsamps tgt add r j)
      (fun k p => 0 ≤ k ∧ k < (nlines : Int) ∧
        ∃ l, l ∈ windowRange j r ∧
          (0 ≤ l ∧ l < (nsamps : Int) ∧ p = k.toNat * nsamps + l.toNat))
      (fun S c k hi =>
        dilateLine_inv nlines nsamps tgt add r c0 hbyte hadd j S c k hi)
      (windowRange i r) S c hinv
    refine DilInv_congr tgt add c0 _ _ _ (fun p => ?_) h
    constructor
    · rintro (h1 | h1)
      · exact Or.inl h1
      · exact Or.inr ⟨hs, h1⟩
    · rintro (h1 | ⟨-, h1⟩)
      · exact Or.inl h1
      · exact Or.inr h1
  · rw [if_neg hs]
    refine DilInv_congr tgt add c0 S _ c (fun p => ?_) hinv
    constructor
    · exact Or.inl
    · rintro (h | ⟨h1, -⟩)
      · exact h
      · exact absurd h1 hs

theorem reached_iff (nlines nsamps : Nat) (src : Nat → Nat → Bool) (r : Nat)
    (c0 : Nat → Nat) (p : Nat) :
    (∃ i, i ∈ List.range nlines ∧ ∃ j, j ∈ List.range nsamps ∧
      (src (i * nsamps + j) (c0 (i * nsamps + j)) = true ∧
        ∃ k, k ∈ windowRange i r ∧ (0 ≤ k ∧ k < (nlines : Int) ∧
          ∃ l, l ∈ windowRange j r ∧
            (0 ≤ l ∧ l < (nsamps : Int) ∧ p = k.toNat * nsamps + l.toNat))))
    ↔ Reached nlines nsamps src r c0 p := by
  unfold Reached
  constructor
  · rintro ⟨i, hi, j, hj, hs, k, hk, hk0, hk1, l, hl, hl0, hl1, hp⟩
    rw [List.mem_range] at hi hj
    rw [mem_windowRange] at hk hl
    exact ⟨i, hi, j, hj, hs, k.toNat, by omega, l.toNat, by omega, hp,
      by omega, by omega, by omega, by omega⟩
  · rintro ⟨i, hi, j, hj, hs, k, hk, l, hl, hp, h1, h2, h3, h4⟩
    refine ⟨i, List.mem_range.mpr hi, j, List.mem_range.mpr hj, hs, (k : Int),
      ?_, by omega, by omega, (l : Int), ?_, by omega, by omega, ?_⟩
    · rw [mem_windowRange]; omega
    · rw [mem_windowRange]; omega
    · simpa using hp

/-- What a dilation pass computes: a pixel that passes `tgt` in the entry
mask and is reached from a pixel that passes `src` receives `add`; every
other pixel keeps its byte. -/
theorem dilatePass_spec (nlines nsamps : Nat) (src tgt : Nat → Nat → Bool)
    (add r : Nat) (c0 : Nat → Nat) (hbyte : ∀ p, c0 p < 256)
    (hadd : ∀ p v, v < 256 → tgt p v = true →
      v + add < 256 ∧ tgt p (v + add) = false)
    (hsrc : ∀ p v, v < 256 → tgt p v = true → src p (v + add) = src p v) :
    DilInv tgt add c0 (Reached nlines nsamps src r c0)
      (dilatePass nlines nsamps src tgt add r c0) := by
  have h0 : DilInv tgt add c0 (fun _ => False) c0 := by
    intro p
    exact ⟨fun h => absurd h.1 id, fun _ => rfl⟩
  have hrow : ∀ S c i, DilInv tgt add c0 S c →
      DilInv tgt add c0
        (fun p => S p ∨ ∃ j, j ∈ List.range nsamps ∧
          (src (i * nsamps + j) (c0 (i * nsamps + j)) = true ∧
            ∃ k, k ∈ windowRange i r ∧ (0 ≤ k ∧ k < (nlines : Int) ∧
              ∃ l, l ∈ windowRange j r ∧
                (0 ≤ l ∧ l < (nsamps : Int) ∧
                  p = k.toNat * nsamps + l.toNat))))
        ((List.range nsamps).foldl (dilatePixel nlines nsamps src tgt add r i)
          c) := by
    intro S c i hi
    exact foldl_DilInv tgt add c0 (dilatePixel nlines nsamps src tgt add r i)
      (fun j p => src (i * nsamps + j) (c0 (i * nsamps + j)) = true ∧
        ∃ k, k ∈ windowRange i r ∧ (0 ≤ k ∧ k < (nlines : Int) ∧
          ∃ l, l ∈ windowRange j r ∧
            (0 ≤ l ∧ l < (nsamps : Int) ∧ p = k.toNat * nsamps + l.toNat)))
      (fun S c j h =>
        dilatePixel_inv nlines nsamps src tgt add r c0 hbyte hadd hsrc i S c j h)
      (List.range nsamps) S c hi
  have h := foldl_DilInv tgt add c0
    (fun cloud i =>
      (List.range nsamps).foldl (dilatePixel nlines nsamps src tgt add r i)
        cloud)
    (fun i p => ∃ j, j ∈ List.range nsamps ∧
      (src (i * nsamps + j) (c0 (i * nsamps + j)) = true ∧
        ∃ k, k ∈ windowRange i r ∧ (0 ≤ k ∧ k < (nlines : Int) ∧
          ∃ l, l ∈ windowRange j r ∧
            (0 ≤ l ∧ l < (nsamps : Int) ∧ p = k.toNat * nsamps + l.toNat))))
    hrow (List.range nlines) (fun _ => False) c0 h0
  unfold dilatePass
  refine DilInv_congr tgt add c0 _ _ _ (fun p => ?_) h
  rw [← reached_iff]
  simp

/-! ### The adjacent-cloud pass -/

theorem pixel_index_decomp (nlines nsamps p : Nat) (hp : p < nlines * nsamps) :
    0 < nsamps ∧ lineOf nsamps p < nlines ∧ sampOf nsamps p < nsamps ∧
      p = lineOf nsamps p * nsamps + sampOf nsamps p := by
  have hpos : 0 < nsamps := by
    rcases Nat.eq_zero_or_pos nsamps with h | h
    · subst h; simp at hp
    · exact h
  unfold lineOf sampOf
  refine ⟨hpos, ?_, Nat.mod_lt _ hpos, ?_⟩
  · exact Nat.div_lt_of_lt_mul (by rw [Nat.mul_comm]; exact hp)
  · rw [Nat.mul_comm]; exact (Nat.div_add_mod p nsamps).symm

theorem pixel_index_compose (nlines nsamps k l : Nat) (hk : k < nlines)
    (hl : l < nsamps) :
    k * nsamps + l < nlines * nsamps ∧ lineOf nsamps (k * nsamps + l) = k ∧
      sampOf nsamps (k * nsamps + l) = l := by
  have hpos : 0 < nsamps := by omega
  refine ⟨?_, ?_, ?_⟩
  · have h1 : (k + 1) * nsamps ≤ nlines * nsamps := Nat.mul_le_mul_right _ hk
    have h2 : (k + 1) * nsamps = k * nsamps + nsamps := by ring
    omega
  · unfold lineOf
    rw [Nat.add_comm, Nat.add_mul_div_right _ _ hpos, Nat.div_eq_of_lt hl]
    simp
  · unfold sampOf
    rw [Nat.add_comm, Nat.add_mul_mod_self_right, Nat.mod_eq_of_lt hl]

theorem inWindow_iff (nsamps r p q : Nat) :
    InWindow nsamps r p q ↔
      lineOf nsamps q ≤ lineOf nsamps p + r ∧
      lineOf nsamps p ≤ lineOf nsamps q + r ∧
      sampOf nsamps q ≤ sampOf nsamps p + r ∧
      sampOf nsamps p ≤ sampOf nsamps q + r := by
  unfold InWindow
  rw [abs_le, abs_le]
  omega

theorem reached_iff_window (nlines nsamps : Nat) (src : Nat → Nat → Bool)
    (r : Nat) (c0 : Nat → Nat) (p : Nat) :
    Reached nlines nsamps src r c0 p ↔
      p < nlines * nsamps ∧ ∃ q, q < nlines * nsamps ∧ src q (c0 q) = true ∧
        InWindow nsamps r p q := by
  unfold Reached
  constructor
  · rintro ⟨i, hi, j, hj, hs, k, hk, l, hl, hp, h1, h2, h3, h4⟩
    obtain ⟨hq1, hq2, hq3⟩ := pixel_index_compose nlines nsamps i j hi hj
    obtain ⟨hp1, hp2, hp3⟩ := pixel_index_compose nlines nsamps k l hk hl
    subst hp
    refine ⟨hp1, i * nsamps + j, hq1, hs, ?_⟩
    rw [inWindow_iff, hq2, hq3, hp2, hp3]
    exact ⟨h1, h2, h3, h4⟩
  · rintro ⟨hp, q, hq, hs, hw⟩
    obtain ⟨-, hq1, hq2, hq3⟩ := pixel_index_decomp nlines nsamps q hq
    obtain ⟨-, hp1, hp2, hp3⟩ := pixel_index_decomp nlines nsamps p hp
    rw [inWindow_iff] at hw
    refine ⟨lineOf nsamps q, hq1, sampOf nsamps q, hq2, ?_, lineOf nsamps p, hp1,
      sampOf nsamps p, hp2, hp3, hw.1, hw.2.1, hw.2.2.1, hw.2.2.2⟩
    rw [← hq3]; exact hs

set_option maxRecDepth 100000 in
theorem adj_byte_facts : ∀ v, v < 256 → adjTarget 0 v = true →
    v + 4 < 256 ∧ adjTarget 0 (v + 4) = false ∧
    adjSource 0 (v + 4) = adjSource 0 v ∧ btest (v + 4) CLDA_QA = true ∧
    ∀ b, b < 8 → b ≠ CLDA_QA → btest (v + 4) b = btest v b := by
  decide

theorem adj_other_bits (v : Nat) (hv : v < 256) (ht : adjTarget 0 v = true)
    (b : Nat) (hb : b ≠ CLDA_QA) : btest (v + 4) b = btest v b := by
  obtain ⟨h1, -, -, -, h5⟩ := adj_byte_facts v hv ht
  by_cases hb8 : b < 8
  · exact h5 b hb8 hb
  · have hpow : 256 ≤ 2 ^ b := by
      have : 2 ^ 8 ≤ 2 ^ b := Nat.pow_le_pow_right (by decide) (by omega)
      simpa using this
    unfold btest
    rw [Nat.testBit_lt_two_pow (by omega), Nat.testBit_lt_two_pow (by omega)]

/-- The mask after the adjacent-cloud pass: 4 is added to the byte of every
pixel that carries none of the cloud, cirrus and adjacent bits and lies in
the window of a cloud or cirrus pixel; every other byte is unchanged. -/
theorem adjacencyPass_spec (nlines nsamps : Nat) (cloud : Nat → Nat)
    (hbyte : ∀ p, cloud p < 256) :
    DilInv adjTarget 4 cloud (Reached nlines nsamps adjSource 5 cloud)
      (adjacencyPass nlines nsamps cloud) := by
  unfold adjacencyPass
  refine dilatePass_spec nlines nsamps adjSource adjTarget 4 5 cloud hbyte ?_ ?_
  · intro p v hv ht
    obtain ⟨h1, h2, -⟩ := adj_byte_facts v hv ht
    exact ⟨h1, h2⟩
  · intro p v hv ht
    exact (adj_byte_facts v hv ht).2.2.1

/-- C3: adjacency dilation is exact. Starting from a mask of bytes in which
no raster pixel has the adjacent bit (value 4), after the adjacency pass a
raster pixel `p` has the adjacent bit if and only if it has neither the cloud
bit nor the cirrus bit and some raster pixel `q` carrying the cloud or cirrus
bit satisfies `|line(p)-line(q)| <= 5` and `|samp(p)-samp(q)| <= 5`; every
other bit of every pixel is unchanged; and a single isolated cloud or cirrus
pixel `q0` flags exactly the other pixels of its clipped 11x11 window. -/
theorem adjacency_dilation_exact (nlines nsamps : Nat) (cloud : Nat → Nat)
    (hbyte : ∀ p, cloud p < 256)
    (hclear : ∀ p, p < nlines * nsamps → btest (cloud p) CLDA_QA = false) :
    (∀ p, p < nlines * nsamps →
      (btest (adjacencyPass nlines nsamps cloud p) CLDA_QA = true ↔
        btest (cloud p) CLD_QA = false ∧ btest (cloud p) CIR_QA = false ∧
        ∃ q, q < nlines * nsamps ∧
          (btest (cloud q) CLD_QA = true ∨ btest (cloud q) CIR_QA = true) ∧
          InWindow nsamps 5 p q)) ∧
    (∀ p b, b ≠ CLDA_QA →
      btest (adjacencyPass nlines nsamps cloud p) b = btest (cloud p) b) ∧
    (∀ q0, q0 < nlines * nsamps →
      (∀ q, q < nlines * nsamps →
        ((btest (cloud q) CLD_QA = true ∨ btest (cloud q) CIR_QA = true) ↔
          q = q0)) →
      ∀ p, p < nlines * nsamps →
        (btest (adjacencyPass nlines nsamps cloud p) CLDA_QA = true ↔
          p ≠ q0 ∧ InWindow nsamps 5 p q0)) := by
  have hspec := adjacencyPass_spec nlines nsamps cloud hbyte
  have hsrc : ∀ q, adjSource q (cloud q) = true ↔
      (btest (cloud q) CLD_QA = true ∨ btest (cloud q) CIR_QA = true) := by
    intro q
    unfold adjSource
    rw [Bool.or_eq_true]
  have htgt : ∀ p, p < nlines * nsamps →
      (adjTarget p (cloud p) = true ↔
        btest (cloud p) CLD_QA = false ∧ btest (cloud p) CIR_QA = false) := by
    intro p hp
    unfold adjTarget
    rw [hclear p hp]
    simp
  have hmain : ∀ p, p < nlines * nsamps →
      (btest (adjacencyPass nlines nsamps cloud p) CLDA_QA = true ↔
        btest (cloud p) CLD_QA = false ∧ btest (cloud p) CIR_QA = false ∧
        ∃ q, q < nlines * nsamps ∧
          (btest (cloud q) CLD_QA = true ∨ btest (cloud q) CIR_QA = true) ∧
          InWindow nsamps 5 p q) := by
    intro p hp
    by_cases hcase : Reached nlines nsamps adjSource 5 cloud p ∧
        adjTarget p (cloud p) = true
    · rw [(hspec p).1 hcase]
      have hbit := (adj_byte_facts (cloud p) (hbyte p) hcase.2).2.2.2.1
      obtain ⟨-, q, hq, hs, hw⟩ := (reached_iff_window _ _ _ _ _ _).mp hcase.1
      have ht := (htgt p hp).mp hcase.2
      exact ⟨fun _ => ⟨ht.1, ht.2, q, hq, (hsrc q).mp hs, hw⟩, fun _ => hbit⟩
    · rw [(hspec p).2 hcase, hclear p hp]
      constructor
      · intro h; cases h
      · rintro ⟨h1, h2, q, hq, hs, hw⟩
        exact absurd ⟨(reached_iff_window _ _ _ _ _ _).mpr
          ⟨hp, q, hq, (hsrc q).mpr hs, hw⟩, (htgt p hp).mpr ⟨h1, h2⟩⟩ hcase
  refine ⟨hmain, ?_, ?_⟩
  · intro p b hb
    by_cases hcase : Reached nlines nsamps adjSource 5 cloud p ∧
        adjTarget p (cloud p) = true
    · rw [(hspec p).1 hcase]
      exact adj_other_bits (cloud p) (hbyte p) hcase.2 b hb
    · rw [(hspec p).2 hcase]
  · intro q0 hq0 honly p hp
    rw [hmain p hp]
    constructor
    · rintro ⟨h1, h2, q, hq, hs, hw⟩
      have hqq : q = q0 := (honly q hq).mp hs
      subst hqq
      refine ⟨?_, hw⟩
      intro hpq
      subst hpq
      rcases hs with hs | hs
      · rw [h1] at hs; cases hs
      · rw [h2] at hs; cases hs
    · rintro ⟨hne, hw⟩
      have hp0 : ¬ (btest (cloud p) CLD_QA = true ∨ btest (cloud p) CIR_QA = true) :=
        fun h => hne ((honly p hp).mp h)
      refine ⟨?_, ?_, q0, hq0, (honly q0 hq0).mpr rfl, hw⟩
      · cases hb : btest (cloud p) CLD_QA
        · rfl
        · exact absurd (Or.inl hb) hp0
      · cases hb : btest (cloud p) CIR_QA
        · rfl
        · exact absurd (Or.inr hb) hp0

/-- Witness for C3: a 4 x 4 raster whose only cloud pixel is pixel 5; the
pass flags pixel 0 and leaves the cloud pixel itself unflagged. -/
theorem adjacency_dilation_exact_witness :
    btest (adjacencyPass 4 4 demoMask 0) CLDA_QA = true ∧
    btest (adjacencyPass 4 4 demoMask 5) CLDA_QA = false ∧
    btest (adjacencyPass 4 4 demoMask 5) CLD_QA = true := by
  have hbyte : ∀ p, demoMask p < 256 := by
    intro p; unfold demoMask; split <;> decide
  have hclear : ∀ p, p < 4 * 4 → btest (demoMask p) CLDA_QA = false := by
    intro p _; unfold demoMask; split <;> decide
  have key := adjacency_dilation_exact 4 4 demoMask hbyte hclear
  have honly : ∀ q, q < 4 * 4 →
      ((btest (demoMask q) CLD_QA = true ∨ btest (demoMask q) CIR_QA = true) ↔
        q = 5) := by
    intro q _
    unfold demoMask
    by_cases h : q = 5
    · subst h; decide
    · rw [if_neg h]; simp [h, btest]
  refine ⟨?_, ?_, ?_⟩
  · rw [key.2.2 5 (by decide) honly 0 (by decide)]
    refine ⟨by decide, ?_⟩
    unfold InWindow lineOf sampOf
    norm_num
  · have h := key.2.2 5 (by decide) honly 5 (by decide)
    cases hb : btest (adjacencyPass 4 4 demoMask 5) CLDA_QA
    · rfl
    · exact absurd (h.mp hb).1 (by decide)
  · rw [key.2.1 5 CLD_QA (by decide)]
    decide


/-! ### Aerosol interpolation -/

theorem mem_strideRange (n step i : Nat) :
    i ∈ strideRange n step ↔ i < n ∧ i % step = 0 := by
  unfold strideRange
  simp [List.mem_filter, List.mem_range]

theorem mem_blockWindow (nlines nsamps step i j w : Nat) :
    w ∈ blockWindow nlines nsamps step i j ↔
      ∃ k l, i ≤ k ∧ k < i + step ∧ k < nlines ∧ j ≤ l ∧ l < j + step ∧
        l < nsamps ∧ w = k * nsamps + l := by
  unfold blockWindow
  simp only [List.mem_flatMap, List.mem_filter, List.mem_map, List.mem_range,
    decide_eq_true_eq]
  constructor
  · rintro ⟨k, ⟨⟨d, hd, rfl⟩, hk⟩, l, ⟨⟨e, he, rfl⟩, hl⟩, rfl⟩
    exact ⟨i + d, j + e, by omega, by omega, hk, by omega, by omega, hl, rfl⟩
  · rintro ⟨k, l, h1, h2, h3, h4, h5, h6, rfl⟩
    exact ⟨k, ⟨⟨k - i, by omega, by omega⟩, h3⟩, l,
      ⟨⟨l - j, by omega, by omega⟩, h6⟩, rfl⟩

theorem blockWindow_lt (nlines nsamps step i j w : Nat)
    (h : w ∈ blockWindow nlines nsamps step i j) : w < nlines * nsamps := by
  rw [mem_blockWindow] at h
  obtain ⟨k, l, -, -, hk, -, -, hl, rfl⟩ := h
  exact (pixel_index_compose nlines nsamps k l hk hl).1

/-- Every raster pixel lies in the block that starts at the multiples of
`step` below its line and sample. -/
theorem blockWindow_cover (nlines nsamps step p : Nat) (hstep : 0 < step)
    (hp : p < nlines * nsamps) :
    ∃ i, i ∈ strideRange nlines step ∧ ∃ j, j ∈ strideRange nsamps step ∧
      p ∈ blockWindow nlines nsamps step i j := by
  obtain ⟨-, hk, hl, hdecomp⟩ := pixel_index_decomp nlines nsamps p hp
  have hk1 := Nat.div_mul_le_self (lineOf nsamps p) step
  have hl1 := Nat.div_mul_le_self (sampOf nsamps p) step
  have hk2 := Nat.lt_div_mul_add (a := lineOf nsamps p) hstep
  have hl2 := Nat.lt_div_mul_add (a := sampOf nsamps p) hstep
  refine ⟨lineOf nsamps p / step * step, ?_, sampOf nsamps p / step * step, ?_, ?_⟩
  · rw [mem_strideRange]
    exact ⟨by omega, Nat.mul_mod_left _ _⟩
  · rw [mem_strideRange]
    exact ⟨by omega, Nat.mul_mod_left _ _⟩
  · rw [mem_blockWindow]
    exact ⟨lineOf nsamps p, sampOf nsamps p, hk1, hk2, hk, hl1, hl2, hl, hdecomp⟩

theorem blockFill_of_not_fillable (cloud : Nat → Nat) (aaot : ℚ)
    (f : AotField) (w p : Nat) (hp : ¬ Fillable cloud f p) :
    (blockFill cloud aaot f w).tresi p = f.tresi p ∧
      (blockFill cloud aaot f w).taero p = f.taero p := by
  unfold blockFill
  split
  · rename_i hw
    have hne : p ≠ w := fun h => hp (h ▸ hw)
    exact ⟨Function.update_noteq hne _ _, Function.update_noteq hne _ _⟩
  · exact ⟨rfl, rfl⟩

theorem blockFill_not_fillable_mono (cloud : Nat → Nat) (aaot : ℚ)
    (f : AotField) (w p : Nat) (hp : ¬ Fillable cloud f p) :
    ¬ Fillable cloud (blockFill cloud aaot f w) p := by
  intro h
  apply hp
  unfold Fillable at h ⊢
  rw [(blockFill_of_not_fillable cloud aaot f w p hp).1] at h
  exact h

theorem blockFill_self (cloud : Nat → Nat) (aaot : ℚ) (f : AotField) (w : Nat) :
    ¬ Fillable cloud (blockFill cloud aaot f w) w := by
  by_cases hw : Fillable cloud f w
  · intro h
    have h1 : (blockFill cloud aaot f w).tresi w = 1 := by
      have hw1 := hw
      unfold Fillable at hw1
      unfold blockFill
      rw [if_pos hw1]
      exact Function.update_same _ _ _
    have h2 := h.1
    rw [h1] at h2
    exact absurd h2 (by norm_num)
  · exact blockFill_not_fillable_mono cloud aaot f w w hw

theorem blockFill_foldl (cloud : Nat → Nat) (aaot : ℚ) (ws : List Nat) :
    ∀ f : AotField,
      (∀ p, ¬ Fillable cloud f p →
        ¬ Fillable cloud (ws.foldl (blockFill cloud aaot) f) p) ∧
      (∀ p, p ∈ ws → ¬ Fillable cloud (ws.foldl (blockFill cloud aaot) f) p) := by
  induction ws with
  | nil =>
    intro f
    exact ⟨fun p hp => hp, fun p hp => absurd hp (List.not_mem_nil p)⟩
  | cons w ws ih =>
    intro f
    rw [List.foldl_cons]
    obtain ⟨ih1, ih2⟩ := ih (blockFill cloud aaot f w)
    refine ⟨fun p hp => ih1 p (blockFill_not_fillable_mono cloud aaot f w p hp), ?_⟩
    intro p hp
    rcases List.mem_cons.mp hp with h | h
    · subst h
      exact ih1 p (blockFill_self cloud aaot f p)
    · exact ih2 p h

theorem blockFill_foldl_eq (cloud : Nat → Nat) (aaot : ℚ) (ws : List Nat)
    (f : AotField) (h : ∀ p, p ∈ ws → ¬ Fillable cloud f p) :
    ws.foldl (blockFill cloud aaot) f = f := by
  induction ws with
  | nil => rfl
  | cons w ws ih =>
    rw [List.foldl_cons]
    have hw : blockFill cloud aaot f w = f := by
      have hw1 := h w (List.mem_cons_self _ _)
      unfold Fillable at hw1
      unfold blockFill
      rw [if_neg hw1]
    rw [hw]
    exact ih (fun p hp => h p (List.mem_cons_of_mem _ hp))

theorem gapFillBlock_mono (nlines nsamps step : Nat) (cloud : Nat → Nat)
    (i : Nat) (st : AotField × Nat) (j p : Nat)
    (hp : ¬ Fillable cloud st.1 p) :
    ¬ Fillable cloud (gapFillBlock nlines nsamps step cloud i st j).1 p := by
  unfold gapFillBlock
  dsimp only
  split
  · exact (blockFill_foldl cloud _ _ st.1).1 p hp
  · exact hp

theorem gapFillBlock_hole_le (nlines nsamps step : Nat) (cloud : Nat → Nat)
    (i : Nat) (st : AotField × Nat) (j : Nat) :
    st.2 ≤ (gapFillBlock nlines nsamps step cloud i st j).2 := by
  unfold gapFillBlock
  dsimp only
  split
  · exact Nat.le_refl _
  · exact Nat.le_succ _

theorem gapFillBlock_clean (nlines nsamps step : Nat) (cloud : Nat → Nat)
    (i : Nat) (st : AotField × Nat) (j : Nat)
    (h0 : (gapFillBlock nlines nsamps step cloud i st j).2 = 0) (p : Nat)
    (hp : p ∈ blockWindow nlines nsamps step i j) :
    ¬ Fillable cloud (gapFillBlock nlines nsamps step cloud i st j).1 p := by
  unfold gapFillBlock at h0 ⊢
  dsimp only at h0 ⊢
  split
  · exact (blockFill_foldl cloud _ _ st.1).2 p hp
  · rename_i hn
    rw [if_neg hn] at h0
    exact absurd h0 (Nat.succ_ne_zero _)

theorem gapFillBlock_eq (nlines nsamps step : Nat) (cloud : Nat → Nat)
    (i : Nat) (st : AotField × Nat) (j : Nat)
    (hfree : HoleFree nlines nsamps cloud st.1) :
    (gapFillBlock nlines nsamps step cloud i st j).1 = st.1 := by
  unfold gapFillBlock
  dsimp only
  split
  · exact blockFill_foldl_eq cloud _ _ st.1
      (fun p hp => hfree p (blockWindow_lt nlines nsamps step i j p hp))
  · rfl

/-- A loop over blocks (or rows of blocks): non-fillable pixels stay so, the
hole counter never decreases, and when it ends at zero every pixel of every
window visited is non-fillable. -/
theorem foldl_clean {β : Type} (cloud : Nat → Nat)
    (g : AotField × Nat → β → AotField × Nat) (W : β → Nat → Prop)
    (hmono : ∀ st x p, ¬ Fillable cloud st.1 p → ¬ Fillable cloud (g st x).1 p)
    (hhole : ∀ st x, st.2 ≤ (g st x).2)
    (hclean : ∀ st x, (g st x).2 = 0 → ∀ p, W x p →
      ¬ Fillable cloud (g st x).1 p)
    (l : List β) :
    ∀ st : AotField × Nat,
      (∀ p, ¬ Fillable cloud st.1 p → ¬ Fillable cloud (l.foldl g st).1 p) ∧
      st.2 ≤ (l.foldl g st).2 ∧
      ((l.foldl g st).2 = 0 → ∀ x, x ∈ l → ∀ p, W x p →
        ¬ Fillable cloud (l.foldl g st).1 p) := by
  induction l with
  | nil =>
    intro st
    exact ⟨fun p hp => hp, Nat.le_refl _,
      fun _ x hx => absurd hx (List.not_mem_nil x)⟩
  | cons x xs ih =>
    intro st
    rw [List.foldl_cons]
    obtain ⟨ih1, ih2, ih3⟩ := ih (g st x)
    refine ⟨fun p hp => ih1 p (hmono st x p hp),
      Nat.le_trans (hhole st x) ih2, ?_⟩
    intro h0 y hy p hW
    rcases List.mem_cons.mp hy with h | h
    · subst h
      have hx0 : (g st y).2 = 0 := by omega
      exact ih1 p (hclean st y hx0 p hW)
    · exact ih3 h0 y h p hW

theorem foldl_fst_eq {β : Type} (g : AotField × Nat → β → AotField × Nat)
    (f : AotField) (hg : ∀ st x, st.1 = f → (g st x).1 = f) (l : List β) :
    ∀ st : AotField × Nat, st.1 = f → (l.foldl g st).1 = f := by
  induction l with
  | nil => intro st h; exact h
  | cons x xs ih =>
    intro st h
    rw [List.foldl_cons]
    exact ih _ (hg st x h)

/-- A round that counts no hole leaves no fillable pixel in the raster. -/
theorem gapFillSweep_clean (nlines nsamps step : Nat) (cloud : Nat → Nat)
    (f : AotField) (hstep : 0 < step)
    (h0 : (gapFillSweep nlines nsamps step cloud f).2 = 0) :
    HoleFree nlines nsamps cloud (gapFillSweep nlines nsamps step cloud f).1 := by
  have hrow : ∀ i (st : AotField × Nat),
      (∀ p, ¬ Fillable cloud st.1 p → ¬ Fillable cloud
        ((strideRange nsamps step).foldl
          (gapFillBlock nlines nsamps step cloud i) st).1 p) ∧
      st.2 ≤ ((strideRange nsamps step).foldl
          (gapFillBlock nlines nsamps step cloud i) st).2 ∧
      (((strideRange nsamps step).foldl
          (gapFillBlock nlines nsamps step cloud i) st).2 = 0 →
        ∀ j, j ∈ strideRange nsamps step → ∀ p,
          p ∈ blockWindow nlines nsamps step i j →
          ¬ Fillable cloud ((strideRange nsamps step).foldl
            (gapFillBlock nlines nsamps step cloud i) st).1 p) := by
    intro i st
    exact foldl_clean cloud (gapFillBlock nlines nsamps step cloud i)
      (fun j p => p ∈ blockWindow nlines nsamps step i j)
      (fun st j p hp => gapFillBlock_mono nlines nsamps step cloud i st j p hp)
      (fun st j => gapFillBlock_hole_le nlines nsamps step cloud i st j)
      (fun st j h p hp => gapFillBlock_clean nlines nsamps step cloud i st j h p hp)
      (strideRange nsamps step) st
  have hall := foldl_clean cloud
    (fun st i =>
      (strideRange nsamps step).foldl (gapFillBlock nlines nsamps step cloud i)
        st)
    (fun i p => ∃ j, j ∈ strideRange nsamps step ∧
      p ∈ blockWindow nlines nsamps step i j)
    (fun st i p hp => (hrow i st).1 p hp)
    (fun st i => (hrow i st).2.1)
    (fun st i h p hp => by
      obtain ⟨j, hj, hw⟩ := hp
      exact (hrow i st).2.2 h j hj p hw)
    (strideRange nlines step) (f, 0)
  intro p hp
  obtain ⟨i, hi, j, hj, hw⟩ := blockWindow_cover nlines nsamps step p hstep hp
  exact hall.2.2 h0 i hi p ⟨j, hj, hw⟩

/-- A round over a hole-free field changes nothing. -/
theorem gapFillSweep_eq (nlines nsamps step : Nat) (cloud : Nat → Nat)
    (f : AotField) (hfree : HoleFree nlines nsamps cloud f) :
    (gapFillSweep nlines nsamps step cloud f).1 = f := by
  unfold gapFillSweep
  refine foldl_fst_eq _ f ?_ _ (f, 0) rfl
  intro st i hst
  refine foldl_fst_eq _ f ?_ _ st hst
  intro st1 j hst1
  rw [gapFillBlock_eq nlines nsamps step cloud i st1 j (hst1 ▸ hfree)]
  exact hst1

theorem gapFillLoop_eq (nlines nsamps : Nat) (cloud : Nat → Nat) (fuel : Nat) :
    ∀ (f : AotField) (hole step : Nat), HoleFree nlines nsamps cloud f →
      (gapFillLoop nlines nsamps cloud fuel f hole step).1 = f := by
  induction fuel with
  | zero => intro f hole step _; rfl
  | succ n ih =>
    intro f hole step hfree
    unfold gapFillLoop
    split
    · dsimp only
      have he := gapFillSweep_eq nlines nsamps step cloud f hfree
      rw [ih _ _ _ (by rw [he]; exact hfree)]
      exact he
    · rfl

theorem gapFillLoop_clean (nlines nsamps : Nat) (cloud : Nat → Nat)
    (fuel : Nat) :
    ∀ (f : AotField) (hole step : Nat), 0 < step →
      (gapFillLoop nlines nsamps cloud fuel f hole step).2.1 = 0 →
      (hole = 0 ∧ (gapFillLoop nlines nsamps cloud fuel f hole step).1 = f) ∨
      HoleFree nlines nsamps cloud
        (gapFillLoop nlines nsamps cloud fuel f hole step).1 := by
  induction fuel with
  | zero =>
    intro f hole step _ h
    exact Or.inl ⟨h, rfl⟩
  | succ n ih =>
    intro f hole step hstep h
    unfold gapFillLoop at h ⊢
    split
    · rename_i hc
      rw [if_pos hc] at h
      dsimp only at h ⊢
      rcases ih _ _ _ (by omega : 0 < step * 2) h with ⟨h1, h2⟩ | h1
      · right
        rw [h2]
        exact gapFillSweep_clean nlines nsamps step cloud f hstep h1
      · exact Or.inr h1
    · rename_i hc
      rw [if_neg hc] at h
      exact Or.inl ⟨h, rfl⟩

/-- The iteration allowance of `gapFillLoop` is never the reason for
stopping: once `step * 2 ^ fuel >= 1000` the loop ends with its own exit
condition, `hole == 0` or `step >= 1000`. -/
theorem gapFillLoop_exit (nlines nsamps : Nat) (cloud : Nat → Nat) (fuel : Nat) :
    ∀ (f : AotField) (hole step : Nat), 1000 ≤ step * 2 ^ fuel →
      ¬ ((gapFillLoop nlines nsamps cloud fuel f hole step).2.1 ≠ 0 ∧
        (gapFillLoop nlines nsamps cloud fuel f hole step).2.2 < 1000) := by
  induction fuel with
  | zero =>
    intro f hole step h
    simp only [pow_zero, Nat.mul_one] at h
    unfold gapFillLoop
    intro hc
    exact absurd hc.2 (by dsimp only; omega)
  | succ n ih =>
    intro f hole step h
    unfold gapFillLoop
    split
    · dsimp only
      have e : step * 2 ^ (n + 1) = step * 2 * 2 ^ n := by ring
      exact ih _ _ _ (by omega)
    · rename_i hc
      exact hc

/-- C4: idempotence of the aerosol interpolation on a hole-free field. If no
raster pixel has a negative residual without also carrying the cirrus, cloud
or water bit, the loop leaves `taero` and `tresi` unchanged at every pixel;
consequently a second run after a run that ended with `hole == 0` changes
nothing. -/
theorem aerosol_interp_idempotent_on_filled (nlines nsamps : Nat)
    (cloud : Nat → Nat) (f : AotField) :
    ((∀ p, p < nlines * nsamps →
        ¬ (f.tresi p < 0 ∧ btest (cloud p) CIR_QA = false ∧
          btest (cloud p) CLD_QA = false ∧ btest (cloud p) WAT_QA = false)) →
      (aerosolInterp nlines nsamps cloud f).1.taero = f.taero ∧
      (aerosolInterp nlines nsamps cloud f).1.tresi = f.tresi) ∧
    ((aerosolInterp nlines nsamps cloud f).2.1 = 0 →
      (aerosolInterp nlines nsamps cloud
          (aerosolInterp nlines nsamps cloud f).1).1.taero
        = (aerosolInterp nlines nsamps cloud f).1.taero ∧
      (aerosolInterp nlines nsamps cloud
          (aerosolInterp nlines nsamps cloud f).1).1.tresi
        = (aerosolInterp nlines nsamps cloud f).1.tresi) := by
  constructor
  · intro hfree
    have h := gapFillLoop_eq nlines nsamps cloud 7 f 1 10 hfree
    unfold aerosolInterp
    rw [h]
    exact ⟨rfl, rfl⟩
  · intro h0
    have hclean : HoleFree nlines nsamps cloud
        (aerosolInterp nlines nsamps cloud f).1 := by
      unfold aerosolInterp at h0 ⊢
      rcases gapFillLoop_clean nlines nsamps cloud 7 f 1 10 (by decide) h0
        with ⟨h1, -⟩ | h1
      · exact absurd h1 (by decide)
      · exact h1
    have h := gapFillLoop_eq nlines nsamps cloud 7
      (aerosolInterp nlines nsamps cloud f).1 1 10 hclean
    have e : aerosolInterp nlines nsamps cloud
        (aerosolInterp nlines nsamps cloud f).1
        = gapFillLoop nlines nsamps cloud 7
          (aerosolInterp nlines nsamps cloud f).1 1 10 := rfl
    rw [e, h]
    exact ⟨rfl, rfl⟩

theorem blockAccum_nbaot_le (cloud : Nat → Nat) (f : AotField) (ws : List Nat) :
    ∀ acc : BlockSum, acc.nbaot ≤ (ws.foldl (blockAccum cloud f) acc).nbaot := by
  induction ws with
  | nil => intro acc; exact Nat.le_refl _
  | cons w ws ih =>
    intro acc
    rw [List.foldl_cons]
    refine Nat.le_trans ?_ (ih _)
    unfold blockAccum
    split
    · exact Nat.le_succ _
    · exact Nat.le_refl _

/-- A block that contains a pixel with positive residual and an empty mask
byte counts at least one contributing pixel. -/
theorem blockAccum_nbaot_ne_zero (cloud : Nat → Nat) (f : AotField)
    (ws : List Nat) :
    ∀ acc : BlockSum, (∃ w, w ∈ ws ∧ f.tresi w > 0 ∧ cloud w = 0) →
      (ws.foldl (blockAccum cloud f) acc).nbaot ≠ 0 := by
  induction ws with
  | nil =>
    intro acc h
    obtain ⟨w, hw, -⟩ := h
    exact absurd hw (List.not_mem_nil w)
  | cons x xs ih =>
    intro acc h
    obtain ⟨w, hw, hq⟩ := h
    rw [List.foldl_cons]
    rcases List.mem_cons.mp hw with e | e
    · subst e
      have h1 : (blockAccum cloud f acc w).nbaot = acc.nbaot + 1 := by
        unfold blockAccum
        rw [if_pos hq]
      have h2 := blockAccum_nbaot_le cloud f xs (blockAccum cloud f acc w)
      omega
    · exact ih _ ⟨w, e, hq⟩

/-- In a raster covered by one block of size 10 that holds a contributing
pixel, the first round counts no hole and the interpolation ends with
`hole == 0`. -/
theorem aerosolInterp_single_block (nlines nsamps : Nat) (cloud : Nat → Nat)
    (f : AotField) (hl : strideRange nlines 10 = [0])
    (hs : strideRange nsamps 10 = [0])
    (hq : ∃ w, w ∈ blockWindow nlines nsamps 10 0 0 ∧ f.tresi w > 0 ∧
      cloud w = 0) :
    (aerosolInterp nlines nsamps cloud f).2.1 = 0 := by
  have hsweep : (gapFillSweep nlines nsamps 10 cloud f).2 = 0 := by
    unfold gapFillSweep
    rw [hl, hs]
    simp only [List.foldl_cons, List.foldl_nil]
    unfold gapFillBlock
    dsimp only
    rw [if_pos (blockAccum_nbaot_ne_zero cloud f _ _ hq)]
  unfold aerosolInterp gapFillLoop
  rw [if_pos ⟨by decide, by decide⟩]
  dsimp only
  unfold gapFillLoop
  rw [hsweep, if_neg (fun h => h.1 rfl)]

/-- Witness for C4: in the three-pixel scene the filled field is left
unchanged, and the run on the field with one retrieval ends with
`hole == 0`, after which a second run changes nothing. -/
theorem aerosol_interp_idempotent_on_filled_witness :
    ((aerosolInterp 1 3 demoClearMask demoFilledField).1.taero
        = demoFilledField.taero ∧
      (aerosolInterp 1 3 demoClearMask demoFilledField).1.tresi
        = demoFilledField.tresi) ∧
    (aerosolInterp 1 3 demoClearMask demoField).2.1 = 0 ∧
    (aerosolInterp 1 3 demoClearMask
        (aerosolInterp 1 3 demoClearMask demoField).1).1.taero
      = (aerosolInterp 1 3 demoClearMask demoField).1.taero ∧
    (aerosolInterp 1 3 demoClearMask
        (aerosolInterp 1 3 demoClearMask demoField).1).1.tresi
      = (aerosolInterp 1 3 demoClearMask demoField).1.tresi := by
  have hhole : (aerosolInterp 1 3 demoClearMask demoField).2.1 = 0 := by
    refine aerosolInterp_single_block 1 3 demoClearMask demoField (by decide)
      (by decide) ⟨1, ?_, ?_, rfl⟩
    · rw [mem_blockWindow]
      exact ⟨0, 1, by decide, by decide, by decide, by decide, by decide,
        by decide, by decide⟩
    · norm_num [demoField]
  have hfilled : ∀ p, p < 1 * 3 →
      ¬ (demoFilledField.tresi p < 0 ∧ btest (demoClearMask p) CIR_QA = false ∧
        btest (demoClearMask p) CLD_QA = false ∧
        btest (demoClearMask p) WAT_QA = false) := by
    intro p _ h
    have h1 := h.1
    norm_num [demoFilledField] at h1
  exact ⟨(aerosol_interp_idempotent_on_filled 1 3 demoClearMask
      demoFilledField).1 hfilled, hhole,
    (aerosol_interp_idempotent_on_filled 1 3 demoClearMask demoField).2 hhole⟩


/-! ### The final pass: one pixel of one band -/

/-- In a loop without repeated iterations, a component `π` of the state that
only iteration `x0` writes is, at the end, what iteration `x0` left, and that
iteration started from the entry value of the component. -/
theorem foldOpt_at {σ β α : Type} (f : σ → β → Option σ) (π : σ → α) (x0 : β)
    (l : List β) (hnodup : l.Nodup) (hmem : x0 ∈ l)
    (hother : ∀ x, x ∈ l → x ≠ x0 → ∀ s s1, f s x = some s1 → π s1 = π s) :
    ∀ s out, foldOpt f l s = some out →
      ∃ a a1, π a = π s ∧ f a x0 = some a1 ∧ π out = π a1 := by
  induction l with
  | nil => cases hmem
  | cons x xs ih =>
    intro s out h
    simp only [foldOpt] at h
    cases hx : f s x with
    | none => rw [hx] at h; cases h
    | some s1 =>
      rw [hx] at h
      have hnd := List.nodup_cons.mp hnodup
      by_cases hxe : x = x0
      · subst hxe
        have hrest : π out = π s1 := by
          refine foldOpt_preserves f (fun a b => π b = π a) (fun _ => rfl)
            (fun a b c hab hbc => hbc.trans hab) xs ?_ s1 out h
          intro y hy a a1 hya
          exact hother y (List.mem_cons_of_mem _ hy)
            (fun hyx => hnd.1 (hyx ▸ hy)) a a1 hya
        exact ⟨s, s1, rfl, hx, hrest⟩
      · have hin : x0 ∈ xs := by
          rcases List.mem_cons.mp hmem with h1 | h1
          · exact absurd h1.symm hxe
          · exact h1
        obtain ⟨a, a1, ha, hf, ho⟩ := ih hnd.2 hin
          (fun y hy => hother y (List.mem_cons_of_mem _ hy)) s1 out h
        exact ⟨a, a1, ha.trans (hother x (List.mem_cons_self _ _) hxe s s1 hx),
          hf, ho⟩

theorem btest_low_of_mod_eq (x y n b : Nat) (h : x % 2 ^ n = y % 2 ^ n)
    (hb : b < n) : btest x b = btest y b := by
  unfold btest
  have h1 := Nat.testBit_mod_two_pow x n b
  have h2 := Nat.testBit_mod_two_pow y n b
  rw [h] at h1
  rw [h1] at h2
  simpa [hb] using h2

theorem aerosolQaBits_cases (rsurf roslamb : ℚ) :
    aerosolQaBits rsurf roslamb = 16 ∨ aerosolQaBits rsurf roslamb = 32 ∨
      aerosolQaBits rsurf roslamb = 48 := by
  unfold aerosolQaBits
  split_ifs
  · exact Or.inl rfl
  · exact Or.inr (Or.inl rfl)
  · exact Or.inr (Or.inr rfl)

/-- Adding an aerosol pattern to a mask byte leaves bits 0 to 3 alone. -/
theorem aerosolQaBits_low (v : Nat) (rsurf roslamb : ℚ) (b : Nat)
    (hb : b < 4) :
    btest ((v + aerosolQaBits rsurf roslamb) % 256) b = btest v b := by
  refine btest_low_of_mod_eq _ _ 4 b ?_ hb
  rcases aerosolQaBits_cases rsurf roslamb with h | h | h <;> rw [h] <;>
    norm_num <;> omega

theorem srStoreValue_range (c : Consts) (x : ℚ)
    (hmin : FitsInt16 c.MIN_VALID) (hmax : FitsInt16 c.MAX_VALID)
    (hle : c.MIN_VALID ≤ c.MAX_VALID) :
    c.MIN_VALID ≤ srStoreValue c x ∧ srStoreValue c x ≤ c.MAX_VALID := by
  unfold srStoreValue
  dsimp only
  split_ifs with h1 h2
  · rw [toInt16_of_fits hmin]; exact ⟨le_refl _, hle⟩
  · rw [toInt16_of_fits hmax]; exact ⟨hle, le_refl _⟩
  · have a1 := le_truncToInt (not_lt.mp h1)
    have a2 := truncToInt_le (not_lt.mp h2)
    rw [toInt16_of_fits (fitsInt16_of_between hmin hmax a1 a2)]
    exact ⟨a1, a2⟩

/-- An iteration of the final pixel loop touches the arrays at its own pixel
only. -/
theorem finalPixel_frame (c : Consts)
    (atmcorlamb2 : ℚ → Nat → ℚ → ℚ → ℚ → ℚ → Option AtmCorr)
    (qaband : Nat → Nat) (inp : FinalInputs) (ib : Nat) (st st1 : FinalPass)
    (i' q : Nat) (hq : q ≠ i')
    (h : finalPixel c atmcorlamb2 qaband inp ib st i' = some st1) :
    st1.cloud q = st.cloud q ∧ st1.taero q = st.taero q ∧
      ∀ b, st1.sband b q = st.sband b q := by
  unfold finalPixel at h
  dsimp only at h
  repeat' split at h
  all_goals first
    | (injection h with h; subst h
       refine ⟨?_, ?_, ?_⟩
       · first | rfl | exact Function.update_noteq hq _ _
       · first | rfl | exact Function.update_noteq hq _ _
       · intro b
         first | rfl | simp [setPixel_apply, hq])
    | cases h

/-- An iteration of the final pixel loop for band `ib` writes the band set in
band `ib` only, and the mask and the aerosol array only when `ib` is band
1. -/
theorem finalPixel_band_frame (c : Consts)
    (atmcorlamb2 : ℚ → Nat → ℚ → ℚ → ℚ → ℚ → Option AtmCorr)
    (qaband : Nat → Nat) (inp : FinalInputs) (ib : Nat) (st st1 : FinalPass)
    (i' : Nat)
    (h : finalPixel c atmcorlamb2 qaband inp ib st i' = some st1) :
    (∀ b q, b ≠ ib → st1.sband b q = st.sband b q) ∧
    (ib ≠ DN_BAND1 → st1.cloud = st.cloud ∧ st1.taero = st.taero) := by
  unfold finalPixel at h
  dsimp only at h
  repeat' split at h
  all_goals first
    | (injection h with h; subst h
       refine ⟨?_, ?_⟩
       · intro b q hb
         first | rfl | simp [setPixel_apply, hb]
       · intro hne
         first | exact ⟨rfl, rfl⟩ | exact absurd (by assumption) hne)
    | cases h

/-- An iteration of the final pixel loop never changes bits 0 to 3 of a mask
byte. -/
theorem finalPixel_low_bits (c : Consts)
    (atmcorlamb2 : ℚ → Nat → ℚ → ℚ → ℚ → ℚ → Option AtmCorr)
    (qaband : Nat → Nat) (inp : FinalInputs) (ib : Nat) (st st1 : FinalPass)
    (i' q b : Nat) (hb : b < 4)
    (h : finalPixel c atmcorlamb2 qaband inp ib st i' = some st1) :
    btest (st1.cloud q) b = btest (st.cloud q) b := by
  unfold finalPixel at h
  dsimp only at h
  repeat' split at h
  all_goals first
    | (injection h with h; subst h
       first
         | rfl
         | (dsimp only
            by_cases hq : q = i'
            · subst hq
              rw [Function.update_same]
              exact aerosolQaBits_low _ _ _ b hb
            · rw [Function.update_noteq hq]))
    | cases h

/-- A pixel that is fill, has a non-positive residual or carries the cirrus
or cloud bit is skipped by an iteration of the final pixel loop. -/
theorem finalPixel_skipped (c : Consts)
    (atmcorlamb2 : ℚ → Nat → ℚ → ℚ → ℚ → ℚ → Option AtmCorr)
    (qaband : Nat → Nat) (inp : FinalInputs) (ib : Nat) (st st1 : FinalPass)
    (i : Nat)
    (hskip : qaband i = 1 ∨ ¬ (inp.tresi i > 0 ∧
      btest (st.cloud i) CIR_QA = false ∧ btest (st.cloud i) CLD_QA = false))
    (h : finalPixel c atmcorlamb2 qaband inp ib st i = some st1) :
    st1 = st := by
  unfold finalPixel at h
  by_cases hq : qaband i ≠ 1
  · rw [if_pos hq] at h
    have hg : ¬ (inp.tresi i > 0 ∧ btest (st.cloud i) CIR_QA = false ∧
        btest (st.cloud i) CLD_QA = false) := by
      rcases hskip with h1 | h1
      · exact absurd h1 hq
      · exact h1
    rw [if_neg hg] at h
    injection h with h
    exact h.symm
  · rw [if_neg hq] at h
    injection h with h
    exact h.symm

/-- What an iteration of the final pixel loop does at a non-fill pixel with
positive residual and neither cirrus nor cloud bit: `atmcorlamb2` is called
with the pixel's own aerosol value, the clamped value is stored, and for band
1 either the aerosol value is reset to 0.05 or an aerosol pattern is added to
the mask byte. -/
theorem finalPixel_corrected (c : Consts)
    (atmcorlamb2 : ℚ → Nat → ℚ → ℚ → ℚ → ℚ → Option AtmCorr)
    (qaband : Nat → Nat) (inp : FinalInputs) (ib : Nat) (st st1 : FinalPass)
    (i : Nat) (hq : qaband i ≠ 1)
    (hg : inp.tresi i > 0 ∧ btest (st.cloud i) CIR_QA = false ∧
      btest (st.cloud i) CLD_QA = false)
    (h : finalPixel c atmcorlamb2 qaband inp ib st i = some st1) :
    ∃ r, atmcorlamb2 (st.taero i) ib (inp.tp i) (inp.tozi i) (inp.twvi i)
        (lambertForward (inp.btgo ib) (inp.broatm ib) (inp.bttatmg ib)
          (inp.bsatm ib) ((st.sband ib i : ℚ) * c.SCALE_FACTOR)) = some r ∧
      (∃ x, st1.sband ib i = srStoreValue c x) ∧
      (ib = DN_BAND1 → r.roslamb < -5 / 1000 →
        st1.cloud i = st.cloud i ∧ st1.taero i = 5 / 100) ∧
      (ib = DN_BAND1 → ¬ r.roslamb < -5 / 1000 →
        st1.cloud i = (st.cloud i + aerosolQaBits
          ((st.sband ib i : ℚ) * c.SCALE_FACTOR) r.roslamb) % 256 ∧
        st1.taero i = st.taero i) := by
  unfold finalPixel at h
  rw [if_pos hq, if_pos hg] at h
  dsimp only at h
  cases hr : atmcorlamb2 (st.taero i) ib (inp.tp i) (inp.tozi i) (inp.twvi i)
      (lambertForward (inp.btgo ib) (inp.broatm ib) (inp.bttatmg ib)
        (inp.bsatm ib) ((st.sband ib i : ℚ) * c.SCALE_FACTOR)) with
  | none => rw [hr] at h; cases h
  | some r =>
    rw [hr] at h
    dsimp only at h
    refine ⟨r, rfl, ?_⟩
    by_cases hb : ib = DN_BAND1
    · rw [if_pos hb] at h
      by_cases hneg : r.roslamb < -5 / 1000
      · rw [if_pos hneg] at h
        split at h
        · cases h
        · injection h with h
          subst h
          refine ⟨⟨_, (setPixel_apply _ _ _ _ _ _).trans (if_pos ⟨rfl, rfl⟩)⟩, ?_, ?_⟩
          · intro _ _
            exact ⟨rfl, Function.update_same _ _ _⟩
          · intro _ hn
            exact absurd hneg hn
      · rw [if_neg hneg] at h
        injection h with h
        subst h
        refine ⟨⟨_, (setPixel_apply _ _ _ _ _ _).trans (if_pos ⟨rfl, rfl⟩)⟩, ?_, ?_⟩
        · intro _ hn
          exact absurd hn hneg
        · intro _ _
          exact ⟨Function.update_same _ _ _, rfl⟩
    · rw [if_neg hb] at h
      injection h with h
      subst h
      exact ⟨⟨_, (setPixel_apply _ _ _ _ _ _).trans (if_pos ⟨rfl, rfl⟩)⟩, fun hb1 => absurd hb1 hb,
        fun hb1 => absurd hb1 hb⟩

/-- The final pass at pixel `i` of band `ib`: a component of the state that
no other iteration writes is what the iteration `(ib, i)` left, and that
iteration saw the entry value of the component. -/
theorem finalPass_at {α : Type} (c : Consts)
    (atmcorlamb2 : ℚ → Nat → ℚ → ℚ → ℚ → ℚ → Option AtmCorr)
    (qaband : Nat → Nat) (npix : Nat) (inp : FinalInputs) (st out : FinalPass)
    (π : FinalPass → α) (ib i : Nat) (hib : ib ≤ 6) (hi : i < npix)
    (hother : ∀ ib' i' s s1, (ib' ≠ ib ∨ i' ≠ i) →
      finalPixel c atmcorlamb2 qaband inp ib' s i' = some s1 → π s1 = π s)
    (h : finalPass c atmcorlamb2 qaband npix inp st = some out) :
    ∃ a a1, π a = π st ∧
      finalPixel c atmcorlamb2 qaband inp ib a i = some a1 ∧ π out = π a1 := by
  unfold finalPass at h
  have hmem : ib ∈ List.range (DN_BAND7 + 1) := by
    rw [List.mem_range]; unfold DN_BAND7; omega
  obtain ⟨s, s1, hs, hinner, hout⟩ := foldOpt_at
    (fun st ib =>
      foldOpt (finalPixel c atmcorlamb2 qaband inp ib) (List.range npix) st)
    π ib _ (List.nodup_range _) hmem
    (fun ib' _ hne s s1 hs1 =>
      foldOpt_preserves _ (fun a b => π b = π a) (fun _ => rfl)
        (fun _ _ _ hab hbc => hbc.trans hab) _
        (fun i' _ a a1 ha => hother ib' i' a a1 (Or.inl hne) ha) s s1 hs1)
    st out h
  obtain ⟨a, a1, ha, hpix, hs1⟩ := foldOpt_at
    (finalPixel c atmcorlamb2 qaband inp ib) π i _ (List.nodup_range _)
    (List.mem_range.mpr hi)
    (fun i' _ hne a a1 ha => hother ib i' a a1 (Or.inr hne) ha) s s1 hinner
  exact ⟨a, a1, ha.trans hs, hpix, hout.trans hs1⟩

/-- A pixel the final pass skips (fill, non-positive residual, cirrus or
cloud) keeps its band values and its mask byte. -/
theorem finalPass_skipped (c : Consts)
    (atmcorlamb2 : ℚ → Nat → ℚ → ℚ → ℚ → ℚ → Option AtmCorr)
    (qaband : Nat → Nat) (npix : Nat) (inp : FinalInputs) (st out : FinalPass)
    (i : Nat)
    (hskip : qaband i = 1 ∨ ¬ (inp.tresi i > 0 ∧
      btest (st.cloud i) CIR_QA = false ∧ btest (st.cloud i) CLD_QA = false))
    (h : finalPass c atmcorlamb2 qaband npix inp st = some out) :
    out.cloud i = st.cloud i ∧ ∀ b, out.sband b i = st.sband b i := by
  unfold finalPass at h
  have hstep : ∀ ib i' (a a1 : FinalPass),
      finalPixel c atmcorlamb2 qaband inp ib a i' = some a1 →
      (a.cloud i = st.cloud i ∧ ∀ b, a.sband b i = st.sband b i) →
      (a1.cloud i = st.cloud i ∧ ∀ b, a1.sband b i = st.sband b i) := by
    intro ib i' a a1 ha hinv
    by_cases hii : i = i'
    · subst hii
      have hsk : qaband i = 1 ∨ ¬ (inp.tresi i > 0 ∧
          btest (a.cloud i) CIR_QA = false ∧ btest (a.cloud i) CLD_QA = false) := by
        rw [hinv.1]; exact hskip
      rw [finalPixel_skipped c atmcorlamb2 qaband inp ib a a1 i hsk ha]
      exact hinv
    · obtain ⟨h1, -, h3⟩ := finalPixel_frame c atmcorlamb2 qaband inp ib a a1 i'
        i hii ha
      exact ⟨h1.trans hinv.1, fun b => (h3 b).trans (hinv.2 b)⟩
  have key := foldOpt_preserves
    (fun st ib =>
      foldOpt (finalPixel c atmcorlamb2 qaband inp ib) (List.range npix) st)
    (fun a b : FinalPass =>
      (a.cloud i = st.cloud i ∧ ∀ b', a.sband b' i = st.sband b' i) →
      (b.cloud i = st.cloud i ∧ ∀ b', b.sband b' i = st.sband b' i))
    (fun _ h => h) (fun _ _ _ hab hbc h => hbc (hab h)) _
    (fun ib _ s s1 hs =>
      foldOpt_preserves (finalPixel c atmcorlamb2 qaband inp ib)
        (fun a b : FinalPass =>
          (a.cloud i = st.cloud i ∧ ∀ b', a.sband b' i = st.sband b' i) →
          (b.cloud i = st.cloud i ∧ ∀ b', b.sband b' i = st.sband b' i))
        (fun _ h => h) (fun _ _ _ hab hbc h => hbc (hab h)) _
        (fun i' _ a a1 ha => hstep ib i' a a1 ha) s s1 hs)
    st out h
  exact key ⟨rfl, fun _ => rfl⟩

/-- The value the constant-AOT pass writes at a non-fill pixel of band
`ib`. -/
theorem constAotPass_value (c : Consts)
    (atmcorlamb2 : ℚ → Nat → ℚ → ℚ → ℚ → ℚ → Option AtmCorr)
    (qaband : Nat → Nat) (npix : Nat) (raot550nm pres uoz uwv : ℚ)
    (st out : FirstPass) (ib : Nat)
    (hrun : constAotPass c atmcorlamb2 qaband npix raot550nm pres uoz uwv st
      = some out)
    (hib : ib ≤ 6) :
    ∃ p, atmcorlamb2 raot550nm ib pres uoz uwv 0 = some p ∧
      ∀ i, out.sband ib i
        = if i < npix ∧ qaband i ≠ 1 then
            toInt16 (truncToInt
              (lambertInverse p.tgo p.roatm p.ttatmg p.satm
                ((st.sband ib i : ℚ) * c.SCALE_FACTOR) * c.MULT_FACTOR))
          else st.sband ib i := by
  unfold constAotPass at hrun
  have hmem : ib ∈ List.range (SR_BAND7 + 1) := by
    rw [List.mem_range]; unfold SR_BAND7; omega
  obtain ⟨a, a1, ha, hstep, hout⟩ := foldOpt_at
    (constAotBand c atmcorlamb2 qaband npix raot550nm pres uoz uwv)
    (fun s : FirstPass => s.sband ib) ib _ (List.nodup_range _) hmem
    (fun x _ hx s s1 hs1 => by
      obtain ⟨p', -, hval⟩ := constAotBand_some c atmcorlamb2 qaband npix
        raot550nm pres uoz uwv s s1 x hs1
      funext j
      show s1.sband ib j = s.sband ib j
      rw [hval]
      have : ¬ (ib = x ∧ j < npix ∧ qaband j ≠ 1) := fun h => hx h.1.symm
      rw [if_neg this])
    st out hrun
  obtain ⟨p, hp, hval⟩ := constAotBand_some c atmcorlamb2 qaband npix raot550nm
    pres uoz uwv a a1 ib hstep
  refine ⟨p, hp, ?_⟩
  intro i
  have e1 : out.sband ib i = a1.sband ib i := congrFun hout i
  have e2 : a.sband ib i = st.sband ib i := congrFun ha i
  rw [e1, hval, e2]
  simp

/-- C12 (counterexample): a non-fill pixel carrying the cirrus bit whose TOA
value is 16000 leaves the constant-AOT pass with 17761; the final pass skips
it, so the band value on return exceeds `MAX_VALID = 16000`. -/
theorem final_pass_leaves_cirrus_pixel_unclamped :
    ∃ st1 st2, constAotPass l8 demoAtmcorlamb2 demoQa 3 (1 / 10) 1013 (3 / 10)
        1 demoBrightFirstPass = some st1 ∧
      finalPass l8 demoAtmcorlamb2 demoQa 3 demoFinalInputs
        ⟨st1.sband, fun _ => 1 / 10, demoCirrusMask⟩ = some st2 ∧
      demoQa 1 ≠ 1 ∧ btest (demoCirrusMask 1) CIR_QA = true ∧
      st2.sband 0 1 = 17761 ∧ l8.MAX_VALID < st2.sband 0 1 := by
  obtain ⟨st1, h1⟩ := constAotPass_success l8 demoAtmcorlamb2 demoQa 3 (1 / 10)
    1013 (3 / 10) 1 demoBrightFirstPass (fun _ => ⟨_, rfl⟩)
  obtain ⟨st2, h2⟩ := finalPass_success l8 demoAtmcorlamb2 demoQa 3
    demoFinalInputs ⟨st1.sband, fun _ => 1 / 10, demoCirrusMask⟩
    (fun _ _ _ _ _ _ => ⟨_, rfl⟩)
  obtain ⟨p, hp, hval⟩ := constAotPass_value l8 demoAtmcorlamb2 demoQa 3
    (1 / 10) 1013 (3 / 10) 1 demoBrightFirstPass st1 0 h1 (by decide)
  have hp' : p = ⟨1 / 10, 9 / 10, 1 / 20, 4 / 5, 1 / 10⟩ := by
    simp only [demoAtmcorlamb2, Option.some.injEq] at hp
    exact hp.symm
  have hv1 : st1.sband 0 1 = 17761 := by
    rw [hval 1, hp']
    norm_num [demoBrightFirstPass, demoFirstPass, demoQa, l8, lambertInverse,
      truncToInt, toInt16]
  have hskip := finalPass_skipped l8 demoAtmcorlamb2 demoQa 3 demoFinalInputs
    ⟨st1.sband, fun _ => 1 / 10, demoCirrusMask⟩ st2 1
    (Or.inr (fun h => by
      have h3 : btest (demoCirrusMask 1) CIR_QA = false := h.2.1
      exact absurd h3 (by decide))) h2
  have hv2 : st2.sband 0 1 = 17761 := by
    rw [hskip.2 0]; exact hv1
  refine ⟨st1, st2, h1, h2, by decide, by decide, hv2, ?_⟩
  rw [hv2]
  decide

/-- C12 (amended): on return from the final pass, every non-fill pixel with
positive residual and neither the cirrus nor the cloud bit has, in every
reflective band 0..6, a value within `[MIN_VALID, MAX_VALID]`; a pixel that
carries the cirrus or cloud bit or whose residual is not positive keeps the
unclamped value of the constant-AOT pass (header bounds ordered and
`int16`). -/
theorem final_pass_clamps_corrected_pixels (c : Consts)
    (atmcorlamb2 : ℚ → Nat → ℚ → ℚ → ℚ → ℚ → Option AtmCorr)
    (qaband : Nat → Nat) (npix : Nat) (inp : FinalInputs) (st out : FinalPass)
    (ib i : Nat)
    (hmin : FitsInt16 c.MIN_VALID) (hmax : FitsInt16 c.MAX_VALID)
    (hle : c.MIN_VALID ≤ c.MAX_VALID)
    (h : finalPass c atmcorlamb2 qaband npix inp st = some out)
    (hib : ib ≤ 6) (hi : i < npix) (hq : qaband i ≠ 1) :
    ((inp.tresi i > 0 ∧ btest (st.cloud i) CIR_QA = false ∧
        btest (st.cloud i) CLD_QA = false) →
      c.MIN_VALID ≤ out.sband ib i ∧ out.sband ib i ≤ c.MAX_VALID) ∧
    (¬ (inp.tresi i > 0 ∧ btest (st.cloud i) CIR_QA = false ∧
        btest (st.cloud i) CLD_QA = false) →
      out.sband ib i = st.sband ib i) := by
  constructor
  · intro hg
    obtain ⟨a, a1, ha, hpix, hout⟩ := finalPass_at c atmcorlamb2 qaband npix inp
      st out
      (fun s : FinalPass =>
        (s.sband ib i, btest (s.cloud i) CIR_QA, btest (s.cloud i) CLD_QA))
      ib i hib hi
      (fun ib' i' s s1 hne hs => by
        have hb0 := finalPixel_low_bits c atmcorlamb2 qaband inp ib' s s1 i' i
          CIR_QA (by decide) hs
        have hb1 := finalPixel_low_bits c atmcorlamb2 qaband inp ib' s s1 i' i
          CLD_QA (by decide) hs
        have hsb : s1.sband ib i = s.sband ib i := by
          by_cases hi' : i = i'
          · subst hi'
            rcases hne with hne | hne
            · exact (finalPixel_band_frame c atmcorlamb2 qaband inp ib' s s1 i
                hs).1 ib i (fun e => hne e.symm)
            · exact absurd rfl hne
          · exact (finalPixel_frame c atmcorlamb2 qaband inp ib' s s1 i' i hi'
              hs).2.2 ib
        show (s1.sband ib i, btest (s1.cloud i) CIR_QA, btest (s1.cloud i) CLD_QA)
          = (s.sband ib i, btest (s.cloud i) CIR_QA, btest (s.cloud i) CLD_QA)
        rw [hb0, hb1, hsb])
      h
    simp only [Prod.mk.injEq] at ha hout
    have hga : inp.tresi i > 0 ∧ btest (a.cloud i) CIR_QA = false ∧
        btest (a.cloud i) CLD_QA = false := by
      rw [ha.2.1, ha.2.2]; exact hg
    obtain ⟨r, -, ⟨x, hx⟩, -, -⟩ := finalPixel_corrected c atmcorlamb2 qaband
      inp ib a a1 i hq hga hpix
    rw [hout.1, hx]
    exact srStoreValue_range c x hmin hmax hle
  · intro hg
    exact (finalPass_skipped c atmcorlamb2 qaband npix inp st out i (Or.inr hg)
      h).2 ib

/-- Witness for C12 (amended): pixel 1 of the three-pixel scene, band 1,
with a clear mask. -/
theorem final_pass_clamps_corrected_pixels_witness :
    ∃ out, finalPass l8 demoAtmcorlamb2 demoQa 3 demoFinalInputs
        ⟨demoFirstPass.sband, fun _ => 1 / 10, fun _ => 0⟩ = some out ∧
      l8.MIN_VALID ≤ out.sband 0 1 ∧ out.sband 0 1 ≤ l8.MAX_VALID := by
  obtain ⟨out, h⟩ := finalPass_success l8 demoAtmcorlamb2 demoQa 3
    demoFinalInputs ⟨demoFirstPass.sband, fun _ => 1 / 10, fun _ => 0⟩
    (fun _ _ _ _ _ _ => ⟨_, rfl⟩)
  have key := (final_pass_clamps_corrected_pixels l8 demoAtmcorlamb2 demoQa 3
    demoFinalInputs ⟨demoFirstPass.sband, fun _ => 1 / 10, fun _ => 0⟩ out 0 1
    (by decide) (by decide) (by decide) h (by decide) (by decide)
    (by decide)).1
    ⟨by norm_num [demoFinalInputs], by decide, by decide⟩
  exact ⟨out, h, key⟩

/-- C20: aerosol-confidence classification. In the final pass, at a non-fill
pixel with positive residual and neither the cirrus nor the cloud bit,
`atmcorlamb2` is called for band 1 with the pixel's aerosol value; when the
corrected band-1 reflectance `roslamb` is at least -0.005 exactly one pattern
is added to the mask byte, once: 16 when `|rsurf - roslamb| <= 0.015`, 32
when `0.015 < |rsurf - roslamb| < 0.03`, 48 when
`|rsurf - roslamb| >= 0.03`, and the aerosol value is kept; when
`roslamb < -0.005` the mask byte is unchanged and `taero[i]` is reset to
0.05. -/
theorem aerosol_qa_classification (c : Consts)
    (atmcorlamb2 : ℚ → Nat → ℚ → ℚ → ℚ → ℚ → Option AtmCorr)
    (qaband : Nat → Nat) (npix : Nat) (inp : FinalInputs) (st out : FinalPass)
    (i : Nat)
    (h : finalPass c atmcorlamb2 qaband npix inp st = some out)
    (hi : i < npix) (hq : qaband i ≠ 1) (hres : inp.tresi i > 0)
    (hcir : btest (st.cloud i) CIR_QA = false)
    (hcld : btest (st.cloud i) CLD_QA = false) :
    ∃ r, atmcorlamb2 (st.taero i) DN_BAND1 (inp.tp i) (inp.tozi i) (inp.twvi i)
        (lambertForward (inp.btgo DN_BAND1) (inp.broatm DN_BAND1)
          (inp.bttatmg DN_BAND1) (inp.bsatm DN_BAND1)
          ((st.sband DN_BAND1 i : ℚ) * c.SCALE_FACTOR)) = some r ∧
      (r.roslamb < -5 / 1000 →
        out.cloud i = st.cloud i ∧ out.taero i = 5 / 100) ∧
      (-5 / 1000 ≤ r.roslamb →
        out.taero i = st.taero i ∧
        (|(st.sband DN_BAND1 i : ℚ) * c.SCALE_FACTOR - r.roslamb| ≤ 15 / 1000 →
          out.cloud i = (st.cloud i + 16) % 256) ∧
        (15 / 1000 < |(st.sband DN_BAND1 i : ℚ) * c.SCALE_FACTOR - r.roslamb| ∧
          |(st.sband DN_BAND1 i : ℚ) * c.SCALE_FACTOR - r.roslamb| < 3 / 100 →
          out.cloud i = (st.cloud i + 32) % 256) ∧
        (3 / 100 ≤ |(st.sband DN_BAND1 i : ℚ) * c.SCALE_FACTOR - r.roslamb| →
          out.cloud i = (st.cloud i + 48) % 256)) := by
  obtain ⟨a, a1, ha, hpix, hout⟩ := finalPass_at c atmcorlamb2 qaband npix inp
    st out
    (fun s : FinalPass => (s.cloud i, s.taero i, s.sband DN_BAND1 i))
    DN_BAND1 i (by decide) hi
    (fun ib' i' s s1 hne hs => by
      show (s1.cloud i, s1.taero i, s1.sband DN_BAND1 i)
        = (s.cloud i, s.taero i, s.sband DN_BAND1 i)
      by_cases hi' : i = i'
      · subst hi'
        rcases hne with hne | hne
        · obtain ⟨hb, hct⟩ := finalPixel_band_frame c atmcorlamb2 qaband inp ib'
            s s1 i hs
          obtain ⟨hc, ht⟩ := hct hne
          rw [hc, ht, hb DN_BAND1 i (fun e => hne e.symm)]
        · exact absurd rfl hne
      · obtain ⟨hc, ht, hb⟩ := finalPixel_frame c atmcorlamb2 qaband inp ib' s
          s1 i' i hi' hs
        rw [hc, ht, hb])
    h
  simp only [Prod.mk.injEq] at ha hout
  obtain ⟨hac, hat, has⟩ := ha
  obtain ⟨hoc, hot, -⟩ := hout
  have hga : inp.tresi i > 0 ∧ btest (a.cloud i) CIR_QA = false ∧
      btest (a.cloud i) CLD_QA = false := by
    rw [hac]; exact ⟨hres, hcir, hcld⟩
  obtain ⟨r, hr, -, hneg, hpos⟩ := finalPixel_corrected c atmcorlamb2 qaband
    inp DN_BAND1 a a1 i hq hga hpix
  rw [hat, has] at hr
  refine ⟨r, hr, ?_, ?_⟩
  · intro hlt
    obtain ⟨e1, e2⟩ := hneg rfl hlt
    rw [hoc, hot, e1, e2, hac]
    exact ⟨rfl, rfl⟩
  · intro hge
    obtain ⟨e1, e2⟩ := hpos rfl (not_lt.mpr hge)
    rw [hoc, hot, e1, e2, hac, hat, has]
    refine ⟨rfl, ?_, ?_, ?_⟩
    · intro hd
      unfold aerosolQaBits
      rw [if_pos hd]
    · intro hd
      unfold aerosolQaBits
      rw [if_neg (not_le.mpr hd.1), if_pos hd.2]
    · intro hd
      unfold aerosolQaBits
      have h1 : ¬ |(st.sband DN_BAND1 i : ℚ) * c.SCALE_FACTOR - r.roslamb|
          ≤ 15 / 1000 := by
        intro hh
        have : (3 : ℚ) / 100 ≤ 15 / 1000 := le_trans hd hh
        norm_num at this
      rw [if_neg h1, if_neg (not_lt.mpr hd)]

/-- Witness for C20: pixel 1 of the three-pixel scene, where the corrected
band-1 reflectance equals the first-pass one (0.1): pattern 16 is added to
the empty mask byte. -/
theorem aerosol_qa_classification_witness :
    ∃ out, finalPass l8 demoAtmcorlamb2 demoQa 3 demoFinalInputs
        ⟨demoFirstPass.sband, fun _ => 1 / 10, fun _ => 0⟩ = some out ∧
      out.cloud 1 = 16 ∧ out.taero 1 = 1 / 10 := by
  obtain ⟨out, h⟩ := finalPass_success l8 demoAtmcorlamb2 demoQa 3
    demoFinalInputs ⟨demoFirstPass.sband, fun _ => 1 / 10, fun _ => 0⟩
    (fun _ _ _ _ _ _ => ⟨_, rfl⟩)
  obtain ⟨r, hr, -, hpos⟩ := aerosol_qa_classification l8 demoAtmcorlamb2
    demoQa 3 demoFinalInputs
    ⟨demoFirstPass.sband, fun _ => 1 / 10, fun _ => 0⟩ out 1 h (by decide)
    (by decide) (by norm_num [demoFinalInputs]) (by decide) (by decide)
  have hr' : r = ⟨1 / 10, 9 / 10, 1 / 20, 4 / 5, 1 / 10⟩ := by
    simp only [demoAtmcorlamb2, Option.some.injEq] at hr
    exact hr.symm
  subst hr'
  obtain ⟨e1, e2, -, -⟩ := hpos (by norm_num)
  refine ⟨out, h, ?_, e1⟩
  rw [e2 (by norm_num [demoFirstPass, l8])]
  rfl


/-! ### Mean clear temperature and cloud test -/

theorem tempStats_foldl (c : Consts) (qaband : Nat → Nat)
    (sband : Nat → Nat → Int) (cloud : Nat → Nat) (l : List Nat) :
    ∀ acc : TempStats,
      (l.foldl (tempStatsPixel c qaband sband cloud) acc).nbclear
        = acc.nbclear
          + (l.filter (fun i => decide (ClearPixel qaband sband cloud i))).length ∧
      (l.foldl (tempStatsPixel c qaband sband cloud) acc).mclear
        = acc.mclear
          + ((l.filter (fun i => decide (ClearPixel qaband sband cloud i))).map
              (fun i => (sband SR_BAND10 i : ℚ) * c.SCALE_FACTOR_TH)).sum := by
  induction l with
  | nil => intro acc; simp
  | cons i l ih =>
    intro acc
    rw [List.foldl_cons]
    obtain ⟨ih1, ih2⟩ := ih (tempStatsPixel c qaband sband cloud acc i)
    rw [ih1, ih2]
    by_cases hc : ClearPixel qaband sband cloud i
    · have hstep : (tempStatsPixel c qaband sband cloud acc i).nbclear
            = acc.nbclear + 1 ∧
          (tempStatsPixel c qaband sband cloud acc i).mclear
            = acc.mclear + (sband SR_BAND10 i : ℚ) * c.SCALE_FACTOR_TH := by
        unfold ClearPixel at hc
        unfold tempStatsPixel
        rw [if_pos hc.1]
        dsimp only
        rw [if_pos ⟨hc.2.1, hc.2.2.1⟩, if_pos hc.2.2.2]
        exact ⟨rfl, rfl⟩
      rw [hstep.1, hstep.2, List.filter_cons_of_pos (by simpa using hc)]
      simp only [List.length_cons, List.map_cons, List.sum_cons]
      constructor
      · omega
      · ring
    · have hstep : (tempStatsPixel c qaband sband cloud acc i).nbclear
            = acc.nbclear ∧
          (tempStatsPixel c qaband sband cloud acc i).mclear = acc.mclear := by
        unfold ClearPixel at hc
        unfold tempStatsPixel
        by_cases h1 : qaband i ≠ 1
        · rw [if_pos h1]
          dsimp only
          by_cases h2 : btest (cloud i) CIR_QA = false ∧ sband SR_BAND5 i > 300
          · rw [if_pos h2]
            have h3 : ¬ ((sband SR_BAND2 i : ℚ) - (sband SR_BAND4 i : ℚ) * (1 / 2)
                < 300) := fun h => hc ⟨h1, h2.1, h2.2, h⟩
            rw [if_neg h3]
            exact ⟨rfl, rfl⟩
          · rw [if_neg h2]
            exact ⟨rfl, rfl⟩
        · rw [if_neg h1]
          exact ⟨rfl, rfl⟩
      rw [hstep.1, hstep.2, List.filter_cons_of_neg (by simpa using hc)]
      exact ⟨rfl, rfl⟩

/-- C16: `mclear` is the arithmetic mean of
`sband[SR_BAND10][i] * SCALE_FACTOR_TH` over exactly the pixels that are
non-fill, do not carry the cirrus bit, have band 5 above 300 and a
band2/band4 anomaly `sband[SR_BAND2][i] - 0.5*sband[SR_BAND4][i]` below 300;
when no pixel satisfies these conditions `mclear` is 275.0. -/
theorem mean_clear_temp_is_mean (c : Consts) (qaband : Nat → Nat)
    (sband : Nat → Nat → Int) (cloud : Nat → Nat) (npix : Nat) :
    (∀ i, i ∈ clearPixels qaband sband cloud npix ↔
      i < npix ∧ qaband i ≠ 1 ∧ btest (cloud i) CIR_QA = false ∧
        sband SR_BAND5 i > 300 ∧
        (sband SR_BAND2 i : ℚ) - (sband SR_BAND4 i : ℚ) * (1 / 2) < 300) ∧
    (clearPixels qaband sband cloud npix ≠ [] →
      meanClearTemp c qaband sband cloud npix
        = ((clearPixels qaband sband cloud npix).map
            (fun i => (sband SR_BAND10 i : ℚ) * c.SCALE_FACTOR_TH)).sum
          / ((clearPixels qaband sband cloud npix).length : ℚ)) ∧
    (clearPixels qaband sband cloud npix = [] →
      meanClearTemp c qaband sband cloud npix = 275) := by
  have hfold := tempStats_foldl c qaband sband cloud (List.range npix)
    { nbval := 0, nbclear := 0, mclear := 0, mall := 0 }
  have hnb : (tempStats c qaband sband cloud npix).nbclear
      = (clearPixels qaband sband cloud npix).length := by
    unfold tempStats clearPixels
    rw [hfold.1]
    simp
  have hsum : (tempStats c qaband sband cloud npix).mclear
      = ((clearPixels qaband sband cloud npix).map
          (fun i => (sband SR_BAND10 i : ℚ) * c.SCALE_FACTOR_TH)).sum := by
    unfold tempStats clearPixels
    rw [hfold.2]
    simp
  refine ⟨?_, ?_, ?_⟩
  · intro i
    unfold clearPixels ClearPixel
    simp [List.mem_filter, List.mem_range]
  · intro hne
    unfold meanClearTemp
    have hpos : (tempStats c qaband sband cloud npix).nbclear > 0 := by
      rw [hnb]
      exact List.length_pos.mpr hne
    rw [if_pos hpos, hnb, hsum]
  · intro he
    unfold meanClearTemp
    have hz : ¬ (tempStats c qaband sband cloud npix).nbclear > 0 := by
      rw [hnb, he]
      simp
    rw [if_neg hz]

/-- Witness for C16: in the three-pixel scene pixel 1 is the only clear
pixel and `mclear` is its temperature, 290 K. -/
theorem mean_clear_temp_is_mean_witness :
    clearPixels demoQa demoCloudBands demoClearMask 3 = [1] ∧
    meanClearTemp l8 demoQa demoCloudBands demoClearMask 3 = 290 := by
  have hl : clearPixels demoQa demoCloudBands demoClearMask 3 = [1] := by
    unfold clearPixels
    simp [List.range_succ, List.filter, ClearPixel, demoQa, demoCloudBands,
      demoClearMask, btest, SR_BAND2, SR_BAND4, SR_BAND5, SR_BAND10, CIR_QA]
    norm_num
  refine ⟨hl, ?_⟩
  rw [(mean_clear_temp_is_mean l8 demoQa demoCloudBands demoClearMask 3).2.1
    (by rw [hl]; exact List.cons_ne_nil _ _), hl]
  norm_num [demoCloudBands, SR_BAND2, SR_BAND4, SR_BAND5, SR_BAND10, l8]

set_option maxRecDepth 1000000 in
/-- Adding `2 ^ k` to a mask byte whose bit `k` is clear sets that bit and
nothing else, without overflow. -/
theorem add_bit_facts : ∀ k, k < 8 → ∀ v, v < 256 → btest v k = false →
    v + 2 ^ k < 256 ∧ btest (v + 2 ^ k) k = true ∧
    ∀ b, b < 8 → b ≠ k → btest (v + 2 ^ k) b = btest v b := by
  intro k hk
  interval_cases k <;> decide

theorem add_bit_other (k v : Nat) (hk : k < 8) (hv : v < 256)
    (hclear : btest v k = false) (b : Nat) (hb : b ≠ k) :
    btest (v + 2 ^ k) b = btest v b := by
  obtain ⟨h1, -, h3⟩ := add_bit_facts k hk v hv hclear
  by_cases hb8 : b < 8
  · exact h3 b hb8 hb
  · have hpow : 256 ≤ 2 ^ b := by
      have : 2 ^ 8 ≤ 2 ^ b := Nat.pow_le_pow_right (by decide) (by omega)
      simpa using this
    unfold btest
    rw [Nat.testBit_lt_two_pow (by omega), Nat.testBit_lt_two_pow (by omega)]

theorem cloudTestPass_apply (c : Consts) (sband : Nat → Nat → Int)
    (tresi : Nat → ℚ) (mclear : ℚ) (npix : Nat) (cloud : Nat → Nat) (i : Nat) :
    cloudTestPass c sband tresi mclear npix cloud i
      = if i < npix ∧ CloudTest c sband tresi mclear i then
          (cloud i + 2) % 256
        else cloud i := by
  have hbody : cloudTestPixel c sband tresi mclear
      = fun a i => Function.update a i
          ((fun i v => if CloudTest c sband tresi mclear i then (v + 2) % 256
            else v) i (a i)) := by
    funext a i
    unfold cloudTestPixel CloudTest
    by_cases h1 : tresi i < 0
    · by_cases h2 : (sband SR_BAND2 i : ℚ) - (sband SR_BAND4 i : ℚ) * (1 / 2) > 500 ∧
          (sband SR_BAND10 i : ℚ) * c.SCALE_FACTOR_TH < mclear - 2
      · rw [if_pos h1, if_pos h2]
        dsimp only
        rw [if_pos ⟨h1, h2⟩]
      · rw [if_pos h1, if_neg h2]
        dsimp only
        rw [if_neg (fun h => h2 h.2), Function.update_eq_self]
    · rw [if_neg h1]
      dsimp only
      rw [if_neg (fun h => h1 h.1), Function.update_eq_self]
  have h := foldl_update_range
    (fun i v => if CloudTest c sband tresi mclear i then (v + 2) % 256 else v)
    npix cloud i
  unfold cloudTestPass
  rw [hbody]
  refine h.trans ?_
  by_cases hi : i < npix
  · simp [hi]
  · simp [hi]

/-- C15: the cloud/snow test. On a mask of bytes in which no raster pixel
has the cloud bit yet, after the cloud-test pass the cloud bit (value 2) of
pixel `i` is set if and only if `tresi[i] < 0`,
`sband[SR_BAND2][i] - 0.5*sband[SR_BAND4][i] > 500` and
`sband[SR_BAND10][i]*SCALE_FACTOR_TH < mclear - 2.0`; every other bit of
`cloud[i]` is unchanged, and no pixel with `tresi[i] >= 0` is modified. -/
theorem cloud_test_sets_cloud_bit (c : Consts) (sband : Nat → Nat → Int)
    (tresi : Nat → ℚ) (mclear : ℚ) (npix : Nat) (cloud : Nat → Nat)
    (hbyte : ∀ p, cloud p < 256)
    (hclear : ∀ p, p < npix → btest (cloud p) CLD_QA = false) :
    (∀ i, i < npix →
      (btest (cloudTestPass c sband tresi mclear npix cloud i) CLD_QA = true ↔
        tresi i < 0 ∧
        (sband SR_BAND2 i : ℚ) - (sband SR_BAND4 i : ℚ) * (1 / 2) > 500 ∧
        (sband SR_BAND10 i : ℚ) * c.SCALE_FACTOR_TH < mclear - 2)) ∧
    (∀ i b, b ≠ CLD_QA →
      btest (cloudTestPass c sband tresi mclear npix cloud i) b
        = btest (cloud i) b) ∧
    (∀ i, 0 ≤ tresi i →
      cloudTestPass c sband tresi mclear npix cloud i = cloud i) := by
  refine ⟨?_, ?_, ?_⟩
  · intro i hi
    rw [cloudTestPass_apply]
    by_cases ht : CloudTest c sband tresi mclear i
    · rw [if_pos ⟨hi, ht⟩]
      obtain ⟨h1, h2, -⟩ := add_bit_facts CLD_QA (by decide) (cloud i) (hbyte i)
        (hclear i hi)
      have e : (cloud i + 2) % 256 = cloud i + 2 ^ CLD_QA :=
        Nat.mod_eq_of_lt h1
      rw [e, h2]
      exact ⟨fun _ => ht, fun _ => rfl⟩
    · rw [if_neg (fun h => ht h.2), hclear i hi]
      exact ⟨fun h => (by cases h), fun h => absurd h ht⟩
  · intro i b hb
    rw [cloudTestPass_apply]
    by_cases hc : i < npix ∧ CloudTest c sband tresi mclear i
    · rw [if_pos hc]
      obtain ⟨h1, -, -⟩ := add_bit_facts CLD_QA (by decide) (cloud i) (hbyte i)
        (hclear i hc.1)
      have e : (cloud i + 2) % 256 = cloud i + 2 ^ CLD_QA :=
        Nat.mod_eq_of_lt h1
      rw [e]
      exact add_bit_other CLD_QA (cloud i) (by decide) (hbyte i)
        (hclear i hc.1) b hb
    · rw [if_neg hc]
  · intro i hres
    rw [cloudTestPass_apply]
    have : ¬ (i < npix ∧ CloudTest c sband tresi mclear i) :=
      fun h => absurd h.2.1 (not_lt.mpr hres)
    rw [if_neg this]

/-- Witness for C15: in the three-pixel scene with `mclear = 290`, the
bright, cold pixel 2 (negative residual) receives the cloud bit and pixel 1
(positive residual) is not modified. -/
theorem cloud_test_sets_cloud_bit_witness :
    btest (cloudTestPass l8 demoCloudBands demoField.tresi 290 3 demoClearMask 2)
      CLD_QA = true ∧
    cloudTestPass l8 demoCloudBands demoField.tresi 290 3 demoClearMask 1
      = demoClearMask 1 := by
  have key := cloud_test_sets_cloud_bit l8 demoCloudBands demoField.tresi 290 3
    demoClearMask (fun _ => (by decide : (0 : Nat) < 256))
    (fun _ _ => (by decide : btest 0 CLD_QA = false))
  refine ⟨(key.1 2 (by decide)).mpr ?_, key.2.2 1 ?_⟩
  · norm_num [demoField, demoCloudBands, SR_BAND2, SR_BAND4, SR_BAND5,
      SR_BAND10, l8]
  · norm_num [demoField]


/-! ### Cloud shadow expansion and update -/

theorem shadow_byte_facts (tresi : Nat → ℚ) (p v : Nat) (hv : v < 256)
    (ht : shadowTarget tresi p v = true) :
    v + 16 < 256 ∧ shadowTarget tresi p (v + 16) = false ∧
    shadowSource p (v + 16) = shadowSource p v ∧
    btest (v + 16) CLDT_QA = true ∧
    ∀ b, b ≠ CLDT_QA → btest (v + 16) b = btest v b := by
  unfold shadowTarget at ht
  simp only [Bool.and_eq_true, Bool.not_eq_true', Bool.or_eq_false_iff] at ht
  obtain ⟨⟨⟨-, -⟩, h4⟩, -⟩ := ht
  obtain ⟨h1, h2, -⟩ := add_bit_facts CLDT_QA (by decide) v hv h4
  have hother := add_bit_other CLDT_QA v (by decide) hv h4
  have e : v + 2 ^ CLDT_QA = v + 16 := rfl
  rw [e] at h1 h2 hother
  refine ⟨h1, ?_, ?_, h2, hother⟩
  · unfold shadowTarget
    rw [h2]
    simp
  · unfold shadowSource
    exact hother CLDS_QA (by decide)

theorem shadowExpandPass_spec (nlines nsamps : Nat) (tresi : Nat → ℚ)
    (cloud : Nat → Nat) (hbyte : ∀ p, cloud p < 256) :
    DilInv (shadowTarget tresi) 16 cloud
      (Reached nlines nsamps shadowSource 6 cloud)
      (shadowExpandPass nlines nsamps tresi cloud) := by
  unfold shadowExpandPass
  refine dilatePass_spec nlines nsamps shadowSource (shadowTarget tresi) 16 6
    cloud hbyte ?_ ?_
  · intro p v hv ht
    obtain ⟨h1, h2, -⟩ := shadow_byte_facts tresi p v hv ht
    exact ⟨h1, h2⟩
  · intro p v hv ht
    exact (shadow_byte_facts tresi p v hv ht).2.2.1

theorem shadowTarget_iff (tresi : Nat → ℚ) (p v : Nat)
    (h4 : btest v CLDT_QA = false) :
    shadowTarget tresi p v = true ↔
      btest v CLD_QA = false ∧ btest v CLDS_QA = false ∧ tresi p < 0 := by
  unfold shadowTarget
  rw [h4]
  simp [and_assoc]

/-- After the expansion of a mask of bytes without temporary bit, the bytes
are still bytes and a pixel carrying the temporary bit does not carry the
cloud shadow bit. -/
theorem shadowExpandPass_marks (nlines nsamps : Nat) (tresi : Nat → ℚ)
    (cloud : Nat → Nat) (hbyte : ∀ p, cloud p < 256)
    (hclear : ∀ p, p < nlines * nsamps → btest (cloud p) CLDT_QA = false) :
    (∀ p, shadowExpandPass nlines nsamps tresi cloud p < 256) ∧
    (∀ p, p < nlines * nsamps →
      btest (shadowExpandPass nlines nsamps tresi cloud p) CLDT_QA = true →
      btest (shadowExpandPass nlines nsamps tresi cloud p) CLDS_QA = false) := by
  have hspec := shadowExpandPass_spec nlines nsamps tresi cloud hbyte
  constructor
  · intro p
    by_cases hcase : Reached nlines nsamps shadowSource 6 cloud p ∧
        shadowTarget tresi p (cloud p) = true
    · rw [(hspec p).1 hcase]
      exact (shadow_byte_facts tresi p (cloud p) (hbyte p) hcase.2).1
    · rw [(hspec p).2 hcase]
      exact hbyte p
  · intro p hp
    by_cases hcase : Reached nlines nsamps shadowSource 6 cloud p ∧
        shadowTarget tresi p (cloud p) = true
    · rw [(hspec p).1 hcase]
      intro _
      rw [(shadow_byte_facts tresi p (cloud p) (hbyte p) hcase.2).2.2.2.2
        CLDS_QA (by decide)]
      exact ((shadowTarget_iff tresi p (cloud p) (hclear p hp)).mp hcase.2).2.1
    · rw [(hspec p).2 hcase, hclear p hp]
      intro h
      cases h

/-- C18: shadow dilation. Starting from a mask of bytes in which no raster
pixel has the provisional marker (value 16), after the expansion pass a
raster pixel `p` carries the marker if and only if it has neither the cloud
bit nor the shadow bit, `tresi[p] < 0`, and some raster pixel `q` carrying
the shadow bit before the pass satisfies `|line(p)-line(q)| <= 6` and
`|samp(p)-samp(q)| <= 6`; the shadow bit, which seeds the dilation, is the
same after the pass as before it, as is every bit other than the marker. -/
theorem shadow_dilation_exact (nlines nsamps : Nat) (tresi : Nat → ℚ)
    (cloud : Nat → Nat) (hbyte : ∀ p, cloud p < 256)
    (hclear : ∀ p, p < nlines * nsamps → btest (cloud p) CLDT_QA = false) :
    (∀ p, p < nlines * nsamps →
      (btest (shadowExpandPass nlines nsamps tresi cloud p) CLDT_QA = true ↔
        btest (cloud p) CLD_QA = false ∧ btest (cloud p) CLDS_QA = false ∧
        tresi p < 0 ∧
        ∃ q, q < nlines * nsamps ∧ btest (cloud q) CLDS_QA = true ∧
          InWindow nsamps 6 p q)) ∧
    (∀ p b, b ≠ CLDT_QA →
      btest (shadowExpandPass nlines nsamps tresi cloud p) b
        = btest (cloud p) b) ∧
    (∀ p, nlines * nsamps ≤ p →
      shadowExpandPass nlines nsamps tresi cloud p = cloud p) := by
  have hspec := shadowExpandPass_spec nlines nsamps tresi cloud hbyte
  refine ⟨?_, ?_, ?_⟩
  · intro p hp
    by_cases hcase : Reached nlines nsamps shadowSource 6 cloud p ∧
        shadowTarget tresi p (cloud p) = true
    · rw [(hspec p).1 hcase]
      have hbit := (shadow_byte_facts tresi p (cloud p) (hbyte p)
        hcase.2).2.2.2.1
      obtain ⟨-, q, hq, hs, hw⟩ := (reached_iff_window _ _ _ _ _ _).mp hcase.1
      have ht := (shadowTarget_iff tresi p (cloud p) (hclear p hp)).mp hcase.2
      exact ⟨fun _ => ⟨ht.1, ht.2.1, ht.2.2, q, hq, hs, hw⟩, fun _ => hbit⟩
    · rw [(hspec p).2 hcase, hclear p hp]
      constructor
      · intro h; cases h
      · rintro ⟨h1, h2, h3, q, hq, hs, hw⟩
        exact absurd ⟨(reached_iff_window _ _ _ _ _ _).mpr ⟨hp, q, hq, hs, hw⟩,
          (shadowTarget_iff tresi p (cloud p) (hclear p hp)).mpr ⟨h1, h2, h3⟩⟩
          hcase
  · intro p b hb
    by_cases hcase : Reached nlines nsamps shadowSource 6 cloud p ∧
        shadowTarget tresi p (cloud p) = true
    · rw [(hspec p).1 hcase]
      exact (shadow_byte_facts tresi p (cloud p) (hbyte p) hcase.2).2.2.2.2 b hb
    · rw [(hspec p).2 hcase]
  · intro p hp
    have hcase : ¬ (Reached nlines nsamps shadowSource 6 cloud p ∧
        shadowTarget tresi p (cloud p) = true) := by
      rintro ⟨hr, -⟩
      have := ((reached_iff_window _ _ _ _ _ _).mp hr).1
      omega
    exact (hspec p).2 hcase

/-- Witness for C18: a 4 x 4 raster whose only shadow pixel is pixel 5 and
whose residuals are negative except at pixel 3; pixel 0 receives the
provisional marker, pixel 3 does not. -/
theorem shadow_dilation_exact_witness :
    btest (shadowExpandPass 4 4 demoShadowResidual demoShadowMask 0) CLDT_QA
      = true ∧
    ¬ (btest (shadowExpandPass 4 4 demoShadowResidual demoShadowMask 3) CLDT_QA
      = true) := by
  have key := shadow_dilation_exact 4 4 demoShadowResidual demoShadowMask
    (fun p => by unfold demoShadowMask; split <;> decide)
    (fun p _ => by unfold demoShadowMask; split <;> decide)
  constructor
  · refine ((key.1 0 (by decide)).mpr ⟨by decide, by decide, ?_, 5, by decide,
      by decide, ?_⟩)
    · norm_num [demoShadowResidual]
    · rw [inWindow_iff]; decide
  · intro h
    have h3 := ((key.1 3 (by decide)).mp h).2.2.1
    norm_num [demoShadowResidual] at h3

set_option maxRecDepth 100000 in
/-- Subtracting 8 from a mask byte that carries the temporary bit and not the
cloud shadow bit. -/
theorem sub8_byte_value : ∀ v, v < 256 →
    (btest v CLDT_QA = true ∧ btest v CLDS_QA = false) →
    (v + 248) % 256 = v + 8 - 16 ∧
    btest ((v + 248) % 256) CLDS_QA = true ∧
    btest ((v + 248) % 256) CLDT_QA = false := by
  decide

set_option maxRecDepth 100000 in
theorem sub8_byte_other : ∀ v, v < 256 →
    (btest v CLDT_QA = true ∧ btest v CLDS_QA = false) →
    ∀ b, b < 8 → (b ≠ CLDS_QA ∧ b ≠ CLDT_QA) →
      btest ((v + 248) % 256) b = btest v b := by
  decide

theorem shadowUpdatePass_apply (npix : Nat) (cloud : Nat → Nat) (i : Nat) :
    shadowUpdatePass npix cloud i
      = if i < npix ∧ btest (cloud i) CLDT_QA = true then
          (cloud i + 248) % 256
        else cloud i := by
  have hbody : shadowUpdatePixel
      = fun a i => Function.update a i
          ((fun _ v => if btest v CLDT_QA = true then (v + 248) % 256 else v)
            i (a i)) := by
    funext a i
    unfold shadowUpdatePixel
    by_cases h1 : btest (a i) CLDT_QA = true
    · rw [if_pos h1]
      dsimp only
      rw [if_pos h1]
    · rw [if_neg h1]
      dsimp only
      rw [if_neg h1, Function.update_eq_self]
  have h := foldl_update_range
    (fun _ v => if btest v CLDT_QA = true then (v + 248) % 256 else v)
    npix cloud i
  unfold shadowUpdatePass
  rw [hbody]
  refine h.trans ?_
  by_cases hi : i < npix
  · simp [hi]
  · simp [hi]

/-- C19: provisional-to-permanent shadow conversion. Let `e` be the mask
left by the expansion pass run on a mask of bytes without provisional bit,
and `u` the mask after the update pass (`cloud[i] -= 8` on every pixel
carrying the value-16 bit). Every raster pixel that carried the provisional
bit in `e` has in `u` the shadow bit (8) set and the provisional bit (16)
cleared with all its other bits unchanged, and `u[i] = e[i] + 8 - 16`; every
pixel that did not carry the provisional bit is unchanged, so seed shadow
pixels keep the shadow bit; and no raster pixel carries the provisional bit
in `u`. -/
theorem shadow_update_converts (nlines nsamps : Nat) (tresi : Nat → ℚ)
    (cloud : Nat → Nat) (hbyte : ∀ p, cloud p < 256)
    (hclear : ∀ p, p < nlines * nsamps → btest (cloud p) CLDT_QA = false) :
    (∀ i, i < nlines * nsamps →
      btest (shadowExpandPass nlines nsamps tresi cloud i) CLDT_QA = true →
      btest (shadowUpdatePass (nlines * nsamps)
        (shadowExpandPass nlines nsamps tresi cloud) i) CLDS_QA = true ∧
      btest (shadowUpdatePass (nlines * nsamps)
        (shadowExpandPass nlines nsamps tresi cloud) i) CLDT_QA = false ∧
      (∀ b, b ≠ CLDS_QA → b ≠ CLDT_QA →
        btest (shadowUpdatePass (nlines * nsamps)
          (shadowExpandPass nlines nsamps tresi cloud) i) b
          = btest (shadowExpandPass nlines nsamps tresi cloud i) b) ∧
      shadowUpdatePass (nlines * nsamps)
        (shadowExpandPass nlines nsamps tresi cloud) i
        = shadowExpandPass nlines nsamps tresi cloud i + 8 - 16) ∧
    (∀ i, btest (shadowExpandPass nlines nsamps tresi cloud i) CLDT_QA = false →
      shadowUpdatePass (nlines * nsamps)
        (shadowExpandPass nlines nsamps tresi cloud) i
        = shadowExpandPass nlines nsamps tresi cloud i) ∧
    (∀ i, i < nlines * nsamps → btest (cloud i) CLDS_QA = true →
      btest (shadowUpdatePass (nlines * nsamps)
        (shadowExpandPass nlines nsamps tresi cloud) i) CLDS_QA = true) ∧
    (∀ i, i < nlines * nsamps →
      btest (shadowUpdatePass (nlines * nsamps)
        (shadowExpandPass nlines nsamps tresi cloud) i) CLDT_QA = false) := by
  obtain ⟨hb, hm⟩ := shadowExpandPass_marks nlines nsamps tresi cloud hbyte hclear
  have hspec := shadowExpandPass_spec nlines nsamps tresi cloud hbyte
  have hconv : ∀ i, i < nlines * nsamps →
      btest (shadowExpandPass nlines nsamps tresi cloud i) CLDT_QA = true →
      btest (shadowUpdatePass (nlines * nsamps)
        (shadowExpandPass nlines nsamps tresi cloud) i) CLDS_QA = true ∧
      btest (shadowUpdatePass (nlines * nsamps)
        (shadowExpandPass nlines nsamps tresi cloud) i) CLDT_QA = false ∧
      (∀ b, b ≠ CLDS_QA → b ≠ CLDT_QA →
        btest (shadowUpdatePass (nlines * nsamps)
          (shadowExpandPass nlines nsamps tresi cloud) i) b
          = btest (shadowExpandPass nlines nsamps tresi cloud i) b) ∧
      shadowUpdatePass (nlines * nsamps)
        (shadowExpandPass nlines nsamps tresi cloud) i
        = shadowExpandPass nlines nsamps tresi cloud i + 8 - 16 := by
    intro i hi h4
    rw [shadowUpdatePass_apply, if_pos ⟨hi, h4⟩]
    obtain ⟨e1, e2, e3⟩ := sub8_byte_value _ (hb i) ⟨h4, hm i hi h4⟩
    have e4 := sub8_byte_other _ (hb i) ⟨h4, hm i hi h4⟩
    refine ⟨e2, e3, ?_, e1⟩
    intro b hb3 hb4
    by_cases hb8 : b < 8
    · exact e4 b hb8 ⟨hb3, hb4⟩
    · have hpow : 256 ≤ 2 ^ b := by
        have : 2 ^ 8 ≤ 2 ^ b := Nat.pow_le_pow_right (by decide) (by omega)
        simpa using this
      have hlt : (shadowExpandPass nlines nsamps tresi cloud i + 248) % 256
          < 256 := Nat.mod_lt _ (by decide)
      have hbi := hb i
      unfold btest
      rw [Nat.testBit_lt_two_pow (by omega), Nat.testBit_lt_two_pow (by omega)]
  have hkeep : ∀ i,
      btest (shadowExpandPass nlines nsamps tresi cloud i) CLDT_QA = false →
      shadowUpdatePass (nlines * nsamps)
        (shadowExpandPass nlines nsamps tresi cloud) i
        = shadowExpandPass nlines nsamps tresi cloud i := by
    intro i h4
    rw [shadowUpdatePass_apply, if_neg]
    rintro ⟨-, h⟩
    rw [h4] at h
    cases h
  refine ⟨hconv, hkeep, ?_, ?_⟩
  · intro i hi h3
    cases h4 : btest (shadowExpandPass nlines nsamps tresi cloud i) CLDT_QA
    · rw [hkeep i h4]
      by_cases hcase : Reached nlines nsamps shadowSource 6 cloud i ∧
          shadowTarget tresi i (cloud i) = true
      · rw [(hspec i).1 hcase,
          (shadow_byte_facts tresi i (cloud i) (hbyte i) hcase.2).2.2.2.2
            CLDS_QA (by decide)]
        exact h3
      · rw [(hspec i).2 hcase]
        exact h3
    · exact (hconv i hi h4).1
  · intro i hi
    cases h4 : btest (shadowExpandPass nlines nsamps tresi cloud i) CLDT_QA
    · rw [hkeep i h4]
      exact h4
    · exact (hconv i hi h4).2.1

/-- Witness for C19: on the 4 x 4 raster whose only shadow pixel is pixel 5,
after expansion and update the seed pixel 5 still carries the shadow bit and
no longer any provisional bit. -/
theorem shadow_update_converts_witness :
    btest (shadowUpdatePass (4 * 4)
      (shadowExpandPass 4 4 demoShadowResidual demoShadowMask) 5) CLDS_QA = true ∧
    btest (shadowUpdatePass (4 * 4)
      (shadowExpandPass 4 4 demoShadowResidual demoShadowMask) 5) CLDT_QA
      = false := by
  have key := shadow_update_converts 4 4 demoShadowResidual demoShadowMask
    (fun p => by unfold demoShadowMask; split <;> decide)
    (fun p _ => by unfold demoShadowMask; split <;> decide)
  exact ⟨key.2.2.1 5 (by decide) (by decide), key.2.2.2 5 (by decide)⟩


/-! ### Shadow casting -/

theorem foldl_filterMap_eq {α β σ : Type} (f : α → Option β) (g : σ → β → σ)
    (l : List α) :
    ∀ m : σ, (l.filterMap f).foldl g m
      = l.foldl (fun m x => (f x).elim m (g m)) m := by
  induction l with
  | nil => intro m; rfl
  | cons x xs ih =>
    intro m
    cases hx : f x with
    | none =>
      rw [List.filterMap_cons_none hx, List.foldl_cons, ih, hx]
      rfl
    | some y =>
      rw [List.filterMap_cons_some hx, List.foldl_cons, List.foldl_cons, ih, hx]
      rfl

/-- A running strict minimum over a list keeps the first element of least
value, or the initial record when no element is below it. -/
theorem foldl_first_min {β σ : Type} (val : β → Int) (key : σ → Int)
    (mk : β → σ) (hmk : ∀ x, key (mk x) = val x) (l : List β) :
    ∀ m : σ,
      (l.foldl (fun m x => if val x < key m then mk x else m) m = m ∧
        ∀ x, x ∈ l → key m ≤ val x) ∨
      (∃ pre w post, l = pre ++ w :: post ∧
        l.foldl (fun m x => if val x < key m then mk x else m) m = mk w ∧
        val w < key m ∧ (∀ x, x ∈ pre → val w < val x) ∧
        (∀ x, x ∈ post → val w ≤ val x)) := by
  induction l with
  | nil =>
    intro m
    left
    exact ⟨rfl, fun x hx => by cases hx⟩
  | cons x xs ih =>
    intro m
    rw [List.foldl_cons]
    by_cases hlt : val x < key m
    · rw [if_pos hlt]
      rcases ih (mk x) with ⟨hr, hall⟩ | ⟨pre, w, post, hl, hr, hw, hpre, hpost⟩
      · right
        refine ⟨[], x, xs, rfl, hr, hlt, fun y hy => (by cases hy), ?_⟩
        intro y hy
        have := hall y hy
        rw [hmk] at this
        exact this
      · right
        rw [hmk] at hw
        refine ⟨x :: pre, w, post, by rw [hl]; rfl, hr, lt_trans hw hlt, ?_,
          hpost⟩
        intro y hy
        rcases List.mem_cons.mp hy with h1 | h1
        · rw [h1]; exact hw
        · exact hpre y h1
    · rw [if_neg hlt]
      rcases ih m with ⟨hr, hall⟩ | ⟨pre, w, post, hl, hr, hw, hpre, hpost⟩
      · left
        refine ⟨hr, ?_⟩
        intro y hy
        rcases List.mem_cons.mp hy with h1 | h1
        · rw [h1]; exact not_lt.mp hlt
        · exact hall y h1
      · right
        refine ⟨x :: pre, w, post, by rw [hl]; rfl, hr, hw, ?_, hpost⟩
        intro y hy
        rcases List.mem_cons.mp hy with h1 | h1
        · rw [h1]; exact lt_of_lt_of_le hw (not_lt.mp hlt)
        · exact hpre y h1

theorem mem_cldhRange (cldhmin cldhmax x : Int) :
    x ∈ cldhRange cldhmin cldhmax ↔
      truncToInt ((cldhmin : ℚ) * (1 / 10)) ≤ x ∧
        x ≤ ⌊(cldhmax : ℚ) * (1 / 10)⌋ := by
  unfold cldhRange
  rw [List.mem_map]
  constructor
  · rintro ⟨d, hd, rfl⟩
    rw [List.mem_range] at hd
    omega
  · rintro ⟨h1, h2⟩
    refine ⟨(x - truncToInt ((cldhmin : ℚ) * (1 / 10))).toNat, ?_, ?_⟩
    · rw [List.mem_range]
      omega
    · omega

theorem shadowStep_eq (nlines nsamps : Nat) (sband : Nat → Nat → Int)
    (cloud : Nat → Nat) (facl fack : ℚ) (i j : Nat) (m : ShadowMin)
    (icldh : Int) :
    shadowStep nlines nsamps sband cloud facl fack i j m icldh
      = (shadowCandidateAt nlines nsamps sband cloud facl fack i j icldh).elim m
          (fun kl =>
            if sband SR_BAND6 (shadowPix nsamps kl) < m.mband5 then
              { mband5 := sband SR_BAND6 (shadowPix nsamps kl),
                mband5k := kl.1, mband5l := kl.2 }
            else m) := by
  unfold shadowStep shadowCandidateAt shadowProject ShadowCandidate shadowPix
  dsimp only
  generalize truncToInt ((i : ℚ) + facl * ((icldh : ℚ) * 10)) = k
  generalize truncToInt ((j : ℚ) - fack * ((icldh : ℚ) * 10)) = l
  by_cases hout : k < 0 ∨ k ≥ (nlines : Int) ∨ l < 0 ∨ l ≥ (nsamps : Int)
  · rw [if_pos hout, if_pos hout]
    rfl
  · rw [if_neg hout, if_neg hout]
    dsimp only
    by_cases hband : sband SR_BAND6 (k * (nsamps : Int) + l).toNat < 800 ∧
        sband SR_BAND3 (k * (nsamps : Int) + l).toNat
          - sband SR_BAND4 (k * (nsamps : Int) + l).toNat < 100
    · rw [if_pos hband]
      by_cases hbits : btest (cloud (k * (nsamps : Int) + l).toNat) CLD_QA = true ∨
          btest (cloud (k * (nsamps : Int) + l).toNat) CIR_QA = true ∨
          btest (cloud (k * (nsamps : Int) + l).toNat) CLDS_QA = true
      · rw [if_pos hbits, if_neg (fun h => h.2 hbits)]
        rfl
      · rw [if_neg hbits]
        have hc := And.intro hband hbits
        simp only [if_pos hc]
        rfl
    · rw [if_neg hband, if_neg (fun h => hband h.1)]
      rfl

theorem shadowProject_some (nlines nsamps : Nat) (facl fack : ℚ) (i j : Nat)
    (icldh : Int) (kl : Int × Int) :
    shadowProject nlines nsamps facl fack i j icldh = some kl ↔
      (0 ≤ kl.1 ∧ kl.1 < (nlines : Int) ∧ 0 ≤ kl.2 ∧ kl.2 < (nsamps : Int)) ∧
      kl.1 = truncToInt ((i : ℚ) + facl * ((icldh : ℚ) * 10)) ∧
      kl.2 = truncToInt ((j : ℚ) - fack * ((icldh : ℚ) * 10)) := by
  unfold shadowProject
  generalize truncToInt ((i : ℚ) + facl * ((icldh : ℚ) * 10)) = k
  generalize truncToInt ((j : ℚ) - fack * ((icldh : ℚ) * 10)) = l
  obtain ⟨a, b⟩ := kl
  by_cases hout : k < 0 ∨ k ≥ (nlines : Int) ∨ l < 0 ∨ l ≥ (nsamps : Int)
  · rw [if_pos hout]
    constructor
    · intro h; cases h
    · rintro ⟨⟨h1, h2, h3, h4⟩, h5, h6⟩
      dsimp only at h1 h2 h3 h4 h5 h6
      omega
  · rw [if_neg hout]
    constructor
    · intro h
      injection h with h
      injection h with h1 h2
      dsimp only
      omega
    · rintro ⟨-, h5, h6⟩
      dsimp only at h5 h6
      rw [h5, h6]

theorem mem_shadowCandidates (c : Consts) (nlines nsamps : Nat)
    (sband : Nat → Nat → Int) (cloud : Nat → Nat) (facl fack mclear : ℚ)
    (i j : Nat) (kl : Int × Int) :
    kl ∈ shadowCandidates c nlines nsamps sband cloud facl fack mclear i j ↔
      ∃ icldh, icldh ∈ shadowHeights c sband mclear (i * nsamps + j) ∧
        shadowProject nlines nsamps facl fack i j icldh = some kl ∧
        ShadowCandidate sband cloud (shadowPix nsamps kl) := by
  unfold shadowCandidates
  rw [List.mem_filterMap]
  constructor
  · rintro ⟨icldh, hmem, hc⟩
    refine ⟨icldh, hmem, ?_⟩
    unfold shadowCandidateAt at hc
    cases hp : shadowProject nlines nsamps facl fack i j icldh with
    | none => rw [hp] at hc; cases hc
    | some kl1 =>
      rw [hp] at hc
      dsimp only at hc
      by_cases hcand : ShadowCandidate sband cloud (shadowPix nsamps kl1)
      · rw [if_pos hcand] at hc
        injection hc with hc
        subst hc
        exact ⟨rfl, hcand⟩
      · rw [if_neg hcand] at hc
        cases hc
  · rintro ⟨icldh, hmem, hp, hcand⟩
    refine ⟨icldh, hmem, ?_⟩
    unfold shadowCandidateAt
    rw [hp]
    dsimp only
    rw [if_pos hcand]

/-- The cloud-height search returns the first candidate of least band 6
value, or its initial record when no candidate is visited. -/
theorem shadowSearch_spec (c : Consts) (nlines nsamps : Nat)
    (sband : Nat → Nat → Int) (cloud : Nat → Nat) (facl fack mclear : ℚ)
    (i j : Nat) :
    (shadowCandidates c nlines nsamps sband cloud facl fack mclear i j = [] ∧
      (shadowHeights c sband mclear (i * nsamps + j)).foldl
        (shadowStep nlines nsamps sband cloud facl fack i j)
        { mband5 := 9999, mband5k := -9999, mband5l := -9999 }
        = { mband5 := 9999, mband5k := -9999, mband5l := -9999 }) ∨
    (∃ pre kl post,
      shadowCandidates c nlines nsamps sband cloud facl fack mclear i j
        = pre ++ kl :: post ∧
      (shadowHeights c sband mclear (i * nsamps + j)).foldl
        (shadowStep nlines nsamps sband cloud facl fack i j)
        { mband5 := 9999, mband5k := -9999, mband5l := -9999 }
        = { mband5 := sband SR_BAND6 (shadowPix nsamps kl),
            mband5k := kl.1, mband5l := kl.2 } ∧
      (∀ x, x ∈ pre →
        sband SR_BAND6 (shadowPix nsamps kl) < sband SR_BAND6 (shadowPix nsamps x)) ∧
      (∀ x, x ∈ post →
        sband SR_BAND6 (shadowPix nsamps kl)
          ≤ sband SR_BAND6 (shadowPix nsamps x))) := by
  have hfold : ∀ m0 : ShadowMin,
      (shadowHeights c sband mclear (i * nsamps + j)).foldl
        (shadowStep nlines nsamps sband cloud facl fack i j) m0
      = (shadowCandidates c nlines nsamps sband cloud facl fack mclear i j).foldl
          (fun m kl =>
            if (fun kl : Int × Int => sband SR_BAND6 (shadowPix nsamps kl)) kl
                < ShadowMin.mband5 m then
              (fun kl : Int × Int =>
                ({ mband5 := sband SR_BAND6 (shadowPix nsamps kl),
                   mband5k := kl.1, mband5l := kl.2 } : ShadowMin)) kl
            else m) m0 := by
    intro m0
    unfold shadowCandidates
    rw [foldl_filterMap_eq]
    congr 1
    funext m icldh
    exact shadowStep_eq nlines nsamps sband cloud facl fack i j m icldh
  rw [hfold]
  have hmin := foldl_first_min
    (fun kl : Int × Int => sband SR_BAND6 (shadowPix nsamps kl))
    ShadowMin.mband5
    (fun kl : Int × Int =>
      ({ mband5 := sband SR_BAND6 (shadowPix nsamps kl),
         mband5k := kl.1, mband5l := kl.2 } : ShadowMin))
    (fun _ => rfl)
    (shadowCandidates c nlines nsamps sband cloud facl fack mclear i j)
    { mband5 := 9999, mband5k := -9999, mband5l := -9999 }
  rcases hmin with ⟨hr, hall⟩ | ⟨pre, w, post, hl, hr, -, hpre, hpost⟩
  · left
    refine ⟨?_, hr⟩
    cases hc : shadowCandidates c nlines nsamps sband cloud facl fack mclear i j with
    | nil => rfl
    | cons x xs =>
      have hx : x ∈ shadowCandidates c nlines nsamps sband cloud facl fack
          mclear i j := by rw [hc]; exact List.mem_cons_self _ _
      have h1 := hall x hx
      obtain ⟨_, -, -, hcand⟩ := (mem_shadowCandidates _ _ _ _ _ _ _ _ _ _ _).mp hx
      have h2 := hcand.1.1
      dsimp only at h1
      omega
  · right
    exact ⟨pre, w, post, hl, hr, hpre, hpost⟩

/-- The shadow casting of one cloud or cirrus pixel: the candidates visited
are projected raster pixels passing the band tests with none of the cloud,
cirrus and cloud shadow bits; without candidate the mask is unchanged;
otherwise the first candidate of least band 6 value receives 8, which sets
its cloud shadow bit and nothing else. -/
theorem shadowCastPixel_spec (c : Consts) (nlines nsamps : Nat)
    (sband : Nat → Nat → Int) (facl fack mclear : ℚ) (i j : Nat)
    (cloud : Nat → Nat) (hbyte : ∀ p, cloud p < 256)
    (hcloud : btest (cloud (i * nsamps + j)) CLD_QA = true ∨
      btest (cloud (i * nsamps + j)) CIR_QA = true) :
    (∀ kl, kl ∈ shadowCandidates c nlines nsamps sband cloud facl fack mclear i j →
      (0 ≤ kl.1 ∧ kl.1 < (nlines : Int) ∧ 0 ≤ kl.2 ∧ kl.2 < (nsamps : Int)) ∧
      sband SR_BAND6 (shadowPix nsamps kl) < 800 ∧
      sband SR_BAND3 (shadowPix nsamps kl)
        - sband SR_BAND4 (shadowPix nsamps kl) < 100 ∧
      btest (cloud (shadowPix nsamps kl)) CLD_QA = false ∧
      btest (cloud (shadowPix nsamps kl)) CIR_QA = false ∧
      btest (cloud (shadowPix nsamps kl)) CLDS_QA = false ∧
      ∃ icldh, icldh ∈ shadowHeights c sband mclear (i * nsamps + j) ∧
        kl.1 = truncToInt ((i : ℚ) + facl * ((icldh : ℚ) * 10)) ∧
        kl.2 = truncToInt ((j : ℚ) - fack * ((icldh : ℚ) * 10))) ∧
    (shadowCandidates c nlines nsamps sband cloud facl fack mclear i j = [] →
      shadowCastPixel c nlines nsamps sband facl fack mclear i cloud j = cloud) ∧
    (shadowCandidates c nlines nsamps sband cloud facl fack mclear i j ≠ [] →
      ∃ pre kl post,
        shadowCandidates c nlines nsamps sband cloud facl fack mclear i j
          = pre ++ kl :: post ∧
        (∀ x, x ∈ pre →
          sband SR_BAND6 (shadowPix nsamps kl)
            < sband SR_BAND6 (shadowPix nsamps x)) ∧
        (∀ x, x ∈ post →
          sband SR_BAND6 (shadowPix nsamps kl)
            ≤ sband SR_BAND6 (shadowPix nsamps x)) ∧
        shadowCastPixel c nlines nsamps sband facl fack mclear i cloud j
            (shadowPix nsamps kl)
          = cloud (shadowPix nsamps kl) + 8 ∧
        btest (shadowCastPixel c nlines nsamps sband facl fack mclear i cloud j
            (shadowPix nsamps kl)) CLDS_QA = true ∧
        (∀ b, b ≠ CLDS_QA →
          btest (shadowCastPixel c nlines nsamps sband facl fack mclear i cloud j
              (shadowPix nsamps kl)) b
            = btest (cloud (shadowPix nsamps kl)) b) ∧
        ∀ q, q ≠ shadowPix nsamps kl →
          shadowCastPixel c nlines nsamps sband facl fack mclear i cloud j q
            = cloud q) := by
  have hmem : ∀ kl,
      kl ∈ shadowCandidates c nlines nsamps sband cloud facl fack mclear i j →
      (0 ≤ kl.1 ∧ kl.1 < (nlines : Int) ∧ 0 ≤ kl.2 ∧ kl.2 < (nsamps : Int)) ∧
      sband SR_BAND6 (shadowPix nsamps kl) < 800 ∧
      sband SR_BAND3 (shadowPix nsamps kl)
        - sband SR_BAND4 (shadowPix nsamps kl) < 100 ∧
      btest (cloud (shadowPix nsamps kl)) CLD_QA = false ∧
      btest (cloud (shadowPix nsamps kl)) CIR_QA = false ∧
      btest (cloud (shadowPix nsamps kl)) CLDS_QA = false ∧
      ∃ icldh, icldh ∈ shadowHeights c sband mclear (i * nsamps + j) ∧
        kl.1 = truncToInt ((i : ℚ) + facl * ((icldh : ℚ) * 10)) ∧
        kl.2 = truncToInt ((j : ℚ) - fack * ((icldh : ℚ) * 10)) := by
    intro kl hkl
    obtain ⟨icldh, hh, hp, hcand⟩ :=
      (mem_shadowCandidates _ _ _ _ _ _ _ _ _ _ _).mp hkl
    obtain ⟨hr, hk, hl⟩ := (shadowProject_some _ _ _ _ _ _ _ _).mp hp
    obtain ⟨⟨hb6, hb34⟩, hbits⟩ := hcand
    refine ⟨hr, hb6, hb34, ?_, ?_, ?_, icldh, hh, hk, hl⟩
    · cases hb : btest (cloud (shadowPix nsamps kl)) CLD_QA
      · rfl
      · exact absurd (Or.inl hb) hbits
    · cases hb : btest (cloud (shadowPix nsamps kl)) CIR_QA
      · rfl
      · exact absurd (Or.inr (Or.inl hb)) hbits
    · cases hb : btest (cloud (shadowPix nsamps kl)) CLDS_QA
      · rfl
      · exact absurd (Or.inr (Or.inr hb)) hbits
  refine ⟨hmem, ?_, ?_⟩
  · intro hnil
    unfold shadowCastPixel
    dsimp only
    rw [if_pos hcloud]
    rcases shadowSearch_spec c nlines nsamps sband cloud facl fack mclear i j
      with ⟨-, hm⟩ | ⟨pre, kl, post, hl, -⟩
    · rw [hm]
      rfl
    · rw [hnil] at hl
      cases pre <;> cases hl
  · intro hne
    rcases shadowSearch_spec c nlines nsamps sband cloud facl fack mclear i j
      with ⟨hnil, -⟩ | ⟨pre, kl, post, hl, hm, hpre, hpost⟩
    · exact absurd hnil hne
    · have hkl : kl ∈ shadowCandidates c nlines nsamps sband cloud facl fack
          mclear i j := by rw [hl]; simp
      obtain ⟨-, hb6, -, -, -, h3, -⟩ := hmem kl hkl
      have hout : shadowCastPixel c nlines nsamps sband facl fack mclear i cloud j
          = Function.update cloud (shadowPix nsamps kl)
              ((cloud (shadowPix nsamps kl) + 8) % 256) := by
        unfold shadowCastPixel
        dsimp only
        rw [if_pos hcloud, hm]
        dsimp only
        rw [if_pos (by omega)]
        rfl
      obtain ⟨h1, h2, -⟩ := add_bit_facts CLDS_QA (by decide)
        (cloud (shadowPix nsamps kl)) (hbyte _) h3
      have hother := add_bit_other CLDS_QA (cloud (shadowPix nsamps kl))
        (by decide) (hbyte _) h3
      have e : cloud (shadowPix nsamps kl) + 2 ^ CLDS_QA
          = cloud (shadowPix nsamps kl) + 8 := rfl
      rw [e] at h1 h2 hother
      have hval : shadowCastPixel c nlines nsamps sband facl fack mclear i cloud j
          (shadowPix nsamps kl) = cloud (shadowPix nsamps kl) + 8 := by
        rw [hout, Function.update_same, Nat.mod_eq_of_lt h1]
      refine ⟨pre, kl, post, hl, hpre, hpost, hval, ?_, ?_, ?_⟩
      · rw [hval]; exact h2
      · intro b hb
        rw [hval]
        exact hother b hb
      · intro q hq
        rw [hout, Function.update_noteq hq]

/-- C17: shadow casting. For a cloud or cirrus pixel processed on a mask of
bytes, every candidate visited along the cloud-height search is a projected
pixel inside the raster with `sband[SR_BAND6] < 800`,
`sband[SR_BAND3] - sband[SR_BAND4] < 100` and none of the cloud, cirrus or
shadow bits set at that moment; when no candidate exists the mask is
unchanged; otherwise exactly one pixel receives the shadow bit (value 8):
the candidate whose band-6 value is the minimum over all candidates visited,
the first visited on ties, and no other bit and no other pixel changes. -/
theorem shadow_cast_first_minimum (c : Consts) (nlines nsamps : Nat)
    (sband : Nat → Nat → Int) (facl fack mclear : ℚ) (i j : Nat)
    (cloud : Nat → Nat) (hbyte : ∀ p, cloud p < 256)
    (hcloud : btest (cloud (i * nsamps + j)) CLD_QA = true ∨
      btest (cloud (i * nsamps + j)) CIR_QA = true) :
    (∀ kl, kl ∈ shadowCandidates c nlines nsamps sband cloud facl fack mclear i j →
      (0 ≤ kl.1 ∧ kl.1 < (nlines : Int) ∧ 0 ≤ kl.2 ∧ kl.2 < (nsamps : Int)) ∧
      sband SR_BAND6 (shadowPix nsamps kl) < 800 ∧
      sband SR_BAND3 (shadowPix nsamps kl)
        - sband SR_BAND4 (shadowPix nsamps kl) < 100 ∧
      btest (cloud (shadowPix nsamps kl)) CLD_QA = false ∧
      btest (cloud (shadowPix nsamps kl)) CIR_QA = false ∧
      btest (cloud (shadowPix nsamps kl)) CLDS_QA = false ∧
      ∃ icldh, icldh ∈ shadowHeights c sband mclear (i * nsamps + j) ∧
        kl.1 = truncToInt ((i : ℚ) + facl * ((icldh : ℚ) * 10)) ∧
        kl.2 = truncToInt ((j : ℚ) - fack * ((icldh : ℚ) * 10))) ∧
    (shadowCandidates c nlines nsamps sband cloud facl fack mclear i j = [] →
      shadowCastPixel c nlines nsamps sband facl fack mclear i cloud j = cloud) ∧
    (shadowCandidates c nlines nsamps sband cloud facl fack mclear i j ≠ [] →
      ∃ pre kl post,
        shadowCandidates c nlines nsamps sband cloud facl fack mclear i j
          = pre ++ kl :: post ∧
        (∀ x, x ∈ pre →
          sband SR_BAND6 (shadowPix nsamps kl)
            < sband SR_BAND6 (shadowPix nsamps x)) ∧
        (∀ x, x ∈ post →
          sband SR_BAND6 (shadowPix nsamps kl)
            ≤ sband SR_BAND6 (shadowPix nsamps x)) ∧
        shadowCastPixel c nlines nsamps sband facl fack mclear i cloud j
            (shadowPix nsamps kl)
          = cloud (shadowPix nsamps kl) + 8 ∧
        btest (shadowCastPixel c nlines nsamps sband facl fack mclear i cloud j
            (shadowPix nsamps kl)) CLDS_QA = true ∧
        (∀ b, b ≠ CLDS_QA →
          btest (shadowCastPixel c nlines nsamps sband facl fack mclear i cloud j
              (shadowPix nsamps kl)) b
            = btest (cloud (shadowPix nsamps kl)) b) ∧
        ∀ q, q ≠ shadowPix nsamps kl →
          shadowCastPixel c nlines nsamps sband facl fack mclear i cloud j q
            = cloud q) :=
  shadowCastPixel_spec c nlines nsamps sband facl fack mclear i j cloud hbyte
    hcloud

/-- In the 1 x 2 scene with the sun due east at 45 degrees (`facl = 0`,
`fack = 1/30`) and `mclear = 275`, the height index 1 projects the cloud
pixel 1 onto pixel 0, which is a candidate as soon as its mask byte has none
of the cloud, cirrus and cloud shadow bits. -/
theorem demo_shadow_candidate (cloud : Nat → Nat)
    (h0 : ¬ (btest (cloud 0) CLD_QA = true ∨ btest (cloud 0) CIR_QA = true ∨
      btest (cloud 0) CLDS_QA = true)) :
    ((0 : Int), (0 : Int)) ∈
      shadowCandidates l8 1 2 demoShadowBands cloud 0 (1 / 30) 275 0 1 := by
  rw [mem_shadowCandidates]
  refine ⟨1, ?_, ?_, ?_⟩
  · unfold shadowHeights
    dsimp only
    rw [mem_cldhRange]
    norm_num [demoShadowBands, SR_BAND10, l8, cfac, truncToInt, Int.ceil_neg]
  · rw [shadowProject_some]
    norm_num [truncToInt]
  · have hp : shadowPix 2 ((0 : Int), (0 : Int)) = 0 := by
      unfold shadowPix
      norm_num
    unfold ShadowCandidate
    rw [hp]
    refine ⟨?_, h0⟩
    norm_num [demoShadowBands, SR_BAND6, SR_BAND3, SR_BAND4]

/-- Witness for C17: in the 1 x 2 scene whose pixel 1 is cirrus, the search
started from pixel 1 visits a candidate and the selected candidate receives
the shadow bit. -/
theorem shadow_cast_first_minimum_witness :
    ∃ pre kl post,
      shadowCandidates l8 1 2 demoShadowBands demoCirrusMask 0 (1 / 30) 275 0 1
        = pre ++ kl :: post ∧
      shadowCastPixel l8 1 2 demoShadowBands 0 (1 / 30) 275 0 demoCirrusMask 1
          (shadowPix 2 kl)
        = demoCirrusMask (shadowPix 2 kl) + 8 := by
  have hne : shadowCandidates l8 1 2 demoShadowBands demoCirrusMask 0 (1 / 30)
      275 0 1 ≠ [] :=
    List.ne_nil_of_mem (demo_shadow_candidate demoCirrusMask (by decide))
  obtain ⟨pre, kl, post, h1, -, -, h2, -⟩ :=
    (shadow_cast_first_minimum l8 1 2 demoShadowBands 0 (1 / 30) 275 0 1
      demoCirrusMask (fun p => by unfold demoCirrusMask; split <;> decide)
      (Or.inr (by decide))).2.2 hne
  exact ⟨pre, kl, post, h1, h2⟩


/-! ### The mask refinement on a scene with a fill pixel -/

theorem shadowCastPixel_skip (c : Consts) (nlines nsamps : Nat)
    (sband : Nat → Nat → Int) (facl fack mclear : ℚ) (i j : Nat)
    (cloud : Nat → Nat)
    (h : ¬ (btest (cloud (i * nsamps + j)) CLD_QA = true ∨
      btest (cloud (i * nsamps + j)) CIR_QA = true)) :
    shadowCastPixel c nlines nsamps sband facl fack mclear i cloud j = cloud := by
  unfold shadowCastPixel
  dsimp only
  rw [if_neg h]

theorem demo_meanClearTemp :
    meanClearTemp l8 demoQa demoShadowBands demoCirrusMask (1 * 2) = 275 := by
  have hfold := tempStats_foldl l8 demoQa demoShadowBands demoCirrusMask
    (List.range (1 * 2)) { nbval := 0, nbclear := 0, mclear := 0, mall := 0 }
  have hnil : (List.range (1 * 2)).filter
      (fun i => decide (ClearPixel demoQa demoShadowBands demoCirrusMask i))
      = [] := by
    rw [List.filter_eq_nil_iff]
    intro p hp
    rw [List.mem_range] at hp
    have hp2 : p = 0 ∨ p = 1 := by omega
    rcases hp2 with rfl | rfl
    · simp [ClearPixel, demoQa]
    · simp [ClearPixel, demoCirrusMask, btest, CIR_QA]
  rw [hnil] at hfold
  unfold meanClearTemp tempStats
  rw [hfold.1]
  rfl

theorem demo_cloudTestPass (mclear : ℚ) :
    cloudTestPass l8 demoShadowBands (fun _ => 0) mclear (1 * 2) demoCirrusMask
      = demoCirrusMask := by
  funext p
  rw [cloudTestPass_apply, if_neg]
  rintro ⟨-, h, -⟩
  exact absurd h (lt_irrefl 0)

theorem demo_adjacencyPass : adjacencyPass 1 2 demoCirrusMask = demoAdjacentMask := by
  have hbyte : ∀ p, demoCirrusMask p < 256 := by
    intro p; unfold demoCirrusMask; split <;> decide
  have hspec := adjacencyPass_spec 1 2 demoCirrusMask hbyte
  funext p
  by_cases h0 : p = 0
  · subst h0
    have hr : Reached 1 2 adjSource 5 demoCirrusMask 0 ∧
        adjTarget 0 (demoCirrusMask 0) = true := by
      refine ⟨⟨0, by decide, 1, by decide, by decide, 0, by decide, 0,
        by decide, by decide, by decide, by decide, by decide, by decide⟩,
        by decide⟩
    rw [(hspec 0).1 hr]
    rfl
  · have hn : ¬ (Reached 1 2 adjSource 5 demoCirrusMask p ∧
        adjTarget p (demoCirrusMask p) = true) := by
      rintro ⟨hr, ht⟩
      have hp := ((reached_iff_window _ _ _ _ _ _).mp hr).1
      have hp1 : p = 1 := by omega
      subst hp1
      revert ht
      decide
    rw [(hspec p).2 hn]
    unfold demoCirrusMask demoAdjacentMask
    rw [if_neg h0]

theorem demo_shadow_target (kl : Int × Int)
    (h : kl ∈ shadowCandidates l8 1 2 demoShadowBands demoAdjacentMask 0
      (1 / 30) 275 0 1) : shadowPix 2 kl = 0 := by
  have hbyte : ∀ p, demoAdjacentMask p < 256 := by
    intro p; unfold demoAdjacentMask; split_ifs <;> decide
  obtain ⟨⟨hk0, hk1, hl0, hl1⟩, -, -, -, hcir, -⟩ :=
    (shadowCastPixel_spec l8 1 2 demoShadowBands 0 (1 / 30) 275 0 1
      demoAdjacentMask hbyte (Or.inr (by decide))).1 kl h
  obtain ⟨k, l⟩ := kl
  dsimp only at hk0 hk1 hl0 hl1
  have hk : k = 0 := by omega
  have hl : l = 0 ∨ l = 1 := by omega
  subst hk
  rcases hl with rfl | rfl
  · rfl
  · have hp : shadowPix 2 ((0 : Int), (1 : Int)) = 1 := rfl
    rw [hp] at hcir
    revert hcir
    decide

theorem demo_shadowCastPixel :
    shadowCastPixel l8 1 2 demoShadowBands 0 (1 / 30) 275 0 demoAdjacentMask 1
      = demoCastMask := by
  have hbyte : ∀ p, demoAdjacentMask p < 256 := by
    intro p; unfold demoAdjacentMask; split_ifs <;> decide
  have hne : shadowCandidates l8 1 2 demoShadowBands demoAdjacentMask 0 (1 / 30)
      275 0 1 ≠ [] :=
    List.ne_nil_of_mem (demo_shadow_candidate demoAdjacentMask (by decide))
  obtain ⟨pre, kl, post, hl, -, -, hval, -, -, hrest⟩ :=
    (shadowCastPixel_spec l8 1 2 demoShadowBands 0 (1 / 30) 275 0 1
      demoAdjacentMask hbyte (Or.inr (by decide))).2.2 hne
  have hkl : kl ∈ shadowCandidates l8 1 2 demoShadowBands demoAdjacentMask 0
      (1 / 30) 275 0 1 := by rw [hl]; simp
  rw [demo_shadow_target kl hkl] at hval hrest
  funext p
  by_cases h0 : p = 0
  · subst h0
    rw [hval]
    rfl
  · rw [hrest p h0]
    unfold demoAdjacentMask demoCastMask
    rw [if_neg h0, if_neg h0]

theorem demo_shadowCastPass :
    shadowCastPass l8 1 2 demoShadowBands 0 (1 / 30) 275 demoAdjacentMask
      = demoCastMask := by
  unfold shadowCastPass
  simp only [List.range_succ, List.range_zero, List.nil_append,
    List.foldl_cons, List.foldl_nil, List.cons_append]
  rw [shadowCastPixel_skip l8 1 2 demoShadowBands 0 (1 / 30) 275 0 0
    demoAdjacentMask (by decide)]
  exact demo_shadowCastPixel

theorem demo_shadowExpandPass :
    shadowExpandPass 1 2 (fun _ => 0) demoCastMask = demoCastMask := by
  have hbyte : ∀ p, demoCastMask p < 256 := by
    intro p; unfold demoCastMask; split_ifs <;> decide
  have hspec := shadowExpandPass_spec 1 2 (fun _ => 0) demoCastMask hbyte
  funext p
  refine (hspec p).2 ?_
  rintro ⟨-, ht⟩
  unfold shadowTarget at ht
  simp at ht

theorem demo_shadowUpdatePass :
    shadowUpdatePass (1 * 2) demoCastMask = demoCastMask := by
  funext p
  rw [shadowUpdatePass_apply, if_neg]
  rintro ⟨hp, h⟩
  have hp2 : p = 0 ∨ p = 1 := by omega
  rcases hp2 with rfl | rfl
  · revert h; decide
  · revert h; decide


/-! ### The auxiliary pass: one pixel -/

theorem auxSample_other (g : GridConsts) (env : AuxEnv) (t : AuxTables)
    (q : Nat) (loc : CmgLoc) (s : AuxState) (p : Nat) (hne : q ≠ p) :
    (auxSample g env t q loc s).cloud p = s.cloud p ∧
    (auxSample g env t q loc s).tresi p = s.tresi p ∧
    (auxSample g env t q loc s).taero p = s.taero p ∧
    (auxSample g env t q loc s).tp p = s.tp p := by
  unfold auxSample
  dsimp only
  by_cases hd : t.dem loc.lcmg.toNat loc.scmg.toNat ≠ -9999
  · rw [if_pos hd]
    exact ⟨rfl, rfl, rfl, Function.update_noteq (Ne.symm hne) _ _⟩
  · rw [if_neg hd]
    exact ⟨Function.update_noteq (Ne.symm hne) _ _,
      Function.update_noteq (Ne.symm hne) _ _, rfl,
      Function.update_noteq (Ne.symm hne) _ _⟩

theorem auxSample_at (g : GridConsts) (env : AuxEnv) (t : AuxTables)
    (p : Nat) (loc : CmgLoc) (s : AuxState) :
    (auxSample g env t p loc s).cloud p
      = (if t.dem loc.lcmg.toNat loc.scmg.toNat ≠ -9999 then s.cloud p else 128) ∧
    (auxSample g env t p loc s).tresi p
      = (if t.dem loc.lcmg.toNat loc.scmg.toNat ≠ -9999 then s.tresi p else -1) ∧
    (auxSample g env t p loc s).taero p = s.taero p ∧
    (auxSample g env t p loc s).tp p
      = interpolate loc (fun l s => presCorner g env.exp (t.dem l s)) := by
  unfold auxSample
  dsimp only
  by_cases hd : t.dem loc.lcmg.toNat loc.scmg.toNat ≠ -9999
  · rw [if_pos hd, if_pos hd, if_pos hd]
    exact ⟨rfl, rfl, rfl, Function.update_same _ _ _⟩
  · rw [if_neg hd, if_neg hd, if_neg hd]
    exact ⟨Function.update_same _ _ _, Function.update_same _ _ _, rfl,
      Function.update_same _ _ _⟩

/-- The outcome of the aerosol inversion of a pixel that completes. -/
theorem aerosolInversion_cases (c : Consts) (env : AuxEnv)
    (aerob : Nat → Nat → Int) (p : Nat) (s s1 : AuxState)
    (h : aerosolInversion c env aerob p s = some s1) :
    ∃ raot residual,
      env.subaeroret DN_BAND4 DN_BAND1 env.pres env.uoz env.uwv s.erelc s.troatm
        = some (raot, residual) ∧
      ((FVal.gt (FVal.addq (FVal.mulq (cdiv raot env.xmus) (5 / 1000)) (15 / 1000))
          residual ∧
        ∃ r5 r4,
          env.atmcorlamb2 raot DN_BAND5 env.pres env.uoz env.uwv
            ((aerob DN_BAND5 p : ℚ) * c.SCALE_FACTOR) = some r5 ∧
          env.atmcorlamb2 raot DN_BAND4 env.pres env.uoz env.uwv
            ((aerob DN_BAND4 p : ℚ) * c.SCALE_FACTOR) = some r4 ∧
          (((r5.roslamb > 1 / 10 ∧
              FVal.gt (cdiv (r5.roslamb - r4.roslamb) (r5.roslamb + r4.roslamb))
                0) ∧
            s1 = setAerosol s p raot residual) ∨
           (¬ (r5.roslamb > 1 / 10 ∧
              FVal.gt (cdiv (r5.roslamb - r4.roslamb) (r5.roslamb + r4.roslamb))
                0) ∧
            s1 = setAerosol s p 0 (-1 / 100)))) ∨
       (¬ FVal.gt (FVal.addq (FVal.mulq (cdiv raot env.xmus) (5 / 1000)) (15 / 1000))
          residual ∧
        s1 = setAerosol s p 0 (-1 / 100))) := by
  unfold aerosolInversion at h
  cases hsub : env.subaeroret DN_BAND4 DN_BAND1 env.pres env.uoz env.uwv s.erelc
      s.troatm with
  | none => rw [hsub] at h; cases h
  | some r =>
    obtain ⟨raot, residual⟩ := r
    rw [hsub] at h
    dsimp only at h
    refine ⟨raot, residual, rfl, ?_⟩
    by_cases hres : FVal.gt (FVal.addq (FVal.mulq (cdiv raot env.xmus) (5 / 1000)) (15 / 1000))
          residual
    · left
      rw [if_pos hres] at h
      cases h5 : env.atmcorlamb2 raot DN_BAND5 env.pres env.uoz env.uwv
          ((aerob DN_BAND5 p : ℚ) * c.SCALE_FACTOR) with
      | none => rw [h5] at h; cases h
      | some r5 =>
        rw [h5] at h
        dsimp only at h
        cases h4 : env.atmcorlamb2 raot DN_BAND4 env.pres env.uoz env.uwv
            ((aerob DN_BAND4 p : ℚ) * c.SCALE_FACTOR) with
        | none => rw [h4] at h; cases h
        | some r4 =>
          rw [h4] at h
          dsimp only at h
          refine ⟨hres, r5, r4, rfl, rfl, ?_⟩
          by_cases hacc : r5.roslamb > 1 / 10 ∧
              FVal.gt (cdiv (r5.roslamb - r4.roslamb) (r5.roslamb + r4.roslamb))
                0
          · rw [if_pos hacc] at h
            injection h with h
            exact Or.inl ⟨hacc, h.symm⟩
          · rw [if_neg hacc] at h
            injection h with h
            exact Or.inr ⟨hacc, h.symm⟩
    · right
      rw [if_neg hres] at h
      injection h with h
      exact ⟨hres, h.symm⟩

theorem aerosolInversion_frame (c : Consts) (env : AuxEnv)
    (aerob : Nat → Nat → Int) (q : Nat) (s s1 : AuxState)
    (h : aerosolInversion c env aerob q s = some s1) :
    s1.cloud = s.cloud ∧ s1.tp = s.tp ∧
    ∀ p, q ≠ p → s1.tresi p = s.tresi p ∧ s1.taero p = s.taero p := by
  obtain ⟨raot, residual, -, hc⟩ := aerosolInversion_cases c env aerob q s s1 h
  have key : ∀ a b, s1 = setAerosol s q a b →
      s1.cloud = s.cloud ∧ s1.tp = s.tp ∧
      ∀ p, q ≠ p → s1.tresi p = s.tresi p ∧ s1.taero p = s.taero p := by
    intro a b e
    subst e
    refine ⟨rfl, rfl, ?_⟩
    intro p hne
    exact ⟨Function.update_noteq (Ne.symm hne) _ _,
      Function.update_noteq (Ne.symm hne) _ _⟩
  rcases hc with ⟨-, r5, r4, -, -, ⟨-, e⟩ | ⟨-, e⟩⟩ | ⟨-, e⟩
  · exact key _ _ e
  · exact key _ _ e
  · exact key _ _ e

/-- The outcome of the cirrus test and aerosol inversion of a pixel that
completes: the pixel is cirrus and its mask byte is incremented; or it is a
water pixel of low NDVI marked without retrieval; or the aerosol inversion
ran. -/
theorem auxRetrieve_cases (c : Consts) (g : GridConsts) (env : AuxEnv)
    (t : AuxTables) (sband aerob : Nat → Nat → Int) (p lcmg scmg : Nat)
    (s s1 : AuxState)
    (h : auxRetrieve c g env t sband aerob p lcmg scmg s = some s1) :
    (FVal.lt (cdiv 100 (s.tp p * g.ONE_DIV_1013))
        (sband SR_BAND9 p : ℚ) ∧
      s1 = { s with
        cloud := Function.update s.cloud p ((s.cloud p + 1) % 256) }) ∨
    (¬ FVal.lt (cdiv 100 (s.tp p * g.ONE_DIV_1013))
        (sband SR_BAND9 p : ℚ) ∧
      btest (s.cloud p) WAT_QA = true ∧ FVal.lt (fndvi sband p) (1 / 10) ∧
      s1 = setAerosol
        { s with
          erelc := expectedRatios t sband p lcmg scmg s.erelc
          troatm := toaRatios c aerob p s.troatm } p 0 (-1 / 100)) ∨
    (¬ FVal.lt (cdiv 100 (s.tp p * g.ONE_DIV_1013))
        (sband SR_BAND9 p : ℚ) ∧
      ¬ (btest (s.cloud p) WAT_QA = true ∧ FVal.lt (fndvi sband p) (1 / 10)) ∧
      aerosolInversion c env aerob p
        { s with
          erelc := expectedRatios t sband p lcmg scmg s.erelc
          troatm := toaRatios c aerob p s.troatm } = some s1) := by
  unfold auxRetrieve at h
  by_cases hcir : FVal.lt (cdiv 100 (s.tp p * g.ONE_DIV_1013))
        (sband SR_BAND9 p : ℚ)
  · rw [if_pos hcir] at h
    injection h with h
    exact Or.inl ⟨hcir, h.symm⟩
  · rw [if_neg hcir] at h
    dsimp only at h
    right
    by_cases hw : btest (s.cloud p) WAT_QA = true
    · rw [if_pos hw] at h
      by_cases hn : FVal.lt (fndvi sband p) (1 / 10)
      · rw [if_pos hn] at h
        injection h with h
        exact Or.inl ⟨hcir, hw, hn, h.symm⟩
      · rw [if_neg hn] at h
        exact Or.inr ⟨hcir, fun hh => hn hh.2, h⟩
    · rw [if_neg hw] at h
      exact Or.inr ⟨hcir, fun hh => hw hh.1, h⟩

theorem auxRetrieve_frame (c : Consts) (g : GridConsts) (env : AuxEnv)
    (t : AuxTables) (sband aerob : Nat → Nat → Int) (q lcmg scmg : Nat)
    (s s1 : AuxState)
    (h : auxRetrieve c g env t sband aerob q lcmg scmg s = some s1) :
    s1.tp = s.tp ∧
    ∀ p, q ≠ p → s1.cloud p = s.cloud p ∧ s1.tresi p = s.tresi p ∧
      s1.taero p = s.taero p := by
  rcases auxRetrieve_cases c g env t sband aerob q lcmg scmg s s1 h with
    ⟨-, e⟩ | ⟨-, -, -, e⟩ | ⟨-, -, hinv⟩
  · subst e
    refine ⟨rfl, ?_⟩
    intro p hne
    exact ⟨Function.update_noteq (Ne.symm hne) _ _, rfl, rfl⟩
  · subst e
    refine ⟨rfl, ?_⟩
    intro p hne
    exact ⟨rfl, Function.update_noteq (Ne.symm hne) _ _,
      Function.update_noteq (Ne.symm hne) _ _⟩
  · obtain ⟨h1, h2, h3⟩ := aerosolInversion_frame c env aerob q _ s1 hinv
    refine ⟨h2, ?_⟩
    intro p hne
    exact ⟨by rw [h1], (h3 p hne).1, (h3 p hne).2⟩

/-- The iteration of a non-fill pixel that completes: the geolocation
succeeded, the position is inside the grid, and the cirrus test and aerosol
inversion ran on the sampled state. -/
theorem auxPixel_nonfill (c : Consts) (g : GridConsts) (env : AuxEnv)
    (t : AuxTables) (qaband : Nat → Nat) (sband aerob : Nat → Nat → Int)
    (nsamps i j : Nat) (a a1 : AuxState) (hq : qaband (i * nsamps + j) ≠ 1)
    (h : auxPixel c g env t qaband sband aerob nsamps i a j = some a1) :
    ∃ geo, env.from_space ((i : ℚ) - 1 / 2) ((j : ℚ) + 1 / 2) = some geo ∧
      ¬ OutOfGrid g (cmgLocate g geo) ∧
      auxRetrieve c g env t sband aerob (i * nsamps + j)
        (cmgLocate g geo).lcmg.toNat (cmgLocate g geo).scmg.toNat
        (auxSample g env t (i * nsamps + j) (cmgLocate g geo) a) = some a1 := by
  unfold auxPixel at h
  dsimp only at h
  rw [if_neg hq] at h
  cases hgeo : env.from_space ((i : ℚ) - 1 / 2) ((j : ℚ) + 1 / 2) with
  | none => rw [hgeo] at h; cases h
  | some geo =>
    rw [hgeo] at h
    dsimp only at h
    by_cases hout : OutOfGrid g (cmgLocate g geo)
    · rw [if_pos hout] at h; cases h
    · rw [if_neg hout] at h
      exact ⟨geo, rfl, hout, h⟩

theorem auxPixel_fill (c : Consts) (g : GridConsts) (env : AuxEnv)
    (t : AuxTables) (qaband : Nat → Nat) (sband aerob : Nat → Nat → Int)
    (nsamps i j : Nat) (a : AuxState) (hq : qaband (i * nsamps + j) = 1) :
    auxPixel c g env t qaband sband aerob nsamps i a j = some a := by
  unfold auxPixel
  dsimp only
  rw [if_pos hq]

/-- The iteration of a pixel leaves the mask byte, the residual, the aerosol
value and the pressure of every other pixel unchanged. -/
theorem auxPixel_frame (c : Consts) (g : GridConsts) (env : AuxEnv)
    (t : AuxTables) (qaband : Nat → Nat) (sband aerob : Nat → Nat → Int)
    (nsamps i j : Nat) (a a1 : AuxState) (p : Nat) (hne : i * nsamps + j ≠ p)
    (h : auxPixel c g env t qaband sband aerob nsamps i a j = some a1) :
    a1.cloud p = a.cloud p ∧ a1.tresi p = a.tresi p ∧
    a1.taero p = a.taero p ∧ a1.tp p = a.tp p := by
  by_cases hq : qaband (i * nsamps + j) = 1
  · rw [auxPixel_fill c g env t qaband sband aerob nsamps i j a hq] at h
    injection h with h
    subst h
    exact ⟨rfl, rfl, rfl, rfl⟩
  · obtain ⟨geo, -, -, hr⟩ :=
      auxPixel_nonfill c g env t qaband sband aerob nsamps i j a a1 hq h
    obtain ⟨h1, h2⟩ := auxRetrieve_frame c g env t sband aerob _ _ _ _ a1 hr
    obtain ⟨e1, e2, e3, e4⟩ :=
      auxSample_other g env t (i * nsamps + j) (cmgLocate g geo) a p hne
    obtain ⟨f1, f2, f3⟩ := h2 p hne
    exact ⟨f1.trans e1, f2.trans e2, f3.trans e3, by rw [h1]; exact e4⟩

/-! ### The auxiliary pass over the raster -/

theorem pixel_index_inj (n i j i' j' : Nat) (hj : j < n) (hj' : j' < n)
    (h : i * n + j = i' * n + j') : i = i' ∧ j = j' := by
  have hn : 0 < n := by omega
  have h1 : (i * n + j) / n = i := by
    rw [Nat.add_comm, Nat.add_mul_div_right _ _ hn, Nat.div_eq_of_lt hj,
      Nat.zero_add]
  have h2 : (i' * n + j') / n = i' := by
    rw [Nat.add_comm, Nat.add_mul_div_right _ _ hn, Nat.div_eq_of_lt hj',
      Nat.zero_add]
  have hi : i = i' := by rw [← h1, ← h2, h]
  subst hi
  exact ⟨rfl, by omega⟩

/-- The values the auxiliary pass leaves at a raster pixel are those written
by the iteration of that pixel, run from a state that holds the entry values
of the pixel. -/
theorem auxPass_trace (c : Consts) (g : GridConsts) (env : AuxEnv)
    (t : AuxTables) (qaband : Nat → Nat) (sband aerob : Nat → Nat → Int)
    (nlines nsamps : Nat) (st out : AuxState) (i j : Nat) (hi : i < nlines)
    (hj : j < nsamps)
    (h : auxPass c g env t qaband sband aerob nlines nsamps st = some out) :
    ∃ a a1,
      (a.cloud (i * nsamps + j) = st.cloud (i * nsamps + j) ∧
        a.tresi (i * nsamps + j) = st.tresi (i * nsamps + j) ∧
        a.taero (i * nsamps + j) = st.taero (i * nsamps + j)) ∧
      auxPixel c g env t qaband sband aerob nsamps i a j = some a1 ∧
      out.cloud (i * nsamps + j) = a1.cloud (i * nsamps + j) ∧
      out.tresi (i * nsamps + j) = a1.tresi (i * nsamps + j) ∧
      out.taero (i * nsamps + j) = a1.taero (i * nsamps + j) ∧
      out.tp (i * nsamps + j) = a1.tp (i * nsamps + j) := by
  unfold auxPass at h
  have hframe : ∀ i' j', j' < nsamps → (i' ≠ i ∨ j' ≠ j) → ∀ s s1,
      auxPixel c g env t qaband sband aerob nsamps i' s j' = some s1 →
      (fun s : AuxState => (s.cloud (i * nsamps + j), s.tresi (i * nsamps + j),
        s.taero (i * nsamps + j), s.tp (i * nsamps + j))) s1
      = (fun s : AuxState => (s.cloud (i * nsamps + j), s.tresi (i * nsamps + j),
        s.taero (i * nsamps + j), s.tp (i * nsamps + j))) s := by
    intro i' j' hj' hne s s1 hs
    have hidx : i' * nsamps + j' ≠ i * nsamps + j := by
      intro e
      obtain ⟨e1, e2⟩ := pixel_index_inj nsamps i' j' i j hj' hj e
      rcases hne with h1 | h1
      · exact h1 e1
      · exact h1 e2
    obtain ⟨e1, e2, e3, e4⟩ := auxPixel_frame c g env t qaband sband aerob
      nsamps i' j' s s1 (i * nsamps + j) hidx hs
    dsimp only
    rw [e1, e2, e3, e4]
  obtain ⟨s, s1, hs, hinner, hout⟩ := foldOpt_at
    (fun st i =>
      foldOpt (auxPixel c g env t qaband sband aerob nsamps i)
        (List.range nsamps) st)
    (fun s : AuxState => (s.cloud (i * nsamps + j), s.tresi (i * nsamps + j),
      s.taero (i * nsamps + j), s.tp (i * nsamps + j)))
    i _ (List.nodup_range _) (List.mem_range.mpr hi)
    (fun i' _ hne s s1 hs1 =>
      foldOpt_preserves _
        (fun a b =>
          (fun s : AuxState => (s.cloud (i * nsamps + j),
            s.tresi (i * nsamps + j), s.taero (i * nsamps + j),
            s.tp (i * nsamps + j))) b
          = (fun s : AuxState => (s.cloud (i * nsamps + j),
            s.tresi (i * nsamps + j), s.taero (i * nsamps + j),
            s.tp (i * nsamps + j))) a)
        (fun _ => rfl) (fun _ _ _ hab hbc => hbc.trans hab) _
        (fun j' hj' a a1 ha =>
          hframe i' j' (List.mem_range.mp hj') (Or.inl hne) a a1 ha) s s1 hs1)
    _ out h
  obtain ⟨a, a1, ha, hpix, hs1⟩ := foldOpt_at
    (auxPixel c g env t qaband sband aerob nsamps i)
    (fun s : AuxState => (s.cloud (i * nsamps + j), s.tresi (i * nsamps + j),
      s.taero (i * nsamps + j), s.tp (i * nsamps + j)))
    j _ (List.nodup_range _) (List.mem_range.mpr hj)
    (fun j' hj' hne a a1 ha =>
      hframe i j' (List.mem_range.mp hj') (Or.inr hne) a a1 ha) s s1 hinner
  have hin := ha.trans hs
  have hfin := hout.trans hs1
  dsimp only at hin hfin
  simp only [Prod.mk.injEq] at hin hfin
  exact ⟨a, a1, ⟨hin.1, hin.2.1, hin.2.2.1⟩, hpix, hfin.1, hfin.2.1,
    hfin.2.2.1, hfin.2.2.2⟩

theorem aerosolInversion_success (c : Consts) (env : AuxEnv)
    (aerob : Nat → Nat → Int) (p : Nat) (s : AuxState)
    (hsub : ∀ a b x y z e r, ∃ v, env.subaeroret a b x y z e r = some v)
    (hatm : ∀ a b x y z r, ∃ v, env.atmcorlamb2 a b x y z r = some v) :
    ∃ s1, aerosolInversion c env aerob p s = some s1 := by
  unfold aerosolInversion
  obtain ⟨⟨raot, residual⟩, hv⟩ := hsub DN_BAND4 DN_BAND1 env.pres env.uoz
    env.uwv s.erelc s.troatm
  rw [hv]
  dsimp only
  obtain ⟨r5, h5⟩ := hatm raot DN_BAND5 env.pres env.uoz env.uwv
    ((aerob DN_BAND5 p : ℚ) * c.SCALE_FACTOR)
  obtain ⟨r4, h4⟩ := hatm raot DN_BAND4 env.pres env.uoz env.uwv
    ((aerob DN_BAND4 p : ℚ) * c.SCALE_FACTOR)
  rw [h5, h4]
  dsimp only
  split_ifs <;> exact ⟨_, rfl⟩

theorem auxPixel_success (c : Consts) (g : GridConsts) (env : AuxEnv)
    (t : AuxTables) (qaband : Nat → Nat) (sband aerob : Nat → Nat → Int)
    (nsamps i j : Nat) (s : AuxState)
    (hgeo : ∀ i j : Nat, ∃ geo,
      env.from_space ((i : ℚ) - 1 / 2) ((j : ℚ) + 1 / 2) = some geo ∧
      ¬ OutOfGrid g (cmgLocate g geo))
    (hsub : ∀ a b x y z e r, ∃ v, env.subaeroret a b x y z e r = some v)
    (hatm : ∀ a b x y z r, ∃ v, env.atmcorlamb2 a b x y z r = some v) :
    ∃ s1, auxPixel c g env t qaband sband aerob nsamps i s j = some s1 := by
  unfold auxPixel
  dsimp only
  by_cases hq : qaband (i * nsamps + j) = 1
  · rw [if_pos hq]
    exact ⟨_, rfl⟩
  · rw [if_neg hq]
    obtain ⟨geo, h1, h2⟩ := hgeo i j
    rw [h1]
    dsimp only
    rw [if_neg h2]
    unfold auxRetrieve
    dsimp only
    split_ifs
    · exact ⟨_, rfl⟩
    · exact ⟨_, rfl⟩
    · exact aerosolInversion_success c env aerob _ _ hsub hatm
    · exact aerosolInversion_success c env aerob _ _ hsub hatm

/-- The auxiliary pass completes when the geolocation of every pixel
succeeds inside the grid and the retrieval functions do not fail. -/
theorem auxPass_success (c : Consts) (g : GridConsts) (env : AuxEnv)
    (t : AuxTables) (qaband : Nat → Nat) (sband aerob : Nat → Nat → Int)
    (nlines nsamps : Nat) (st : AuxState)
    (hgeo : ∀ i j : Nat, ∃ geo,
      env.from_space ((i : ℚ) - 1 / 2) ((j : ℚ) + 1 / 2) = some geo ∧
      ¬ OutOfGrid g (cmgLocate g geo))
    (hsub : ∀ a b x y z e r, ∃ v, env.subaeroret a b x y z e r = some v)
    (hatm : ∀ a b x y z r, ∃ v, env.atmcorlamb2 a b x y z r = some v) :
    ∃ out, auxPass c g env t qaband sband aerob nlines nsamps st = some out := by
  unfold auxPass
  refine foldOpt_success _ ?_ _ _
  intro s i
  refine foldOpt_success _ ?_ _ _
  intro s1 j
  exact auxPixel_success c g env t qaband sband aerob nsamps i j s1 hgeo hsub
    hatm

/-- The mask byte, the residual and the aerosol value the auxiliary pass
leaves at a non-fill raster pixel whose entry mask byte is 0: the
geolocation succeeded inside the grid; the pressure is the interpolated one;
the byte is 128 when the DEM cell holds -9999, plus 1 when the cirrus test
holds; and the pixel went through one of the three branches of the
retrieval. -/
theorem auxPass_pixel (c : Consts) (g : GridConsts) (env : AuxEnv)
    (t : AuxTables) (qaband : Nat → Nat) (sband aerob : Nat → Nat → Int)
    (nlines nsamps : Nat) (st out : AuxState) (i j : Nat) (hi : i < nlines)
    (hj : j < nsamps) (hq : qaband (i * nsamps + j) ≠ 1)
    (hz : st.cloud (i * nsamps + j) = 0)
    (h : auxPass c g env t qaband sband aerob nlines nsamps st = some out) :
    ∃ geo, env.from_space ((i : ℚ) - 1 / 2) ((j : ℚ) + 1 / 2) = some geo ∧
      ¬ OutOfGrid g (cmgLocate g geo) ∧
      out.tp (i * nsamps + j)
        = interpolate (cmgLocate g geo)
            (fun l s => presCorner g env.exp (t.dem l s)) ∧
      out.cloud (i * nsamps + j)
        = (if t.dem (cmgLocate g geo).lcmg.toNat (cmgLocate g geo).scmg.toNat
              ≠ -9999 then 0 else 128)
          + (if FVal.lt (cdiv 100 (out.tp (i * nsamps + j) * g.ONE_DIV_1013))
              (sband SR_BAND9 (i * nsamps + j) : ℚ) then 1 else 0) ∧
      ((FVal.lt (cdiv 100 (out.tp (i * nsamps + j) * g.ONE_DIV_1013))
            (sband SR_BAND9 (i * nsamps + j) : ℚ) ∧
          out.taero (i * nsamps + j) = st.taero (i * nsamps + j) ∧
          out.tresi (i * nsamps + j)
            = (if t.dem (cmgLocate g geo).lcmg.toNat
                (cmgLocate g geo).scmg.toNat ≠ -9999
              then st.tresi (i * nsamps + j) else -1)) ∨
       (¬ FVal.lt (cdiv 100 (out.tp (i * nsamps + j) * g.ONE_DIV_1013))
            (sband SR_BAND9 (i * nsamps + j) : ℚ) ∧
          (t.dem (cmgLocate g geo).lcmg.toNat (cmgLocate g geo).scmg.toNat
            = -9999 ∧ FVal.lt (fndvi sband (i * nsamps + j)) (1 / 10)) ∧
          out.taero (i * nsamps + j) = 0 ∧
          out.tresi (i * nsamps + j) = -1 / 100 ∧
          ∀ sub, ∃ a a1, a.cloud (i * nsamps + j) = st.cloud (i * nsamps + j) ∧
            auxPixel c g { env with subaeroret := sub } t qaband sband aerob
              nsamps i a j = some a1 ∧
            a1.cloud (i * nsamps + j) = out.cloud (i * nsamps + j) ∧
            a1.taero (i * nsamps + j) = out.taero (i * nsamps + j) ∧
            a1.tresi (i * nsamps + j) = out.tresi (i * nsamps + j)) ∨
       (¬ FVal.lt (cdiv 100 (out.tp (i * nsamps + j) * g.ONE_DIV_1013))
            (sband SR_BAND9 (i * nsamps + j) : ℚ) ∧
          ¬ (t.dem (cmgLocate g geo).lcmg.toNat (cmgLocate g geo).scmg.toNat
            = -9999 ∧ FVal.lt (fndvi sband (i * nsamps + j)) (1 / 10)) ∧
          ∃ s s1, aerosolInversion c env aerob (i * nsamps + j) s = some s1 ∧
            out.taero (i * nsamps + j) = s1.taero (i * nsamps + j) ∧
            out.tresi (i * nsamps + j) = s1.tresi (i * nsamps + j))) := by
  obtain ⟨a, a1, ⟨ha1, ha2, ha3⟩, hpix, ho1, ho2, ho3, ho4⟩ :=
    auxPass_trace c g env t qaband sband aerob nlines nsamps st out i j hi hj h
  obtain ⟨geo, hgeo, hgrid, hr⟩ :=
    auxPixel_nonfill c g env t qaband sband aerob nsamps i j a a1 hq hpix
  obtain ⟨e1, e2, e3, e4⟩ :=
    auxSample_at g env t (i * nsamps + j) (cmgLocate g geo) a
  have htp : a1.tp = (auxSample g env t (i * nsamps + j) (cmgLocate g geo) a).tp :=
    (auxRetrieve_frame c g env t sband aerob _ _ _ _ a1 hr).1
  have hotp : out.tp (i * nsamps + j)
      = interpolate (cmgLocate g geo)
          (fun l s => presCorner g env.exp (t.dem l s)) := by
    rw [ho4, htp, e4]
  have hotp2 : out.tp (i * nsamps + j)
      = (auxSample g env t (i * nsamps + j) (cmgLocate g geo) a).tp
          (i * nsamps + j) := by
    rw [ho4, htp]
  rw [ha1, hz] at e1
  have hwat : btest ((auxSample g env t (i * nsamps + j) (cmgLocate g geo)
        a).cloud (i * nsamps + j)) WAT_QA = true ↔
      t.dem (cmgLocate g geo).lcmg.toNat (cmgLocate g geo).scmg.toNat
        = -9999 := by
    rw [e1]
    by_cases hd : t.dem (cmgLocate g geo).lcmg.toNat
        (cmgLocate g geo).scmg.toNat = -9999
    · rw [if_neg (fun hh => hh hd)]
      exact ⟨fun _ => hd, fun _ => by decide⟩
    · rw [if_pos hd]
      exact ⟨fun hh => absurd hh (by decide), fun hh => absurd hh hd⟩
  refine ⟨geo, hgeo, hgrid, hotp, ?_, ?_⟩
  · rcases auxRetrieve_cases c g env t sband aerob _ _ _ _ a1 hr with
      ⟨hcir, e⟩ | ⟨hcir, -, -, e⟩ | ⟨hcir, -, hinv⟩
    · rw [hotp2, if_pos hcir, ho1, e]
      dsimp only
      rw [Function.update_same, e1]
      split_ifs <;> rfl
    · rw [hotp2, if_neg hcir, ho1, e]
      unfold setAerosol
      dsimp only
      rw [e1, Nat.add_zero]
    · rw [hotp2, if_neg hcir, ho1,
        (aerosolInversion_frame c env aerob _ _ a1 hinv).1]
      dsimp only
      rw [e1, Nat.add_zero]
  · rcases auxRetrieve_cases c g env t sband aerob _ _ _ _ a1 hr with
      ⟨hcir, e⟩ | ⟨hcir, hw, hn, e⟩ | ⟨hcir, hrun, hinv⟩
    · left
      rw [hotp2]
      refine ⟨hcir, ?_, ?_⟩
      · rw [ho3, e]
        dsimp only
        rw [e3, ha3]
      · rw [ho2, e]
        dsimp only
        rw [e2, ha2]
    · right; left
      rw [hotp2]
      have hta : out.taero (i * nsamps + j) = 0 := by
        rw [ho3, e]
        unfold setAerosol
        dsimp only
        rw [Function.update_same]
      have htr : out.tresi (i * nsamps + j) = -1 / 100 := by
        rw [ho2, e]
        unfold setAerosol
        dsimp only
        rw [Function.update_same]
      refine ⟨hcir, ⟨hwat.mp hw, hn⟩, hta, htr, ?_⟩
      intro sub
      refine ⟨a, a1, ha1, ?_, ho1.symm, ho3.symm, ho2.symm⟩
      unfold auxPixel
      dsimp only
      rw [if_neg hq, hgeo]
      dsimp only
      rw [if_neg hgrid]
      have hs : auxSample g { env with subaeroret := sub } t (i * nsamps + j)
          (cmgLocate g geo) a
          = auxSample g env t (i * nsamps + j) (cmgLocate g geo) a := rfl
      rw [hs]
      unfold auxRetrieve
      rw [if_neg hcir]
      dsimp only
      rw [if_pos hw, if_pos hn, e]
    · right; right
      rw [hotp2]
      refine ⟨hcir, fun hh => hrun ⟨hwat.mpr hh.1, hh.2⟩, _, a1, hinv, ho3, ho2⟩

/-- The auxiliary pass leaves the mask byte, the residual and the aerosol
value of a fill pixel, and of any index outside the raster, as they were at
entry. -/
theorem auxPass_untouched (c : Consts) (g : GridConsts) (env : AuxEnv)
    (t : AuxTables) (qaband : Nat → Nat) (sband aerob : Nat → Nat → Int)
    (nlines nsamps : Nat) (st out : AuxState) (p : Nat)
    (hp : nlines * nsamps ≤ p ∨ qaband p = 1)
    (h : auxPass c g env t qaband sband aerob nlines nsamps st = some out) :
    out.cloud p = st.cloud p ∧ out.tresi p = st.tresi p ∧
    out.taero p = st.taero p := by
  unfold auxPass at h
  have hkeep : ∀ i, i < nlines → ∀ j, j < nsamps → ∀ s s1,
      auxPixel c g env t qaband sband aerob nsamps i s j = some s1 →
      s1.cloud p = s.cloud p ∧ s1.tresi p = s.tresi p ∧
      s1.taero p = s.taero p := by
    intro i hi j hj s s1 hs
    by_cases hidx : i * nsamps + j = p
    · have hq : qaband (i * nsamps + j) = 1 := by
        rcases hp with h1 | h1
        · exfalso
          have h2 : (i + 1) * nsamps ≤ nlines * nsamps :=
            Nat.mul_le_mul_right _ hi
          have h3 : (i + 1) * nsamps = i * nsamps + nsamps := by ring
          omega
        · rw [hidx]; exact h1
      rw [auxPixel_fill c g env t qaband sband aerob nsamps i j s hq] at hs
      injection hs with hs
      subst hs
      exact ⟨rfl, rfl, rfl⟩
    · obtain ⟨e1, e2, e3, -⟩ := auxPixel_frame c g env t qaband sband aerob
        nsamps i j s s1 p hidx hs
      exact ⟨e1, e2, e3⟩
  have key := foldOpt_preserves _
    (fun a b : AuxState => b.cloud p = a.cloud p ∧ b.tresi p = a.tresi p ∧
      b.taero p = a.taero p)
    (fun _ => ⟨rfl, rfl, rfl⟩)
    (fun _ _ _ hab hbc =>
      ⟨hbc.1.trans hab.1, hbc.2.1.trans hab.2.1, hbc.2.2.trans hab.2.2⟩) _
    (fun i hi s s1 hs1 =>
      foldOpt_preserves _
        (fun a b : AuxState => b.cloud p = a.cloud p ∧ b.tresi p = a.tresi p ∧
          b.taero p = a.taero p)
        (fun _ => ⟨rfl, rfl, rfl⟩)
        (fun _ _ _ hab hbc =>
          ⟨hbc.1.trans hab.1, hbc.2.1.trans hab.2.1, hbc.2.2.trans hab.2.2⟩) _
        (fun j hj a a1 ha =>
          hkeep i (List.mem_range.mp hi) j (List.mem_range.mp hj) a a1 ha)
        s s1 hs1)
    _ out h
  exact key

/-! ### C quotients and their comparisons -/

theorem cdiv_of_ne (n d : ℚ) (h : d ≠ 0) : cdiv n d = FVal.fin (n / d) := by
  unfold cdiv
  rw [if_pos h]

/-- The comparison `n / d > c` of C: with a zero denominator the quotient is
`+inf` exactly when the numerator is positive. -/
theorem cdiv_gt_iff (n d c : ℚ) :
    FVal.gt (cdiv n d) c ↔ (d ≠ 0 ∧ n / d > c) ∨ (d = 0 ∧ n > 0) := by
  unfold cdiv
  by_cases hd : d ≠ 0
  · rw [if_pos hd]
    constructor
    · intro h
      exact Or.inl ⟨hd, h⟩
    · rintro (⟨-, h⟩ | ⟨h0, -⟩)
      · exact h
      · exact absurd h0 hd
  · rw [if_neg hd]
    have hd0 : d = 0 := not_not.mp hd
    by_cases hn : n > 0
    · rw [if_pos hn]
      exact ⟨fun _ => Or.inr ⟨hd0, hn⟩, fun _ => trivial⟩
    · rw [if_neg hn]
      constructor
      · intro h
        exfalso
        revert h
        split_ifs <;> exact id
      · rintro (⟨h, -⟩ | ⟨-, h⟩)
        · exact absurd hd0 h
        · exact absurd h hn

/-- The comparison `n / d < c` of C: with a zero denominator the quotient is
`-inf` exactly when the numerator is negative. -/
theorem cdiv_lt_iff (n d c : ℚ) :
    FVal.lt (cdiv n d) c ↔ (d ≠ 0 ∧ n / d < c) ∨ (d = 0 ∧ n < 0) := by
  unfold cdiv
  by_cases hd : d ≠ 0
  · rw [if_pos hd]
    constructor
    · intro h
      exact Or.inl ⟨hd, h⟩
    · rintro (⟨-, h⟩ | ⟨h0, -⟩)
      · exact h
      · exact absurd h0 hd
  · rw [if_neg hd]
    have hd0 : d = 0 := not_not.mp hd
    by_cases hn : n > 0
    · rw [if_pos hn]
      constructor
      · intro h
        exact absurd h not_false
      · rintro (⟨h, -⟩ | ⟨-, h⟩)
        · exact absurd hd0 h
        · exact absurd hn (not_lt.mpr (le_of_lt h))
    · rw [if_neg hn]
      by_cases hn2 : n < 0
      · rw [if_pos hn2]
        exact ⟨fun _ => Or.inr ⟨hd0, hn2⟩, fun _ => trivial⟩
      · rw [if_neg hn2]
        constructor
        · intro h
          exact absurd h not_false
        · rintro (⟨h, -⟩ | ⟨-, h⟩)
          · exact absurd hd0 h
          · exact absurd h hn2

/-- The water test `fndvi < c` of line 685: with `band5 + band4` zero it
holds exactly when `band5 < band4`, that is `band5 = -band4 < 0` (NDVI
`-inf`); at `band5 = band4 = 0` (NaN) and at `band5 = -band4 > 0` (`+inf`) it
fails and the retrieval runs. -/
theorem fndvi_lt_iff (sband : Nat → Nat → Int) (p : Nat) (c : ℚ) :
    FVal.lt (fndvi sband p) c ↔
      ((sband SR_BAND5 p : ℚ) + (sband SR_BAND4 p : ℚ) ≠ 0 ∧
        ((sband SR_BAND5 p : ℚ) - (sband SR_BAND4 p : ℚ)) /
          ((sband SR_BAND5 p : ℚ) + (sband SR_BAND4 p : ℚ)) < c) ∨
      ((sband SR_BAND5 p : ℚ) + (sband SR_BAND4 p : ℚ) = 0 ∧
        (sband SR_BAND5 p : ℚ) - (sband SR_BAND4 p : ℚ) < 0) :=
  cdiv_lt_iff _ _ _

/-- The cirrus test of line 630: with a zero product `tp * ONE_DIV_1013`
the threshold is `+inf` and the test fails. -/
theorem cirrus_test_iff (d x : ℚ) :
    FVal.lt (cdiv 100 d) x ↔ d ≠ 0 ∧ x > 100 / d := by
  rw [cdiv_lt_iff]
  constructor
  · rintro (⟨h1, h2⟩ | ⟨-, h⟩)
    · exact ⟨h1, h2⟩
    · norm_num at h
  · intro h
    exact Or.inl h

/-- The residual test of line 709: for a non-zero `xmus` it is
`residual < 0.015 + 0.005 * raot / xmus`; for a zero `xmus` it holds exactly
when `raot` is positive (threshold `+inf`). -/
theorem residual_test_iff (raot xmus residual : ℚ) :
    FVal.gt (FVal.addq (FVal.mulq (cdiv raot xmus) (5 / 1000)) (15 / 1000))
        residual ↔
      (xmus ≠ 0 ∧ residual < 15 / 1000 + 5 / 1000 * (raot / xmus)) ∨
      (xmus = 0 ∧ raot > 0) := by
  unfold cdiv
  by_cases hd : xmus ≠ 0
  · rw [if_pos hd]
    have e : FVal.gt (FVal.addq (FVal.mulq (FVal.fin (raot / xmus)) (5 / 1000))
        (15 / 1000)) residual
        ↔ residual < 15 / 1000 + 5 / 1000 * (raot / xmus) := by
      show raot / xmus * (5 / 1000) + 15 / 1000 > residual ↔ _
      constructor <;> intro h <;> linarith
    rw [e]
    constructor
    · intro h
      exact Or.inl ⟨hd, h⟩
    · rintro (⟨-, h⟩ | ⟨h0, -⟩)
      · exact h
      · exact absurd h0 hd
  · rw [if_neg hd]
    have hd0 : xmus = 0 := not_not.mp hd
    by_cases hn : raot > 0
    · rw [if_pos hn]
      have e : FVal.mulq FVal.posInf (5 / 1000) = FVal.posInf := by
        show (if (5 / 1000 : ℚ) > 0 then FVal.posInf else _) = _
        rw [if_pos (by norm_num)]
      rw [e]
      exact ⟨fun _ => Or.inr ⟨hd0, hn⟩, fun _ => trivial⟩
    · rw [if_neg hn]
      constructor
      · intro h
        exfalso
        by_cases hn2 : raot < 0
        · have e : FVal.mulq FVal.negInf (5 / 1000) = FVal.negInf := by
            show (if (5 / 1000 : ℚ) > 0 then FVal.negInf else _) = _
            rw [if_pos (by norm_num)]
          rw [if_pos hn2, e] at h
          exact h
        · rw [if_neg hn2] at h
          exact h
      · rintro (⟨h, -⟩ | ⟨-, h⟩)
        · exact absurd hd0 h
        · exact absurd h hn
/-- C13: aerosol acceptance. For a non-fill raster pixel whose mask byte was
zero at entry, that ends the auxiliary pass without the cirrus bit and was
not skipped as a water pixel of NDVI below 0.1, `subaeroret` was run and
returned some `(raot, residual)`; the pixel ends the pass with
`(taero, tresi) = (raot, residual)` if
`residual < 0.015 + 0.005*raot/xmus` and the band-5 and band-4 surface
reflectances `ros5`, `ros4` recomputed by `atmcorlamb2` under `raot` satisfy
`ros5 > 0.1` and `(ros5 - ros4)/(ros5 + ros4) > 0`; in every other case it
ends with `(taero, tresi) = (0.0, -0.01)`. The two quotients and the NDVI are
the C quotients, infinite or NaN at a zero denominator, and the comparisons
are the C comparisons: with non-zero denominators the two tests are the
rational inequalities (`residual_test_iff`, `cdiv_gt_iff`). -/
theorem aerosol_acceptance (c : Consts) (g : GridConsts) (env : AuxEnv)
    (t : AuxTables) (qaband : Nat → Nat) (sband aerob : Nat → Nat → Int)
    (nlines nsamps : Nat) (st out : AuxState) (i j : Nat) (hi : i < nlines)
    (hj : j < nsamps) (hq : qaband (i * nsamps + j) ≠ 1)
    (hz : st.cloud (i * nsamps + j) = 0)
    (h : auxPass c g env t qaband sband aerob nlines nsamps st = some out)
    (hcir : btest (out.cloud (i * nsamps + j)) CIR_QA = false)
    (hrun : ¬ (btest (out.cloud (i * nsamps + j)) WAT_QA = true ∧
      FVal.lt (fndvi sband (i * nsamps + j)) (1 / 10))) :
    ∃ erelc troatm raot residual,
      env.subaeroret DN_BAND4 DN_BAND1 env.pres env.uoz env.uwv erelc troatm
        = some (raot, residual) ∧
      (FVal.gt (FVal.addq (FVal.mulq (cdiv raot env.xmus) (5 / 1000)) (15 / 1000))
          residual →
        ∃ r5 r4,
          env.atmcorlamb2 raot DN_BAND5 env.pres env.uoz env.uwv
            ((aerob DN_BAND5 (i * nsamps + j) : ℚ) * c.SCALE_FACTOR) = some r5 ∧
          env.atmcorlamb2 raot DN_BAND4 env.pres env.uoz env.uwv
            ((aerob DN_BAND4 (i * nsamps + j) : ℚ) * c.SCALE_FACTOR) = some r4 ∧
          ((r5.roslamb > 1 / 10 ∧
              FVal.gt (cdiv (r5.roslamb - r4.roslamb) (r5.roslamb + r4.roslamb))
                0) →
            out.taero (i * nsamps + j) = raot ∧
            out.tresi (i * nsamps + j) = residual) ∧
          (¬ (r5.roslamb > 1 / 10 ∧
              FVal.gt (cdiv (r5.roslamb - r4.roslamb) (r5.roslamb + r4.roslamb))
                0) →
            out.taero (i * nsamps + j) = 0 ∧
            out.tresi (i * nsamps + j) = -1 / 100)) ∧
      (¬ FVal.gt (FVal.addq (FVal.mulq (cdiv raot env.xmus) (5 / 1000)) (15 / 1000))
          residual →
        out.taero (i * nsamps + j) = 0 ∧
        out.tresi (i * nsamps + j) = -1 / 100) := by
  obtain ⟨geo, -, -, -, hcloud, hcases⟩ := auxPass_pixel c g env t qaband sband
    aerob nlines nsamps st out i j hi hj hq hz h
  rcases hcases with ⟨hc, -⟩ | ⟨hc, ⟨hd, hn⟩, -⟩ | ⟨-, -, s, s1, hinv, hta, htr⟩
  · exfalso
    rw [if_pos hc] at hcloud
    rw [hcloud] at hcir
    revert hcir
    split_ifs <;> decide
  · exfalso
    rw [if_neg hc, if_neg (fun hh => hh hd)] at hcloud
    rw [hcloud] at hrun
    exact hrun ⟨by decide, hn⟩
  · obtain ⟨raot, residual, hsub, hc⟩ :=
      aerosolInversion_cases c env aerob _ s s1 hinv
    have hset : ∀ a b, s1 = setAerosol s (i * nsamps + j) a b →
        out.taero (i * nsamps + j) = a ∧ out.tresi (i * nsamps + j) = b := by
      intro a b e
      rw [hta, htr, e]
      unfold setAerosol
      dsimp only
      rw [Function.update_same, Function.update_same]
      exact ⟨rfl, rfl⟩
    refine ⟨s.erelc, s.troatm, raot, residual, hsub, ?_, ?_⟩
    · intro hres
      rcases hc with ⟨-, r5, r4, h5, h4, hor⟩ | ⟨hnres, -⟩
      · refine ⟨r5, r4, h5, h4, ?_, ?_⟩
        · intro hacc
          rcases hor with ⟨-, e⟩ | ⟨hnacc, -⟩
          · exact hset _ _ e
          · exact absurd hacc hnacc
        · intro hnacc
          rcases hor with ⟨hacc, -⟩ | ⟨-, e⟩
          · exact absurd hacc hnacc
          · exact hset _ _ e
      · exact absurd hres hnres
    · intro hnres
      rcases hc with ⟨hres, -⟩ | ⟨-, e⟩
      · exact absurd hres hnres
      · exact hset _ _ e

/-- C14: for a non-fill raster pixel whose mask byte was zero at entry, that
carries the water bit and not the cirrus bit at the end of the auxiliary pass
and whose NDVI `(band5 - band4)/(band5 + band4)` of the first-pass band
values is below 0.1 (the C quotient and comparison: with a zero denominator
this is the case `band5 = -band4 < 0`, NDVI `-inf`), the pixel is marked
no-retrieval, `taero = 0.0` and `tresi = -0.01`, and `subaeroret` is not
invoked: the iteration of the pixel completes with the same values whatever
function stands for `subaeroret`, also one that always fails. -/
theorem water_low_ndvi_skips_retrieval (c : Consts) (g : GridConsts)
    (env : AuxEnv) (t : AuxTables) (qaband : Nat → Nat)
    (sband aerob : Nat → Nat → Int) (nlines nsamps : Nat) (st out : AuxState)
    (i j : Nat) (hi : i < nlines) (hj : j < nsamps)
    (hq : qaband (i * nsamps + j) ≠ 1) (hz : st.cloud (i * nsamps + j) = 0)
    (h : auxPass c g env t qaband sband aerob nlines nsamps st = some out)
    (hwat : btest (out.cloud (i * nsamps + j)) WAT_QA = true)
    (hcir : btest (out.cloud (i * nsamps + j)) CIR_QA = false)
    (hndvi : FVal.lt (fndvi sband (i * nsamps + j)) (1 / 10)) :
    out.taero (i * nsamps + j) = 0 ∧ out.tresi (i * nsamps + j) = -1 / 100 ∧
    ∀ sub, ∃ a a1, a.cloud (i * nsamps + j) = st.cloud (i * nsamps + j) ∧
      auxPixel c g { env with subaeroret := sub } t qaband sband aerob nsamps i
        a j = some a1 ∧
      a1.cloud (i * nsamps + j) = out.cloud (i * nsamps + j) ∧
      a1.taero (i * nsamps + j) = out.taero (i * nsamps + j) ∧
      a1.tresi (i * nsamps + j) = out.tresi (i * nsamps + j) := by
  obtain ⟨geo, -, -, -, hcloud, hcases⟩ := auxPass_pixel c g env t qaband sband
    aerob nlines nsamps st out i j hi hj hq hz h
  rcases hcases with ⟨hc, -⟩ | ⟨-, -, hta, htr, hsub⟩ | ⟨hc, hrun, -⟩
  · exfalso
    rw [if_pos hc] at hcloud
    rw [hcloud] at hcir
    revert hcir
    split_ifs <;> decide
  · exact ⟨hta, htr, hsub⟩
  · exfalso
    rw [if_neg hc] at hcloud
    by_cases hd : t.dem (cmgLocate g geo).lcmg.toNat
        (cmgLocate g geo).scmg.toNat = -9999
    · exact hrun ⟨hd, hndvi⟩
    · rw [if_pos hd] at hcloud
      rw [hcloud] at hwat
      revert hwat
      decide

/-- In the demonstration scene every pixel falls in the grid cell
`[1799][3599]`, halfway to the next cell in both directions. -/
theorem demo_cmgLocate :
    cmgLocate cmg ((0 : ℚ), (0 : ℚ))
      = { ycmg := 3599 / 2, xcmg := 7199 / 2, lcmg := 1799, scmg := 3599 } := by
  unfold cmgLocate
  norm_num [cmg, truncToInt]

/-- In the demonstration scene the pressure of pixel 1 is 1013, so that the
cirrus test compares band 9 with 100; the auxiliary pass leaves at pixel 1
the mask byte 128 when the DEM cell holds -9999, plus 1 when the pixel is
cirrus, and a cirrus pixel keeps its residual unless the DEM cell holds
-9999. -/
theorem demo_aux_pixel (t : AuxTables) (sband : Nat → Nat → Int)
    (out : AuxState)
    (h : auxPass l8 cmg demoAuxEnv t demoQa sband demoAerob 1 2
      demoAuxState = some out) :
    out.cloud 1
      = (if t.dem 1799 3599 ≠ -9999 then 0 else 128)
        + (if (sband SR_BAND9 1 : ℚ) > 100 then 1 else 0) ∧
    ((sband SR_BAND9 1 : ℚ) > 100 →
      out.tresi 1 = if t.dem 1799 3599 ≠ -9999 then 0 else -1) := by
  obtain ⟨geo, hgeo, -, htp, hcloud, hcases⟩ := auxPass_pixel l8 cmg demoAuxEnv t
    demoQa sband demoAerob 1 2 demoAuxState out 0 1 (by decide)
    (by decide) (by decide) rfl h
  have hg : geo = ((0 : ℚ), (0 : ℚ)) := by
    have : some ((0 : ℚ), (0 : ℚ)) = some geo := hgeo
    injection this with this
    exact this.symm
  subst hg
  rw [demo_cmgLocate] at htp hcloud hcases
  have hpres : ∀ l s, presCorner cmg demoAuxEnv.exp (t.dem l s) = 1013 := by
    intro l s
    unfold presCorner
    split_ifs
    · norm_num [demoAuxEnv]
    · rfl
  have htp2 : out.tp (0 * 2 + 1) = 1013 := by
    rw [htp]
    unfold interpolate
    simp only [hpres]
    norm_num
  have h100 : ∀ x : ℚ,
      FVal.lt (cdiv 100 (1013 * cmg.ONE_DIV_1013)) x ↔ x > 100 := by
    intro x
    norm_num [cmg, cdiv, FVal.lt]
  rw [htp2] at hcloud hcases
  simp only [h100] at hcloud hcases
  refine ⟨hcloud, ?_⟩
  intro hc
  rcases hcases with ⟨-, -, e⟩ | ⟨hn, -⟩ | ⟨hn, -⟩
  · exact e
  · exact absurd hc hn
  · exact absurd hc hn

/-- In the demonstration scene with 50 in band 9 the auxiliary pass leaves at
pixel 1 the mask byte 128 when the DEM cell holds -9999, 0 otherwise. -/
theorem demo_aux_mask (t : AuxTables) (out : AuxState)
    (h : auxPass l8 cmg demoAuxEnv t demoQa demoAuxBands demoAerob 1 2
      demoAuxState = some out) :
    out.cloud 1 = if t.dem 1799 3599 ≠ -9999 then 0 else 128 := by
  have hp := (demo_aux_pixel t demoAuxBands out h).1
  have hnc : ¬ ((demoAuxBands SR_BAND9 1 : ℚ) > 100) := by
    norm_num [demoAuxBands]
  rw [if_neg hnc] at hp
  exact hp

theorem demo_auxPass_success (t : AuxTables) (sband : Nat → Nat → Int) :
    ∃ out, auxPass l8 cmg demoAuxEnv t demoQa sband demoAerob 1 2
      demoAuxState = some out := by
  refine auxPass_success l8 cmg demoAuxEnv t demoQa sband demoAerob 1 2
    demoAuxState ?_ (fun _ _ _ _ _ _ _ => ⟨_, rfl⟩) (fun _ _ _ _ _ _ => ⟨_, rfl⟩)
  intro i j
  refine ⟨((0 : ℚ), (0 : ℚ)), rfl, ?_⟩
  rw [demo_cmgLocate]
  unfold OutOfGrid
  norm_num [cmg]

/-- Witness for C13: on the land scene the retrieval of pixel 1 is accepted
and the pixel ends the pass with `taero = 0.2` and `tresi = 0.01`. -/
theorem aerosol_acceptance_witness :
    ∃ out, auxPass l8 cmg demoAuxEnv demoLandTables demoQa demoAuxBands demoAerob
        1 2 demoAuxState = some out ∧
      out.taero 1 = 1 / 5 ∧ out.tresi 1 = 1 / 100 := by
  obtain ⟨out, h⟩ := demo_auxPass_success demoLandTables demoAuxBands
  have hmask : out.cloud (0 * 2 + 1) = 0 := demo_aux_mask demoLandTables out h
  obtain ⟨erelc, troatm, raot, residual, hsub, hacc, -⟩ :=
    aerosol_acceptance l8 cmg demoAuxEnv demoLandTables demoQa demoAuxBands
      demoAerob 1 2 demoAuxState out 0 1 (by decide) (by decide) (by decide)
      rfl h (by rw [hmask]; decide)
      (fun hh => absurd hh.1 (by rw [hmask]; decide))
  have hr : ((1 / 5 : ℚ), (1 / 100 : ℚ)) = (raot, residual) := by
    have : some ((1 / 5 : ℚ), (1 / 100 : ℚ)) = some (raot, residual) := hsub
    injection this
  injection hr with hr1 hr2
  subst hr1
  subst hr2
  obtain ⟨r5, r4, h5, h4, hyes, -⟩ :=
    hacc (by norm_num [demoAuxEnv, cdiv, FVal.mulq, FVal.addq, FVal.gt])
  have e5 : r5.roslamb = 3 / 10 := by
    have : some (⟨if DN_BAND5 = DN_BAND5 then 3 / 10 else 1 / 10, 9 / 10, 1 / 20,
        4 / 5, 1 / 10⟩ : AtmCorr) = some r5 := h5
    injection this with this
    rw [← this]
    rfl
  have e4 : r4.roslamb = 1 / 10 := by
    have : some (⟨if DN_BAND4 = DN_BAND5 then 3 / 10 else 1 / 10, 9 / 10, 1 / 20,
        4 / 5, 1 / 10⟩ : AtmCorr) = some r4 := h4
    injection this with this
    rw [← this]
    rfl
  have hfin := hyes (by rw [e5, e4]; norm_num [cdiv, FVal.gt])
  exact ⟨out, h, hfin.1, hfin.2⟩

/-- Witness for C14: on the water scene pixel 1 (NDVI 0) is marked
no-retrieval, and its iteration completes with a `subaeroret` that always
fails. -/
theorem water_low_ndvi_skips_retrieval_witness :
    ∃ out, auxPass l8 cmg demoAuxEnv demoWaterTables demoQa demoAuxBands
        demoAerob 1 2 demoAuxState = some out ∧
      out.taero 1 = 0 ∧ out.tresi 1 = -1 / 100 ∧
      ∃ a a1, auxPixel l8 cmg
          { demoAuxEnv with subaeroret := fun _ _ _ _ _ _ _ => none }
          demoWaterTables demoQa demoAuxBands demoAerob 2 0 a 1 = some a1 ∧
        a1.tresi 1 = out.tresi 1 := by
  obtain ⟨out, h⟩ := demo_auxPass_success demoWaterTables demoAuxBands
  have hmask : out.cloud (0 * 2 + 1) = 128 := demo_aux_mask demoWaterTables out h
  obtain ⟨h1, h2, h3⟩ :=
    water_low_ndvi_skips_retrieval l8 cmg demoAuxEnv demoWaterTables demoQa
      demoAuxBands demoAerob 1 2 demoAuxState out 0 1 (by decide) (by decide)
      (by decide) rfl h (by rw [hmask]; decide) (by rw [hmask]; decide)
      (by norm_num [fndvi, cdiv, FVal.lt, demoAuxBands, SR_BAND5, SR_BAND4,
        SR_BAND9])
  obtain ⟨a, a1, -, hpix, -, -, htr⟩ := h3 (fun _ _ _ _ _ _ _ => none)
  exact ⟨out, h, h1, h2, a, a1, hpix, htr⟩

/-- On the 1 x 2 scene whose pixel 0 is fill and whose pixel 1 is bright in
band 9, the auxiliary pass run on zero arrays leaves the mask with the
cirrus bit at pixel 1 only, and every residual at zero. -/
theorem demo_aux_cirrus_scene (out : AuxState)
    (h : auxPass l8 cmg demoAuxEnv demoLandTables demoQa demoShadowBands
      demoAerob 1 2 demoAuxState = some out) :
    out.cloud = demoCirrusMask ∧ out.tresi = fun _ => 0 := by
  have hpix := demo_aux_pixel demoLandTables demoShadowBands out h
  have hc : (demoShadowBands SR_BAND9 1 : ℚ) > 100 := by
    norm_num [demoShadowBands, SR_BAND9, SR_BAND10]
  have h1 : out.cloud 1 = 1 := by
    rw [hpix.1, if_pos hc]
    rfl
  have h2 : out.tresi 1 = 0 := by
    rw [hpix.2 hc]
    rfl
  have hrest : ∀ p, p ≠ 1 →
      out.cloud p = demoAuxState.cloud p ∧ out.tresi p = demoAuxState.tresi p := by
    intro p hp
    have hcase : 1 * 2 ≤ p ∨ demoQa p = 1 := by
      by_cases h0 : p = 0
      · right; rw [h0]; rfl
      · left; omega
    obtain ⟨e1, e2, -⟩ := auxPass_untouched l8 cmg demoAuxEnv demoLandTables
      demoQa demoShadowBands demoAerob 1 2 demoAuxState out p hcase h
    exact ⟨e1, e2⟩
  constructor
  · funext p
    by_cases hp : p = 1
    · rw [hp, h1]; rfl
    · rw [(hrest p hp).1]
      unfold demoCirrusMask
      rw [if_neg hp]
      rfl
  · funext p
    by_cases hp : p = 1
    · rw [hp, h2]
    · rw [(hrest p hp).2]
      rfl

/-- C11: the mask engine does change a fill pixel. In the 1 x 2 scene whose
pixel 0 is fill (`qaband[0] == 1`, every band -9999) and whose pixel 1 is
bright in band 9, with every array zero at entry, the auxiliary pass
completes and leaves the fill pixel at 0 (it flags pixel 1 as cirrus); then
the adjacency pass gives the fill pixel the adjacent bit (byte 4), the only
shadow candidates of the cirrus pixel are the fill pixel, the shadow casting
gives it the shadow bit (byte 12), and the refinement of the mask as a whole
leaves the fill pixel with byte 12 instead of 0. -/
theorem mask_refinement_flags_fill_pixel :
    ∃ out, auxPass l8 cmg demoAuxEnv demoLandTables demoQa demoShadowBands
        demoAerob 1 2 demoAuxState = some out ∧
      demoQa 0 = 1 ∧ out.cloud 0 = 0 ∧
      adjacencyPass 1 2
        (cloudTestPass l8 demoShadowBands out.tresi
          (meanClearTemp l8 demoQa demoShadowBands out.cloud (1 * 2)) (1 * 2)
          out.cloud) 0 = 4 ∧
      (∀ kl, kl ∈ shadowCandidates l8 1 2 demoShadowBands demoAdjacentMask 0
          (1 / 30) 275 0 1 → shadowPix 2 kl = 0) ∧
      shadowCastPixel l8 1 2 demoShadowBands 0 (1 / 30) 275 0 demoAdjacentMask 1 0
        = 12 ∧
      refineCloudMask l8 demoQa 1 2 demoShadowBands out.tresi 0 (1 / 30)
        out.cloud 0 = 12 := by
  obtain ⟨out, h⟩ := demo_auxPass_success demoLandTables demoShadowBands
  obtain ⟨hc, ht⟩ := demo_aux_cirrus_scene out h
  refine ⟨out, h, rfl, by rw [hc]; rfl, ?_, demo_shadow_target, ?_, ?_⟩
  · rw [hc, ht, demo_cloudTestPass, demo_adjacencyPass]
    rfl
  · rw [demo_shadowCastPixel]
    rfl
  · unfold refineCloudMask
    rw [hc, ht, demo_meanClearTemp, demo_cloudTestPass, demo_adjacencyPass,
      demo_shadowCastPass, demo_shadowExpandPass, demo_shadowUpdatePass]
    rfl


/-! ### The auxiliary pass: grid position and interpolated values -/

theorem truncToInt_neg_iff (x : ℚ) : truncToInt x < 0 ↔ x ≤ -1 := by
  unfold truncToInt
  split_ifs with hx
  · have h1 : (0 : Int) ≤ ⌊x⌋ := Int.floor_nonneg.mpr hx
    constructor
    · intro h; omega
    · intro h; linarith
  · have hx' : x < 0 := not_le.mp hx
    constructor
    · intro h
      have h1 : ⌈x⌉ ≤ -1 := by omega
      have h2 := Int.ceil_le.mp h1
      simpa using h2
    · intro h
      have h1 : ⌈x⌉ ≤ -1 := Int.ceil_le.mpr (by simpa using h)
      omega

theorem truncToInt_ge_iff (x : ℚ) (n : Int) (hn : 0 < n) :
    truncToInt x ≥ n ↔ x ≥ (n : ℚ) := by
  have hnq : (0 : ℚ) < (n : ℚ) := by exact_mod_cast hn
  unfold truncToInt
  split_ifs with hx
  · exact Int.le_floor
  · have hx' : x < 0 := not_le.mp hx
    have h1 : ⌈x⌉ ≤ 0 := Int.ceil_le.mpr (by simpa using le_of_lt hx')
    constructor
    · intro h; omega
    · intro h; linarith

/-- The bounds test on the truncated indices, read on the coordinates: the
position is rejected when `ycmg <= -1`, `ycmg >= CMG_NBLAT`, `xcmg <= -1` or
`xcmg >= CMG_NBLON`. -/
theorem outOfGrid_iff (g : GridConsts) (geo : ℚ × ℚ) (hlat : 0 < g.CMG_NBLAT)
    (hlon : 0 < g.CMG_NBLON) :
    OutOfGrid g (cmgLocate g geo) ↔
      ((cmgLocate g geo).ycmg ≤ -1 ∨
        (cmgLocate g geo).ycmg ≥ (g.CMG_NBLAT : ℚ)) ∨
      ((cmgLocate g geo).xcmg ≤ -1 ∨
        (cmgLocate g geo).xcmg ≥ (g.CMG_NBLON : ℚ)) := by
  have hl : (cmgLocate g geo).lcmg = truncToInt (cmgLocate g geo).ycmg := rfl
  have hs : (cmgLocate g geo).scmg = truncToInt (cmgLocate g geo).xcmg := rfl
  unfold OutOfGrid
  rw [hl, hs, truncToInt_neg_iff, truncToInt_neg_iff,
    truncToInt_ge_iff _ _ hlat, truncToInt_ge_iff _ _ hlon]

theorem auxPixel_in_grid (c : Consts) (g : GridConsts) (env : AuxEnv)
    (t : AuxTables) (qaband : Nat → Nat) (sband aerob : Nat → Nat → Int)
    (nsamps i j : Nat) (a : AuxState) (geo : ℚ × ℚ)
    (hq : qaband (i * nsamps + j) ≠ 1)
    (hgeo : env.from_space ((i : ℚ) - 1 / 2) ((j : ℚ) + 1 / 2) = some geo)
    (hin : ¬ OutOfGrid g (cmgLocate g geo)) :
    auxPixel c g env t qaband sband aerob nsamps i a j
      = auxRetrieve c g env t sband aerob (i * nsamps + j)
          (cmgLocate g geo).lcmg.toNat (cmgLocate g geo).scmg.toNat
          (auxSample g env t (i * nsamps + j) (cmgLocate g geo) a) := by
  unfold auxPixel
  dsimp only
  rw [if_neg hq, hgeo]
  dsimp only
  rw [if_neg hin]

theorem auxPixel_out_of_grid (c : Consts) (g : GridConsts) (env : AuxEnv)
    (t : AuxTables) (qaband : Nat → Nat) (sband aerob : Nat → Nat → Int)
    (nsamps i j : Nat) (a : AuxState) (geo : ℚ × ℚ)
    (hq : qaband (i * nsamps + j) ≠ 1)
    (hgeo : env.from_space ((i : ℚ) - 1 / 2) ((j : ℚ) + 1 / 2) = some geo)
    (hout : OutOfGrid g (cmgLocate g geo)) :
    auxPixel c g env t qaband sband aerob nsamps i a j = none := by
  unfold auxPixel
  dsimp only
  rw [if_neg hq, hgeo]
  dsimp only
  rw [if_pos hout]

/-- The pass aborts when the iteration of one raster pixel aborts from every
state. -/
theorem auxPass_abort (c : Consts) (g : GridConsts) (env : AuxEnv)
    (t : AuxTables) (qaband : Nat → Nat) (sband aerob : Nat → Nat → Int)
    (nlines nsamps : Nat) (st : AuxState) (i j : Nat) (hi : i < nlines)
    (hj : j < nsamps)
    (hnone : ∀ a, auxPixel c g env t qaband sband aerob nsamps i a j = none) :
    auxPass c g env t qaband sband aerob nlines nsamps st = none := by
  cases h : auxPass c g env t qaband sband aerob nlines nsamps st with
  | none => rfl
  | some out =>
    obtain ⟨a, a1, -, hpix, -⟩ := auxPass_trace c g env t qaband sband aerob
      nlines nsamps st out i j hi hj h
    rw [hnone a] at hpix
    cases hpix

theorem auxRetrieve_success (c : Consts) (g : GridConsts) (env : AuxEnv)
    (t : AuxTables) (sband aerob : Nat → Nat → Int) (p lcmg scmg : Nat)
    (s : AuxState)
    (hsub : ∀ a b x y z e r, ∃ v, env.subaeroret a b x y z e r = some v)
    (hatm : ∀ a b x y z r, ∃ v, env.atmcorlamb2 a b x y z r = some v) :
    ∃ s1, auxRetrieve c g env t sband aerob p lcmg scmg s = some s1 := by
  unfold auxRetrieve
  dsimp only
  split_ifs
  · exact ⟨_, rfl⟩
  · exact ⟨_, rfl⟩
  · exact aerosolInversion_success c env aerob _ _ hsub hatm
  · exact aerosolInversion_success c env aerob _ _ hsub hatm

theorem auxSample_wv_other (g : GridConsts) (env : AuxEnv) (t : AuxTables)
    (q : Nat) (loc : CmgLoc) (s : AuxState) (p : Nat) (hne : q ≠ p) :
    (auxSample g env t q loc s).twvi p = s.twvi p ∧
    (auxSample g env t q loc s).tozi p = s.tozi p := by
  unfold auxSample
  dsimp only
  split_ifs
  · exact ⟨Function.update_noteq (Ne.symm hne) _ _,
      Function.update_noteq (Ne.symm hne) _ _⟩
  · exact ⟨Function.update_noteq (Ne.symm hne) _ _,
      Function.update_noteq (Ne.symm hne) _ _⟩

theorem auxSample_wv_at (g : GridConsts) (env : AuxEnv) (t : AuxTables)
    (p : Nat) (loc : CmgLoc) (s : AuxState) :
    (auxSample g env t p loc s).twvi p
      = interpolate loc (fun l s => (t.wv l s : ℚ)) * (1 / 100) ∧
    (auxSample g env t p loc s).tozi p
      = interpolate loc (fun l s => ozoneCorner (t.oz l s)) * (25 / 10000) := by
  unfold auxSample
  dsimp only
  split_ifs
  · exact ⟨Function.update_same _ _ _, Function.update_same _ _ _⟩
  · exact ⟨Function.update_same _ _ _, Function.update_same _ _ _⟩

theorem auxRetrieve_wv (c : Consts) (g : GridConsts) (env : AuxEnv)
    (t : AuxTables) (sband aerob : Nat → Nat → Int) (q lcmg scmg : Nat)
    (s s1 : AuxState)
    (h : auxRetrieve c g env t sband aerob q lcmg scmg s = some s1) :
    s1.twvi = s.twvi ∧ s1.tozi = s.tozi := by
  rcases auxRetrieve_cases c g env t sband aerob q lcmg scmg s s1 h with
    ⟨-, e⟩ | ⟨-, -, -, e⟩ | ⟨-, -, hinv⟩
  · subst e
    exact ⟨rfl, rfl⟩
  · subst e
    exact ⟨rfl, rfl⟩
  · obtain ⟨raot, residual, -, hc⟩ := aerosolInversion_cases c env aerob q _ s1 hinv
    rcases hc with ⟨-, r5, r4, -, -, ⟨-, e⟩ | ⟨-, e⟩⟩ | ⟨-, e⟩
    · subst e; exact ⟨rfl, rfl⟩
    · subst e; exact ⟨rfl, rfl⟩
    · subst e; exact ⟨rfl, rfl⟩

theorem auxPixel_wv_frame (c : Consts) (g : GridConsts) (env : AuxEnv)
    (t : AuxTables) (qaband : Nat → Nat) (sband aerob : Nat → Nat → Int)
    (nsamps i j : Nat) (a a1 : AuxState) (p : Nat) (hne : i * nsamps + j ≠ p)
    (h : auxPixel c g env t qaband sband aerob nsamps i a j = some a1) :
    a1.twvi p = a.twvi p ∧ a1.tozi p = a.tozi p := by
  by_cases hq : qaband (i * nsamps + j) = 1
  · rw [auxPixel_fill c g env t qaband sband aerob nsamps i j a hq] at h
    injection h with h
    subst h
    exact ⟨rfl, rfl⟩
  · obtain ⟨geo, -, -, hr⟩ :=
      auxPixel_nonfill c g env t qaband sband aerob nsamps i j a a1 hq h
    obtain ⟨h1, h2⟩ := auxRetrieve_wv c g env t sband aerob _ _ _ _ a1 hr
    obtain ⟨e1, e2⟩ :=
      auxSample_wv_other g env t (i * nsamps + j) (cmgLocate g geo) a p hne
    rw [h1, h2]
    exact ⟨e1, e2⟩

/-- The water vapour and ozone the auxiliary pass leaves at a non-fill
raster pixel are the values interpolated at the grid position of the
pixel. -/
theorem auxPass_sampled (c : Consts) (g : GridConsts) (env : AuxEnv)
    (t : AuxTables) (qaband : Nat → Nat) (sband aerob : Nat → Nat → Int)
    (nlines nsamps : Nat) (st out : AuxState) (i j : Nat) (hi : i < nlines)
    (hj : j < nsamps) (hq : qaband (i * nsamps + j) ≠ 1)
    (h : auxPass c g env t qaband sband aerob nlines nsamps st = some out) :
    ∃ geo, env.from_space ((i : ℚ) - 1 / 2) ((j : ℚ) + 1 / 2) = some geo ∧
      ¬ OutOfGrid g (cmgLocate g geo) ∧
      out.twvi (i * nsamps + j)
        = interpolate (cmgLocate g geo) (fun l s => (t.wv l s : ℚ)) * (1 / 100) ∧
      out.tozi (i * nsamps + j)
        = interpolate (cmgLocate g geo) (fun l s => ozoneCorner (t.oz l s))
            * (25 / 10000) := by
  unfold auxPass at h
  have hframe : ∀ i' j', j' < nsamps → (i' ≠ i ∨ j' ≠ j) → ∀ s s1,
      auxPixel c g env t qaband sband aerob nsamps i' s j' = some s1 →
      (fun s : AuxState => (s.twvi (i * nsamps + j), s.tozi (i * nsamps + j))) s1
      = (fun s : AuxState => (s.twvi (i * nsamps + j),
          s.tozi (i * nsamps + j))) s := by
    intro i' j' hj' hne s s1 hs
    have hidx : i' * nsamps + j' ≠ i * nsamps + j := by
      intro e
      obtain ⟨e1, e2⟩ := pixel_index_inj nsamps i' j' i j hj' hj e
      rcases hne with h1 | h1
      · exact h1 e1
      · exact h1 e2
    obtain ⟨e1, e2⟩ := auxPixel_wv_frame c g env t qaband sband aerob
      nsamps i' j' s s1 (i * nsamps + j) hidx hs
    dsimp only
    rw [e1, e2]
  obtain ⟨s, s1, -, hinner, hout⟩ := foldOpt_at
    (fun st i =>
      foldOpt (auxPixel c g env t qaband sband aerob nsamps i)
        (List.range nsamps) st)
    (fun s : AuxState => (s.twvi (i * nsamps + j), s.tozi (i * nsamps + j)))
    i _ (List.nodup_range _) (List.mem_range.mpr hi)
    (fun i' _ hne s s1 hs1 =>
      foldOpt_preserves _
        (fun a b =>
          (fun s : AuxState => (s.twvi (i * nsamps + j),
            s.tozi (i * nsamps + j))) b
          = (fun s : AuxState => (s.twvi (i * nsamps + j),
            s.tozi (i * nsamps + j))) a)
        (fun _ => rfl) (fun _ _ _ hab hbc => hbc.trans hab) _
        (fun j' hj' a a1 ha =>
          hframe i' j' (List.mem_range.mp hj') (Or.inl hne) a a1 ha) s s1 hs1)
    _ out h
  obtain ⟨a, a1, -, hpix, hs1⟩ := foldOpt_at
    (auxPixel c g env t qaband sband aerob nsamps i)
    (fun s : AuxState => (s.twvi (i * nsamps + j), s.tozi (i * nsamps + j)))
    j _ (List.nodup_range _) (List.mem_range.mpr hj)
    (fun j' hj' hne a a1 ha =>
      hframe i j' (List.mem_range.mp hj') (Or.inr hne) a a1 ha) s s1 hinner
  have hfin := hout.trans hs1
  simp only [Prod.mk.injEq] at hfin
  obtain ⟨geo, hgeo, hgrid, hr⟩ :=
    auxPixel_nonfill c g env t qaband sband aerob nsamps i j a a1 hq hpix
  obtain ⟨h1, h2⟩ := auxRetrieve_wv c g env t sband aerob _ _ _ _ a1 hr
  obtain ⟨e1, e2⟩ := auxSample_wv_at g env t (i * nsamps + j) (cmgLocate g geo) a
  refine ⟨geo, hgeo, hgrid, ?_, ?_⟩
  · rw [hfin.1, h1, e1]
  · rw [hfin.2, h2, e2]

theorem interpolate_const (loc : CmgLoc) (v : ℚ) :
    interpolate loc (fun _ _ => v) = v := by
  unfold interpolate
  dsimp only
  ring

/-- The auxiliary pass of the demonstration scene completes for any
geolocation inside the grid. -/
theorem demo_auxPass_success_at (geo : ℚ × ℚ) (t : AuxTables)
    (sband : Nat → Nat → Int) (hin : ¬ OutOfGrid cmg (cmgLocate cmg geo)) :
    ∃ out, auxPass l8 cmg { demoAuxEnv with from_space := fun _ _ => some geo }
      t demoQa sband demoAerob 1 2 demoAuxState = some out :=
  auxPass_success l8 cmg { demoAuxEnv with from_space := fun _ _ => some geo }
    t demoQa sband demoAerob 1 2 demoAuxState (fun _ _ => ⟨geo, rfl, hin⟩)
    (fun _ _ _ _ _ _ _ => ⟨_, rfl⟩) (fun _ _ _ _ _ _ => ⟨_, rfl⟩)

theorem demo_polar_locate :
    cmgLocate cmg (90 / cmg.RAD2DEG, (0 : ℚ))
      = { ycmg := -1 / 2, xcmg := 7199 / 2, lcmg := 0, scmg := 3599 } := by
  unfold cmgLocate
  norm_num [cmg, truncToInt]

theorem demo_offgrid_locate :
    cmgLocate cmg ((0 : ℚ), 185 / cmg.RAD2DEG)
      = { ycmg := 3599 / 2, xcmg := 14599 / 2, lcmg := 1799, scmg := 7299 } := by
  unfold cmgLocate
  norm_num [cmg, truncToInt]

theorem demo_dateline_locate :
    cmgLocate cmg ((0 : ℚ), (17998 / 100) / cmg.RAD2DEG)
      = { ycmg := 3599 / 2, xcmg := 71991 / 10, lcmg := 1799, scmg := 7199 } := by
  unfold cmgLocate
  norm_num [cmg, truncToInt]

/-- C23, as the claim states it, fails: a non-fill pixel at the north pole
has `ycmg = -0.5 < 0`, yet its truncated line index is 0, the bounds test
passes and the auxiliary pass completes, with the ozone interpolated at the
pixel. -/
theorem out_of_grid_coordinate_does_not_abort :
    (cmgLocate cmg (90 / cmg.RAD2DEG, (0 : ℚ))).ycmg < 0 ∧
    demoQa (0 * 2 + 1) ≠ 1 ∧
    demoPolarEnv.from_space ((0 : Nat) - 1 / 2) ((1 : Nat) + 1 / 2)
      = some (90 / cmg.RAD2DEG, (0 : ℚ)) ∧
    ∃ out, auxPass l8 cmg demoPolarEnv demoLandTables demoQa demoAuxBands
        demoAerob 1 2 demoAuxState = some out ∧
      out.tozi (0 * 2 + 1) = 3 / 10 := by
  have hin : ¬ OutOfGrid cmg (cmgLocate cmg (90 / cmg.RAD2DEG, (0 : ℚ))) := by
    rw [demo_polar_locate]
    unfold OutOfGrid
    norm_num [cmg]
  obtain ⟨out, h⟩ := demo_auxPass_success_at (90 / cmg.RAD2DEG, (0 : ℚ))
    demoLandTables demoAuxBands hin
  refine ⟨by rw [demo_polar_locate]; norm_num, by decide, rfl, out, h, ?_⟩
  obtain ⟨geo, hgeo, -, -, hoz⟩ := auxPass_sampled l8 cmg demoPolarEnv
    demoLandTables demoQa demoAuxBands demoAerob 1 2 demoAuxState out 0 1
    (by decide) (by decide) (by decide) h
  rw [hoz]
  have hc : (fun l s => ozoneCorner (demoLandTables.oz l s))
      = fun _ _ => (120 : ℚ) := by
    funext l s
    rfl
  rw [hc, interpolate_const]
  norm_num

/-- C23, amended: the bounds test is on the truncated indices. For a
non-fill raster pixel whose geolocation succeeds, in a grid with at least one
line and one sample, the auxiliary pass aborts when `ycmg <= -1`,
`ycmg >= CMG_NBLAT`, `xcmg <= -1` or `xcmg >= CMG_NBLON`, where
`ycmg = (89.975 - lat)*20` and `xcmg = (179.975 + lon)*20`; for every other
coordinate, those with `-1 < ycmg < 0` or `-1 < xcmg < 0` included, the
iteration of the pixel goes on to the interpolation and the retrieval, and
completes when `subaeroret` and `atmcorlamb2` do not fail. -/
theorem out_of_grid_indices_abort (c : Consts) (g : GridConsts) (env : AuxEnv)
    (t : AuxTables) (qaband : Nat → Nat) (sband aerob : Nat → Nat → Int)
    (nlines nsamps : Nat) (st : AuxState) (i j : Nat) (geo : ℚ × ℚ)
    (hi : i < nlines) (hj : j < nsamps) (hq : qaband (i * nsamps + j) ≠ 1)
    (hgeo : env.from_space ((i : ℚ) - 1 / 2) ((j : ℚ) + 1 / 2) = some geo)
    (hlat : 0 < g.CMG_NBLAT) (hlon : 0 < g.CMG_NBLON) :
    ((cmgLocate g geo).ycmg = (89975 / 1000 - geo.1 * g.RAD2DEG) * 20 ∧
      (cmgLocate g geo).xcmg = (179975 / 1000 + geo.2 * g.RAD2DEG) * 20) ∧
    ((((cmgLocate g geo).ycmg ≤ -1 ∨
          (cmgLocate g geo).ycmg ≥ (g.CMG_NBLAT : ℚ)) ∨
        ((cmgLocate g geo).xcmg ≤ -1 ∨
          (cmgLocate g geo).xcmg ≥ (g.CMG_NBLON : ℚ))) →
      auxPass c g env t qaband sband aerob nlines nsamps st = none) ∧
    (¬ (((cmgLocate g geo).ycmg ≤ -1 ∨
          (cmgLocate g geo).ycmg ≥ (g.CMG_NBLAT : ℚ)) ∨
        ((cmgLocate g geo).xcmg ≤ -1 ∨
          (cmgLocate g geo).xcmg ≥ (g.CMG_NBLON : ℚ))) →
      (∀ a, auxPixel c g env t qaband sband aerob nsamps i a j
        = auxRetrieve c g env t sband aerob (i * nsamps + j)
            (cmgLocate g geo).lcmg.toNat (cmgLocate g geo).scmg.toNat
            (auxSample g env t (i * nsamps + j) (cmgLocate g geo) a)) ∧
      ((∀ a b x y z e r, ∃ v, env.subaeroret a b x y z e r = some v) →
        (∀ a b x y z r, ∃ v, env.atmcorlamb2 a b x y z r = some v) →
        ∀ a, ∃ a1,
          auxPixel c g env t qaband sband aerob nsamps i a j = some a1)) := by
  have hiff := outOfGrid_iff g geo hlat hlon
  refine ⟨⟨rfl, rfl⟩, ?_, ?_⟩
  · intro hout
    exact auxPass_abort c g env t qaband sband aerob nlines nsamps st i j hi hj
      (fun a => auxPixel_out_of_grid c g env t qaband sband aerob nsamps i j a
        geo hq hgeo (hiff.mpr hout))
  · intro hin
    have hin' : ¬ OutOfGrid g (cmgLocate g geo) := fun hh => hin (hiff.mp hh)
    refine ⟨fun a => auxPixel_in_grid c g env t qaband sband aerob nsamps i j a
      geo hq hgeo hin', ?_⟩
    intro hsub hatm a
    rw [auxPixel_in_grid c g env t qaband sband aerob nsamps i j a geo hq hgeo
      hin']
    exact auxRetrieve_success c g env t sband aerob _ _ _ _ hsub hatm

/-- Witness for C23: a pixel located at longitude 185 degrees has
`xcmg = 7299.5 >= 7200` and the auxiliary pass aborts. -/
theorem out_of_grid_indices_abort_witness :
    auxPass l8 cmg demoOffGridEnv demoLandTables demoQa demoAuxBands demoAerob
      1 2 demoAuxState = none := by
  refine (out_of_grid_indices_abort l8 cmg demoOffGridEnv demoLandTables demoQa
    demoAuxBands demoAerob 1 2 demoAuxState 0 1 ((0 : ℚ), 185 / cmg.RAD2DEG)
    (by decide) (by decide) (by decide) rfl (by decide) (by decide)).2.1 ?_
  rw [demo_offgrid_locate]
  norm_num [cmg]

/-- C27: ozone missing-cell default. At a non-fill raster pixel of a pass
that completes, with `u = ycmg - lcmg` and `v = xcmg - scmg`, `tozi` is
0.0025 times the bilinear combination, with weights `(1-u)(1-v)`, `(1-u)v`,
`u(1-v)`, `uv`, of the four ozone corner cells in which a stored 0 is
replaced by 120; when all four corners hold 0, `tozi` is 0.3 whatever `u`
and `v`. -/
theorem ozone_default_interpolation (c : Consts) (g : GridConsts)
    (env : AuxEnv) (t : AuxTables) (qaband : Nat → Nat)
    (sband aerob : Nat → Nat → Int) (nlines nsamps : Nat) (st out : AuxState)
    (i j : Nat) (hi : i < nlines) (hj : j < nsamps)
    (hq : qaband (i * nsamps + j) ≠ 1)
    (h : auxPass c g env t qaband sband aerob nlines nsamps st = some out) :
    (ozoneCorner 0 = 120 ∧ ∀ n : Nat, n ≠ 0 → ozoneCorner n = (n : ℚ)) ∧
    ∃ geo loc, env.from_space ((i : ℚ) - 1 / 2) ((j : ℚ) + 1 / 2) = some geo ∧
      loc = cmgLocate g geo ∧
      out.tozi (i * nsamps + j)
        = 25 / 10000 *
          (ozoneCorner (t.oz loc.lcmg.toNat loc.scmg.toNat)
              * (1 - (loc.ycmg - (loc.lcmg : ℚ)))
              * (1 - (loc.xcmg - (loc.scmg : ℚ))) +
            ozoneCorner (t.oz loc.lcmg.toNat (loc.scmg.toNat + 1))
              * (1 - (loc.ycmg - (loc.lcmg : ℚ)))
              * (loc.xcmg - (loc.scmg : ℚ)) +
            ozoneCorner (t.oz (loc.lcmg.toNat + 1) loc.scmg.toNat)
              * (loc.ycmg - (loc.lcmg : ℚ))
              * (1 - (loc.xcmg - (loc.scmg : ℚ))) +
            ozoneCorner (t.oz (loc.lcmg.toNat + 1) (loc.scmg.toNat + 1))
              * (loc.ycmg - (loc.lcmg : ℚ))
              * (loc.xcmg - (loc.scmg : ℚ))) ∧
      ((t.oz loc.lcmg.toNat loc.scmg.toNat = 0 ∧
          t.oz loc.lcmg.toNat (loc.scmg.toNat + 1) = 0 ∧
          t.oz (loc.lcmg.toNat + 1) loc.scmg.toNat = 0 ∧
          t.oz (loc.lcmg.toNat + 1) (loc.scmg.toNat + 1) = 0) →
        out.tozi (i * nsamps + j) = 3 / 10) := by
  refine ⟨⟨rfl, fun n hn => ?_⟩, ?_⟩
  · unfold ozoneCorner
    rw [if_neg hn]
  · obtain ⟨geo, hgeo, -, -, hoz⟩ := auxPass_sampled c g env t qaband sband
      aerob nlines nsamps st out i j hi hj hq h
    refine ⟨geo, cmgLocate g geo, hgeo, rfl, ?_, ?_⟩
    · rw [hoz]
      unfold interpolate
      dsimp only
      ring
    · rintro ⟨h1, h2, h3, h4⟩
      rw [hoz]
      unfold interpolate
      dsimp only
      rw [h1, h2, h3, h4]
      unfold ozoneCorner
      rw [if_pos rfl]
      ring

/-- Witness for C27: in the land scene every ozone cell holds 0 and the
auxiliary pass leaves `tozi = 0.3` at pixel 1. -/
theorem ozone_default_interpolation_witness :
    ∃ out, auxPass l8 cmg demoAuxEnv demoLandTables demoQa demoAuxBands demoAerob
        1 2 demoAuxState = some out ∧
      out.tozi (0 * 2 + 1) = 3 / 10 := by
  obtain ⟨out, h⟩ := demo_auxPass_success demoLandTables demoAuxBands
  obtain ⟨-, geo, loc, -, -, -, hall⟩ := ozone_default_interpolation l8 cmg
    demoAuxEnv demoLandTables demoQa demoAuxBands demoAerob 1 2 demoAuxState out
    0 1 (by decide) (by decide) (by decide) h
  exact ⟨out, h, hall ⟨rfl, rfl, rfl, rfl⟩⟩

/-- C28: missing DEM handling. In the sampling of a pixel (lines 569-626,
before the cirrus test), if the DEM cell `dem[lcmg][scmg]` holds -9999 the
mask byte of the pixel is set to exactly 128 (water) and `tresi` to -1.0;
otherwise the sampling leaves the mask byte and `tresi` as they were. The
pressure is the bilinear combination of the four corners, a corner holding
-9999 contributing 1013.0 and any other `1013*exp(-dem*ONE_DIV_8500)`. At a
non-fill raster pixel whose mask byte was zero at entry of a pass that
completes, the water bit is set if and only if `dem[lcmg][scmg]` is -9999,
whatever the other three corners hold. -/
theorem missing_dem_handling (c : Consts) (g : GridConsts) (env : AuxEnv)
    (t : AuxTables) (qaband : Nat → Nat) (sband aerob : Nat → Nat → Int)
    (nlines nsamps : Nat) (st out : AuxState) (i j : Nat) (hi : i < nlines)
    (hj : j < nsamps) (hq : qaband (i * nsamps + j) ≠ 1)
    (hz : st.cloud (i * nsamps + j) = 0)
    (h : auxPass c g env t qaband sband aerob nlines nsamps st = some out) :
    (∀ (s : AuxState) (p : Nat) (loc : CmgLoc),
      (t.dem loc.lcmg.toNat loc.scmg.toNat = -9999 →
        (auxSample g env t p loc s).cloud p = 128 ∧
        (auxSample g env t p loc s).tresi p = -1) ∧
      (t.dem loc.lcmg.toNat loc.scmg.toNat ≠ -9999 →
        (auxSample g env t p loc s).cloud p = s.cloud p ∧
        (auxSample g env t p loc s).tresi p = s.tresi p)) ∧
    (presCorner g env.exp (-9999) = 1013 ∧
      ∀ d : Int, d ≠ -9999 →
        presCorner g env.exp d
          = 1013 * env.exp (((-d : Int) : ℚ) * g.ONE_DIV_8500)) ∧
    ∃ geo loc, env.from_space ((i : ℚ) - 1 / 2) ((j : ℚ) + 1 / 2) = some geo ∧
      loc = cmgLocate g geo ∧
      out.tp (i * nsamps + j)
        = presCorner g env.exp (t.dem loc.lcmg.toNat loc.scmg.toNat)
            * (1 - (loc.ycmg - (loc.lcmg : ℚ)))
            * (1 - (loc.xcmg - (loc.scmg : ℚ))) +
          presCorner g env.exp (t.dem loc.lcmg.toNat (loc.scmg.toNat + 1))
            * (1 - (loc.ycmg - (loc.lcmg : ℚ)))
            * (loc.xcmg - (loc.scmg : ℚ)) +
          presCorner g env.exp (t.dem (loc.lcmg.toNat + 1) loc.scmg.toNat)
            * (loc.ycmg - (loc.lcmg : ℚ))
            * (1 - (loc.xcmg - (loc.scmg : ℚ))) +
          presCorner g env.exp (t.dem (loc.lcmg.toNat + 1) (loc.scmg.toNat + 1))
            * (loc.ycmg - (loc.lcmg : ℚ))
            * (loc.xcmg - (loc.scmg : ℚ)) ∧
      (btest (out.cloud (i * nsamps + j)) WAT_QA = true ↔
        t.dem loc.lcmg.toNat loc.scmg.toNat = -9999) := by
  refine ⟨?_, ⟨?_, ?_⟩, ?_⟩
  · intro s p loc
    obtain ⟨e1, e2, -, -⟩ := auxSample_at g env t p loc s
    constructor
    · intro hd
      rw [e1, e2, if_neg (fun hh => hh hd), if_neg (fun hh => hh hd)]
      exact ⟨rfl, rfl⟩
    · intro hd
      rw [e1, e2, if_pos hd, if_pos hd]
      exact ⟨rfl, rfl⟩
  · unfold presCorner
    rw [if_neg (fun hh => hh rfl)]
  · intro d hd
    unfold presCorner
    rw [if_pos hd]
  · obtain ⟨geo, hgeo, -, htp, hcloud, -⟩ := auxPass_pixel c g env t qaband sband
      aerob nlines nsamps st out i j hi hj hq hz h
    refine ⟨geo, cmgLocate g geo, hgeo, rfl, ?_, ?_⟩
    · rw [htp]
      rfl
    · rw [hcloud]
      by_cases hd : t.dem (cmgLocate g geo).lcmg.toNat
          (cmgLocate g geo).scmg.toNat = -9999
      · rw [if_neg (fun hh => hh hd)]
        refine ⟨fun _ => hd, fun _ => ?_⟩
        split_ifs <;> decide
      · rw [if_pos hd]
        refine ⟨fun hh => ?_, fun hh => absurd hh hd⟩
        exfalso
        revert hh
        split_ifs <;> decide

/-- Witness for C28: in the water scene (every DEM cell holds -9999) the
auxiliary pass leaves the water bit at pixel 1. -/
theorem missing_dem_handling_witness :
    ∃ out, auxPass l8 cmg demoAuxEnv demoWaterTables demoQa demoAuxBands
        demoAerob 1 2 demoAuxState = some out ∧
      btest (out.cloud (0 * 2 + 1)) WAT_QA = true := by
  obtain ⟨out, h⟩ := demo_auxPass_success demoWaterTables demoAuxBands
  obtain ⟨-, -, geo, loc, -, -, -, hw⟩ := missing_dem_handling l8 cmg demoAuxEnv
    demoWaterTables demoQa demoAuxBands demoAerob 1 2 demoAuxState out 0 1
    (by decide) (by decide) (by decide) rfl h
  exact ⟨out, h, hw.mpr rfl⟩

/-- The two clamping tests on a finite value give `max th2 (min x th1)`. -/
theorem clamp_fin_eq (x th1 th2 : ℚ) :
    (if FVal.lt (if FVal.gt (FVal.fin x) th1 then FVal.fin th1 else FVal.fin x) th2
      then FVal.fin th2
      else (if FVal.gt (FVal.fin x) th1 then FVal.fin th1 else FVal.fin x))
      = FVal.fin (max th2 (min x th1)) := by
  by_cases h1 : x > th1
  · have g1 : FVal.gt (FVal.fin x) th1 := h1
    rw [if_pos g1, min_eq_right (le_of_lt h1)]
    by_cases h2 : th1 < th2
    · have g2 : FVal.lt (FVal.fin th1) th2 := h2
      rw [if_pos g2, max_eq_left (le_of_lt h2)]
    · have g2 : ¬ FVal.lt (FVal.fin th1) th2 := h2
      rw [if_neg g2, max_eq_right (not_lt.mp h2)]
  · have g1 : ¬ FVal.gt (FVal.fin x) th1 := h1
    rw [if_neg g1, min_eq_left (not_lt.mp h1)]
    by_cases h2 : x < th2
    · have g2 : FVal.lt (FVal.fin x) th2 := h2
      rw [if_pos g2, max_eq_left (le_of_lt h2)]
    · have g2 : ¬ FVal.lt (FVal.fin x) th2 := h2
      rw [if_neg g2, max_eq_right (not_lt.mp h2)]

/-- With a non-zero denominator the clamped NDWI is the rational NDWI
clamped to `[th2, th1]`. -/
theorem clampedNdwi_of_ne (t : AuxTables) (sband : Nat → Nat → Int)
    (p lcmg scmg : Nat)
    (hd : (sband SR_BAND5 p : ℚ) + (sband SR_BAND7 p : ℚ) * (1 / 2) ≠ 0) :
    clampedNdwi t sband p lcmg scmg
      = FVal.fin
        (max (((t.andwi lcmg scmg : ℚ) - 2 * (t.sndwi lcmg scmg : ℚ)) * (1 / 1000))
          (min
            (((sband SR_BAND5 p : ℚ) - (sband SR_BAND7 p : ℚ) * (1 / 2)) /
              ((sband SR_BAND5 p : ℚ) + (sband SR_BAND7 p : ℚ) * (1 / 2)))
            (((t.andwi lcmg scmg : ℚ) + 2 * (t.sndwi lcmg scmg : ℚ))
              * (1 / 1000)))) := by
  unfold clampedNdwi
  dsimp only
  rw [cdiv_of_ne _ _ hd]
  exact clamp_fin_eq _ _ _

/-- With a zero denominator and bands 5 and 7 not both zero the NDWI is an
infinity, which the clamping tests replace by `th1` or `th2`. -/
theorem clampedNdwi_of_inf (t : AuxTables) (sband : Nat → Nat → Int)
    (p lcmg scmg : Nat)
    (hd : (sband SR_BAND5 p : ℚ) + (sband SR_BAND7 p : ℚ) * (1 / 2) = 0)
    (hn : (sband SR_BAND5 p : ℚ) - (sband SR_BAND7 p : ℚ) * (1 / 2) ≠ 0)
    (hs : 0 ≤ t.sndwi lcmg scmg) :
    clampedNdwi t sband p lcmg scmg
      = (if (sband SR_BAND5 p : ℚ) - (sband SR_BAND7 p : ℚ) * (1 / 2) > 0
          then FVal.fin
            (((t.andwi lcmg scmg : ℚ) + 2 * (t.sndwi lcmg scmg : ℚ)) * (1 / 1000))
          else FVal.fin
            (((t.andwi lcmg scmg : ℚ) - 2 * (t.sndwi lcmg scmg : ℚ))
              * (1 / 1000))) := by
  have hsq : (0 : ℚ) ≤ (t.sndwi lcmg scmg : ℚ) := by exact_mod_cast hs
  have hth : ¬ ((t.andwi lcmg scmg : ℚ) + 2 * (t.sndwi lcmg scmg : ℚ)) * (1 / 1000)
      < ((t.andwi lcmg scmg : ℚ) - 2 * (t.sndwi lcmg scmg : ℚ)) * (1 / 1000) := by
    rw [not_lt]
    linarith
  unfold clampedNdwi cdiv
  dsimp only
  rw [if_neg (not_not.mpr hd)]
  by_cases hp : (sband SR_BAND5 p : ℚ) - (sband SR_BAND7 p : ℚ) * (1 / 2) > 0
  · rw [if_pos hp, if_pos hp]
    have g1 : FVal.gt FVal.posInf
        (((t.andwi lcmg scmg : ℚ) + 2 * (t.sndwi lcmg scmg : ℚ)) * (1 / 1000)) :=
      trivial
    rw [if_pos g1]
    have g2 : ¬ FVal.lt
        (FVal.fin
          (((t.andwi lcmg scmg : ℚ) + 2 * (t.sndwi lcmg scmg : ℚ)) * (1 / 1000)))
        (((t.andwi lcmg scmg : ℚ) - 2 * (t.sndwi lcmg scmg : ℚ)) * (1 / 1000)) :=
      hth
    rw [if_neg g2]
  · have hlt : (sband SR_BAND5 p : ℚ) - (sband SR_BAND7 p : ℚ) * (1 / 2) < 0 :=
      lt_of_le_of_ne (not_lt.mp hp) hn
    rw [if_neg hp, if_neg hp, if_pos hlt]
    have g1 : ¬ FVal.gt FVal.negInf
        (((t.andwi lcmg scmg : ℚ) + 2 * (t.sndwi lcmg scmg : ℚ)) * (1 / 1000)) :=
      not_false
    rw [if_neg g1]
    have g2 : FVal.lt FVal.negInf
        (((t.andwi lcmg scmg : ℚ) - 2 * (t.sndwi lcmg scmg : ℚ)) * (1 / 1000)) :=
      trivial
    rw [if_pos g2]

/-- With bands 5 and 7 both zero the NDWI is `0.0 / 0.0`, NaN, and both
clamping tests fail on it. -/
theorem clampedNdwi_nan (t : AuxTables) (sband : Nat → Nat → Int)
    (p lcmg scmg : Nat) (h5 : sband SR_BAND5 p = 0) (h7 : sband SR_BAND7 p = 0) :
    clampedNdwi t sband p lcmg scmg = FVal.nan := by
  unfold clampedNdwi cdiv
  rw [h5, h7]
  norm_num [FVal.gt, FVal.lt]

/-- The numerator and the denominator of the NDWI are both zero only when
bands 5 and 7 are both zero. -/
theorem ndwi_num_ne_zero (b5 b7 : Int) (h : ¬ (b5 = 0 ∧ b7 = 0))
    (hd : (b5 : ℚ) + (b7 : ℚ) * (1 / 2) = 0) :
    (b5 : ℚ) - (b7 : ℚ) * (1 / 2) ≠ 0 := by
  intro hn
  apply h
  have e5 : (b5 : ℚ) = 0 := by linarith
  have e7 : (b7 : ℚ) = 0 := by linarith
  exact ⟨by exact_mod_cast e5, by exact_mod_cast e7⟩

/-- The clamped NDWI of a pixel whose bands 5 and 7 are not both zero lies
in the envelope of a cell with `sndwi >= 0`. -/
theorem clampedNdwi_within (t : AuxTables) (sband : Nat → Nat → Int)
    (p lcmg scmg : Nat) (hb : ¬ (sband SR_BAND5 p = 0 ∧ sband SR_BAND7 p = 0))
    (hs : 0 ≤ t.sndwi lcmg scmg) :
    FVal.within (clampedNdwi t sband p lcmg scmg)
      (((t.andwi lcmg scmg : ℚ) - 2 * (t.sndwi lcmg scmg : ℚ)) * (1 / 1000))
      (((t.andwi lcmg scmg : ℚ) + 2 * (t.sndwi lcmg scmg : ℚ)) * (1 / 1000)) := by
  have hsq : (0 : ℚ) ≤ (t.sndwi lcmg scmg : ℚ) := by exact_mod_cast hs
  have hle : ((t.andwi lcmg scmg : ℚ) - 2 * (t.sndwi lcmg scmg : ℚ)) * (1 / 1000)
      ≤ ((t.andwi lcmg scmg : ℚ) + 2 * (t.sndwi lcmg scmg : ℚ)) * (1 / 1000) := by
    linarith
  by_cases hd : (sband SR_BAND5 p : ℚ) + (sband SR_BAND7 p : ℚ) * (1 / 2) ≠ 0
  · rw [clampedNdwi_of_ne t sband p lcmg scmg hd]
    exact ⟨le_max_left _ _, max_le hle (min_le_right _ _)⟩
  · have hd0 := not_not.mp hd
    rw [clampedNdwi_of_inf t sband p lcmg scmg hd0
      (ndwi_num_ne_zero _ _ hb hd0) hs]
    split_ifs
    · exact ⟨hle, le_refl _⟩
    · exact ⟨le_refl _, hle⟩

/-- C29, counterexample: in a cell with a band ratio climatology
(`ratiob1 = 1`, envelope `[0.1, 0.3]`, `sndwi = 50 >= 0`) a pixel whose bands
5 and 7 are both zero has the NDWI `0.0 / 0.0`; neither clamping test holds
for NaN, so the clamped NDWI is NaN, not a value of the envelope, and the
expected ratios of bands 1, 2 and 7 are NaN. -/
theorem clamped_ndwi_nan_outside_envelope :
    demoRatioTables.ratiob1 1799 3599 ≠ 0 ∧
    0 ≤ demoRatioTables.sndwi 1799 3599 ∧
    demoDarkBands SR_BAND5 1 = 0 ∧ demoDarkBands SR_BAND7 1 = 0 ∧
    clampedNdwi demoRatioTables demoDarkBands 1 1799 3599 = FVal.nan ∧
    ¬ FVal.within (clampedNdwi demoRatioTables demoDarkBands 1 1799 3599)
      (((demoRatioTables.andwi 1799 3599 : ℚ)
        - 2 * (demoRatioTables.sndwi 1799 3599 : ℚ)) * (1 / 1000))
      (((demoRatioTables.andwi 1799 3599 : ℚ)
        + 2 * (demoRatioTables.sndwi 1799 3599 : ℚ)) * (1 / 1000)) ∧
    expectedRatios demoRatioTables demoDarkBands 1 1799 3599
      (fun _ => FVal.fin (-1)) DN_BAND1 = FVal.nan ∧
    expectedRatios demoRatioTables demoDarkBands 1 1799 3599
      (fun _ => FVal.fin (-1)) DN_BAND2 = FVal.nan ∧
    expectedRatios demoRatioTables demoDarkBands 1 1799 3599
      (fun _ => FVal.fin (-1)) DN_BAND7 = FVal.nan := by
  have hx : clampedNdwi demoRatioTables demoDarkBands 1 1799 3599 = FVal.nan :=
    clampedNdwi_nan _ _ _ _ _ rfl rfl
  refine ⟨by decide, by decide, rfl, rfl, hx, ?_, ?_, ?_, ?_⟩
  · rw [hx]
    exact not_false
  · unfold expectedRatios
    rw [if_neg (by decide), hx]
    simp [Function.update, DN_BAND1, DN_BAND2, DN_BAND4, DN_BAND7, FVal.mulq,
      FVal.addq]
  · unfold expectedRatios
    rw [if_neg (by decide), hx]
    simp [Function.update, DN_BAND1, DN_BAND2, DN_BAND4, DN_BAND7, FVal.mulq,
      FVal.addq]
  · unfold expectedRatios
    rw [if_neg (by decide), hx]
    simp [Function.update, DN_BAND1, DN_BAND2, DN_BAND4, DN_BAND7, FVal.mulq,
      FVal.addq]

/-- C29, amended: the expected-ratio vector. When `ratiob1[lcmg][scmg] == 0`
the entries for bands 1, 2, 4, 7 are the defaults 0.4817, 0.4817/0.844239,
1.0, 1.79. Otherwise, with `x` the NDWI `(band5 - 0.5*band7)/(band5 +
0.5*band7)` after the two clamping tests against `th1 = (andwi +
2*sndwi)*0.001` and `th2 = (andwi - 2*sndwi)*0.001`, the entries are
`(x*slope + intercept)*0.001` for bands 1, 2, 7 and 1.0 for band 4. For
every cell with `sndwi >= 0` and every pixel whose bands 5 and 7 are not
both zero, `th2 <= x <= th1` (with a non-zero denominator `x` is the
quotient clamped to `[th2, th1]`; an infinite quotient is replaced by `th1`
or `th2`); for a pixel whose bands 5 and 7 are both zero `x` is NaN and so
are the ratios of bands 1, 2 and 7. The other entries of `erelc` are not
written, and this vector is the one passed to `subaeroret` for a pixel that
is neither cirrus nor skipped. -/
theorem expected_ratio_vector (c : Consts) (g : GridConsts) (env : AuxEnv)
    (t : AuxTables) (sband aerob : Nat → Nat → Int) (p lcmg scmg : Nat)
    (erelc : Nat → FVal) :
    (t.ratiob1 lcmg scmg = 0 →
      expectedRatios t sband p lcmg scmg erelc DN_BAND1
        = FVal.fin (4817 / 10000) ∧
      expectedRatios t sband p lcmg scmg erelc DN_BAND2
        = FVal.fin ((4817 / 10000) / (844239 / 1000000)) ∧
      expectedRatios t sband p lcmg scmg erelc DN_BAND4 = FVal.fin 1 ∧
      expectedRatios t sband p lcmg scmg erelc DN_BAND7
        = FVal.fin (179 / 100)) ∧
    (t.ratiob1 lcmg scmg ≠ 0 →
      expectedRatios t sband p lcmg scmg erelc DN_BAND1
        = FVal.mulq
          (FVal.addq
            (FVal.mulq (clampedNdwi t sband p lcmg scmg)
              (t.slpratiob1 lcmg scmg : ℚ))
            (t.intratiob1 lcmg scmg : ℚ))
          (1 / 1000) ∧
      expectedRatios t sband p lcmg scmg erelc DN_BAND2
        = FVal.mulq
          (FVal.addq
            (FVal.mulq (clampedNdwi t sband p lcmg scmg)
              (t.slpratiob2 lcmg scmg : ℚ))
            (t.intratiob2 lcmg scmg : ℚ))
          (1 / 1000) ∧
      expectedRatios t sband p lcmg scmg erelc DN_BAND4 = FVal.fin 1 ∧
      expectedRatios t sband p lcmg scmg erelc DN_BAND7
        = FVal.mulq
          (FVal.addq
            (FVal.mulq (clampedNdwi t sband p lcmg scmg)
              (t.slpratiob7 lcmg scmg : ℚ))
            (t.intratiob7 lcmg scmg : ℚ))
          (1 / 1000)) ∧
    (¬ (sband SR_BAND5 p = 0 ∧ sband SR_BAND7 p = 0) →
      0 ≤ t.sndwi lcmg scmg →
      ∃ x : ℚ, clampedNdwi t sband p lcmg scmg = FVal.fin x ∧
        ((t.andwi lcmg scmg : ℚ) - 2 * (t.sndwi lcmg scmg : ℚ)) * (1 / 1000) ≤ x ∧
        x ≤ ((t.andwi lcmg scmg : ℚ) + 2 * (t.sndwi lcmg scmg : ℚ)) * (1 / 1000) ∧
        ((sband SR_BAND5 p : ℚ) + (sband SR_BAND7 p : ℚ) * (1 / 2) ≠ 0 →
          x = max
            (((t.andwi lcmg scmg : ℚ) - 2 * (t.sndwi lcmg scmg : ℚ)) * (1 / 1000))
            (min
              (((sband SR_BAND5 p : ℚ) - (sband SR_BAND7 p : ℚ) * (1 / 2)) /
                ((sband SR_BAND5 p : ℚ) + (sband SR_BAND7 p : ℚ) * (1 / 2)))
              (((t.andwi lcmg scmg : ℚ) + 2 * (t.sndwi lcmg scmg : ℚ))
                * (1 / 1000)))) ∧
        (t.ratiob1 lcmg scmg ≠ 0 →
          expectedRatios t sband p lcmg scmg erelc DN_BAND1
            = FVal.fin ((x * (t.slpratiob1 lcmg scmg : ℚ)
                + (t.intratiob1 lcmg scmg : ℚ)) * (1 / 1000)) ∧
          expectedRatios t sband p lcmg scmg erelc DN_BAND2
            = FVal.fin ((x * (t.slpratiob2 lcmg scmg : ℚ)
                + (t.intratiob2 lcmg scmg : ℚ)) * (1 / 1000)) ∧
          expectedRatios t sband p lcmg scmg erelc DN_BAND7
            = FVal.fin ((x * (t.slpratiob7 lcmg scmg : ℚ)
                + (t.intratiob7 lcmg scmg : ℚ)) * (1 / 1000)))) ∧
    (sband SR_BAND5 p = 0 → sband SR_BAND7 p = 0 →
      clampedNdwi t sband p lcmg scmg = FVal.nan ∧
      (t.ratiob1 lcmg scmg ≠ 0 →
        expectedRatios t sband p lcmg scmg erelc DN_BAND1 = FVal.nan ∧
        expectedRatios t sband p lcmg scmg erelc DN_BAND2 = FVal.nan ∧
        expectedRatios t sband p lcmg scmg erelc DN_BAND7 = FVal.nan)) ∧
    (∀ b, b ≠ DN_BAND1 → b ≠ DN_BAND2 → b ≠ DN_BAND4 → b ≠ DN_BAND7 →
      expectedRatios t sband p lcmg scmg erelc b = erelc b) ∧
    (∀ s s1 : AuxState,
      auxRetrieve c g env t sband aerob p lcmg scmg s = some s1 →
      ¬ FVal.lt (cdiv 100 (s.tp p * g.ONE_DIV_1013))
        (sband SR_BAND9 p : ℚ) →
      ¬ (btest (s.cloud p) WAT_QA = true ∧ FVal.lt (fndvi sband p) (1 / 10)) →
      ∃ raot residual,
        env.subaeroret DN_BAND4 DN_BAND1 env.pres env.uoz env.uwv
          (expectedRatios t sband p lcmg scmg s.erelc)
          (toaRatios c aerob p s.troatm) = some (raot, residual)) := by
  have hratios : t.ratiob1 lcmg scmg ≠ 0 →
      expectedRatios t sband p lcmg scmg erelc DN_BAND1
        = FVal.mulq
          (FVal.addq
            (FVal.mulq (clampedNdwi t sband p lcmg scmg)
              (t.slpratiob1 lcmg scmg : ℚ))
            (t.intratiob1 lcmg scmg : ℚ))
          (1 / 1000) ∧
      expectedRatios t sband p lcmg scmg erelc DN_BAND2
        = FVal.mulq
          (FVal.addq
            (FVal.mulq (clampedNdwi t sband p lcmg scmg)
              (t.slpratiob2 lcmg scmg : ℚ))
            (t.intratiob2 lcmg scmg : ℚ))
          (1 / 1000) ∧
      expectedRatios t sband p lcmg scmg erelc DN_BAND4 = FVal.fin 1 ∧
      expectedRatios t sband p lcmg scmg erelc DN_BAND7
        = FVal.mulq
          (FVal.addq
            (FVal.mulq (clampedNdwi t sband p lcmg scmg)
              (t.slpratiob7 lcmg scmg : ℚ))
            (t.intratiob7 lcmg scmg : ℚ))
          (1 / 1000) := by
    intro h0
    unfold expectedRatios
    rw [if_neg h0]
    simp [Function.update, DN_BAND1, DN_BAND2, DN_BAND4, DN_BAND7]
  refine ⟨?_, hratios, ?_, ?_, ?_, ?_⟩
  · intro h0
    unfold expectedRatios
    rw [if_pos h0]
    simp [Function.update, DN_BAND1, DN_BAND2, DN_BAND4, DN_BAND7, FVal.divq,
      cdiv]
  · intro hb hs
    have hw := clampedNdwi_within t sband p lcmg scmg hb hs
    cases hx : clampedNdwi t sband p lcmg scmg with
    | fin x =>
      rw [hx] at hw
      refine ⟨x, rfl, hw.1, hw.2, ?_, ?_⟩
      · intro hd
        have e := clampedNdwi_of_ne t sband p lcmg scmg hd
        rw [hx] at e
        injection e
      · intro h0
        obtain ⟨e1, e2, -, e7⟩ := hratios h0
        rw [hx] at e1 e2 e7
        exact ⟨e1, e2, e7⟩
    | posInf =>
      rw [hx] at hw
      exact absurd hw not_false
    | negInf =>
      rw [hx] at hw
      exact absurd hw not_false
    | nan =>
      rw [hx] at hw
      exact absurd hw not_false
  · intro h5 h7
    have hx := clampedNdwi_nan t sband p lcmg scmg h5 h7
    refine ⟨hx, ?_⟩
    intro h0
    obtain ⟨e1, e2, -, e7⟩ := hratios h0
    rw [hx] at e1 e2 e7
    exact ⟨e1, e2, e7⟩
  · intro b h1 h2 h4 h7
    unfold expectedRatios
    split_ifs
    · dsimp only
      rw [Function.update_noteq h7, Function.update_noteq h4,
        Function.update_noteq h2, Function.update_noteq h1]
    · dsimp only
      rw [Function.update_noteq h7, Function.update_noteq h4,
        Function.update_noteq h2, Function.update_noteq h1]
  · intro s s1 hr hnc hrun
    rcases auxRetrieve_cases c g env t sband aerob p lcmg scmg s s1 hr with
      ⟨hc, -⟩ | ⟨-, hw, hn, -⟩ | ⟨-, -, hinv⟩
    · exact absurd hc hnc
    · exact absurd ⟨hw, hn⟩ hrun
    · obtain ⟨raot, residual, hsub, -⟩ :=
        aerosolInversion_cases c env aerob p _ s1 hinv
      exact ⟨raot, residual, hsub⟩

/-- Witness for C29: with the climatology envelope `[0.1, 0.3]` and bands 5
and 7 both at 1000 (NDWI 1/3), the clamped NDWI is 0.3 and the expected
ratio of band 1 is `(0.3*1000 + 500)*0.001 = 0.8`. -/
theorem expected_ratio_vector_witness :
    ¬ (demoAuxBands SR_BAND5 1 = 0 ∧ demoAuxBands SR_BAND7 1 = 0) ∧
    0 ≤ demoRatioTables.sndwi 1799 3599 ∧
    clampedNdwi demoRatioTables demoAuxBands 1 1799 3599 = FVal.fin (3 / 10) ∧
    expectedRatios demoRatioTables demoAuxBands 1 1799 3599
      (fun _ => FVal.fin (-1)) DN_BAND1 = FVal.fin (4 / 5) := by
  have hb : ¬ (demoAuxBands SR_BAND5 1 = 0 ∧ demoAuxBands SR_BAND7 1 = 0) := by
    decide
  have hs : 0 ≤ demoRatioTables.sndwi 1799 3599 := by decide
  obtain ⟨x, hx, -, -, hmax, hr⟩ :=
    (expected_ratio_vector l8 cmg demoAuxEnv demoRatioTables
      demoAuxBands demoAerob 1 1799 3599 (fun _ => FVal.fin (-1))).2.2.1 hb hs
  have e : x = 3 / 10 := by
    rw [hmax (by norm_num [demoAuxBands, SR_BAND5, SR_BAND7, SR_BAND9])]
    norm_num [demoRatioTables, demoLandTables, demoAuxBands, SR_BAND5, SR_BAND7,
      SR_BAND9]
  subst e
  refine ⟨hb, hs, hx, ?_⟩
  rw [(hr (by decide)).1]
  norm_num [demoRatioTables, demoLandTables]

/-- C30: a position that passes the bounds test can read a cell outside
the grid. A pixel at longitude 179.98 degrees has `xcmg = 7199.1`, so
`scmg = 7199` passes the test `scmg < CMG_NBLON = 7200` while the
interpolation reads the cells of sample `scmg + 1 = 7200`: two sets of
tables that agree on every cell of the 3600 x 7200 grid and differ in the
column of index 7200 give different water vapour at the pixel. -/
theorem bilinear_corner_outside_grid :
    ¬ OutOfGrid cmg (cmgLocate cmg ((0 : ℚ), (17998 / 100) / cmg.RAD2DEG)) ∧
    (cmgLocate cmg ((0 : ℚ), (17998 / 100) / cmg.RAD2DEG)).scmg + 1
      = cmg.CMG_NBLON ∧
    (∀ l s : Nat, (l : Int) < cmg.CMG_NBLAT → (s : Int) < cmg.CMG_NBLON →
      demoLandTables.wv l s = demoEdgeTables.wv l s) ∧
    ∃ out1 out2,
      auxPass l8 cmg demoDatelineEnv demoLandTables demoQa demoAuxBands demoAerob
        1 2 demoAuxState = some out1 ∧
      auxPass l8 cmg demoDatelineEnv demoEdgeTables demoQa demoAuxBands demoAerob
        1 2 demoAuxState = some out2 ∧
      out1.twvi (0 * 2 + 1) = 0 ∧ out2.twvi (0 * 2 + 1) = 1 / 10 := by
  have hin : ¬ OutOfGrid cmg
      (cmgLocate cmg ((0 : ℚ), (17998 / 100) / cmg.RAD2DEG)) := by
    rw [demo_dateline_locate]
    unfold OutOfGrid
    norm_num [cmg]
  obtain ⟨out1, h1⟩ := demo_auxPass_success_at ((0 : ℚ), (17998 / 100) / cmg.RAD2DEG)
    demoLandTables demoAuxBands hin
  obtain ⟨out2, h2⟩ := demo_auxPass_success_at ((0 : ℚ), (17998 / 100) / cmg.RAD2DEG)
    demoEdgeTables demoAuxBands hin
  refine ⟨hin, by rw [demo_dateline_locate]; rfl, ?_, out1, out2, h1, h2, ?_, ?_⟩
  · intro l s _ hs
    have hs' : s ≠ 7200 := by
      intro e
      rw [e] at hs
      revert hs
      decide
    show (0 : Nat) = if s = 7200 then 100 else 0
    rw [if_neg hs']
  · obtain ⟨geo, hgeo, -, hwv, -⟩ := auxPass_sampled l8 cmg demoDatelineEnv
      demoLandTables demoQa demoAuxBands demoAerob 1 2 demoAuxState out1 0 1
      (by decide) (by decide) (by decide) h1
    rw [hwv]
    have hc : (fun l s => (demoLandTables.wv l s : ℚ)) = fun _ _ => (0 : ℚ) := by
      funext l s
      show ((0 : Nat) : ℚ) = 0
      norm_num
    rw [hc, interpolate_const]
    norm_num
  · obtain ⟨geo, hgeo, -, hwv, -⟩ := auxPass_sampled l8 cmg demoDatelineEnv
      demoEdgeTables demoQa demoAuxBands demoAerob 1 2 demoAuxState out2 0 1
      (by decide) (by decide) (by decide) h2
    have hg : geo = ((0 : ℚ), (17998 / 100) / cmg.RAD2DEG) := by
      have : some ((0 : ℚ), (17998 / 100) / cmg.RAD2DEG) = some geo := hgeo
      injection this with this
      exact this.symm
    rw [hwv, hg, demo_dateline_locate]
    have e1 : Int.toNat 7199 = 7199 := rfl
    unfold interpolate
    norm_num [demoEdgeTables, e1]


/-! ### `compute_toa_refl`: the output on ERROR -/

/-- The band loop with the exit state agrees with the band loop: on SUCCESS
both give the same bands; on ERROR the bands are those written by the
iterations of a prefix of the band list, the next band being the one whose
read failed. -/
theorem toaBandsExit_spec (c : Consts) (ln : ℚ → ℚ)
    (rd th : Nat → Option (Nat → Nat)) (qaband : Nat → Nat) (npix : Nat)
    (xmus : ℚ) (instrument : String) (l : List Nat) :
    ∀ s : Nat → Nat → Int,
      ((toaBandsExit c ln rd th qaband npix xmus instrument l s).success = true →
        toaBands c ln rd th qaband npix xmus instrument l s
          = some (toaBandsExit c ln rd th qaband npix xmus instrument l s).sband) ∧
      ((toaBandsExit c ln rd th qaband npix xmus instrument l s).success = false →
        toaBands c ln rd th qaband npix xmus instrument l s = none ∧
        ∃ pre ib post, l = pre ++ ib :: post ∧
          toaBands c ln rd th qaband npix xmus instrument pre s
            = some (toaBandsExit c ln rd th qaband npix xmus instrument l s).sband ∧
          toaBandStep c ln rd th qaband npix xmus instrument
            (toaBandsExit c ln rd th qaband npix xmus instrument l s).sband ib
            = none) := by
  induction l with
  | nil =>
    intro s
    constructor
    · intro _; rfl
    · intro h; cases h
  | cons a rest ih =>
    intro s
    cases hs : toaBandStep c ln rd th qaband npix xmus instrument s a with
    | none =>
      have e : toaBandsExit c ln rd th qaband npix xmus instrument (a :: rest) s
          = { success := false, sband := s } := by
        simp only [toaBandsExit, hs]
      rw [e]
      constructor
      · intro h; cases h
      · intro _
        refine ⟨by simp only [toaBands, hs], [], a, rest, rfl, rfl, hs⟩
    | some s1 =>
      have e : toaBandsExit c ln rd th qaband npix xmus instrument (a :: rest) s
          = toaBandsExit c ln rd th qaband npix xmus instrument rest s1 := by
        simp only [toaBandsExit, hs]
      have e2 : toaBands c ln rd th qaband npix xmus instrument (a :: rest) s
          = toaBands c ln rd th qaband npix xmus instrument rest s1 := by
        simp only [toaBands, hs]
      rw [e, e2]
      obtain ⟨ih1, ih2⟩ := ih s1
      refine ⟨ih1, ?_⟩
      intro hf
      obtain ⟨hnone, pre, ib, post, hl, hpre, hstep⟩ := ih2 hf
      refine ⟨hnone, a :: pre, ib, post, by rw [hl]; rfl, ?_, hstep⟩
      simp only [toaBands, hs]
      exact hpre

theorem toaBandStep_none (c : Consts) (ln : ℚ → ℚ)
    (rd th : Nat → Option (Nat → Nat)) (qaband : Nat → Nat) (npix : Nat)
    (xmus : ℚ) (instrument : String) (s : Nat → Nat → Int) (ib : Nat)
    (h : toaBandStep c ln rd th qaband npix xmus instrument s ib = none) :
    (ib ≠ DN_BAND8 ∧ ib ≤ DN_BAND9 ∧ rd (reflBandIndex ib) = none) ∨
    (ib = DN_BAND10 ∧ instrument ≠ "OLI" ∧ th 0 = none) ∨
    (ib = DN_BAND11 ∧ instrument ≠ "OLI" ∧ th 1 = none) := by
  have hcal : ∀ (read : Option (Nat → Nat)) (val : Nat → Int) (sb : Nat),
      calibrateBand c qaband npix read val sb s = none → read = none := by
    intro read val sb hc
    cases read with
    | none => rfl
    | some u => simp [calibrateBand] at hc
  unfold toaBandStep at h
  split_ifs at h with h1 h2 h3 h4
  · exact Or.inl ⟨h1, h2, hcal _ _ _ h⟩
  · exact Or.inr (Or.inl ⟨h3.1, h3.2, hcal _ _ _ h⟩)
  · exact Or.inr (Or.inr ⟨h4.1, h4.2, hcal _ _ _ h⟩)

/-- C24, as the claim states it, fails: when the read of band 1 succeeds and
the read of band 2 fails, `compute_toa_refl` returns ERROR with output band
1 already overwritten (the fill pixel 0 holds FILL_VALUE instead of its
entry value 0). -/
theorem toa_failure_leaves_partial_output :
    (compute_toa_refl_exit l8 demoLn demoFailingReflLines demoThLines demoQa 1 3
      1 "OLI_TIRS" true demoSband).success = false ∧
    (compute_toa_refl_exit l8 demoLn demoFailingReflLines demoThLines demoQa 1 3
      1 "OLI_TIRS" true demoSband).sband 0 0 = -9999 ∧
    demoSband 0 0 = 0 := by
  have hrange : List.range (DN_BAND11 + 1) = 0 :: 1 :: List.range' 2 9 := by
    decide
  have h0 : toaBandStep l8 demoLn demoFailingReflLines demoThLines demoQa (1 * 3)
      1 "OLI_TIRS" demoSband 0
      = some (Function.update demoSband 0
          (toaBand l8 demoQa (fun i => 10000 + 4 * i) (toaReflValue l8 1) (1 * 3)
            (demoSband 0))) := by
    unfold toaBandStep
    rw [if_neg (by decide), if_pos (by decide)]
    rfl
  have h1 : ∀ s, toaBandStep l8 demoLn demoFailingReflLines demoThLines demoQa
      (1 * 3) 1 "OLI_TIRS" s 1 = none := by
    intro s
    unfold toaBandStep
    rw [if_neg (by decide), if_pos (by decide)]
    rfl
  have he : compute_toa_refl_exit l8 demoLn demoFailingReflLines demoThLines
      demoQa 1 3 1 "OLI_TIRS" true demoSband
      = { success := false,
          sband := Function.update demoSband 0
            (toaBand l8 demoQa (fun i => 10000 + 4 * i) (toaReflValue l8 1)
              (1 * 3) (demoSband 0)) } := by
    unfold compute_toa_refl_exit
    rw [if_neg (by decide), hrange]
    simp only [toaBandsExit, h0, h1]
  rw [he]
  refine ⟨rfl, ?_, rfl⟩
  dsimp only
  rw [Function.update_same, toaBand_apply, if_pos (by decide),
    if_neg (by decide)]
  rfl

/-- C24, amended: what `sband` holds when `compute_toa_refl` returns ERROR.
If the work band cannot be allocated, or the read of the first band fails,
`sband` is identical to its state on entry. In general the function returns
ERROR at the first band whose read fails: the output bands of the bands
processed before it hold their calibrated values (the band loop ran to
completion on them), and every output band that none of those iterations
targets is identical to its state on entry. On SUCCESS the bands are those
of `compute_toa_refl`. -/
theorem toa_failure_keeps_unprocessed_bands (c : Consts) (ln : ℚ → ℚ)
    (rd th : Nat → Option (Nat → Nat)) (qaband : Nat → Nat)
    (nlines nsamps : Nat) (xmus : ℚ) (instrument : String)
    (sband : Nat → Nat → Int) :
    ((compute_toa_refl_exit c ln rd th qaband nlines nsamps xmus instrument
        false sband).success = false ∧
      (compute_toa_refl_exit c ln rd th qaband nlines nsamps xmus instrument
        false sband).sband = sband) ∧
    (rd 0 = none →
      (compute_toa_refl_exit c ln rd th qaband nlines nsamps xmus instrument
        true sband).success = false ∧
      (compute_toa_refl_exit c ln rd th qaband nlines nsamps xmus instrument
        true sband).sband = sband) ∧
    ((compute_toa_refl_exit c ln rd th qaband nlines nsamps xmus instrument
        true sband).success = true →
      compute_toa_refl c ln rd th qaband nlines nsamps xmus instrument sband
        = some (compute_toa_refl_exit c ln rd th qaband nlines nsamps xmus
            instrument true sband).sband) ∧
    ((compute_toa_refl_exit c ln rd th qaband nlines nsamps xmus instrument
        true sband).success = false →
      compute_toa_refl c ln rd th qaband nlines nsamps xmus instrument sband
        = none ∧
      ∃ pre ib post, List.range (DN_BAND11 + 1) = pre ++ ib :: post ∧
        ((ib ≠ DN_BAND8 ∧ ib ≤ DN_BAND9 ∧ rd (reflBandIndex ib) = none) ∨
          (ib = DN_BAND10 ∧ instrument ≠ "OLI" ∧ th 0 = none) ∨
          (ib = DN_BAND11 ∧ instrument ≠ "OLI" ∧ th 1 = none)) ∧
        toaBands c ln rd th qaband (nlines * nsamps) xmus instrument pre sband
          = some (compute_toa_refl_exit c ln rd th qaband nlines nsamps xmus
              instrument true sband).sband ∧
        ∀ b, (∀ a, a ∈ pre → a = DN_BAND8 ∨ b ≠ toaTarget a) →
          (compute_toa_refl_exit c ln rd th qaband nlines nsamps xmus
            instrument true sband).sband b = sband b) := by
  have hexit : compute_toa_refl_exit c ln rd th qaband nlines nsamps xmus
      instrument true sband
      = toaBandsExit c ln rd th qaband (nlines * nsamps) xmus instrument
          (List.range (DN_BAND11 + 1)) sband := by
    unfold compute_toa_refl_exit
    rw [if_neg (by decide)]
  obtain ⟨hs1, hs2⟩ := toaBandsExit_spec c ln rd th qaband (nlines * nsamps) xmus
    instrument (List.range (DN_BAND11 + 1)) sband
  refine ⟨⟨rfl, rfl⟩, ?_, ?_, ?_⟩
  · intro h0
    have hstep : toaBandStep c ln rd th qaband (nlines * nsamps) xmus instrument
        sband 0 = none := by
      unfold toaBandStep
      rw [if_neg (by decide), if_pos (by decide)]
      have e : reflBandIndex 0 = 0 := by decide
      rw [e, h0]
      rfl
    have hrange : List.range (DN_BAND11 + 1) = 0 :: List.range' 1 10 := by
      decide
    have he : compute_toa_refl_exit c ln rd th qaband nlines nsamps xmus
        instrument true sband = { success := false, sband := sband } := by
      rw [hexit, hrange]
      simp only [toaBandsExit, hstep]
    rw [he]
    exact ⟨rfl, rfl⟩
  · intro h
    rw [hexit] at h ⊢
    exact hs1 h
  · intro h
    rw [hexit] at h ⊢
    obtain ⟨hnone, pre, ib, post, hl, hpre, hstep⟩ := hs2 h
    refine ⟨hnone, pre, ib, post, hl,
      toaBandStep_none c ln rd th qaband _ xmus instrument _ ib hstep, hpre, ?_⟩
    intro b hb
    exact toaBands_untouched c ln rd th qaband _ xmus instrument b pre hb sband
      _ hpre

/-- Witness for C24: when every read fails, `compute_toa_refl` returns ERROR
with `sband` as on entry. -/
theorem toa_failure_keeps_unprocessed_bands_witness :
    (compute_toa_refl_exit l8 demoLn (fun _ => none) demoThLines demoQa 1 3 1
      "OLI_TIRS" true demoSband).success = false ∧
    (compute_toa_refl_exit l8 demoLn (fun _ => none) demoThLines demoQa 1 3 1
      "OLI_TIRS" true demoSband).sband = demoSband :=
  (toa_failure_keeps_unprocessed_bands l8 demoLn (fun _ => none) demoThLines
    demoQa 1 3 1 "OLI_TIRS" demoSband).2.1 rfl


/-! ### Aerosol interpolation: the rule of one block -/

theorem blockAccum_foldl (cloud : Nat → Nat) (f : AotField) (ws : List Nat) :
    ∀ acc : BlockSum,
      (ws.foldl (blockAccum cloud f) acc).nbaot
        = acc.nbaot + (qualifyingPixels cloud f ws).length ∧
      (ws.foldl (blockAccum cloud f) acc).aaot
        = acc.aaot
          + ((qualifyingPixels cloud f ws).map
              (fun w => f.taero w / f.tresi w)).sum ∧
      (ws.foldl (blockAccum cloud f) acc).sresi
        = acc.sresi
          + ((qualifyingPixels cloud f ws).map (fun w => 1 / f.tresi w)).sum := by
  induction ws with
  | nil =>
    intro acc
    simp [qualifyingPixels]
  | cons w ws ih =>
    intro acc
    rw [List.foldl_cons]
    obtain ⟨ih1, ih2, ih3⟩ := ih (blockAccum cloud f acc w)
    rw [ih1, ih2, ih3]
    by_cases hq : Qualifying cloud f w
    · have hstep : blockAccum cloud f acc w
          = { nbaot := acc.nbaot + 1
              aaot := acc.aaot + f.taero w / f.tresi w
              sresi := acc.sresi + 1 / f.tresi w } := by
        have hq1 : f.tresi w > 0 ∧ cloud w = 0 := hq
        unfold blockAccum
        rw [if_pos hq1]
      have hfil : qualifyingPixels cloud f (w :: ws)
          = w :: qualifyingPixels cloud f ws := by
        unfold qualifyingPixels
        rw [List.filter_cons_of_pos (by simpa using hq)]
      rw [hstep, hfil]
      simp only [List.length_cons, List.map_cons, List.sum_cons]
      refine ⟨by omega, by ring, by ring⟩
    · have hstep : blockAccum cloud f acc w = acc := by
        have hq1 : ¬ (f.tresi w > 0 ∧ cloud w = 0) := hq
        unfold blockAccum
        rw [if_neg hq1]
      have hfil : qualifyingPixels cloud f (w :: ws)
          = qualifyingPixels cloud f ws := by
        unfold qualifyingPixels
        rw [List.filter_cons_of_neg (by simpa using hq)]
      rw [hstep, hfil]
      exact ⟨rfl, rfl, rfl⟩

theorem qualifyingPixels_ne_nil (cloud : Nat → Nat) (f : AotField)
    (ws : List Nat) :
    qualifyingPixels cloud f ws ≠ [] ↔
      ∃ w, w ∈ ws ∧ f.tresi w > 0 ∧ cloud w = 0 := by
  unfold qualifyingPixels
  rw [Ne, List.filter_eq_nil_iff]
  constructor
  · intro h
    by_contra hc
    apply h
    intro w hw hq
    exact hc ⟨w, hw, by simpa [Qualifying] using hq⟩
  · rintro ⟨w, hw, hq⟩ h
    exact h w hw (by simpa [Qualifying] using hq)

/-- The fill loop over the pixels `ws` of a block: a pixel of the block that
is fillable at entry receives the average and residual 1, every other pixel
keeps its values. -/
theorem blockFill_foldl_apply (cloud : Nat → Nat) (aaot : ℚ) (ws : List Nat) :
    ∀ (f : AotField) (p : Nat),
      ((p ∈ ws ∧ Fillable cloud f p) →
        (ws.foldl (blockFill cloud aaot) f).taero p = aaot ∧
        (ws.foldl (blockFill cloud aaot) f).tresi p = 1) ∧
      (¬ (p ∈ ws ∧ Fillable cloud f p) →
        (ws.foldl (blockFill cloud aaot) f).taero p = f.taero p ∧
        (ws.foldl (blockFill cloud aaot) f).tresi p = f.tresi p) := by
  induction ws with
  | nil =>
    intro f p
    constructor
    · rintro ⟨h, -⟩
      cases h
    · intro _
      exact ⟨rfl, rfl⟩
  | cons w ws ih =>
    intro f p
    rw [List.foldl_cons]
    by_cases hw : Fillable cloud f w
    · have hf : blockFill cloud aaot f w
          = { taero := Function.update f.taero w aaot
              tresi := Function.update f.tresi w 1 } := by
        have hw1 := hw
        unfold Fillable at hw1
        unfold blockFill
        rw [if_pos hw1]
      by_cases hpw : p = w
      · subst hpw
        have hnot : ¬ (p ∈ ws ∧ Fillable cloud (blockFill cloud aaot f p) p) :=
          fun hh => blockFill_self cloud aaot f p hh.2
        obtain ⟨e1, e2⟩ := (ih (blockFill cloud aaot f p) p).2 hnot
        have v1 : (blockFill cloud aaot f p).taero p = aaot := by
          rw [hf]; exact Function.update_same _ _ _
        have v2 : (blockFill cloud aaot f p).tresi p = 1 := by
          rw [hf]; exact Function.update_same _ _ _
        constructor
        · intro _
          exact ⟨e1.trans v1, e2.trans v2⟩
        · intro hn
          exact absurd ⟨List.mem_cons_self _ _, hw⟩ hn
      · have v1 : (blockFill cloud aaot f w).taero p = f.taero p := by
          rw [hf]; exact Function.update_noteq hpw _ _
        have v2 : (blockFill cloud aaot f w).tresi p = f.tresi p := by
          rw [hf]; exact Function.update_noteq hpw _ _
        have hfl : Fillable cloud (blockFill cloud aaot f w) p ↔
            Fillable cloud f p := by
          unfold Fillable
          rw [v2]
        obtain ⟨i1, i2⟩ := ih (blockFill cloud aaot f w) p
        constructor
        · rintro ⟨hm, hfp⟩
          have hm' : p ∈ ws := by
            rcases List.mem_cons.mp hm with h1 | h1
            · exact absurd h1 hpw
            · exact h1
          exact i1 ⟨hm', hfl.mpr hfp⟩
        · intro hn
          have hn' : ¬ (p ∈ ws ∧ Fillable cloud (blockFill cloud aaot f w) p) :=
            fun hh => hn ⟨List.mem_cons_of_mem _ hh.1, hfl.mp hh.2⟩
          obtain ⟨e1, e2⟩ := i2 hn'
          exact ⟨e1.trans v1, e2.trans v2⟩
    · have hf : blockFill cloud aaot f w = f := by
        have hw1 := hw
        unfold Fillable at hw1
        unfold blockFill
        rw [if_neg hw1]
      rw [hf]
      obtain ⟨i1, i2⟩ := ih f p
      constructor
      · rintro ⟨hm, hfp⟩
        have hm' : p ∈ ws := by
          rcases List.mem_cons.mp hm with h1 | h1
          · rw [h1] at hfp
            exact absurd hfp hw
          · exact h1
        exact i1 ⟨hm', hfp⟩
      · intro hn
        exact i2 (fun hh => hn ⟨List.mem_cons_of_mem _ hh.1, hh.2⟩)

/-- The rule of one block, from the state `st` in which it is processed. -/
theorem gapFillBlock_spec (nlines nsamps step : Nat) (cloud : Nat → Nat)
    (i : Nat) (st : AotField × Nat) (j : Nat) :
    (qualifyingPixels cloud st.1 (blockWindow nlines nsamps step i j) ≠ [] →
      (gapFillBlock nlines nsamps step cloud i st j).2 = st.2 ∧
      ∀ p,
        ((p ∈ blockWindow nlines nsamps step i j ∧ Fillable cloud st.1 p) →
          (gapFillBlock nlines nsamps step cloud i st j).1.taero p
            = blockAverage cloud st.1 (blockWindow nlines nsamps step i j) ∧
          (gapFillBlock nlines nsamps step cloud i st j).1.tresi p = 1) ∧
        (¬ (p ∈ blockWindow nlines nsamps step i j ∧ Fillable cloud st.1 p) →
          (gapFillBlock nlines nsamps step cloud i st j).1.taero p
            = st.1.taero p ∧
          (gapFillBlock nlines nsamps step cloud i st j).1.tresi p
            = st.1.tresi p)) ∧
    (qualifyingPixels cloud st.1 (blockWindow nlines nsamps step i j) = [] →
      gapFillBlock nlines nsamps step cloud i st j = (st.1, st.2 + 1)) := by
  obtain ⟨h1, h2, h3⟩ := blockAccum_foldl cloud st.1
    (blockWindow nlines nsamps step i j) { nbaot := 0, aaot := 0, sresi := 0 }
  simp only [Nat.zero_add, zero_add] at h1 h2 h3
  constructor
  · intro hne
    have hnb : ((blockWindow nlines nsamps step i j).foldl
        (blockAccum cloud st.1) { nbaot := 0, aaot := 0, sresi := 0 }).nbaot
        ≠ 0 := by
      rw [h1]
      exact Nat.pos_iff_ne_zero.mp (List.length_pos.mpr hne)
    have hout : gapFillBlock nlines nsamps step cloud i st j
        = ((blockWindow nlines nsamps step i j).foldl
            (blockFill cloud
              (blockAverage cloud st.1 (blockWindow nlines nsamps step i j)))
            st.1, st.2) := by
      unfold gapFillBlock
      dsimp only
      rw [if_pos hnb, h2, h3]
      rfl
    rw [hout]
    refine ⟨rfl, ?_⟩
    intro p
    exact blockFill_foldl_apply cloud _ _ st.1 p
  · intro hnil
    have hnb : ¬ ((blockWindow nlines nsamps step i j).foldl
        (blockAccum cloud st.1) { nbaot := 0, aaot := 0, sresi := 0 }).nbaot
        ≠ 0 := by
      rw [h1, hnil]
      simp
    unfold gapFillBlock
    dsimp only
    rw [if_neg hnb]

/-! ### Aerosol interpolation: the blocks of a round -/

theorem stride_unique (step i k : Nat) (h0 : i % step = 0) (h1 : i ≤ k)
    (h2 : k < i + step) : i = step * (k / step) := by
  have hpos : 0 < step := by omega
  have hi : step * (i / step) = i := by
    have := Nat.div_add_mod i step
    omega
  obtain ⟨d, hd⟩ : ∃ d, k = i + d := ⟨k - i, by omega⟩
  have hdlt : d < step := by omega
  have hk : k / step = i / step := by
    rw [hd, ← hi, Nat.mul_add_div hpos, Nat.div_eq_of_lt hdlt, Nat.add_zero,
      Nat.mul_div_cancel_left _ hpos]
  rw [hk, hi]

/-- The windows of two blocks of a round share a pixel only when the blocks
are the same. -/
theorem blockWindow_disjoint (nlines nsamps step i j i' j' p : Nat)
    (hi : i % step = 0) (hj : j % step = 0) (hi' : i' % step = 0)
    (hj' : j' % step = 0)
    (h : p ∈ blockWindow nlines nsamps step i j)
    (h' : p ∈ blockWindow nlines nsamps step i' j') : i = i' ∧ j = j' := by
  obtain ⟨k, l, hk1, hk2, _, hl1, hl2, hl3, rfl⟩ :=
    (mem_blockWindow nlines nsamps step i j p).mp h
  obtain ⟨k', l', hk1', hk2', _, hl1', hl2', hl3', he⟩ :=
    (mem_blockWindow nlines nsamps step i' j' _).mp h'
  obtain ⟨ek, el⟩ := pixel_index_inj nsamps k l k' l' hl3 hl3' he
  subst ek
  subst el
  have a1 := stride_unique step i k hi hk1 hk2
  have a2 := stride_unique step i' k hi' hk1' hk2'
  have b1 := stride_unique step j l hj hl1 hl2
  have b2 := stride_unique step j' l hj' hl1' hl2'
  exact ⟨a1.trans a2.symm, b1.trans b2.symm⟩

theorem mem_roundBlocks (nlines nsamps step : Nat) (b : Nat × Nat) :
    b ∈ roundBlocks nlines nsamps step ↔
      b.1 ∈ strideRange nlines step ∧ b.2 ∈ strideRange nsamps step := by
  unfold roundBlocks
  rw [List.mem_flatMap]
  constructor
  · rintro ⟨i, hi, hb⟩
    obtain ⟨j, hj, rfl⟩ := List.mem_map.mp hb
    exact ⟨hi, hj⟩
  · rintro ⟨hi, hj⟩
    exact ⟨b.1, hi, List.mem_map.mpr ⟨b.2, hj, rfl⟩⟩

theorem strideRange_nodup (n step : Nat) : (strideRange n step).Nodup :=
  (List.nodup_range n).filter _

theorem roundBlocks_nodup (nlines nsamps step : Nat) :
    (roundBlocks nlines nsamps step).Nodup := by
  unfold roundBlocks
  rw [List.nodup_flatMap]
  refine ⟨?_, ?_⟩
  · intro i _
    refine (strideRange_nodup nsamps step).map_on ?_
    intro x _ y _ hxy
    exact (Prod.mk.injEq _ _ _ _ ▸ hxy : i = i ∧ x = y).2
  · refine (strideRange_nodup nlines step).pairwise_of_forall_ne ?_
    intro a _ b _ hab
    intro x hxa hxb
    obtain ⟨ja, _, rfl⟩ := List.mem_map.mp hxa
    obtain ⟨jb, _, hb⟩ := List.mem_map.mp hxb
    exact hab (Prod.mk.inj hb).1.symm

theorem blockWindow_nodup (nlines nsamps step i j : Nat) :
    (blockWindow nlines nsamps step i j).Nodup := by
  have hrow : ∀ a : Nat,
      (((List.range step).map (fun d => a + d)).filter
        (fun k => decide (k < nlines))).Nodup := by
    intro a
    refine List.Nodup.filter _ ?_
    refine (List.nodup_range step).map_on ?_
    intro x _ y _ hxy
    have : a + x = a + y := hxy
    omega
  have hcol : ∀ a : Nat,
      (((List.range step).map (fun d => a + d)).filter
        (fun k => decide (k < nsamps))).Nodup := by
    intro a
    refine List.Nodup.filter _ ?_
    refine (List.nodup_range step).map_on ?_
    intro x _ y _ hxy
    have : a + x = a + y := hxy
    omega
  unfold blockWindow
  rw [List.nodup_flatMap]
  refine ⟨?_, ?_⟩
  · intro k _
    refine (hcol j).map_on ?_
    intro x hx y hy hxy
    have hx1 : x < nsamps := by simpa using (List.mem_filter.mp hx).2
    have hy1 : y < nsamps := by simpa using (List.mem_filter.mp hy).2
    exact (pixel_index_inj nsamps k x k y hx1 hy1 hxy).2
  · refine (hrow i).pairwise_of_forall_ne ?_
    intro a _ b _ hab
    intro x hxa hxb
    obtain ⟨la, hla, rfl⟩ := List.mem_map.mp hxa
    obtain ⟨lb, hlb, hb⟩ := List.mem_map.mp hxb
    have hx1 : la < nsamps := by simpa using (List.mem_filter.mp hla).2
    have hy1 : lb < nsamps := by simpa using (List.mem_filter.mp hlb).2
    exact hab (pixel_index_inj nsamps a la b lb hx1 hy1 hb.symm).1

theorem foldl_flatMap_eq {α β γ : Type} (g : γ → β → γ) (f : α → List β)
    (l : List α) :
    ∀ s : γ, (l.flatMap f).foldl g s
      = l.foldl (fun s x => (f x).foldl g s) s := by
  induction l with
  | nil => intro s; rfl
  | cons a l ih =>
    intro s
    rw [List.flatMap_cons, List.foldl_append, List.foldl_cons, ih]

/-- The two block loops of a round as one loop over the blocks. -/
theorem gapFillSweep_blocks (nlines nsamps step : Nat) (cloud : Nat → Nat)
    (f : AotField) :
    gapFillSweep nlines nsamps step cloud f
      = (roundBlocks nlines nsamps step).foldl
          (fun st b => gapFillBlock nlines nsamps step cloud b.1 st b.2)
          (f, 0) := by
  unfold gapFillSweep roundBlocks
  rw [foldl_flatMap_eq]
  congr 1
  funext st i
  rw [List.foldl_map]

theorem qualifyingPixels_congr (cloud : Nat → Nat) (f g : AotField)
    (ws : List Nat)
    (h : ∀ w, w ∈ ws → g.taero w = f.taero w ∧ g.tresi w = f.tresi w) :
    qualifyingPixels cloud g ws = qualifyingPixels cloud f ws := by
  unfold qualifyingPixels
  apply List.filter_congr
  intro w hw
  have e : Qualifying cloud g w ↔ Qualifying cloud f w := by
    unfold Qualifying
    rw [(h w hw).2]
  exact decide_eq_decide.mpr e

theorem blockAverage_congr (cloud : Nat → Nat) (f g : AotField)
    (ws : List Nat)
    (h : ∀ w, w ∈ ws → g.taero w = f.taero w ∧ g.tresi w = f.tresi w) :
    blockAverage cloud g ws = blockAverage cloud f ws := by
  have hq := qualifyingPixels_congr cloud f g ws h
  have hmem : ∀ w, w ∈ qualifyingPixels cloud f ws → w ∈ ws := by
    intro w hw
    unfold qualifyingPixels at hw
    exact (List.mem_filter.mp hw).1
  unfold blockAverage
  rw [hq]
  have e1 : (qualifyingPixels cloud f ws).map (fun w => g.taero w / g.tresi w)
      = (qualifyingPixels cloud f ws).map (fun w => f.taero w / f.tresi w) := by
    apply List.map_congr_left
    intro w hw
    rw [(h w (hmem w hw)).1, (h w (hmem w hw)).2]
  have e2 : (qualifyingPixels cloud f ws).map (fun w => 1 / g.tresi w)
      = (qualifyingPixels cloud f ws).map (fun w => 1 / f.tresi w) := by
    apply List.map_congr_left
    intro w hw
    rw [(h w (hmem w hw)).2]
  rw [e1, e2]

theorem fillable_congr (cloud : Nat → Nat) (f g : AotField) (p : Nat)
    (h : g.tresi p = f.tresi p) : Fillable cloud g p ↔ Fillable cloud f p := by
  unfold Fillable
  rw [h]

/-- A block leaves every pixel outside its window as it was. -/
theorem gapFillBlock_frame (nlines nsamps step : Nat) (cloud : Nat → Nat)
    (i : Nat) (st : AotField × Nat) (j p : Nat)
    (hp : p ∉ blockWindow nlines nsamps step i j) :
    (gapFillBlock nlines nsamps step cloud i st j).1.taero p = st.1.taero p ∧
    (gapFillBlock nlines nsamps step cloud i st j).1.tresi p = st.1.tresi p := by
  obtain ⟨h1, h2⟩ := gapFillBlock_spec nlines nsamps step cloud i st j
  by_cases hq : qualifyingPixels cloud st.1
      (blockWindow nlines nsamps step i j) = []
  · rw [h2 hq]
    exact ⟨rfl, rfl⟩
  · exact ((h1 hq).2 p).2 (fun hh => hp hh.1)

/-- The rule of a round over any list of distinct aligned blocks: the result
in terms of the state at entry. -/
theorem gapFill_blocks_spec (nlines nsamps step : Nat) (cloud : Nat → Nat) :
    ∀ (bs : List (Nat × Nat)) (st : AotField × Nat),
      bs.Nodup → (∀ b, b ∈ bs → b.1 % step = 0 ∧ b.2 % step = 0) →
      (∀ p, (∀ b, b ∈ bs → p ∉ blockWindow nlines nsamps step b.1 b.2) →
        (bs.foldl (fun st b => gapFillBlock nlines nsamps step cloud b.1 st b.2)
          st).1.taero p = st.1.taero p ∧
        (bs.foldl (fun st b => gapFillBlock nlines nsamps step cloud b.1 st b.2)
          st).1.tresi p = st.1.tresi p) ∧
      (∀ b, b ∈ bs → ∀ p, p ∈ blockWindow nlines nsamps step b.1 b.2 →
        (qualifyingPixels cloud st.1
            (blockWindow nlines nsamps step b.1 b.2) ≠ [] →
          (Fillable cloud st.1 p →
            (bs.foldl
              (fun st b => gapFillBlock nlines nsamps step cloud b.1 st b.2)
              st).1.taero p
              = blockAverage cloud st.1
                  (blockWindow nlines nsamps step b.1 b.2) ∧
            (bs.foldl
              (fun st b => gapFillBlock nlines nsamps step cloud b.1 st b.2)
              st).1.tresi p = 1) ∧
          (¬ Fillable cloud st.1 p →
            (bs.foldl
              (fun st b => gapFillBlock nlines nsamps step cloud b.1 st b.2)
              st).1.taero p = st.1.taero p ∧
            (bs.foldl
              (fun st b => gapFillBlock nlines nsamps step cloud b.1 st b.2)
              st).1.tresi p = st.1.tresi p)) ∧
        (qualifyingPixels cloud st.1
            (blockWindow nlines nsamps step b.1 b.2) = [] →
          (bs.foldl
            (fun st b => gapFillBlock nlines nsamps step cloud b.1 st b.2)
            st).1.taero p = st.1.taero p ∧
          (bs.foldl
            (fun st b => gapFillBlock nlines nsamps step cloud b.1 st b.2)
            st).1.tresi p = st.1.tresi p)) ∧
      (bs.foldl (fun st b => gapFillBlock nlines nsamps step cloud b.1 st b.2)
          st).2
        = st.2 + (bs.filter (fun b =>
            (qualifyingPixels cloud st.1
              (blockWindow nlines nsamps step b.1 b.2)).isEmpty)).length := by
  intro bs
  induction bs with
  | nil =>
    intro st _ _
    refine ⟨fun p _ => ⟨rfl, rfl⟩, ?_, ?_⟩
    · intro b hb
      cases hb
    · simp
  | cons b0 rest ih =>
    intro st hnd hal
    rw [List.foldl_cons]
    obtain ⟨hb0, hrest⟩ := List.nodup_cons.mp hnd
    have hal0 := hal b0 (List.mem_cons_self _ _)
    have halr : ∀ b, b ∈ rest → b.1 % step = 0 ∧ b.2 % step = 0 :=
      fun b hb => hal b (List.mem_cons_of_mem _ hb)
    obtain ⟨s1, s2⟩ := gapFillBlock_spec nlines nsamps step cloud b0.1 st b0.2
    have hframe := gapFillBlock_frame nlines nsamps step cloud b0.1 st b0.2
    obtain ⟨i1, i2, i3⟩ :=
      ih (gapFillBlock nlines nsamps step cloud b0.1 st b0.2) hrest halr
    -- the windows of the later blocks are untouched by the first block
    have hagree : ∀ b, b ∈ rest → ∀ w,
        w ∈ blockWindow nlines nsamps step b.1 b.2 →
        (gapFillBlock nlines nsamps step cloud b0.1 st b0.2).1.taero w
            = st.1.taero w ∧
        (gapFillBlock nlines nsamps step cloud b0.1 st b0.2).1.tresi w
            = st.1.tresi w := by
      intro b hb w hw
      apply hframe
      intro hw0
      obtain ⟨e1, e2⟩ := blockWindow_disjoint nlines nsamps step b.1 b.2
        b0.1 b0.2 w (halr b hb).1 (halr b hb).2 hal0.1 hal0.2 hw hw0
      have : b = b0 := Prod.ext e1 e2
      rw [this] at hb
      exact hb0 hb
    refine ⟨?_, ?_, ?_⟩
    · intro p hp
      obtain ⟨a1, a2⟩ := i1 p (fun b hb => hp b (List.mem_cons_of_mem _ hb))
      obtain ⟨f1, f2⟩ := hframe p (hp b0 (List.mem_cons_self _ _))
      exact ⟨a1.trans f1, a2.trans f2⟩
    · intro b hb p hp
      rcases List.mem_cons.mp hb with hb1 | hb1
      · subst hb1
        have hout : ∀ b', b' ∈ rest →
            p ∉ blockWindow nlines nsamps step b'.1 b'.2 := by
          intro b' hb' hp'
          obtain ⟨e1, e2⟩ := blockWindow_disjoint nlines nsamps step b'.1 b'.2
            b.1 b.2 p (halr b' hb').1 (halr b' hb').2 hal0.1 hal0.2 hp' hp
          have : b' = b := Prod.ext e1 e2
          rw [this] at hb'
          exact hb0 hb'
        obtain ⟨a1, a2⟩ := i1 p hout
        rw [a1, a2]
        constructor
        · intro hne
          obtain ⟨-, hrule⟩ := s1 hne
          constructor
          · intro hf
            exact (hrule p).1 ⟨hp, hf⟩
          · intro hf
            exact (hrule p).2 (fun hh => hf hh.2)
        · intro hnil
          rw [s2 hnil]
          exact ⟨rfl, rfl⟩
      · have hag := hagree b hb1
        have hq := qualifyingPixels_congr cloud st.1
          (gapFillBlock nlines nsamps step cloud b0.1 st b0.2).1 _ hag
        have hav := blockAverage_congr cloud st.1
          (gapFillBlock nlines nsamps step cloud b0.1 st b0.2).1 _ hag
        have hfl := fillable_congr cloud st.1
          (gapFillBlock nlines nsamps step cloud b0.1 st b0.2).1 p (hag p hp).2
        obtain ⟨r1, r2⟩ := i2 b hb1 p hp
        rw [hq] at r1 r2
        rw [hav, hfl, (hag p hp).1, (hag p hp).2] at r1
        rw [(hag p hp).1, (hag p hp).2] at r2
        exact ⟨r1, r2⟩
    · rw [i3]
      have hcount : rest.filter (fun b =>
            (qualifyingPixels cloud
              (gapFillBlock nlines nsamps step cloud b0.1 st b0.2).1
              (blockWindow nlines nsamps step b.1 b.2)).isEmpty)
          = rest.filter (fun b =>
            (qualifyingPixels cloud st.1
              (blockWindow nlines nsamps step b.1 b.2)).isEmpty) := by
        apply List.filter_congr
        intro b hb
        rw [qualifyingPixels_congr cloud st.1
          (gapFillBlock nlines nsamps step cloud b0.1 st b0.2).1 _
          (hagree b hb)]
      rw [hcount]
      by_cases hq : qualifyingPixels cloud st.1
          (blockWindow nlines nsamps step b0.1 b0.2) = []
      · rw [s2 hq, List.filter_cons_of_pos (by rw [hq]; rfl)]
        simp only [List.length_cons]
        omega
      · rw [(s1 hq).1, List.filter_cons_of_neg
          (by rw [List.isEmpty_iff]; exact hq)]

/-- C21: the block rule of the aerosol interpolation. In a round with block
size `step` entered with the field `f`, for every block at a multiple `i` of
`step` below `nlines` and a multiple `j` of `step` below `nsamps`: the block
is the set of pixels `k * nsamps + l` with `i <= k < i + step`, `k < nlines`,
`j <= l < j + step`, `l < nsamps`, each listed once. If the block holds a
qualifying pixel (`tresi > 0` and `cloud == 0`), every pixel of the block with
`tresi < 0` and none of the cirrus, cloud and water bits ends the round with
`taero` equal to the sum of `taero/tresi` over the qualifying pixels divided
by the sum of `1/tresi` over them, and `tresi = 1`; every other pixel of the
block keeps its values. If the block holds no qualifying pixel, none of its
pixels changes. The hole count of the round is the number of blocks without a
qualifying pixel, and a pixel outside every block keeps its values. The mask
is an input of the round only. -/
theorem gap_fill_block_rule (nlines nsamps step : Nat) (cloud : Nat → Nat)
    (f : AotField) (i j : Nat) (hi : i ∈ strideRange nlines step)
    (hj : j ∈ strideRange nsamps step) :
    (∀ w, w ∈ blockWindow nlines nsamps step i j ↔
      ∃ k l, i ≤ k ∧ k < i + step ∧ k < nlines ∧ j ≤ l ∧ l < j + step ∧
        l < nsamps ∧ w = k * nsamps + l) ∧
    (blockWindow nlines nsamps step i j).Nodup ∧
    ((∃ w, w ∈ blockWindow nlines nsamps step i j ∧ f.tresi w > 0 ∧
        cloud w = 0) →
      ∀ p, p ∈ blockWindow nlines nsamps step i j →
        ((f.tresi p < 0 ∧ btest (cloud p) CIR_QA = false ∧
            btest (cloud p) CLD_QA = false ∧
            btest (cloud p) WAT_QA = false) →
          (gapFillSweep nlines nsamps step cloud f).1.taero p
            = ((qualifyingPixels cloud f
                  (blockWindow nlines nsamps step i j)).map
                (fun w => f.taero w / f.tresi w)).sum /
              ((qualifyingPixels cloud f
                  (blockWindow nlines nsamps step i j)).map
                (fun w => 1 / f.tresi w)).sum ∧
          (gapFillSweep nlines nsamps step cloud f).1.tresi p = 1) ∧
        (¬ (f.tresi p < 0 ∧ btest (cloud p) CIR_QA = false ∧
            btest (cloud p) CLD_QA = false ∧
            btest (cloud p) WAT_QA = false) →
          (gapFillSweep nlines nsamps step cloud f).1.taero p = f.taero p ∧
          (gapFillSweep nlines nsamps step cloud f).1.tresi p = f.tresi p)) ∧
    (¬ (∃ w, w ∈ blockWindow nlines nsamps step i j ∧ f.tresi w > 0 ∧
        cloud w = 0) →
      ∀ p, p ∈ blockWindow nlines nsamps step i j →
        (gapFillSweep nlines nsamps step cloud f).1.taero p = f.taero p ∧
        (gapFillSweep nlines nsamps step cloud f).1.tresi p = f.tresi p) ∧
    (gapFillSweep nlines nsamps step cloud f).2
      = ((roundBlocks nlines nsamps step).filter (fun b =>
          (qualifyingPixels cloud f
            (blockWindow nlines nsamps step b.1 b.2)).isEmpty)).length ∧
    (∀ p, (∀ b, b ∈ roundBlocks nlines nsamps step →
        p ∉ blockWindow nlines nsamps step b.1 b.2) →
      (gapFillSweep nlines nsamps step cloud f).1.taero p = f.taero p ∧
      (gapFillSweep nlines nsamps step cloud f).1.tresi p = f.tresi p) := by
  have hal : ∀ b, b ∈ roundBlocks nlines nsamps step →
      b.1 % step = 0 ∧ b.2 % step = 0 := by
    intro b hb
    obtain ⟨h1, h2⟩ := (mem_roundBlocks nlines nsamps step b).mp hb
    exact ⟨((mem_strideRange nlines step b.1).mp h1).2,
      ((mem_strideRange nsamps step b.2).mp h2).2⟩
  obtain ⟨s1, s2, s3⟩ := gapFill_blocks_spec nlines nsamps step cloud
    (roundBlocks nlines nsamps step) (f, 0)
    (roundBlocks_nodup nlines nsamps step) hal
  rw [← gapFillSweep_blocks] at s1 s2 s3
  have hb : (i, j) ∈ roundBlocks nlines nsamps step :=
    (mem_roundBlocks nlines nsamps step (i, j)).mpr ⟨hi, hj⟩
  refine ⟨mem_blockWindow nlines nsamps step i j,
    blockWindow_nodup nlines nsamps step i j, ?_, ?_, ?_, s1⟩
  · intro hq p hp
    have hne := (qualifyingPixels_ne_nil cloud f _).mpr hq
    exact ((s2 (i, j) hb p hp).1 hne)
  · intro hq p hp
    have hnil : qualifyingPixels cloud f (blockWindow nlines nsamps step i j)
        = [] := by
      by_contra hc
      exact hq ((qualifyingPixels_ne_nil cloud f _).mp hc)
    exact (s2 (i, j) hb p hp).2 hnil
  · rw [s3]
    exact Nat.zero_add _

/-- Witness for C21: in the scene of one line and three samples with a
retrieval at pixel 1 only, the round of size 10 has the single block at
`(0, 0)`; pixels 0 and 2 receive `taero = 0.2` and `tresi = 1`, pixel 1 keeps
its values, and no hole is counted. -/
theorem gap_fill_block_rule_witness :
    0 ∈ strideRange 1 10 ∧ 0 ∈ strideRange 3 10 ∧
    (gapFillSweep 1 3 10 demoClearMask demoField).1.taero 0 = 1 / 5 ∧
    (gapFillSweep 1 3 10 demoClearMask demoField).1.tresi 0 = 1 ∧
    (gapFillSweep 1 3 10 demoClearMask demoField).1.taero 1 = 1 / 5 ∧
    (gapFillSweep 1 3 10 demoClearMask demoField).1.tresi 1 = 1 / 100 ∧
    (gapFillSweep 1 3 10 demoClearMask demoField).1.taero 2 = 1 / 5 ∧
    (gapFillSweep 1 3 10 demoClearMask demoField).1.tresi 2 = 1 ∧
    (gapFillSweep 1 3 10 demoClearMask demoField).2 = 0 := by
  obtain ⟨-, -, h1, -, h2, -⟩ :=
    gap_fill_block_rule 1 3 10 demoClearMask demoField 0 0 (by decide)
      (by decide)
  have hw : blockWindow 1 3 10 0 0 = [0, 1, 2] := by decide
  have hb : roundBlocks 1 3 10 = [(0, 0)] := by decide
  have hq : qualifyingPixels demoClearMask demoField [0, 1, 2] = [1] := by
    simp [qualifyingPixels, Qualifying, demoField, demoClearMask]
  rw [hw, hq] at h1
  rw [hb] at h2
  have hex : ∃ w, w ∈ [0, 1, 2] ∧ demoField.tresi w > 0 ∧
      demoClearMask w = 0 :=
    ⟨1, by decide, by norm_num [demoField], rfl⟩
  have r0 := (h1 hex 0 (by decide)).1
    ⟨by norm_num [demoField], by decide, by decide, by decide⟩
  have r1 := (h1 hex 1 (by decide)).2
    (fun hh => absurd hh.1 (by norm_num [demoField]))
  have r2 := (h1 hex 2 (by decide)).1
    ⟨by norm_num [demoField], by decide, by decide, by decide⟩
  have hv : (List.map (fun w => demoField.taero w / demoField.tresi w) [1]).sum
      / (List.map (fun w => 1 / demoField.tresi w) [1]).sum = 1 / 5 := by
    norm_num [demoField]
  rw [hv] at r0 r2
  have t1 : demoField.taero 1 = 1 / 5 := by norm_num [demoField]
  have t2 : demoField.tresi 1 = 1 / 100 := by norm_num [demoField]
  rw [t1, t2] at r1
  refine ⟨by decide, by decide, r0.1, r0.2, r1.1, r1.2, r2.1, r2.2, ?_⟩
  rw [h2]
  simp only [List.filter_cons, List.filter_nil, hw, hq]
  rfl

/-! ### Aerosol interpolation: the rounds of the loop -/

theorem gapFillRound_step (nlines nsamps : Nat) (cloud : Nat → Nat) (k : Nat) :
    ∀ s : AotField × Nat × Nat,
      ((gapFillRound nlines nsamps cloud)^[k] s).2.2 = s.2.2 * 2 ^ k := by
  induction k with
  | zero => intro s; simp
  | succ n ih =>
    intro s
    rw [Function.iterate_succ_apply, ih]
    unfold gapFillRound
    dsimp only
    rw [pow_succ]
    ring

/-- The loop with an iteration allowance is a number of rounds: every round
but the last leaves `hole != 0` and `step < 1000`, and when the allowance is
not used up the loop condition fails after the last round. -/
theorem gapFillLoop_rounds (nlines nsamps : Nat) (cloud : Nat → Nat)
    (fuel : Nat) :
    ∀ (f : AotField) (hole step : Nat),
      ∃ n, n ≤ fuel ∧
        gapFillLoop nlines nsamps cloud fuel f hole step
          = (gapFillRound nlines nsamps cloud)^[n] (f, hole, step) ∧
        (∀ k, k < n →
          ((gapFillRound nlines nsamps cloud)^[k] (f, hole, step)).2.1 ≠ 0 ∧
          ((gapFillRound nlines nsamps cloud)^[k] (f, hole, step)).2.2
            < 1000) ∧
        (n < fuel →
          ¬ (((gapFillRound nlines nsamps cloud)^[n] (f, hole, step)).2.1 ≠ 0 ∧
            ((gapFillRound nlines nsamps cloud)^[n] (f, hole, step)).2.2
              < 1000)) := by
  induction fuel with
  | zero =>
    intro f hole step
    refine ⟨0, le_refl _, rfl, ?_, ?_⟩
    · intro k hk
      omega
    · intro h
      omega
  | succ m ih =>
    intro f hole step
    by_cases hc : hole ≠ 0 ∧ step < 1000
    · obtain ⟨n, hn, he, hbefore, hexit⟩ :=
        ih (gapFillSweep nlines nsamps step cloud f).1
          (gapFillSweep nlines nsamps step cloud f).2 (step * 2)
      have hround : gapFillRound nlines nsamps cloud (f, hole, step)
          = ((gapFillSweep nlines nsamps step cloud f).1,
              (gapFillSweep nlines nsamps step cloud f).2, step * 2) := rfl
      refine ⟨n + 1, by omega, ?_, ?_, ?_⟩
      · have e1 : gapFillLoop nlines nsamps cloud (m + 1) f hole step
            = gapFillLoop nlines nsamps cloud m
                (gapFillSweep nlines nsamps step cloud f).1
                (gapFillSweep nlines nsamps step cloud f).2 (step * 2) := by
          rw [gapFillLoop, if_pos hc]
        rw [e1, he, Function.iterate_succ_apply, hround]
      · intro k hk
        cases k with
        | zero => exact hc
        | succ k =>
          rw [Function.iterate_succ_apply, hround]
          exact hbefore k (by omega)
      · intro hlt
        rw [Function.iterate_succ_apply, hround]
        exact hexit (by omega)
    · refine ⟨0, by omega, ?_, ?_, ?_⟩
      · unfold gapFillLoop
        rw [if_neg hc]
        rfl
      · intro k hk
        omega
      · intro _
        exact hc

/-- Once the loop has ended on its own condition, a larger allowance gives
the same result. -/
theorem gapFillLoop_stable (nlines nsamps : Nat) (cloud : Nat → Nat)
    (fuel : Nat) :
    ∀ (f : AotField) (hole step : Nat),
      ¬ ((gapFillLoop nlines nsamps cloud fuel f hole step).2.1 ≠ 0 ∧
        (gapFillLoop nlines nsamps cloud fuel f hole step).2.2 < 1000) →
      ∀ m, gapFillLoop nlines nsamps cloud (fuel + m) f hole step
        = gapFillLoop nlines nsamps cloud fuel f hole step := by
  induction fuel with
  | zero =>
    intro f hole step h m
    have h0 : gapFillLoop nlines nsamps cloud 0 f hole step
        = (f, hole, step) := rfl
    rw [h0] at h ⊢
    rw [Nat.zero_add]
    cases m with
    | zero => rfl
    | succ m =>
      unfold gapFillLoop
      rw [if_neg h]
  | succ n ih =>
    intro f hole step h m
    have e : n + 1 + m = (n + m) + 1 := by omega
    rw [e]
    by_cases hc : hole ≠ 0 ∧ step < 1000
    · have e1 : gapFillLoop nlines nsamps cloud (n + 1) f hole step
          = gapFillLoop nlines nsamps cloud n
              (gapFillSweep nlines nsamps step cloud f).1
              (gapFillSweep nlines nsamps step cloud f).2 (step * 2) := by
        rw [gapFillLoop, if_pos hc]
      have e2 : gapFillLoop nlines nsamps cloud (n + m + 1) f hole step
          = gapFillLoop nlines nsamps cloud (n + m)
              (gapFillSweep nlines nsamps step cloud f).1
              (gapFillSweep nlines nsamps step cloud f).2 (step * 2) := by
        rw [gapFillLoop, if_pos hc]
      rw [e1] at h ⊢
      rw [e2]
      exact ih _ _ _ h m
    · have e1 : gapFillLoop nlines nsamps cloud (n + 1) f hole step
          = (f, hole, step) := by
        rw [gapFillLoop, if_neg hc]
      have e2 : gapFillLoop nlines nsamps cloud (n + m + 1) f hole step
          = (f, hole, step) := by
        rw [gapFillLoop, if_neg hc]
      rw [e1, e2]

/-- C22: termination of the aerosol interpolation. For every raster, mask and
field the loop entered with `hole = 1` and `step = 10` is a number `n` of
rounds with `1 <= n <= 7`: round `k + 1` (for `k < n`) runs with block size
`10 * 2^k`, which is below 1000, so the sizes are 10, 20, 40, 80, 160, 320,
640 in that order; after each of the rounds before the last the hole count of
the round is non-zero and the next size is below 1000; after the last round
the hole count of the round is zero or the next size `10 * 2^n` is at least
1000. The result does not depend on the iteration allowance of the model:
every allowance of at least 7 gives the same result. -/
theorem gap_fill_terminates (nlines nsamps : Nat) (cloud : Nat → Nat)
    (f : AotField) :
    ∃ n, 1 ≤ n ∧ n ≤ 7 ∧
      aerosolInterp nlines nsamps cloud f
        = (gapFillRound nlines nsamps cloud)^[n] (f, 1, 10) ∧
      (∀ k, k < n →
        ((gapFillRound nlines nsamps cloud)^[k + 1] (f, 1, 10)).1
          = (gapFillSweep nlines nsamps (10 * 2 ^ k) cloud
              ((gapFillRound nlines nsamps cloud)^[k] (f, 1, 10)).1).1 ∧
        ((gapFillRound nlines nsamps cloud)^[k + 1] (f, 1, 10)).2.1
          = (gapFillSweep nlines nsamps (10 * 2 ^ k) cloud
              ((gapFillRound nlines nsamps cloud)^[k] (f, 1, 10)).1).2 ∧
        10 * 2 ^ k < 1000 ∧ 10 * 2 ^ k ≤ 640) ∧
      (∀ k, 1 ≤ k → k < n →
        ((gapFillRound nlines nsamps cloud)^[k] (f, 1, 10)).2.1 ≠ 0 ∧
        10 * 2 ^ k < 1000) ∧
      (((gapFillRound nlines nsamps cloud)^[n] (f, 1, 10)).2.1 = 0 ∨
        1000 ≤ 10 * 2 ^ n) ∧
      (aerosolInterp nlines nsamps cloud f).2.2 = 10 * 2 ^ n ∧
      (∀ fuel, 7 ≤ fuel →
        gapFillLoop nlines nsamps cloud fuel f 1 10
          = aerosolInterp nlines nsamps cloud f) := by
  obtain ⟨n, hn, he, hbefore, hexit⟩ :=
    gapFillLoop_rounds nlines nsamps cloud 7 f 1 10
  have hstep : ∀ k,
      ((gapFillRound nlines nsamps cloud)^[k] (f, 1, 10)).2.2 = 10 * 2 ^ k :=
    fun k => gapFillRound_step nlines nsamps cloud k (f, 1, 10)
  have hpow : ∀ k, k < n → 10 * 2 ^ k < 1000 := by
    intro k hk
    have := (hbefore k hk).2
    rw [hstep k] at this
    exact this
  have hsize : ∀ k, 10 * 2 ^ k < 1000 → 10 * 2 ^ k ≤ 640 := by
    intro k hk
    by_contra hc
    have h7 : 7 ≤ k := by
      by_contra h7
      have : k ≤ 6 := by omega
      have hle : 2 ^ k ≤ 2 ^ 6 := Nat.pow_le_pow_right (by decide) this
      omega
    have hle : 2 ^ 7 ≤ 2 ^ k := Nat.pow_le_pow_right (by decide) h7
    omega
  have h1 : 1 ≤ n := by
    by_contra hc
    have h0 : n = 0 := by omega
    subst h0
    exact hexit (by decide)
      ⟨Nat.one_ne_zero, (by decide : (10 : Nat) < 1000)⟩
  refine ⟨n, h1, hn, he, ?_, ?_, ?_, ?_, ?_⟩
  · intro k hk
    have hcur := hstep k
    have e : (gapFillRound nlines nsamps cloud)^[k + 1] (f, 1, 10)
        = gapFillRound nlines nsamps cloud
            ((gapFillRound nlines nsamps cloud)^[k] (f, 1, 10)) :=
      Function.iterate_succ_apply' _ _ _
    rw [e]
    unfold gapFillRound
    dsimp only
    have hcur' : ((fun s : AotField × Nat × Nat =>
        ((gapFillSweep nlines nsamps s.2.2 cloud s.1).1,
          (gapFillSweep nlines nsamps s.2.2 cloud s.1).2, s.2.2 * 2))^[k]
        (f, 1, 10)).2.2 = 10 * 2 ^ k := hcur
    rw [hcur']
    exact ⟨rfl, rfl, hpow k hk, hsize k (hpow k hk)⟩
  · intro k _ hk
    exact ⟨(hbefore k hk).1, hpow k hk⟩
  · by_cases h7 : n < 7
    · have hx := hexit h7
      rw [hstep n] at hx
      by_cases h0 :
          ((gapFillRound nlines nsamps cloud)^[n] (f, 1, 10)).2.1 = 0
      · exact Or.inl h0
      · right
        by_contra hc
        exact hx ⟨h0, by omega⟩
    · have e7 : n = 7 := by omega
      subst e7
      right
      decide
  · unfold aerosolInterp
    rw [he, hstep n]
  · intro fuel hfuel
    obtain ⟨m, rfl⟩ : ∃ m, fuel = 7 + m := ⟨fuel - 7, by omega⟩
    exact gapFillLoop_stable nlines nsamps cloud 7 f 1 10
      (gapFillLoop_exit nlines nsamps cloud 7 f 1 10 (by decide)) m


/-! ### The mask bytes along the passes -/

theorem subMask_lt (M v : Nat) (hM : M < 256) (h : SubMask M v) : v < 256 := by
  by_contra hc
  have hge : v ≥ 2 ^ 8 := by
    have : (2 : Nat) ^ 8 = 256 := by decide
    omega
  obtain ⟨i, hi, hbit⟩ := Nat.ge_two_pow_implies_high_bit_true hge
  have hM2 : M < 2 ^ i :=
    lt_of_lt_of_le hM (by
      have h8 : (2 : Nat) ^ 8 ≤ 2 ^ i := Nat.pow_le_pow_right (by decide) hi
      have : (2 : Nat) ^ 8 = 256 := by decide
      omega)
  have hf : Nat.testBit M i = false := Nat.testBit_lt_two_pow hM2
  unfold SubMask at h
  have ht : Nat.testBit (v ||| M) i = true := by
    rw [Nat.testBit_lor, hbit]
    rfl
  rw [h, hf] at ht
  exact Bool.false_ne_true ht

/-- An addition that sets only clear bits keeps every bit that was set. -/
theorem cleanAdd_keeps (add v b : Nat) (h : CleanAdd add v)
    (hb : btest v b = true) : btest (v + add) b = true := by
  unfold btest at hb ⊢
  rw [h.2.1, Nat.testBit_lor, hb]
  rfl

theorem cleanAdd_mod (add v : Nat) (h : CleanAdd add v) :
    (v + add) % 256 = v + add := Nat.mod_eq_of_lt h.2.2

set_option maxRecDepth 1000000 in
theorem cleanAdd_of_bit : ∀ k, k < 8 → ∀ v, v < 256 → btest v k = false →
    CleanAdd (2 ^ k) v := by
  intro k hk
  interval_cases k <;> decide

set_option maxRecDepth 100000 in
theorem seed_byte_facts : ∀ v, v < 256 → SubMask 129 v →
    CleanAdd 2 v ∧ SubMask 131 (v + 2) ∧ SubMask 131 v := by
  decide

set_option maxRecDepth 100000 in
theorem cloud_byte_facts : ∀ v, v < 256 → SubMask 131 v →
    (btest v CLDA_QA = false ∧ CleanAdd 4 v ∧ SubMask 135 (v + 4)) ∧
    SubMask 135 v := by
  decide

set_option maxRecDepth 100000 in
theorem adjacent_byte_facts : ∀ v, v < 256 → SubMask 135 v →
    (btest v CLDS_QA = false ∧ CleanAdd 8 v ∧ SubMask 143 (v + 8)) ∧
    SubMask 143 v := by
  decide

set_option maxRecDepth 100000 in
theorem cast_byte_facts : ∀ v, v < 256 → SubMask 143 v →
    (btest v CLDS_QA = false →
      CleanAdd 16 v ∧ SubMask 159 (v + 16) ∧
      btest (v + 16) CLDT_QA = true ∧ btest (v + 16) CLDS_QA = false) ∧
    SubMask 159 v ∧ btest v CLDT_QA = false := by
  decide

set_option maxRecDepth 100000 in
theorem expand_byte_facts : ∀ v, v < 256 → SubMask 159 v →
    (btest v CLDT_QA = false → SubMask 143 v) ∧
    (btest v CLDT_QA = true → btest v CLDS_QA = false →
      (v + 248) % 256 + 8 = v ∧ SubMask 143 ((v + 248) % 256)) := by
  decide

set_option maxRecDepth 100000 in
theorem update_byte_facts : ∀ v, v < 256 → SubMask 143 v →
    (CleanAdd 16 v ∧ SubMask 191 (v + 16)) ∧
    (CleanAdd 32 v ∧ SubMask 191 (v + 32)) ∧
    (CleanAdd 48 v ∧ SubMask 191 (v + 48)) ∧ SubMask 191 v := by
  decide

set_option maxRecDepth 100000 in
theorem adjTarget_clean : ∀ v, v < 256 → adjTarget 0 v = true →
    CleanAdd 4 v := by
  decide

theorem shadowTarget_bits (tresi : Nat → ℚ) (p v : Nat)
    (h : shadowTarget tresi p v = true) :
    btest v CLD_QA = false ∧ btest v CLDS_QA = false ∧
      btest v CLDT_QA = false := by
  unfold shadowTarget at h
  simp only [Bool.and_eq_true, Bool.not_eq_true', Bool.or_eq_false_iff,
    decide_eq_true_eq] at h
  exact ⟨h.1.1.1, h.1.1.2, h.1.2⟩

theorem shadowTarget_clean (tresi : Nat → ℚ) (p v : Nat) (hv : v < 256)
    (h : shadowTarget tresi p v = true) : CleanAdd 16 v := by
  have hb := (shadowTarget_bits tresi p v h).2.2
  exact cleanAdd_of_bit 4 (by decide) v hv hb

theorem foldl_inv {σ β : Type} (P : σ → Prop) (f : σ → β → σ)
    (h : ∀ s x, P s → P (f s x)) : ∀ (l : List β) (s : σ), P s →
      P (l.foldl f s) := by
  intro l
  induction l with
  | nil => intro s hs; exact hs
  | cons x l ih =>
    intro s hs
    exact ih _ (h s x hs)

theorem cloudTestPass_addsOnce (c : Consts) (sband : Nat → Nat → Int)
    (tresi : Nat → ℚ) (mclear : ℚ) (npix : Nat) (m : Nat → Nat)
    (h : ∀ p, SubMask 129 (m p)) :
    AddsOnce 2 m (cloudTestPass c sband tresi mclear npix m) ∧
    ∀ p, SubMask 131 (cloudTestPass c sband tresi mclear npix m p) := by
  have key : ∀ p,
      (cloudTestPass c sband tresi mclear npix m p = m p ∨
        (CleanAdd 2 (m p) ∧
          cloudTestPass c sband tresi mclear npix m p = m p + 2)) ∧
      SubMask 131 (cloudTestPass c sband tresi mclear npix m p) := by
    intro p
    obtain ⟨f1, f2, f3⟩ :=
      seed_byte_facts (m p) (subMask_lt 129 _ (by decide) (h p)) (h p)
    rw [cloudTestPass_apply]
    split_ifs
    · rw [cleanAdd_mod 2 _ f1]
      exact ⟨Or.inr ⟨f1, rfl⟩, f2⟩
    · exact ⟨Or.inl rfl, f3⟩
  exact ⟨fun p => (key p).1, fun p => (key p).2⟩

theorem adjacencyPass_addsOnce (nlines nsamps : Nat) (m : Nat → Nat)
    (h : ∀ p, SubMask 131 (m p)) :
    AddsOnce 4 m (adjacencyPass nlines nsamps m) ∧
    ∀ p, SubMask 135 (adjacencyPass nlines nsamps m p) := by
  have hbyte : ∀ p, m p < 256 := fun p => subMask_lt 131 _ (by decide) (h p)
  have hinv := adjacencyPass_spec nlines nsamps m hbyte
  have key : ∀ p,
      (adjacencyPass nlines nsamps m p = m p ∨
        (CleanAdd 4 (m p) ∧ adjacencyPass nlines nsamps m p = m p + 4)) ∧
      SubMask 135 (adjacencyPass nlines nsamps m p) := by
    intro p
    obtain ⟨⟨_, f1, f2⟩, f3⟩ := cloud_byte_facts (m p) (hbyte p) (h p)
    by_cases hc : Reached nlines nsamps adjSource 5 m p ∧
        adjTarget p (m p) = true
    · have e := (hinv p).1 hc
      rw [e]
      exact ⟨Or.inr ⟨f1, rfl⟩, f2⟩
    · have e := (hinv p).2 hc
      rw [e]
      exact ⟨Or.inl rfl, f3⟩
  exact ⟨fun p => (key p).1, fun p => (key p).2⟩

theorem reached_lt (nlines nsamps : Nat) (src : Nat → Nat → Bool) (r : Nat)
    (c0 : Nat → Nat) (p : Nat) (h : Reached nlines nsamps src r c0 p) :
    p < nlines * nsamps := by
  obtain ⟨_, _, _, _, _, k, hk, l, hl, rfl, _⟩ := h
  have h1 : (k + 1) * nsamps ≤ nlines * nsamps :=
    Nat.mul_le_mul_right nsamps hk
  have h2 : (k + 1) * nsamps = k * nsamps + nsamps := Nat.succ_mul k nsamps
  omega

theorem shadowExpandPass_addsOnce (nlines nsamps : Nat) (tresi : Nat → ℚ)
    (m : Nat → Nat) (h : ∀ p, SubMask 143 (m p)) :
    AddsOnce 16 m (shadowExpandPass nlines nsamps tresi m) ∧
    ∀ p, SubMask 159 (shadowExpandPass nlines nsamps tresi m p) ∧
      (btest (shadowExpandPass nlines nsamps tresi m p) CLDT_QA = true →
        btest (shadowExpandPass nlines nsamps tresi m p) CLDS_QA = false ∧
        p < nlines * nsamps) := by
  have hbyte : ∀ p, m p < 256 := fun p => subMask_lt 143 _ (by decide) (h p)
  have hinv := shadowExpandPass_spec nlines nsamps tresi m hbyte
  have key : ∀ p,
      (shadowExpandPass nlines nsamps tresi m p = m p ∨
        (CleanAdd 16 (m p) ∧
          shadowExpandPass nlines nsamps tresi m p = m p + 16)) ∧
      SubMask 159 (shadowExpandPass nlines nsamps tresi m p) ∧
      (btest (shadowExpandPass nlines nsamps tresi m p) CLDT_QA = true →
        btest (shadowExpandPass nlines nsamps tresi m p) CLDS_QA = false ∧
        p < nlines * nsamps) := by
    intro p
    obtain ⟨f1, f2, f3⟩ := cast_byte_facts (m p) (hbyte p) (h p)
    by_cases hc : Reached nlines nsamps shadowSource 6 m p ∧
        shadowTarget tresi p (m p) = true
    · have e := (hinv p).1 hc
      rw [e]
      obtain ⟨g1, g2, _, g4⟩ :=
        f1 (shadowTarget_bits tresi p (m p) hc.2).2.1
      exact ⟨Or.inr ⟨g1, rfl⟩, g2,
        fun _ => ⟨g4, reached_lt nlines nsamps _ _ _ p hc.1⟩⟩
    · have e := (hinv p).2 hc
      rw [e]
      refine ⟨Or.inl rfl, f2, ?_⟩
      intro hb
      rw [f3] at hb
      exact absurd hb (by decide)
  exact ⟨fun p => (key p).1, fun p => (key p).2⟩

theorem shadowUpdatePass_bytes (npix : Nat) (m : Nat → Nat)
    (h : ∀ p, SubMask 159 (m p) ∧
      (btest (m p) CLDT_QA = true →
        btest (m p) CLDS_QA = false ∧ p < npix)) :
    ∀ p, (btest (m p) CLDT_QA = false → shadowUpdatePass npix m p = m p) ∧
      (btest (m p) CLDT_QA = true → shadowUpdatePass npix m p + 8 = m p) ∧
      SubMask 143 (shadowUpdatePass npix m p) := by
  intro p
  obtain ⟨f1, f2⟩ :=
    expand_byte_facts (m p) (subMask_lt 159 _ (by decide) (h p).1) (h p).1
  rw [shadowUpdatePass_apply]
  by_cases hb : btest (m p) CLDT_QA = true
  · obtain ⟨hs, hp⟩ := (h p).2 hb
    rw [if_pos ⟨hp, hb⟩]
    obtain ⟨g1, g2⟩ := f2 hb hs
    refine ⟨?_, fun _ => g1, g2⟩
    intro hf
    rw [hb] at hf
    exact absurd hf (by decide)
  · rw [if_neg (fun hh => hb hh.2)]
    have hb' : btest (m p) CLDT_QA = false := by
      cases hbb : btest (m p) CLDT_QA
      · rfl
      · exact absurd hbb hb
    exact ⟨fun _ => rfl, fun ht => absurd ht hb, f1 hb'⟩

/-- One pixel of the shadow casting: at most one byte changes, and it
receives 8 while its cloud shadow bit is clear. -/
theorem shadowCastPixel_once (c : Consts) (nlines nsamps : Nat)
    (sband : Nat → Nat → Int) (facl fack mclear : ℚ) (i j : Nat)
    (cur : Nat → Nat) (hbyte : ∀ p, cur p < 256) (p : Nat) :
    shadowCastPixel c nlines nsamps sband facl fack mclear i cur j p = cur p ∨
    (btest (cur p) CLDS_QA = false ∧
      shadowCastPixel c nlines nsamps sband facl fack mclear i cur j p
        = cur p + 8) := by
  by_cases hcloud : btest (cur (i * nsamps + j)) CLD_QA = true ∨
      btest (cur (i * nsamps + j)) CIR_QA = true
  · obtain ⟨hcand, hnil, hsome⟩ := shadowCastPixel_spec c nlines nsamps sband
      facl fack mclear i j cur hbyte hcloud
    by_cases he : shadowCandidates c nlines nsamps sband cur facl fack mclear
        i j = []
    · rw [hnil he]
      exact Or.inl rfl
    · obtain ⟨pre, kl, post, hdec, _, _, hval, _, _, hother⟩ := hsome he
      have hmem : kl ∈ shadowCandidates c nlines nsamps sband cur facl fack
          mclear i j := by
        rw [hdec]
        exact List.mem_append_right _ (List.mem_cons_self _ _)
      have hclear := (hcand kl hmem).2.2.2.2.2.1
      by_cases hp : p = shadowPix nsamps kl
      · subst hp
        exact Or.inr ⟨hclear, hval⟩
      · exact Or.inl (hother p hp)
  · rw [shadowCastPixel_skip c nlines nsamps sband facl fack mclear i j cur
      hcloud]
    exact Or.inl rfl

set_option maxRecDepth 100000 in
theorem add8_byte_facts : ∀ v, v < 256 → btest v CLDS_QA = false →
    v + 8 < 256 ∧ btest (v + 8) CLDS_QA = true ∧ CleanAdd 8 v := by
  decide

/-- The shadow casting over the raster: every byte is untouched or has
received 8 once while its cloud shadow bit was clear. -/
theorem shadowCastPass_once (c : Consts) (nlines nsamps : Nat)
    (sband : Nat → Nat → Int) (facl fack mclear : ℚ) (m : Nat → Nat)
    (hbyte : ∀ p, m p < 256) (p : Nat) :
    shadowCastPass c nlines nsamps sband facl fack mclear m p = m p ∨
    (btest (m p) CLDS_QA = false ∧
      shadowCastPass c nlines nsamps sband facl fack mclear m p = m p + 8) := by
  have hstep : ∀ (i : Nat) (cur : Nat → Nat) (j : Nat),
      (∀ q, cur q = m q ∨ (btest (m q) CLDS_QA = false ∧ cur q = m q + 8)) →
      ∀ q, shadowCastPixel c nlines nsamps sband facl fack mclear i cur j q
          = m q ∨
        (btest (m q) CLDS_QA = false ∧
          shadowCastPixel c nlines nsamps sband facl fack mclear i cur j q
            = m q + 8) := by
    intro i cur j hinv q
    have hcur : ∀ q, cur q < 256 := by
      intro q
      rcases hinv q with h1 | ⟨h1, h2⟩
      · rw [h1]
        exact hbyte q
      · rw [h2]
        exact (add8_byte_facts (m q) (hbyte q) h1).1
    rcases shadowCastPixel_once c nlines nsamps sband facl fack mclear i j cur
        hcur q with e | ⟨hb, e⟩
    · rw [e]
      exact hinv q
    · rcases hinv q with h1 | ⟨h1, h2⟩
      · rw [e, h1]
        rw [h1] at hb
        exact Or.inr ⟨hb, rfl⟩
      · rw [h2] at hb
        rw [(add8_byte_facts (m q) (hbyte q) h1).2.1] at hb
        exact absurd hb (by decide)
  have hall : ∀ q,
      shadowCastPass c nlines nsamps sband facl fack mclear m q = m q ∨
      (btest (m q) CLDS_QA = false ∧
        shadowCastPass c nlines nsamps sband facl fack mclear m q = m q + 8) := by
    unfold shadowCastPass
    refine foldl_inv
      (fun cur : Nat → Nat =>
        ∀ q, cur q = m q ∨ (btest (m q) CLDS_QA = false ∧ cur q = m q + 8))
      _ ?_ (List.range nlines) m (fun q => Or.inl rfl)
    intro cur i hinv
    exact foldl_inv
      (fun cur : Nat → Nat =>
        ∀ q, cur q = m q ∨ (btest (m q) CLDS_QA = false ∧ cur q = m q + 8))
      _ (fun s j hs => hstep i s j hs) (List.range nsamps) cur hinv
  exact hall p

theorem shadowCastPass_addsOnce (c : Consts) (nlines nsamps : Nat)
    (sband : Nat → Nat → Int) (facl fack mclear : ℚ) (m : Nat → Nat)
    (h : ∀ p, SubMask 135 (m p)) :
    AddsOnce 8 m (shadowCastPass c nlines nsamps sband facl fack mclear m) ∧
    ∀ p, SubMask 143
      (shadowCastPass c nlines nsamps sband facl fack mclear m p) := by
  have hbyte : ∀ p, m p < 256 := fun p => subMask_lt 135 _ (by decide) (h p)
  have key : ∀ p,
      (shadowCastPass c nlines nsamps sband facl fack mclear m p = m p ∨
        (CleanAdd 8 (m p) ∧
          shadowCastPass c nlines nsamps sband facl fack mclear m p
            = m p + 8)) ∧
      SubMask 143
        (shadowCastPass c nlines nsamps sband facl fack mclear m p) := by
    intro p
    obtain ⟨⟨_, f1, f2⟩, f3⟩ := adjacent_byte_facts (m p) (hbyte p) (h p)
    rcases shadowCastPass_once c nlines nsamps sband facl fack mclear m hbyte p
      with e | ⟨_, e⟩
    · rw [e]
      exact ⟨Or.inl rfl, f3⟩
    · rw [e]
      exact ⟨Or.inr ⟨f1, rfl⟩, f2⟩
  exact ⟨fun p => (key p).1, fun p => (key p).2⟩

/-- One window cell of a dilation pass: at most one byte changes, and it
receives `add` when it passes the test of the pass. -/
theorem dilateCell_once (nsamps : Nat) (tgt : Nat → Nat → Bool) (add k : Nat)
    (cur : Nat → Nat) (l : Int) (p : Nat) :
    dilateCell nsamps tgt add k cur l p = cur p ∨
    (tgt p (cur p) = true ∧
      dilateCell nsamps tgt add k cur l p = (cur p + add) % 256) := by
  by_cases hl : l < 0 ∨ l ≥ (nsamps : Int)
  · unfold dilateCell
    rw [if_pos hl]
    exact Or.inl rfl
  · have hl0 : 0 ≤ l := by omega
    have hl1 : l < (nsamps : Int) := by omega
    rw [dilateCell_apply nsamps tgt add k cur l hl0 hl1 p]
    by_cases hc : p = k * nsamps + l.toNat ∧
        tgt (k * nsamps + l.toNat) (cur (k * nsamps + l.toNat)) = true
    · rw [if_pos hc]
      obtain ⟨hp, ht⟩ := hc
      rw [← hp] at ht ⊢
      exact Or.inr ⟨ht, rfl⟩
    · rw [if_neg hc]
      exact Or.inl rfl

/-- The mask byte of a pixel after the final pass: untouched, or increased
once by an aerosol pattern (16, 32 or 48, reduced to a byte) in the iteration
of band 1. -/
theorem finalPass_cloud (c : Consts)
    (atmcorlamb2 : ℚ → Nat → ℚ → ℚ → ℚ → ℚ → Option AtmCorr)
    (qaband : Nat → Nat) (npix : Nat) (inp : FinalInputs) (st out : FinalPass)
    (h : finalPass c atmcorlamb2 qaband npix inp st = some out) (p : Nat) :
    out.cloud p = st.cloud p ∨
    ∃ x, (x = 16 ∨ x = 32 ∨ x = 48) ∧
      out.cloud p = (st.cloud p + x) % 256 := by
  by_cases hp : p < npix
  · obtain ⟨a, a1, ha, hpix, hout⟩ := finalPass_at c atmcorlamb2 qaband npix
      inp st out (fun s => s.cloud p) DN_BAND1 p (by decide) hp
      (by
        intro ib' i' s s1 hne hs
        rcases hne with h1 | h1
        · have := (finalPixel_band_frame c atmcorlamb2 qaband inp ib' s s1 i'
            hs).2 h1
          exact congrFun this.1 p
        · exact (finalPixel_frame c atmcorlamb2 qaband inp ib' s s1 i' p
            (fun e => h1 e.symm) hs).1)
      h
    have ha' : a.cloud p = st.cloud p := ha
    have hout' : out.cloud p = a1.cloud p := hout
    by_cases hskip : qaband p = 1 ∨ ¬ (inp.tresi p > 0 ∧
        btest (a.cloud p) CIR_QA = false ∧ btest (a.cloud p) CLD_QA = false)
    · have e := finalPixel_skipped c atmcorlamb2 qaband inp DN_BAND1 a a1 p
        hskip hpix
      rw [hout', e, ha']
      exact Or.inl rfl
    · have hq : qaband p ≠ 1 := fun e => hskip (Or.inl e)
      have hg : inp.tresi p > 0 ∧ btest (a.cloud p) CIR_QA = false ∧
          btest (a.cloud p) CLD_QA = false := by
        by_contra hc
        exact hskip (Or.inr hc)
      obtain ⟨r, _, _, hlow, hqa⟩ := finalPixel_corrected c atmcorlamb2 qaband
        inp DN_BAND1 a a1 p hq hg hpix
      by_cases hr : r.roslamb < -5 / 1000
      · rw [hout', (hlow rfl hr).1, ha']
        exact Or.inl rfl
      · right
        rw [hout', (hqa rfl hr).1, ha']
        exact ⟨_, aerosolQaBits_cases _ _, rfl⟩
  · left
    unfold finalPass at h
    exact foldOpt_preserves _ (fun a b : FinalPass => b.cloud p = a.cloud p)
      (fun _ => rfl) (fun _ _ _ hab hbc => hbc.trans hab) _
      (fun ib _ s s1 hs =>
        foldOpt_preserves _ (fun a b : FinalPass => b.cloud p = a.cloud p)
          (fun _ => rfl) (fun _ _ _ hab hbc => hbc.trans hab) _
          (fun i' hi' a a1 ha =>
            (finalPixel_frame c atmcorlamb2 qaband inp ib a a1 i' p
              (fun e => hp (e ▸ List.mem_range.mp hi')) ha).1)
          s s1 hs)
      st out h

theorem finalPass_addsOnce (c : Consts)
    (atmcorlamb2 : ℚ → Nat → ℚ → ℚ → ℚ → ℚ → Option AtmCorr)
    (qaband : Nat → Nat) (npix : Nat) (inp : FinalInputs) (st out : FinalPass)
    (h : finalPass c atmcorlamb2 qaband npix inp st = some out)
    (hm : ∀ p, SubMask 143 (st.cloud p)) (p : Nat) :
    (out.cloud p = st.cloud p ∨
      ∃ x, (x = 16 ∨ x = 32 ∨ x = 48) ∧ CleanAdd x (st.cloud p) ∧
        out.cloud p = st.cloud p + x) ∧
    SubMask 191 (out.cloud p) := by
  obtain ⟨⟨f1, g1⟩, ⟨f2, g2⟩, ⟨f3, g3⟩, g0⟩ := update_byte_facts (st.cloud p)
    (subMask_lt 143 _ (by decide) (hm p)) (hm p)
  rcases finalPass_cloud c atmcorlamb2 qaband npix inp st out h p with
    e | ⟨x, hx, e⟩
  · rw [e]
    exact ⟨Or.inl rfl, g0⟩
  · rcases hx with rfl | rfl | rfl
    · rw [cleanAdd_mod _ _ f1] at e
      rw [e]
      exact ⟨Or.inr ⟨16, Or.inl rfl, f1, rfl⟩, g1⟩
    · rw [cleanAdd_mod _ _ f2] at e
      rw [e]
      exact ⟨Or.inr ⟨32, Or.inr (Or.inl rfl), f2, rfl⟩, g2⟩
    · rw [cleanAdd_mod _ _ f3] at e
      rw [e]
      exact ⟨Or.inr ⟨48, Or.inr (Or.inr rfl), f3, rfl⟩, g3⟩

/-- The mask byte of a pixel after the auxiliary pass entered with a zero
mask: the byte `w` before the cirrus increment is 0 or 128 (water), and the
result is `w` or `w + 1`. -/
theorem auxPass_cloud_bytes (c : Consts) (g : GridConsts) (env : AuxEnv)
    (t : AuxTables) (qaband : Nat → Nat) (sband aerob : Nat → Nat → Int)
    (nlines nsamps : Nat) (st out : AuxState) (hz : ∀ p, st.cloud p = 0)
    (h : auxPass c g env t qaband sband aerob nlines nsamps st = some out)
    (p : Nat) :
    (∃ w, (w = 0 ∨ w = 128) ∧
      (out.cloud p = w ∨ (CleanAdd 1 w ∧ out.cloud p = w + 1))) ∧
    SubMask 129 (out.cloud p) := by
  by_cases hp : nlines * nsamps ≤ p ∨ qaband p = 1
  · have e := (auxPass_untouched c g env t qaband sband aerob nlines nsamps st
      out p hp h).1
    rw [e, hz p]
    exact ⟨⟨0, Or.inl rfl, Or.inl rfl⟩, by decide⟩
  · have hlt : p < nlines * nsamps := by
      by_contra hc
      exact hp (Or.inl (by omega))
    have hq : qaband p ≠ 1 := fun e => hp (Or.inr e)
    have hns : 0 < nsamps := by
      rcases Nat.eq_zero_or_pos nsamps with h0 | h0
      · rw [h0, Nat.mul_zero] at hlt
        omega
      · exact h0
    have hidx : p / nsamps * nsamps + p % nsamps = p := Nat.div_add_mod' p nsamps
    have hi : p / nsamps < nlines :=
      (Nat.div_lt_iff_lt_mul hns).mpr hlt
    have hj : p % nsamps < nsamps := Nat.mod_lt p hns
    obtain ⟨geo, _, _, _, hcloud, _⟩ := auxPass_pixel c g env t qaband sband
      aerob nlines nsamps st out (p / nsamps) (p % nsamps) hi hj
      (by rw [hidx]; exact hq) (by rw [hidx]; exact hz p) h
    rw [hidx] at hcloud
    rw [hcloud]
    split_ifs
    · exact ⟨⟨0, Or.inl rfl, Or.inr ⟨by decide, rfl⟩⟩, by decide⟩
    · exact ⟨⟨0, Or.inl rfl, Or.inl rfl⟩, by decide⟩
    · exact ⟨⟨128, Or.inr rfl, Or.inr ⟨by decide, rfl⟩⟩, by decide⟩
    · exact ⟨⟨128, Or.inr rfl, Or.inl rfl⟩, by decide⟩

/-- The masks along the refinement, from a mask that carries only cirrus and
water bits: each of the four adding passes gives every byte at most one
addition that sets only clear bits, and the update takes 8 off the bytes that
carry the temporary bit. -/
theorem mask_chain (c : Consts) (nlines nsamps : Nat)
    (sband : Nat → Nat → Int) (tresi : Nat → ℚ) (facl fack mclear : ℚ)
    (m1 m2 m3 m4 m5 m6 : Nat → Nat) (hseed : ∀ p, SubMask 129 (m1 p))
    (h2 : m2 = cloudTestPass c sband tresi mclear (nlines * nsamps) m1)
    (h3 : m3 = adjacencyPass nlines nsamps m2)
    (h4 : m4 = shadowCastPass c nlines nsamps sband facl fack mclear m3)
    (h5 : m5 = shadowExpandPass nlines nsamps tresi m4)
    (h6 : m6 = shadowUpdatePass (nlines * nsamps) m5) :
    (AddsOnce 2 m1 m2 ∧ AddsOnce 4 m2 m3 ∧ AddsOnce 8 m3 m4 ∧
      AddsOnce 16 m4 m5) ∧
    ((∀ p, SubMask 131 (m2 p)) ∧ (∀ p, SubMask 135 (m3 p)) ∧
      (∀ p, SubMask 143 (m4 p)) ∧
      (∀ p, SubMask 159 (m5 p) ∧
        (btest (m5 p) CLDT_QA = true →
          btest (m5 p) CLDS_QA = false ∧ p < nlines * nsamps))) ∧
    (∀ p, (btest (m5 p) CLDT_QA = false → m6 p = m5 p) ∧
      (btest (m5 p) CLDT_QA = true → m6 p + 8 = m5 p) ∧
      SubMask 143 (m6 p)) := by
  obtain ⟨a2, b2⟩ := cloudTestPass_addsOnce c sband tresi mclear
    (nlines * nsamps) m1 hseed
  rw [← h2] at a2 b2
  obtain ⟨a3, b3⟩ := adjacencyPass_addsOnce nlines nsamps m2 b2
  rw [← h3] at a3 b3
  obtain ⟨a4, b4⟩ := shadowCastPass_addsOnce c nlines nsamps sband facl fack
    mclear m3 b3
  rw [← h4] at a4 b4
  obtain ⟨a5, b5⟩ := shadowExpandPass_addsOnce nlines nsamps tresi m4 b4
  rw [← h5] at a5 b5
  have b6 := shadowUpdatePass_bytes (nlines * nsamps) m5 b5
  rw [← h6] at b6
  exact ⟨⟨a2, a3, a4, a5⟩, ⟨b2, b3, b4, b5⟩, b6⟩

theorem addsOnce_keeps (add : Nat) (m n : Nat → Nat) (h : AddsOnce add m n)
    (p b : Nat) (hb : btest (m p) b = true) : btest (n p) b = true := by
  rcases h p with e | ⟨hc, e⟩
  · rw [e]
    exact hb
  · rw [e]
    exact cleanAdd_keeps add (m p) b hc hb

theorem byte_high_bit (v b : Nat) (hv : v < 256) (hb : 8 ≤ b) :
    btest v b = false := by
  have h8 : (2 : Nat) ^ 8 ≤ 2 ^ b := Nat.pow_le_pow_right (by decide) hb
  have h256 : (2 : Nat) ^ 8 = 256 := by decide
  exact Nat.testBit_lt_two_pow (by omega)

/-- The update of a byte that carries the temporary bit and not the cloud
shadow bit: the temporary bit is cleared, the cloud shadow bit is set, the
other bits are kept. -/
theorem sub8_bits (v : Nat) (hv : v < 256) (ht : btest v CLDT_QA = true)
    (hs : btest v CLDS_QA = false) :
    btest ((v + 248) % 256) CLDT_QA = false ∧
    btest ((v + 248) % 256) CLDS_QA = true ∧
    ∀ b, b ≠ CLDS_QA → b ≠ CLDT_QA →
      btest ((v + 248) % 256) b = btest v b := by
  obtain ⟨_, f2, f3⟩ := sub8_byte_value v hv ⟨ht, hs⟩
  refine ⟨f3, f2, ?_⟩
  intro b hb1 hb2
  by_cases hb : b < 8
  · exact sub8_byte_other v hv ⟨ht, hs⟩ b hb ⟨hb1, hb2⟩
  · rw [byte_high_bit v b hv (by omega),
      byte_high_bit _ b (Nat.mod_lt _ (by decide)) (by omega)]

/-- C25: mask bits are set exactly once. With the mask zero at entry of the
auxiliary pass, let `a` be the state after the auxiliary pass, `m2` to `m6`
the masks after the cloud test, the adjacency pass, the shadow casting, the
shadow expansion and the shadow update, and `out` the state after the final
pass entered with the mask `m6`. Then: the byte that receives the cirrus
increment is 0 or 128 and the increment sets only a clear bit; from each mask
to the next, every byte is untouched or has received the pass's constant (2,
4, 8, 16) once, while the bits of the constant were clear in it, so that the
sum is the bitwise OR, carries nothing and stays below 256; the final pass
adds one of 16, 32, 48 to a byte at most once, again on clear bits; every byte
of every mask is at most 255. Moreover each single guarded addition (a window
cell of the two dilation passes, a pixel of the shadow casting) applied to any
mask of bytes adds its constant only while the bits are clear. -/
theorem mask_additions_set_clear_bits (c : Consts) (g : GridConsts)
    (env : AuxEnv) (t : AuxTables) (qaband : Nat → Nat)
    (sband aerob : Nat → Nat → Int) (nlines nsamps : Nat) (st a : AuxState)
    (facl fack : ℚ) (m2 m3 m4 m5 m6 : Nat → Nat)
    (atmcorlamb2 : ℚ → Nat → ℚ → ℚ → ℚ → ℚ → Option AtmCorr)
    (inp : FinalInputs) (fin out : FinalPass)
    (hzero : ∀ p, st.cloud p = 0)
    (haux : auxPass c g env t qaband sband aerob nlines nsamps st = some a)
    (h2 : m2 = cloudTestPass c sband a.tresi
      (meanClearTemp c qaband sband a.cloud (nlines * nsamps))
      (nlines * nsamps) a.cloud)
    (h3 : m3 = adjacencyPass nlines nsamps m2)
    (h4 : m4 = shadowCastPass c nlines nsamps sband facl fack
      (meanClearTemp c qaband sband a.cloud (nlines * nsamps)) m3)
    (h5 : m5 = shadowExpandPass nlines nsamps a.tresi m4)
    (h6 : m6 = shadowUpdatePass (nlines * nsamps) m5)
    (hcloud : fin.cloud = m6)
    (hfin : finalPass c atmcorlamb2 qaband (nlines * nsamps) inp fin
      = some out) :
    (∀ p, ∃ w, (w = 0 ∨ w = 128) ∧
      (a.cloud p = w ∨ (CleanAdd 1 w ∧ a.cloud p = w + 1))) ∧
    (AddsOnce 2 a.cloud m2 ∧ AddsOnce 4 m2 m3 ∧ AddsOnce 8 m3 m4 ∧
      AddsOnce 16 m4 m5) ∧
    (∀ p, out.cloud p = m6 p ∨
      ∃ x, (x = 16 ∨ x = 32 ∨ x = 48) ∧ CleanAdd x (m6 p) ∧
        out.cloud p = m6 p + x) ∧
    (∀ p, a.cloud p ≤ 255 ∧ m2 p ≤ 255 ∧ m3 p ≤ 255 ∧ m4 p ≤ 255 ∧
      m5 p ≤ 255 ∧ m6 p ≤ 255 ∧ out.cloud p ≤ 255) ∧
    m6 = refineCloudMask c qaband nlines nsamps sband a.tresi facl fack
      a.cloud ∧
    (∀ cur : Nat → Nat, (∀ q, cur q < 256) →
      (∀ k l, AddsOnce 4 cur (dilateCell nsamps adjTarget 4 k cur l)) ∧
      (∀ k l, AddsOnce 16 cur
        (dilateCell nsamps (shadowTarget a.tresi) 16 k cur l)) ∧
      (∀ mclear i j, AddsOnce 8 cur
        (shadowCastPixel c nlines nsamps sband facl fack mclear i cur j))) := by
  have hseed : ∀ p, SubMask 129 (a.cloud p) := fun p =>
    (auxPass_cloud_bytes c g env t qaband sband aerob nlines nsamps st a hzero
      haux p).2
  obtain ⟨hadds, ⟨b2, b3, b4, b5⟩, b6⟩ := mask_chain c nlines nsamps sband
    a.tresi facl fack (meanClearTemp c qaband sband a.cloud (nlines * nsamps))
    a.cloud m2 m3 m4 m5 m6 hseed h2 h3 h4 h5 h6
  have hm6 : ∀ p, SubMask 143 (fin.cloud p) := by
    intro p
    rw [hcloud]
    exact (b6 p).2.2
  have hfinal := finalPass_addsOnce c atmcorlamb2 qaband (nlines * nsamps) inp
    fin out hfin hm6
  refine ⟨fun p => (auxPass_cloud_bytes c g env t qaband sband aerob nlines
      nsamps st a hzero haux p).1, hadds, ?_, ?_, ?_, ?_⟩
  · intro p
    have := (hfinal p).1
    rw [hcloud] at this
    exact this
  · intro p
    have e1 := subMask_lt 129 _ (by decide) (hseed p)
    have e2 := subMask_lt 131 _ (by decide) (b2 p)
    have e3 := subMask_lt 135 _ (by decide) (b3 p)
    have e4 := subMask_lt 143 _ (by decide) (b4 p)
    have e5 := subMask_lt 159 _ (by decide) (b5 p).1
    have e6 := subMask_lt 143 _ (by decide) (b6 p).2.2
    have e7 := subMask_lt 191 _ (by decide) (hfinal p).2
    omega
  · rw [h6, h5, h4, h3, h2]
    rfl
  · intro cur hcur
    refine ⟨?_, ?_, ?_⟩
    · intro k l p
      rcases dilateCell_once nsamps adjTarget 4 k cur l p with e | ⟨ht, e⟩
      · exact Or.inl e
      · have hc := adjTarget_clean (cur p) (hcur p) ht
        rw [cleanAdd_mod _ _ hc] at e
        exact Or.inr ⟨hc, e⟩
    · intro k l p
      rcases dilateCell_once nsamps (shadowTarget a.tresi) 16 k cur l p with
        e | ⟨ht, e⟩
      · exact Or.inl e
      · have hc := shadowTarget_clean a.tresi p (cur p) (hcur p) ht
        rw [cleanAdd_mod _ _ hc] at e
        exact Or.inr ⟨hc, e⟩
    · intro mclear i j p
      rcases shadowCastPixel_once c nlines nsamps sband facl fack mclear i j
          cur hcur p with e | ⟨hb, e⟩
      · exact Or.inl e
      · exact Or.inr ⟨(add8_byte_facts (cur p) (hcur p) hb).2.2, e⟩

/-- Witness for C25: the scene of one line and two samples over land, entered
with a zero mask; the auxiliary pass and the final pass complete, and every
byte of the final mask is at most 255 and untouched or increased by a
pattern whose bits were clear. -/
theorem mask_additions_set_clear_bits_witness :
    ∃ a out,
      auxPass l8 cmg demoAuxEnv demoLandTables demoQa demoShadowBands
        demoAerob 1 2 demoAuxState = some a ∧
      finalPass l8 demoAtmcorlamb2 demoQa (1 * 2) demoFinalInputs
        { sband := demoShadowBands, taero := fun _ => 0,
          cloud := refineCloudMask l8 demoQa 1 2 demoShadowBands a.tresi 0
            (1 / 30) a.cloud } = some out ∧
      (∀ p, out.cloud p ≤ 255) ∧
      ∀ p, out.cloud p
          = refineCloudMask l8 demoQa 1 2 demoShadowBands a.tresi 0 (1 / 30)
              a.cloud p ∨
        ∃ x, (x = 16 ∨ x = 32 ∨ x = 48) ∧
          CleanAdd x (refineCloudMask l8 demoQa 1 2 demoShadowBands a.tresi 0
            (1 / 30) a.cloud p) ∧
          out.cloud p
            = refineCloudMask l8 demoQa 1 2 demoShadowBands a.tresi 0 (1 / 30)
                a.cloud p + x := by
  obtain ⟨a, ha⟩ := demo_auxPass_success demoLandTables demoShadowBands
  obtain ⟨out, hout⟩ := finalPass_success l8 demoAtmcorlamb2 demoQa (1 * 2)
    demoFinalInputs
    { sband := demoShadowBands, taero := fun _ => 0,
      cloud := refineCloudMask l8 demoQa 1 2 demoShadowBands a.tresi 0
        (1 / 30) a.cloud }
    (fun _ _ _ _ _ _ => ⟨_, rfl⟩)
  have key := mask_additions_set_clear_bits l8 cmg demoAuxEnv demoLandTables
    demoQa demoShadowBands demoAerob 1 2 demoAuxState a 0 (1 / 30) _ _ _ _
    (refineCloudMask l8 demoQa 1 2 demoShadowBands a.tresi 0 (1 / 30) a.cloud)
    demoAtmcorlamb2 demoFinalInputs _ out (fun _ => rfl) ha rfl rfl rfl rfl rfl
    rfl hout
  exact ⟨a, out, ha, hout, fun p => (key.2.2.2.1 p).2.2.2.2.2.2, key.2.2.1⟩

/-- C26, counterexample: the shadow update removes a bit. On the 4 x 4 raster
whose only flagged pixel is the shadow pixel 5, with negative residuals
except at pixel 3, the expansion leaves pixel 0 with the byte 16 (the
temporary bit), and after the update pass the byte is 8: the temporary bit
that was set before the pass is no longer set after it. -/
theorem shadow_update_removes_temporary_bit :
    shadowExpandPass 4 4 demoShadowResidual demoShadowMask 0 = 16 ∧
    btest (shadowExpandPass 4 4 demoShadowResidual demoShadowMask 0) CLDT_QA
      = true ∧
    shadowUpdatePass (4 * 4)
      (shadowExpandPass 4 4 demoShadowResidual demoShadowMask) 0 = 8 ∧
    btest (shadowUpdatePass (4 * 4)
      (shadowExpandPass 4 4 demoShadowResidual demoShadowMask) 0) CLDT_QA
      = false := by
  have hbyte : ∀ p, demoShadowMask p < 256 := by
    intro p
    unfold demoShadowMask
    split <;> decide
  have hinv := shadowExpandPass_spec 4 4 demoShadowResidual demoShadowMask hbyte
  have hreach : Reached 4 4 shadowSource 6 demoShadowMask 0 :=
    ⟨1, by decide, 1, by decide, by decide, 0, by decide, 0, by decide,
      by decide, by decide, by decide, by decide, by decide⟩
  have htgt : shadowTarget demoShadowResidual 0 (demoShadowMask 0) = true := by
    have hm : demoShadowMask 0 = 0 := by decide
    rw [hm]
    unfold shadowTarget
    norm_num [demoShadowResidual]
    decide
  have e : shadowExpandPass 4 4 demoShadowResidual demoShadowMask 0 = 16 := by
    rw [(hinv 0).1 ⟨hreach, htgt⟩]
    decide
  have e2 : shadowUpdatePass (4 * 4)
      (shadowExpandPass 4 4 demoShadowResidual demoShadowMask) 0 = 8 := by
    rw [shadowUpdatePass_apply, e]
    decide
  refine ⟨e, ?_, e2, ?_⟩
  · rw [e]
    decide
  · rw [e2]
    decide

/-- C26, amended: from a mask that carries only cirrus and water bits (the
state after the auxiliary seeding), with `m2` to `m6` the masks after the
cloud test, the adjacency pass, the shadow casting, the shadow expansion and
the shadow update, and `out` the state after the final pass entered with the
mask `m6`: the cloud test, the adjacency pass, the shadow casting, the shadow
expansion and the aerosol QA of the final pass keep every bit that was set
before the pass. The shadow update leaves a byte without the temporary bit as
it is; in a byte with the temporary bit it clears that bit, sets the cloud
shadow bit and keeps every other bit. -/
theorem mask_passes_keep_bits_except_update (c : Consts)
    (qaband : Nat → Nat) (sband : Nat → Nat → Int) (nlines nsamps : Nat)
    (tresi : Nat → ℚ) (facl fack mclear : ℚ)
    (m1 m2 m3 m4 m5 m6 : Nat → Nat)
    (atmcorlamb2 : ℚ → Nat → ℚ → ℚ → ℚ → ℚ → Option AtmCorr)
    (inp : FinalInputs) (fin out : FinalPass)
    (hseed : ∀ p, SubMask 129 (m1 p))
    (h2 : m2 = cloudTestPass c sband tresi mclear (nlines * nsamps) m1)
    (h3 : m3 = adjacencyPass nlines nsamps m2)
    (h4 : m4 = shadowCastPass c nlines nsamps sband facl fack mclear m3)
    (h5 : m5 = shadowExpandPass nlines nsamps tresi m4)
    (h6 : m6 = shadowUpdatePass (nlines * nsamps) m5)
    (hcloud : fin.cloud = m6)
    (hfin : finalPass c atmcorlamb2 qaband (nlines * nsamps) inp fin
      = some out) :
    (∀ p b, btest (m1 p) b = true → btest (m2 p) b = true) ∧
    (∀ p b, btest (m2 p) b = true → btest (m3 p) b = true) ∧
    (∀ p b, btest (m3 p) b = true → btest (m4 p) b = true) ∧
    (∀ p b, btest (m4 p) b = true → btest (m5 p) b = true) ∧
    (∀ p b, btest (m6 p) b = true → btest (out.cloud p) b = true) ∧
    (∀ p, btest (m5 p) CLDT_QA = false → m6 p = m5 p) ∧
    (∀ p, btest (m5 p) CLDT_QA = true →
      btest (m6 p) CLDT_QA = false ∧ btest (m6 p) CLDS_QA = true ∧
      ∀ b, b ≠ CLDS_QA → b ≠ CLDT_QA → btest (m6 p) b = btest (m5 p) b) := by
  obtain ⟨⟨a2, a3, a4, a5⟩, ⟨_, _, _, b5⟩, b6⟩ := mask_chain c nlines nsamps
    sband tresi facl fack mclear m1 m2 m3 m4 m5 m6 hseed h2 h3 h4 h5 h6
  have hm6 : ∀ p, SubMask 143 (fin.cloud p) := by
    intro p
    rw [hcloud]
    exact (b6 p).2.2
  have hfinal := finalPass_addsOnce c atmcorlamb2 qaband (nlines * nsamps) inp
    fin out hfin hm6
  refine ⟨addsOnce_keeps 2 m1 m2 a2, addsOnce_keeps 4 m2 m3 a3,
    addsOnce_keeps 8 m3 m4 a4, addsOnce_keeps 16 m4 m5 a5, ?_,
    fun p => (b6 p).1, ?_⟩
  · intro p b hb
    rw [← hcloud] at hb
    rcases (hfinal p).1 with e | ⟨x, _, hc, e⟩
    · rw [e]
      exact hb
    · rw [e]
      exact cleanAdd_keeps x _ b hc hb
  · intro p ht
    obtain ⟨hs, hp⟩ := (b5 p).2 ht
    have hv := subMask_lt 159 _ (by decide) (b5 p).1
    have e : m6 p = (m5 p + 248) % 256 := by
      rw [h6, shadowUpdatePass_apply, if_pos ⟨hp, ht⟩]
    rw [e]
    exact sub8_bits (m5 p) hv ht hs

/-- Witness for C26: the refinement of the mask of one line and two samples
whose pixel 1 carries the cirrus bit, followed by the final pass; the final
pass completes and keeps every bit of the refined mask. -/
theorem mask_passes_keep_bits_except_update_witness :
    (∀ p, SubMask 129 (demoCirrusMask p)) ∧
    ∃ out,
      finalPass l8 demoAtmcorlamb2 demoQa (1 * 2) demoFinalInputs
        { sband := demoShadowBands, taero := fun _ => 0,
          cloud := refineCloudMask l8 demoQa 1 2 demoShadowBands (fun _ => 0) 0
            (1 / 30) demoCirrusMask } = some out ∧
      ∀ p b,
        btest (refineCloudMask l8 demoQa 1 2 demoShadowBands (fun _ => 0) 0
          (1 / 30) demoCirrusMask p) b = true →
        btest (out.cloud p) b = true := by
  have hseed : ∀ p, SubMask 129 (demoCirrusMask p) := by
    intro p
    unfold demoCirrusMask
    split <;> decide
  obtain ⟨out, hout⟩ := finalPass_success l8 demoAtmcorlamb2 demoQa (1 * 2)
    demoFinalInputs
    { sband := demoShadowBands, taero := fun _ => 0,
      cloud := refineCloudMask l8 demoQa 1 2 demoShadowBands (fun _ => 0) 0
        (1 / 30) demoCirrusMask }
    (fun _ _ _ _ _ _ => ⟨_, rfl⟩)
  have key := mask_passes_keep_bits_except_update l8 demoQa demoShadowBands 1 2
    (fun _ => 0) 0 (1 / 30)
    (meanClearTemp l8 demoQa demoShadowBands demoCirrusMask (1 * 2))
    demoCirrusMask _ _ _ _
    (refineCloudMask l8 demoQa 1 2 demoShadowBands (fun _ => 0) 0 (1 / 30)
      demoCirrusMask)
    demoAtmcorlamb2 demoFinalInputs _ out hseed rfl rfl rfl rfl rfl rfl hout
  exact ⟨hseed, out, hout, key.2.2.2.2.1⟩


/-! ### Aerosol interpolation: the block average -/

theorem mem_qualifyingPixels (cloud : Nat → Nat) (f : AotField)
    (ws : List Nat) (w : Nat) :
    w ∈ qualifyingPixels cloud f ws ↔
      w ∈ ws ∧ f.tresi w > 0 ∧ cloud w = 0 := by
  unfold qualifyingPixels
  rw [List.mem_filter]
  simp [Qualifying]

/-- One round, pixel by pixel, relative to the field at entry of the
round. -/
theorem gapFillSweep_spec (nlines nsamps step : Nat) (cloud : Nat → Nat)
    (f : AotField) :
    (∀ p, (∀ b, b ∈ roundBlocks nlines nsamps step →
        p ∉ blockWindow nlines nsamps step b.1 b.2) →
      (gapFillSweep nlines nsamps step cloud f).1.taero p = f.taero p ∧
      (gapFillSweep nlines nsamps step cloud f).1.tresi p = f.tresi p) ∧
    (∀ b, b ∈ roundBlocks nlines nsamps step → ∀ p,
      p ∈ blockWindow nlines nsamps step b.1 b.2 →
      (qualifyingPixels cloud f (blockWindow nlines nsamps step b.1 b.2) ≠ [] →
        (Fillable cloud f p →
          (gapFillSweep nlines nsamps step cloud f).1.taero p
            = blockAverage cloud f (blockWindow nlines nsamps step b.1 b.2) ∧
          (gapFillSweep nlines nsamps step cloud f).1.tresi p = 1) ∧
        (¬ Fillable cloud f p →
          (gapFillSweep nlines nsamps step cloud f).1.taero p = f.taero p ∧
          (gapFillSweep nlines nsamps step cloud f).1.tresi p = f.tresi p)) ∧
      (qualifyingPixels cloud f (blockWindow nlines nsamps step b.1 b.2) = [] →
        (gapFillSweep nlines nsamps step cloud f).1.taero p = f.taero p ∧
        (gapFillSweep nlines nsamps step cloud f).1.tresi p = f.tresi p)) := by
  have hal : ∀ b, b ∈ roundBlocks nlines nsamps step →
      b.1 % step = 0 ∧ b.2 % step = 0 := by
    intro b hb
    obtain ⟨h1, h2⟩ := (mem_roundBlocks nlines nsamps step b).mp hb
    exact ⟨((mem_strideRange nlines step b.1).mp h1).2,
      ((mem_strideRange nsamps step b.2).mp h2).2⟩
  obtain ⟨s1, s2, _⟩ := gapFill_blocks_spec nlines nsamps step cloud
    (roundBlocks nlines nsamps step) (f, 0)
    (roundBlocks_nodup nlines nsamps step) hal
  rw [← gapFillSweep_blocks] at s1 s2
  exact ⟨s1, s2⟩

/-- One round, at any pixel: the pixel keeps its values, or it was fillable
and has received the average of a block of the round that holds it. -/
theorem gapFillSweep_pixel (nlines nsamps step : Nat) (cloud : Nat → Nat)
    (f : AotField) (p : Nat) :
    ((gapFillSweep nlines nsamps step cloud f).1.taero p = f.taero p ∧
      (gapFillSweep nlines nsamps step cloud f).1.tresi p = f.tresi p) ∨
    (Fillable cloud f p ∧
      ∃ b, b ∈ roundBlocks nlines nsamps step ∧
        p ∈ blockWindow nlines nsamps step b.1 b.2 ∧
        (gapFillSweep nlines nsamps step cloud f).1.taero p
          = blockAverage cloud f (blockWindow nlines nsamps step b.1 b.2) ∧
        (gapFillSweep nlines nsamps step cloud f).1.tresi p = 1) := by
  obtain ⟨s1, s2⟩ := gapFillSweep_spec nlines nsamps step cloud f
  by_cases hb : ∃ b, b ∈ roundBlocks nlines nsamps step ∧
      p ∈ blockWindow nlines nsamps step b.1 b.2
  · obtain ⟨b, hb1, hb2⟩ := hb
    obtain ⟨r1, r2⟩ := s2 b hb1 p hb2
    by_cases hq : qualifyingPixels cloud f
        (blockWindow nlines nsamps step b.1 b.2) = []
    · exact Or.inl (r2 hq)
    · by_cases hf : Fillable cloud f p
      · exact Or.inr ⟨hf, b, hb1, hb2, (r1 hq).1 hf⟩
      · exact Or.inl ((r1 hq).2 hf)
  · exact Or.inl (s1 p (fun b hb1 hb2 => hb ⟨b, hb1, hb2⟩))

theorem not_fillable_of_one (cloud : Nat → Nat) (f : AotField) (p : Nat)
    (h : f.tresi p = 1) : ¬ Fillable cloud f p := by
  intro hf
  unfold Fillable at hf
  rw [h] at hf
  exact absurd hf.1 (by norm_num)

/-- Any number of rounds, at any pixel: the pixel keeps its values, or it was
filled in one of the rounds with the average of a block of that round, and
has kept that value since. -/
theorem gapFillRounds_pixel (nlines nsamps : Nat) (cloud : Nat → Nat)
    (s : AotField × Nat × Nat) (p : Nat) :
    ∀ n,
      (((gapFillRound nlines nsamps cloud)^[n] s).1.taero p = s.1.taero p ∧
        ((gapFillRound nlines nsamps cloud)^[n] s).1.tresi p = s.1.tresi p) ∨
      (∃ k, k < n ∧
        Fillable cloud ((gapFillRound nlines nsamps cloud)^[k] s).1 p ∧
        ∃ b,
          b ∈ roundBlocks nlines nsamps
            ((gapFillRound nlines nsamps cloud)^[k] s).2.2 ∧
          p ∈ blockWindow nlines nsamps
            ((gapFillRound nlines nsamps cloud)^[k] s).2.2 b.1 b.2 ∧
          ((gapFillRound nlines nsamps cloud)^[n] s).1.taero p
            = blockAverage cloud ((gapFillRound nlines nsamps cloud)^[k] s).1
                (blockWindow nlines nsamps
                  ((gapFillRound nlines nsamps cloud)^[k] s).2.2 b.1 b.2) ∧
          ((gapFillRound nlines nsamps cloud)^[n] s).1.tresi p = 1) := by
  intro n
  induction n with
  | zero => exact Or.inl ⟨rfl, rfl⟩
  | succ n ih =>
    have e : (gapFillRound nlines nsamps cloud)^[n + 1] s
        = gapFillRound nlines nsamps cloud
            ((gapFillRound nlines nsamps cloud)^[n] s) :=
      Function.iterate_succ_apply' _ _ _
    have hround : (gapFillRound nlines nsamps cloud
          ((gapFillRound nlines nsamps cloud)^[n] s)).1
        = (gapFillSweep nlines nsamps
            ((gapFillRound nlines nsamps cloud)^[n] s).2.2 cloud
            ((gapFillRound nlines nsamps cloud)^[n] s).1).1 := rfl
    rw [e, hround]
    rcases gapFillSweep_pixel nlines nsamps
        ((gapFillRound nlines nsamps cloud)^[n] s).2.2 cloud
        ((gapFillRound nlines nsamps cloud)^[n] s).1 p with
      ⟨u1, u2⟩ | ⟨hf, b, hb1, hb2, v1, v2⟩
    · rcases ih with ⟨i1, i2⟩ | ⟨k, hk, hfk, b, hb1, hb2, v1, v2⟩
      · exact Or.inl ⟨u1.trans i1, u2.trans i2⟩
      · exact Or.inr ⟨k, by omega, hfk, b, hb1, hb2, u1.trans v1, u2.trans v2⟩
    · exact Or.inr ⟨n, by omega, hf, b, hb1, hb2, v1, v2⟩

/-- A pixel that is not fillable at entry keeps its values through any number
of rounds. -/
theorem gapFillRounds_not_fillable (nlines nsamps : Nat) (cloud : Nat → Nat)
    (s : AotField × Nat × Nat) (p : Nat) (hp : ¬ Fillable cloud s.1 p) :
    ∀ n,
      ((gapFillRound nlines nsamps cloud)^[n] s).1.taero p = s.1.taero p ∧
      ((gapFillRound nlines nsamps cloud)^[n] s).1.tresi p = s.1.tresi p := by
  intro n
  rcases gapFillRounds_pixel nlines nsamps cloud s p n with
    h | ⟨k, _, hfk, _⟩
  · exact h
  · exfalso
    rcases gapFillRounds_pixel nlines nsamps cloud s p k with
      ⟨_, i2⟩ | ⟨_, _, _, _, _, _, _, v2⟩
    · exact hp ((fillable_congr cloud s.1 _ p i2).mp hfk)
    · exact not_fillable_of_one cloud _ p v2 hfk

/-- C34: completeness of the aerosol interpolation. If the loop exits with
`hole == 0`, no pixel of the raster has `tresi < 0` while carrying none of
the cirrus, cloud and water bits. More precisely, for every raster pixel: a
pixel that had `tresi < 0` and none of the three bits at entry ends with
`tresi = 1` and with `taero` equal to the average of a block that holds it,
taken in the round (of size `10 * 2^k`, `k < 7`) that filled it; every other
pixel keeps its `taero` and `tresi`. -/
theorem gap_fill_complete (nlines nsamps : Nat) (cloud : Nat → Nat)
    (f : AotField)
    (h : (aerosolInterp nlines nsamps cloud f).2.1 = 0) :
    (∀ p, p < nlines * nsamps →
      ¬ ((aerosolInterp nlines nsamps cloud f).1.tresi p < 0 ∧
        btest (cloud p) CIR_QA = false ∧ btest (cloud p) CLD_QA = false ∧
        btest (cloud p) WAT_QA = false)) ∧
    (∀ p, p < nlines * nsamps →
      (f.tresi p < 0 ∧ btest (cloud p) CIR_QA = false ∧
        btest (cloud p) CLD_QA = false ∧ btest (cloud p) WAT_QA = false) →
      (aerosolInterp nlines nsamps cloud f).1.tresi p = 1 ∧
      ∃ k b, k < 7 ∧ b ∈ roundBlocks nlines nsamps (10 * 2 ^ k) ∧
        p ∈ blockWindow nlines nsamps (10 * 2 ^ k) b.1 b.2 ∧
        (aerosolInterp nlines nsamps cloud f).1.taero p
          = blockAverage cloud
              ((gapFillRound nlines nsamps cloud)^[k] (f, 1, 10)).1
              (blockWindow nlines nsamps (10 * 2 ^ k) b.1 b.2)) ∧
    (∀ p,
      ¬ (f.tresi p < 0 ∧ btest (cloud p) CIR_QA = false ∧
        btest (cloud p) CLD_QA = false ∧ btest (cloud p) WAT_QA = false) →
      (aerosolInterp nlines nsamps cloud f).1.taero p = f.taero p ∧
      (aerosolInterp nlines nsamps cloud f).1.tresi p = f.tresi p) := by
  have hfree : HoleFree nlines nsamps cloud
      (aerosolInterp nlines nsamps cloud f).1 := by
    rcases gapFillLoop_clean nlines nsamps cloud 7 f 1 10 (by decide) h with
      ⟨h1, _⟩ | h1
    · exact absurd h1 (by decide)
    · exact h1
  obtain ⟨n, hn, he, _, _⟩ := gapFillLoop_rounds nlines nsamps cloud 7 f 1 10
  have he' : aerosolInterp nlines nsamps cloud f
      = (gapFillRound nlines nsamps cloud)^[n] (f, 1, 10) := he
  refine ⟨hfree, ?_, ?_⟩
  · intro p hp hfill
    rcases gapFillRounds_pixel nlines nsamps cloud (f, 1, 10) p n with
      ⟨_, i2⟩ | ⟨k, hk, _, b, hb1, hb2, v1, v2⟩
    · exfalso
      rw [← he'] at i2
      exact hfree p hp
        ((fillable_congr cloud f _ p i2).mpr hfill)
    · rw [gapFillRound_step nlines nsamps cloud k (f, 1, 10)] at hb1 hb2 v1
      rw [← he'] at v1 v2
      exact ⟨v2, k, b, by omega, hb1, hb2, v1⟩
  · intro p hp
    rw [he']
    exact gapFillRounds_not_fillable nlines nsamps cloud (f, 1, 10) p hp n

/-- Witness for C34: in the scene of one line and three samples with a
retrieval at pixel 1 only, the loop exits with `hole == 0` and pixel 0, which
had a negative residual, ends with residual 1. -/
theorem gap_fill_complete_witness :
    (aerosolInterp 1 3 demoClearMask demoField).2.1 = 0 ∧
    (aerosolInterp 1 3 demoClearMask demoField).1.tresi 0 = 1 := by
  have hhole : (aerosolInterp 1 3 demoClearMask demoField).2.1 = 0 := by
    refine aerosolInterp_single_block 1 3 demoClearMask demoField (by decide)
      (by decide) ⟨1, by decide, ?_, rfl⟩
    norm_num [demoField]
  exact ⟨hhole, ((gap_fill_complete 1 3 demoClearMask demoField hhole).2.1 0
    (by decide)
    ⟨by norm_num [demoField], by decide, by decide, by decide⟩).1⟩

theorem foldl_fst_eq_mem {β : Type}
    (g : AotField × Nat → β → AotField × Nat) (f : AotField) (l : List β)
    (hg : ∀ st x, x ∈ l → st.1 = f → (g st x).1 = f) :
    ∀ st : AotField × Nat, st.1 = f → (l.foldl g st).1 = f := by
  induction l with
  | nil => intro st h; exact h
  | cons x xs ih =>
    intro st h
    rw [List.foldl_cons]
    exact ih (fun st y hy hst => hg st y (List.mem_cons_of_mem _ hy) hst) _
      (hg st x (List.mem_cons_self _ _) h)

/-- A block whose window holds no fillable pixel whenever it holds a
qualifying one leaves the field as it is. -/
theorem gapFillBlock_eq_of_no_pair (nlines nsamps step : Nat)
    (cloud : Nat → Nat) (i : Nat) (st : AotField × Nat) (j : Nat)
    (h : qualifyingPixels cloud st.1 (blockWindow nlines nsamps step i j) ≠ [] →
      ∀ p, p ∈ blockWindow nlines nsamps step i j → ¬ Fillable cloud st.1 p) :
    (gapFillBlock nlines nsamps step cloud i st j).1 = st.1 := by
  obtain ⟨h1, _, _⟩ := blockAccum_foldl cloud st.1
    (blockWindow nlines nsamps step i j) { nbaot := 0, aaot := 0, sresi := 0 }
  simp only [Nat.zero_add] at h1
  unfold gapFillBlock
  dsimp only
  split
  · rename_i hnb
    have hne : qualifyingPixels cloud st.1
        (blockWindow nlines nsamps step i j) ≠ [] := by
      intro hnil
      rw [h1, hnil] at hnb
      exact hnb rfl
    exact blockFill_foldl_eq cloud _ _ st.1 (h hne)
  · rfl

/-- A round of size `s` over a field without donor at size `S` changes
nothing, when the blocks of size `s` are nested in those of size `S`. -/
theorem gapFillSweep_eq_of_blocked (S s nlines nsamps : Nat)
    (cloud : Nat → Nat) (f : AotField)
    (hnest : ∀ i k k', i % s = 0 → i ≤ k → k < i + s → i ≤ k' → k' < i + s →
      k' / S = k / S)
    (hb : BlockedAt S nlines nsamps cloud f) :
    (gapFillSweep nlines nsamps s cloud f).1 = f := by
  unfold gapFillSweep
  refine foldl_fst_eq_mem _ f _ ?_ (f, 0) rfl
  intro st i hi hst
  refine foldl_fst_eq_mem _ f _ ?_ st hst
  intro st1 j hj hst1
  have hi0 := ((mem_strideRange nlines s i).mp hi).2
  have hj0 := ((mem_strideRange nsamps s j).mp hj).2
  rw [gapFillBlock_eq_of_no_pair nlines nsamps s cloud i st1 j]
  · exact hst1
  · rw [hst1]
    intro hne p hp hfill
    obtain ⟨q, hq, hqt, hqc⟩ := (qualifyingPixels_ne_nil cloud f _).mp hne
    obtain ⟨k, l, hk1, hk2, hk3, hl1, hl2, hl3, rfl⟩ :=
      (mem_blockWindow nlines nsamps s i j p).mp hp
    obtain ⟨k', l', hk1', hk2', hk3', hl1', hl2', hl3', rfl⟩ :=
      (mem_blockWindow nlines nsamps s i j q).mp hq
    exact hb k l k' l' hk3 hl3 hk3' hl3'
      (hnest i k k' hi0 hk1 hk2 hk1' hk2')
      (hnest j l l' hj0 hl1 hl2 hl1' hl2') hfill ⟨hqt, hqc⟩

/-- After a round of size `s`, no fillable raster pixel shares its block of
size `s` with a qualifying pixel. -/
theorem gapFillSweep_blocked (s nlines nsamps : Nat) (cloud : Nat → Nat)
    (f : AotField) (hs : 0 < s) :
    BlockedAt s nlines nsamps cloud (gapFillSweep nlines nsamps s cloud f).1 := by
  obtain ⟨_, s2⟩ := gapFillSweep_spec nlines nsamps s cloud f
  intro k l k' l' hk hl hk' hl' ek el hfill hqual
  have hmem : (s * (k / s), s * (l / s)) ∈ roundBlocks nlines nsamps s := by
    rw [mem_roundBlocks]
    constructor
    · rw [mem_strideRange]
      exact ⟨lt_of_le_of_lt (Nat.mul_div_le k s) hk, Nat.mul_mod_right _ _⟩
    · rw [mem_strideRange]
      exact ⟨lt_of_le_of_lt (Nat.mul_div_le l s) hl, Nat.mul_mod_right _ _⟩
  have hwin : ∀ a c, a < nlines → c < nsamps → a / s = k / s → c / s = l / s →
      a * nsamps + c
        ∈ blockWindow nlines nsamps s (s * (k / s)) (s * (l / s)) := by
    intro a c ha hc ea ec
    rw [mem_blockWindow]
    have h1 := Nat.div_add_mod a s
    have h2 := Nat.mod_lt a hs
    have h3 := Nat.div_add_mod c s
    have h4 := Nat.mod_lt c hs
    rw [ea] at h1
    rw [ec] at h3
    exact ⟨a, c, by omega, by omega, ha, by omega, by omega, hc, rfl⟩
  have hp := hwin k l hk hl rfl rfl
  have hq := hwin k' l' hk' hl' ek el
  obtain ⟨r1, r2⟩ := s2 _ hmem _ hp
  obtain ⟨t1, t2⟩ := s2 _ hmem _ hq
  by_cases hne : qualifyingPixels cloud f
      (blockWindow nlines nsamps s (s * (k / s)) (s * (l / s))) = []
  · have eq := (t2 hne).2
    have hq0 : Qualifying cloud f (k' * nsamps + l') := by
      unfold Qualifying at hqual ⊢
      rw [← eq]
      exact hqual
    have : k' * nsamps + l' ∈ qualifyingPixels cloud f
        (blockWindow nlines nsamps s (s * (k / s)) (s * (l / s))) :=
      (mem_qualifyingPixels cloud f _ _).mpr ⟨hq, hq0.1, hq0.2⟩
    rw [hne] at this
    cases this
  · by_cases hf0 : Fillable cloud f (k * nsamps + l)
    · exact not_fillable_of_one cloud _ _ ((r1 hne).1 hf0).2 hfill
    · exact hf0 ((fillable_congr cloud f _ _ ((r1 hne).2 hf0).2).mp hfill)

theorem nest_in_640 (k : Nat) (hk : k ≤ 6) :
    ∀ i a a', i % (10 * 2 ^ k) = 0 → i ≤ a → a < i + 10 * 2 ^ k → i ≤ a' →
      a' < i + 10 * 2 ^ k → a' / 640 = a / 640 := by
  interval_cases k <;> norm_num <;> intro i a a' h0 h1 h2 h3 h4 <;> omega

/-- Without donor at size 640 the loop changes nothing, whatever the hole
count and the block size `10 * 2^k` it is entered with. -/
theorem gapFillLoop_eq_of_blocked (nlines nsamps : Nat) (cloud : Nat → Nat)
    (f : AotField) (hb : BlockedAt 640 nlines nsamps cloud f) (fuel : Nat) :
    ∀ (k hole : Nat),
      (gapFillLoop nlines nsamps cloud fuel f hole (10 * 2 ^ k)).1 = f := by
  induction fuel with
  | zero => intro k hole; rfl
  | succ n ih =>
    intro k hole
    by_cases hc : hole ≠ 0 ∧ 10 * 2 ^ k < 1000
    · have hk : k ≤ 6 := by
        by_contra hk
        have h7 : (2 : Nat) ^ 7 ≤ 2 ^ k :=
          Nat.pow_le_pow_right (by decide) (by omega)
        have : (2 : Nat) ^ 7 = 128 := by decide
        omega
      have hsweep := gapFillSweep_eq_of_blocked 640 (10 * 2 ^ k) nlines nsamps
        cloud f (nest_in_640 k hk) hb
      have e1 : gapFillLoop nlines nsamps cloud (n + 1) f hole (10 * 2 ^ k)
          = gapFillLoop nlines nsamps cloud n
              (gapFillSweep nlines nsamps (10 * 2 ^ k) cloud f).1
              (gapFillSweep nlines nsamps (10 * 2 ^ k) cloud f).2
              (10 * 2 ^ k * 2) := by
        rw [gapFillLoop, if_pos hc]
      have e2 : 10 * 2 ^ k * 2 = 10 * 2 ^ (k + 1) := by
        rw [pow_succ]
        ring
      rw [e1, hsweep, e2]
      exact ih (k + 1) _
    · rw [gapFillLoop, if_neg hc]

theorem holeFree_blocked (S nlines nsamps : Nat) (cloud : Nat → Nat)
    (f : AotField) (h : HoleFree nlines nsamps cloud f) :
    BlockedAt S nlines nsamps cloud f := by
  intro k l k' l' hk hl _ _ _ _ hfill _
  have h1 : (k + 1) * nsamps ≤ nlines * nsamps :=
    Nat.mul_le_mul_right nsamps hk
  have h2 : (k + 1) * nsamps = k * nsamps + nsamps := Nat.succ_mul k nsamps
  exact h (k * nsamps + l) (by omega) hfill

/-- The field left by the aerosol interpolation has no donor at size 640:
either the loop ended with `hole == 0` and no fillable pixel is left, or it
ran its seventh round, of size 640, and every fillable pixel left sits in a
block of that round without qualifying pixel. -/
theorem aerosolInterp_blocked (nlines nsamps : Nat) (cloud : Nat → Nat)
    (f : AotField) :
    BlockedAt 640 nlines nsamps cloud (aerosolInterp nlines nsamps cloud f).1 ∧
    ((aerosolInterp nlines nsamps cloud f).2.1 ≠ 0 →
      aerosolInterp nlines nsamps cloud f
        = (gapFillRound nlines nsamps cloud)^[7] (f, 1, 10)) := by
  by_cases h0 : (aerosolInterp nlines nsamps cloud f).2.1 = 0
  · refine ⟨?_, fun h => absurd h0 h⟩
    apply holeFree_blocked
    rcases gapFillLoop_clean nlines nsamps cloud 7 f 1 10 (by decide) h0 with
      ⟨h1, _⟩ | h1
    · exact absurd h1 (by decide)
    · exact h1
  · obtain ⟨n, hn, he, _, hexit⟩ :=
      gapFillLoop_rounds nlines nsamps cloud 7 f 1 10
    have he' : aerosolInterp nlines nsamps cloud f
        = (gapFillRound nlines nsamps cloud)^[n] (f, 1, 10) := he
    have hn7 : n = 7 := by
      by_contra hne
      have hlt : n < 7 := by omega
      have hx := hexit hlt
      rw [gapFillRound_step nlines nsamps cloud n (f, 1, 10)] at hx
      rw [← he'] at hx
      apply hx
      refine ⟨h0, ?_⟩
      have hle : (2 : Nat) ^ n ≤ 2 ^ 6 :=
        Nat.pow_le_pow_right (by decide) (by omega)
      have : (2 : Nat) ^ 6 = 64 := by decide
      show 10 * 2 ^ n < 1000
      omega
    subst hn7
    refine ⟨?_, fun _ => he'⟩
    rw [he']
    have e : (gapFillRound nlines nsamps cloud)^[7] (f, 1, 10)
        = gapFillRound nlines nsamps cloud
            ((gapFillRound nlines nsamps cloud)^[6] (f, 1, 10)) :=
      Function.iterate_succ_apply' _ _ _
    have hstep := gapFillRound_step nlines nsamps cloud 6 (f, 1, 10)
    have h640 : ((gapFillRound nlines nsamps cloud)^[6] (f, 1, 10)).2.2
        = 640 := by
      rw [hstep]
      show 10 * 2 ^ 6 = 640
      decide
    have hfield : (gapFillRound nlines nsamps cloud
          ((gapFillRound nlines nsamps cloud)^[6] (f, 1, 10))).1
        = (gapFillSweep nlines nsamps 640 cloud
            ((gapFillRound nlines nsamps cloud)^[6] (f, 1, 10)).1).1 := by
      unfold gapFillRound
      dsimp only
      rw [show ((fun s : AotField × Nat × Nat =>
          ((gapFillSweep nlines nsamps s.2.2 cloud s.1).1,
            (gapFillSweep nlines nsamps s.2.2 cloud s.1).2, s.2.2 * 2))^[6]
          (f, 1, 10)).2.2 = 640 from h640]
    rw [e, hfield]
    exact gapFillSweep_blocked 640 nlines nsamps cloud _ (by decide)

/-- C33: the aerosol interpolation is idempotent for every input. For every
raster size, mask and field, running the loop on the field it produced gives
the same `taero` and `tresi` again. This includes the runs that stop at the
size cap with hole blocks remaining: such a run has made seven rounds, the
last one of size 640, and every pixel still fillable in its result sits in a
block of size 640 without qualifying pixel, hence in blocks without
qualifying pixel at every smaller size. -/
theorem gap_fill_idempotent (nlines nsamps : Nat) (cloud : Nat → Nat)
    (f : AotField) :
    (aerosolInterp nlines nsamps cloud
        (aerosolInterp nlines nsamps cloud f).1).1
      = (aerosolInterp nlines nsamps cloud f).1 ∧
    (∀ p,
      (aerosolInterp nlines nsamps cloud
          (aerosolInterp nlines nsamps cloud f).1).1.taero p
        = (aerosolInterp nlines nsamps cloud f).1.taero p ∧
      (aerosolInterp nlines nsamps cloud
          (aerosolInterp nlines nsamps cloud f).1).1.tresi p
        = (aerosolInterp nlines nsamps cloud f).1.tresi p) ∧
    ((aerosolInterp nlines nsamps cloud f).2.1 ≠ 0 →
      aerosolInterp nlines nsamps cloud f
        = (gapFillRound nlines nsamps cloud)^[7] (f, 1, 10) ∧
      ∀ k l k' l', k < nlines → l < nsamps → k' < nlines → l' < nsamps →
        k' / 640 = k / 640 → l' / 640 = l / 640 →
        ((aerosolInterp nlines nsamps cloud f).1.tresi (k * nsamps + l) < 0 ∧
          btest (cloud (k * nsamps + l)) CIR_QA = false ∧
          btest (cloud (k * nsamps + l)) CLD_QA = false ∧
          btest (cloud (k * nsamps + l)) WAT_QA = false) →
        ¬ ((aerosolInterp nlines nsamps cloud f).1.tresi (k' * nsamps + l') > 0 ∧
          cloud (k' * nsamps + l') = 0)) := by
  obtain ⟨hb, h7⟩ := aerosolInterp_blocked nlines nsamps cloud f
  have key : (aerosolInterp nlines nsamps cloud
      (aerosolInterp nlines nsamps cloud f).1).1
      = (aerosolInterp nlines nsamps cloud f).1 :=
    gapFillLoop_eq_of_blocked nlines nsamps cloud _ hb 7 0 1
  refine ⟨key, ?_, ?_⟩
  · intro p
    rw [key]
    exact ⟨rfl, rfl⟩
  · intro hne
    exact ⟨h7 hne, hb⟩


/-! ### Retrievals and cloud flags exclude each other -/

/-- After the auxiliary pass entered with zero mask and zero residuals, a
pixel with a positive residual has the mask byte 0 or 128: it went through
the retrieval branch, not through the cirrus branch. -/
theorem auxPass_exclusive (c : Consts) (g : GridConsts) (env : AuxEnv)
    (t : AuxTables) (qaband : Nat → Nat) (sband aerob : Nat → Nat → Int)
    (nlines nsamps : Nat) (st out : AuxState) (hz : ∀ p, st.cloud p = 0)
    (hr : ∀ p, st.tresi p = 0)
    (h : auxPass c g env t qaband sband aerob nlines nsamps st = some out)
    (p : Nat) (hp : out.tresi p > 0) :
    out.cloud p = 0 ∨ out.cloud p = 128 := by
  by_cases hout : nlines * nsamps ≤ p ∨ qaband p = 1
  · have e := (auxPass_untouched c g env t qaband sband aerob nlines nsamps st
      out p hout h).1
    rw [e, hz p]
    exact Or.inl rfl
  · have hlt : p < nlines * nsamps := by
      by_contra hc
      exact hout (Or.inl (by omega))
    have hq : qaband p ≠ 1 := fun e => hout (Or.inr e)
    have hns : 0 < nsamps := by
      rcases Nat.eq_zero_or_pos nsamps with h0 | h0
      · rw [h0, Nat.mul_zero] at hlt
        omega
      · exact h0
    have hidx : p / nsamps * nsamps + p % nsamps = p := Nat.div_add_mod' p nsamps
    have hi : p / nsamps < nlines := (Nat.div_lt_iff_lt_mul hns).mpr hlt
    have hj : p % nsamps < nsamps := Nat.mod_lt p hns
    obtain ⟨geo, _, _, _, hcloud, hcases⟩ := auxPass_pixel c g env t qaband
      sband aerob nlines nsamps st out (p / nsamps) (p % nsamps) hi hj
      (by rw [hidx]; exact hq) (by rw [hidx]; exact hz p) h
    rw [hidx] at hcloud hcases
    rcases hcases with ⟨_, _, htr⟩ | ⟨hnc, _⟩ | ⟨hnc, _⟩
    · exfalso
      rw [htr, hr p] at hp
      split_ifs at hp
      · exact absurd hp (lt_irrefl _)
      · exact absurd hp (by norm_num)
    · rw [hcloud, if_neg hnc]
      split_ifs
      · exact Or.inl rfl
      · exact Or.inr rfl
    · rw [hcloud, if_neg hnc]
      split_ifs
      · exact Or.inl rfl
      · exact Or.inr rfl

theorem addsOnce_other_bit (add : Nat) (m n : Nat → Nat)
    (h : AddsOnce add m n) (p b : Nat) (hb : Nat.testBit add b = false) :
    btest (n p) b = btest (m p) b := by
  rcases h p with e | ⟨hc, e⟩
  · rw [e]
  · rw [e]
    unfold btest
    rw [hc.2.1, Nat.testBit_lor, hb, Bool.or_false]

/-- The passes after the cloud test leave the cirrus and cloud bits of every
byte as the cloud test left them. -/
theorem mask_chain_low_bits (c : Consts) (nlines nsamps : Nat)
    (sband : Nat → Nat → Int) (tresi : Nat → ℚ) (facl fack mclear : ℚ)
    (m1 m2 m3 m4 m5 m6 : Nat → Nat) (hseed : ∀ p, SubMask 129 (m1 p))
    (h2 : m2 = cloudTestPass c sband tresi mclear (nlines * nsamps) m1)
    (h3 : m3 = adjacencyPass nlines nsamps m2)
    (h4 : m4 = shadowCastPass c nlines nsamps sband facl fack mclear m3)
    (h5 : m5 = shadowExpandPass nlines nsamps tresi m4)
    (h6 : m6 = shadowUpdatePass (nlines * nsamps) m5) (p b : Nat)
    (hb : b = CIR_QA ∨ b = CLD_QA) :
    btest (m3 p) b = btest (m2 p) b ∧ btest (m4 p) b = btest (m2 p) b ∧
    btest (m5 p) b = btest (m2 p) b ∧ btest (m6 p) b = btest (m2 p) b := by
  obtain ⟨⟨_, a3, a4, a5⟩, ⟨_, _, _, b5⟩, b6⟩ := mask_chain c nlines nsamps
    sband tresi facl fack mclear m1 m2 m3 m4 m5 m6 hseed h2 h3 h4 h5 h6
  have e3 : btest (m3 p) b = btest (m2 p) b :=
    addsOnce_other_bit 4 m2 m3 a3 p b (by rcases hb with rfl | rfl <;> decide)
  have e4 : btest (m4 p) b = btest (m3 p) b :=
    addsOnce_other_bit 8 m3 m4 a4 p b (by rcases hb with rfl | rfl <;> decide)
  have e5 : btest (m5 p) b = btest (m4 p) b :=
    addsOnce_other_bit 16 m4 m5 a5 p b (by rcases hb with rfl | rfl <;> decide)
  have e6 : btest (m6 p) b = btest (m5 p) b := by
    by_cases ht : btest (m5 p) CLDT_QA = true
    · obtain ⟨hs, hp⟩ := (b5 p).2 ht
      have hv := subMask_lt 159 _ (by decide) (b5 p).1
      have e : m6 p = (m5 p + 248) % 256 := by
        rw [h6, shadowUpdatePass_apply, if_pos ⟨hp, ht⟩]
      rw [e]
      exact (sub8_bits (m5 p) hv ht hs).2.2 b
        (by rcases hb with rfl | rfl <;> decide)
        (by rcases hb with rfl | rfl <;> decide)
    · have ht' : btest (m5 p) CLDT_QA = false := by
        cases hbb : btest (m5 p) CLDT_QA
        · rfl
        · exact absurd hbb ht
      rw [(b6 p).1 ht']
  exact ⟨e3, e4.trans e3, e5.trans (e4.trans e3),
    e6.trans (e5.trans (e4.trans e3))⟩

theorem cloudTestPass_exclusive (c : Consts) (sband : Nat → Nat → Int)
    (tresi : Nat → ℚ) (mclear : ℚ) (npix : Nat) (m : Nat → Nat)
    (h : Exclusive m tresi) :
    Exclusive (cloudTestPass c sband tresi mclear npix m) tresi := by
  intro p hp
  have e : cloudTestPass c sband tresi mclear npix m p = m p := by
    rw [cloudTestPass_apply, if_neg]
    rintro ⟨_, hct⟩
    have := hct.1
    linarith
  rw [e]
  exact h p hp

theorem blockFill_exclusive (cloud : Nat → Nat) (aaot : ℚ) (f : AotField)
    (w : Nat) (h : Exclusive cloud f.tresi) :
    Exclusive cloud (blockFill cloud aaot f w).tresi := by
  intro p hp
  by_cases hw : Fillable cloud f w
  · have hf : blockFill cloud aaot f w
        = { taero := Function.update f.taero w aaot
            tresi := Function.update f.tresi w 1 } := by
      have hw1 := hw
      unfold Fillable at hw1
      unfold blockFill
      rw [if_pos hw1]
    by_cases hpw : p = w
    · subst hpw
      exact ⟨hw.2.1, hw.2.2.1⟩
    · rw [hf] at hp
      have e : Function.update f.tresi w 1 p = f.tresi p :=
        Function.update_noteq hpw _ _
      have hp' : f.tresi p > 0 := by
        rw [← e]
        exact hp
      exact h p hp'
  · have hf : blockFill cloud aaot f w = f := by
      have hw1 := hw
      unfold Fillable at hw1
      unfold blockFill
      rw [if_neg hw1]
    rw [hf] at hp
    exact h p hp

theorem gapFillSweep_exclusive (nlines nsamps step : Nat) (cloud : Nat → Nat)
    (f : AotField) (h : Exclusive cloud f.tresi) :
    Exclusive cloud (gapFillSweep nlines nsamps step cloud f).1.tresi := by
  have hblock : ∀ i (st : AotField × Nat) j, Exclusive cloud st.1.tresi →
      Exclusive cloud (gapFillBlock nlines nsamps step cloud i st j).1.tresi := by
    intro i st j hst
    unfold gapFillBlock
    dsimp only
    split
    · exact foldl_inv (fun f : AotField => Exclusive cloud f.tresi) _
        (fun f w hf => blockFill_exclusive cloud _ f w hf) _ st.1 hst
    · exact hst
  unfold gapFillSweep
  refine foldl_inv (fun st : AotField × Nat => Exclusive cloud st.1.tresi) _ ?_
    (strideRange nlines step) (f, 0) h
  intro st i hst
  exact foldl_inv (fun st : AotField × Nat => Exclusive cloud st.1.tresi) _
    (fun s j hs => hblock i s j hs) (strideRange nsamps step) st hst

theorem gapFillRounds_exclusive (nlines nsamps : Nat) (cloud : Nat → Nat)
    (s : AotField × Nat × Nat) (h : Exclusive cloud s.1.tresi) :
    ∀ k, Exclusive cloud ((gapFillRound nlines nsamps cloud)^[k] s).1.tresi := by
  intro k
  induction k with
  | zero => exact h
  | succ n ih =>
    rw [Function.iterate_succ_apply']
    exact gapFillSweep_exclusive nlines nsamps _ cloud _ ih

theorem aerosolInterp_exclusive (nlines nsamps : Nat) (cloud : Nat → Nat)
    (f : AotField) (h : Exclusive cloud f.tresi) :
    Exclusive cloud (aerosolInterp nlines nsamps cloud f).1.tresi := by
  obtain ⟨n, _, he, _, _⟩ := gapFillLoop_rounds nlines nsamps cloud 7 f 1 10
  have he' : aerosolInterp nlines nsamps cloud f
      = (gapFillRound nlines nsamps cloud)^[n] (f, 1, 10) := he
  rw [he']
  exact gapFillRounds_exclusive nlines nsamps cloud (f, 1, 10) h n

set_option maxRecDepth 100000 in
theorem low_bits_byte_facts : ∀ v, v < 256 →
    (btest ((v + 4) % 256) CIR_QA = btest v CIR_QA ∧
      btest ((v + 4) % 256) CLD_QA = btest v CLD_QA) ∧
    (btest ((v + 8) % 256) CIR_QA = btest v CIR_QA ∧
      btest ((v + 8) % 256) CLD_QA = btest v CLD_QA) ∧
    (btest ((v + 16) % 256) CIR_QA = btest v CIR_QA ∧
      btest ((v + 16) % 256) CLD_QA = btest v CLD_QA) ∧
    (btest ((v + 248) % 256) CIR_QA = btest v CIR_QA ∧
      btest ((v + 248) % 256) CLD_QA = btest v CLD_QA) := by
  decide

/-- Each single store of the passes that follow the cloud test leaves the
cirrus and cloud bits of every byte as they were. -/
theorem mask_steps_keep_low_bits (c : Consts) (nlines nsamps : Nat)
    (sband : Nat → Nat → Int) (tresi : Nat → ℚ) (facl fack : ℚ)
    (cur : Nat → Nat) (hbyte : ∀ q, cur q < 256) (p b : Nat)
    (hb : b = CIR_QA ∨ b = CLD_QA) :
    (∀ k l, btest (dilateCell nsamps adjTarget 4 k cur l p) b
      = btest (cur p) b) ∧
    (∀ k l, btest (dilateCell nsamps (shadowTarget tresi) 16 k cur l p) b
      = btest (cur p) b) ∧
    (∀ mclear i j,
      btest (shadowCastPixel c nlines nsamps sband facl fack mclear i cur j p) b
        = btest (cur p) b) ∧
    (∀ i, btest (shadowUpdatePixel cur i p) b = btest (cur p) b) := by
  obtain ⟨f4, f8, f16, f248⟩ := low_bits_byte_facts (cur p) (hbyte p)
  refine ⟨?_, ?_, ?_, ?_⟩
  · intro k l
    rcases dilateCell_once nsamps adjTarget 4 k cur l p with e | ⟨_, e⟩
    · rw [e]
    · rw [e]
      rcases hb with rfl | rfl
      · exact f4.1
      · exact f4.2
  · intro k l
    rcases dilateCell_once nsamps (shadowTarget tresi) 16 k cur l p with
      e | ⟨_, e⟩
    · rw [e]
    · rw [e]
      rcases hb with rfl | rfl
      · exact f16.1
      · exact f16.2
  · intro mclear i j
    rcases shadowCastPixel_once c nlines nsamps sband facl fack mclear i j cur
        hbyte p with e | ⟨hclear, e⟩
    · rw [e]
    · have hlt := (add8_byte_facts (cur p) (hbyte p) hclear).1
      rw [e, ← Nat.mod_eq_of_lt hlt]
      rcases hb with rfl | rfl
      · exact f8.1
      · exact f8.2
  · intro i
    unfold shadowUpdatePixel
    split
    · by_cases e : p = i
      · subst e
        rw [Function.update_same]
        rcases hb with rfl | rfl
        · exact f248.1
        · exact f248.2
      · rw [Function.update_noteq e]
    · rfl

theorem cloudTestPixel_exclusive (c : Consts) (sband : Nat → Nat → Int)
    (tresi : Nat → ℚ) (mclear : ℚ) (cur : Nat → Nat) (i : Nat)
    (h : Exclusive cur tresi) :
    Exclusive (cloudTestPixel c sband tresi mclear cur i) tresi := by
  intro p hp
  unfold cloudTestPixel
  split
  · rename_i hneg
    split
    · have e : p ≠ i := by
        intro e
        rw [e] at hp
        linarith
      rw [Function.update_noteq e]
      exact h p hp
    · exact h p hp
  · exact h p hp

/-- C31: retrievals and cloud flags exclude each other. With the mask and the
residuals zero at entry of the auxiliary pass, let `a` be the state after the
auxiliary pass and `m2` to `m6` the masks after the cloud test, the adjacency
pass, the shadow casting, the shadow expansion and the shadow update. Then
after the auxiliary pass, after each of these passes, after every round of
the aerosol interpolation and at its end, every pixel with `tresi > 0`
carries neither the cirrus nor the cloud bit. Inside the passes: an
iteration of the cloud test keeps this property, each single store of the
adjacency pass, the shadow casting, the shadow expansion and the shadow
update leaves the cirrus and cloud bits of every byte as they were, and each
single fill of the interpolation keeps the property. The final pass never changes the cirrus
and cloud bits, so in every state whose cirrus and cloud bits are those of
`m6` the guard `tresi > 0 && !cirrus && !cloud` holds for exactly the pixels
with `tresi > 0`. -/
theorem retrieval_cloud_exclusive (c : Consts) (g : GridConsts) (env : AuxEnv)
    (t : AuxTables) (qaband : Nat → Nat) (sband aerob : Nat → Nat → Int)
    (nlines nsamps : Nat) (st a : AuxState) (facl fack : ℚ)
    (m2 m3 m4 m5 m6 : Nat → Nat)
    (hzero : ∀ p, st.cloud p = 0) (hres : ∀ p, st.tresi p = 0)
    (haux : auxPass c g env t qaband sband aerob nlines nsamps st = some a)
    (h2 : m2 = cloudTestPass c sband a.tresi
      (meanClearTemp c qaband sband a.cloud (nlines * nsamps))
      (nlines * nsamps) a.cloud)
    (h3 : m3 = adjacencyPass nlines nsamps m2)
    (h4 : m4 = shadowCastPass c nlines nsamps sband facl fack
      (meanClearTemp c qaband sband a.cloud (nlines * nsamps)) m3)
    (h5 : m5 = shadowExpandPass nlines nsamps a.tresi m4)
    (h6 : m6 = shadowUpdatePass (nlines * nsamps) m5) :
    (Exclusive a.cloud a.tresi ∧ Exclusive m2 a.tresi ∧
      Exclusive m3 a.tresi ∧ Exclusive m4 a.tresi ∧ Exclusive m5 a.tresi ∧
      Exclusive m6 a.tresi) ∧
    (∀ (cur : Nat → Nat) (mclear : ℚ) (i : Nat), Exclusive cur a.tresi →
      Exclusive (cloudTestPixel c sband a.tresi mclear cur i) a.tresi) ∧
    (∀ cur : Nat → Nat, (∀ q, cur q < 256) → ∀ p b,
      (b = CIR_QA ∨ b = CLD_QA) →
      (∀ k l, btest (dilateCell nsamps adjTarget 4 k cur l p) b
        = btest (cur p) b) ∧
      (∀ k l, btest (dilateCell nsamps (shadowTarget a.tresi) 16 k cur l p) b
        = btest (cur p) b) ∧
      (∀ mclear i j,
        btest (shadowCastPixel c nlines nsamps sband facl fack mclear i cur j
          p) b = btest (cur p) b) ∧
      (∀ i, btest (shadowUpdatePixel cur i p) b = btest (cur p) b)) ∧
    (∀ k, Exclusive m6
      ((gapFillRound nlines nsamps m6)^[k]
        ({ taero := a.taero, tresi := a.tresi }, 1, 10)).1.tresi) ∧
    (∀ (f : AotField) (aaot : ℚ) (w : Nat), Exclusive m6 f.tresi →
      Exclusive m6 (blockFill m6 aaot f w).tresi) ∧
    Exclusive m6
      (aerosolInterp nlines nsamps m6
        { taero := a.taero, tresi := a.tresi }).1.tresi ∧
    (∀ (atmcorlamb2 : ℚ → Nat → ℚ → ℚ → ℚ → ℚ → Option AtmCorr)
        (inp : FinalInputs) (ib : Nat) (s s1 : FinalPass) (i q : Nat),
      finalPixel c atmcorlamb2 qaband inp ib s i = some s1 →
      btest (s1.cloud q) CIR_QA = btest (s.cloud q) CIR_QA ∧
      btest (s1.cloud q) CLD_QA = btest (s.cloud q) CLD_QA) ∧
    (∀ s : FinalPass,
      (∀ q, btest (s.cloud q) CIR_QA = btest (m6 q) CIR_QA ∧
        btest (s.cloud q) CLD_QA = btest (m6 q) CLD_QA) →
      ∀ i,
        (((aerosolInterp nlines nsamps m6
              { taero := a.taero, tresi := a.tresi }).1.tresi i > 0 ∧
            btest (s.cloud i) CIR_QA = false ∧
            btest (s.cloud i) CLD_QA = false) ↔
          (aerosolInterp nlines nsamps m6
            { taero := a.taero, tresi := a.tresi }).1.tresi i > 0)) := by
  have hseed : ∀ p, SubMask 129 (a.cloud p) := fun p =>
    (auxPass_cloud_bytes c g env t qaband sband aerob nlines nsamps st a hzero
      haux p).2
  have e1 : Exclusive a.cloud a.tresi := by
    intro p hp
    rcases auxPass_exclusive c g env t qaband sband aerob nlines nsamps st a
        hzero hres haux p hp with e | e
    · rw [e]
      exact ⟨by decide, by decide⟩
    · rw [e]
      exact ⟨by decide, by decide⟩
  have e2 : Exclusive m2 a.tresi := by
    rw [h2]
    exact cloudTestPass_exclusive c sband a.tresi _ _ a.cloud e1
  have hlow := mask_chain_low_bits c nlines nsamps sband a.tresi facl fack
    (meanClearTemp c qaband sband a.cloud (nlines * nsamps)) a.cloud m2 m3 m4
    m5 m6 hseed h2 h3 h4 h5 h6
  have e3 : Exclusive m3 a.tresi := by
    intro p hp
    rw [(hlow p CIR_QA (Or.inl rfl)).1, (hlow p CLD_QA (Or.inr rfl)).1]
    exact e2 p hp
  have e4 : Exclusive m4 a.tresi := by
    intro p hp
    rw [(hlow p CIR_QA (Or.inl rfl)).2.1, (hlow p CLD_QA (Or.inr rfl)).2.1]
    exact e2 p hp
  have e5 : Exclusive m5 a.tresi := by
    intro p hp
    rw [(hlow p CIR_QA (Or.inl rfl)).2.2.1, (hlow p CLD_QA (Or.inr rfl)).2.2.1]
    exact e2 p hp
  have e6 : Exclusive m6 a.tresi := by
    intro p hp
    rw [(hlow p CIR_QA (Or.inl rfl)).2.2.2, (hlow p CLD_QA (Or.inr rfl)).2.2.2]
    exact e2 p hp
  have eend := aerosolInterp_exclusive nlines nsamps m6
    { taero := a.taero, tresi := a.tresi } e6
  refine ⟨⟨e1, e2, e3, e4, e5, e6⟩,
    fun cur mclear i hcur =>
      cloudTestPixel_exclusive c sband a.tresi mclear cur i hcur,
    fun cur hcur p b hb =>
      mask_steps_keep_low_bits c nlines nsamps sband a.tresi facl fack cur hcur
        p b hb,
    ?_, ?_, eend, ?_, ?_⟩
  · exact gapFillRounds_exclusive nlines nsamps m6
      ({ taero := a.taero, tresi := a.tresi }, 1, 10) e6
  · intro f aaot w hf
    exact blockFill_exclusive m6 aaot f w hf
  · intro atmcorlamb2 inp ib s s1 i q hs
    exact ⟨finalPixel_low_bits c atmcorlamb2 qaband inp ib s s1 i q CIR_QA
        (by decide) hs,
      finalPixel_low_bits c atmcorlamb2 qaband inp ib s s1 i q CLD_QA
        (by decide) hs⟩
  · intro s hs i
    constructor
    · intro hh
      exact hh.1
    · intro hpos
      obtain ⟨x1, x2⟩ := eend i hpos
      exact ⟨hpos, (hs i).1.trans x1, (hs i).2.trans x2⟩

/-- Witness for C31: the scene of one line and two samples over land whose
pixel 1 goes through the aerosol retrieval, entered with zero mask and zero
residuals; the auxiliary pass completes and the mask after the shadow update
is exclusive with the residuals at the end of the aerosol interpolation. -/
theorem retrieval_cloud_exclusive_witness :
    ∃ a,
      auxPass l8 cmg demoAuxEnv demoLandTables demoQa demoAuxBands
        demoAerob 1 2 demoAuxState = some a ∧
      Exclusive a.cloud a.tresi ∧
      Exclusive
        (refineCloudMask l8 demoQa 1 2 demoAuxBands a.tresi 0 (1 / 30)
          a.cloud)
        (aerosolInterp 1 2
          (refineCloudMask l8 demoQa 1 2 demoAuxBands a.tresi 0 (1 / 30)
            a.cloud)
          { taero := a.taero, tresi := a.tresi }).1.tresi := by
  obtain ⟨a, ha⟩ := demo_auxPass_success demoLandTables demoAuxBands
  have key := retrieval_cloud_exclusive l8 cmg demoAuxEnv demoLandTables
    demoQa demoAuxBands demoAerob 1 2 demoAuxState a 0 (1 / 30) _ _ _ _
    (refineCloudMask l8 demoQa 1 2 demoAuxBands a.tresi 0 (1 / 30) a.cloud)
    (fun _ => rfl) (fun _ => rfl) ha rfl rfl rfl rfl rfl
  exact ⟨a, ha, key.1.1, key.2.2.2.2.2.1⟩

/-! ### The neighbourhood passes stay inside the raster -/

theorem foldl_inv_mem {σ β : Type} (P : σ → Prop) (f : σ → β → σ)
    (l : List β) (h : ∀ s x, x ∈ l → P s → P (f s x)) :
    ∀ s : σ, P s → P (l.foldl f s) := by
  induction l with
  | nil => intro s hs; exact hs
  | cons x l ih =>
    intro s hs
    rw [List.foldl_cons]
    exact ih (fun s y hy hp => h s y (List.mem_cons_of_mem _ hy) hp) _
      (h s x (List.mem_cons_self _ _) hs)

theorem foldl_rel {σ τ β : Type} (R : σ → τ → Prop) (f : σ → β → σ)
    (g : τ → β → τ) (l : List β)
    (h : ∀ s s' x, x ∈ l → R s s' → R (f s x) (g s' x)) :
    ∀ (s : σ) (s' : τ), R s s' → R (l.foldl f s) (l.foldl g s') := by
  induction l with
  | nil => intro s s' hs; exact hs
  | cons x l ih =>
    intro s s' hs
    rw [List.foldl_cons, List.foldl_cons]
    exact ih (fun s s' y hy hr => h s s' y (List.mem_cons_of_mem _ hy) hr) _ _
      (h s s' x (List.mem_cons_self _ _) hs)

theorem pixel_lt (nlines nsamps k l : Nat) (hk : k < nlines) (hl : l < nsamps) :
    k * nsamps + l < nlines * nsamps := by
  have h1 : (k + 1) * nsamps ≤ nlines * nsamps :=
    Nat.mul_le_mul_right nsamps hk
  have h2 : (k + 1) * nsamps = k * nsamps + nsamps := Nat.succ_mul k nsamps
  omega

/-- The index of a window cell that passes the two validity tests of a
dilation pass lies in the raster. -/
theorem window_index_lt (nlines nsamps : Nat) (k l : Int)
    (hk : ¬ (k < 0 ∨ k ≥ (nlines : Int)))
    (hl : ¬ (l < 0 ∨ l ≥ (nsamps : Int))) :
    k.toNat * nsamps + l.toNat < nlines * nsamps := by
  apply pixel_lt <;> omega

theorem dilateCell_frame (nlines nsamps : Nat) (tgt : Nat → Nat → Bool)
    (add k : Nat) (hk : k < nlines) (c : Nat → Nat) (l : Int) (q : Nat)
    (hq : nlines * nsamps ≤ q) : dilateCell nsamps tgt add k c l q = c q := by
  by_cases hl : l < 0 ∨ l ≥ (nsamps : Int)
  · unfold dilateCell
    rw [if_pos hl]
  · rw [dilateCell_apply nsamps tgt add k c l (by omega) (by omega) q]
    rw [if_neg]
    rintro ⟨e, _⟩
    have := pixel_lt nlines nsamps k l.toNat hk (by omega)
    omega

theorem dilateCell_local (nlines nsamps : Nat) (tgt tgt' : Nat → Nat → Bool)
    (htgt : ∀ p, p < nlines * nsamps → ∀ v, tgt p v = tgt' p v)
    (add k : Nat) (hk : k < nlines) (c c' : Nat → Nat) (l : Int)
    (h : SameOnRaster (nlines * nsamps) c c') :
    SameOnRaster (nlines * nsamps) (dilateCell nsamps tgt add k c l)
      (dilateCell nsamps tgt' add k c' l) := by
  by_cases hl : l < 0 ∨ l ≥ (nsamps : Int)
  · unfold dilateCell
    rw [if_pos hl, if_pos hl]
    exact h
  · intro p hp
    have hw := pixel_lt nlines nsamps k l.toNat hk (by omega)
    rw [dilateCell_apply nsamps tgt add k c l (by omega) (by omega) p,
      dilateCell_apply nsamps tgt' add k c' l (by omega) (by omega) p,
      h _ hw, h p hp, htgt _ hw]

theorem dilateLine_frame (nlines nsamps : Nat) (tgt : Nat → Nat → Bool)
    (add r j : Nat) (c : Nat → Nat) (k : Int) (q : Nat)
    (hq : nlines * nsamps ≤ q) :
    dilateLine nlines nsamps tgt add r j c k q = c q := by
  unfold dilateLine
  split
  · rfl
  · rename_i hk
    exact foldl_inv (fun s : Nat → Nat => s q = c q) _
      (fun s l hs =>
        (dilateCell_frame nlines nsamps tgt add k.toNat (by omega) s l q
          hq).trans hs)
      _ c rfl

theorem dilateLine_local (nlines nsamps : Nat) (tgt tgt' : Nat → Nat → Bool)
    (htgt : ∀ p, p < nlines * nsamps → ∀ v, tgt p v = tgt' p v)
    (add r j : Nat) (c c' : Nat → Nat) (k : Int)
    (h : SameOnRaster (nlines * nsamps) c c') :
    SameOnRaster (nlines * nsamps) (dilateLine nlines nsamps tgt add r j c k)
      (dilateLine nlines nsamps tgt' add r j c' k) := by
  unfold dilateLine
  by_cases hk : k < 0 ∨ k ≥ (nlines : Int)
  · rw [if_pos hk, if_pos hk]
    exact h
  · rw [if_neg hk, if_neg hk]
    exact foldl_rel (SameOnRaster (nlines * nsamps)) _ _ _
      (fun s s' l _ hs =>
        dilateCell_local nlines nsamps tgt tgt' htgt add k.toNat (by omega) s s'
          l hs)
      c c' h

theorem dilatePass_frame (nlines nsamps : Nat) (src tgt : Nat → Nat → Bool)
    (add r : Nat) (c : Nat → Nat) (q : Nat) (hq : nlines * nsamps ≤ q) :
    dilatePass nlines nsamps src tgt add r c q = c q := by
  have hpix : ∀ i j (s : Nat → Nat),
      dilatePixel nlines nsamps src tgt add r i s j q = s q := by
    intro i j s
    unfold dilatePixel
    split
    · exact foldl_inv (fun t : Nat → Nat => t q = s q) _
        (fun t k ht =>
          (dilateLine_frame nlines nsamps tgt add r j t k q hq).trans ht)
        _ s rfl
    · rfl
  unfold dilatePass
  refine foldl_inv (fun s : Nat → Nat => s q = c q) _ ?_ _ c rfl
  intro s i hs
  exact foldl_inv (fun t : Nat → Nat => t q = c q) _
    (fun t j ht => (hpix i j t).trans ht) _ s hs

theorem dilatePass_local (nlines nsamps : Nat)
    (src src' tgt tgt' : Nat → Nat → Bool)
    (hsrc : ∀ p, p < nlines * nsamps → ∀ v, src p v = src' p v)
    (htgt : ∀ p, p < nlines * nsamps → ∀ v, tgt p v = tgt' p v)
    (add r : Nat) (c c' : Nat → Nat)
    (h : SameOnRaster (nlines * nsamps) c c') :
    SameOnRaster (nlines * nsamps) (dilatePass nlines nsamps src tgt add r c)
      (dilatePass nlines nsamps src' tgt' add r c') := by
  have hpix : ∀ i j, i < nlines → j < nsamps → ∀ s s' : Nat → Nat,
      SameOnRaster (nlines * nsamps) s s' →
      SameOnRaster (nlines * nsamps)
        (dilatePixel nlines nsamps src tgt add r i s j)
        (dilatePixel nlines nsamps src' tgt' add r i s' j) := by
    intro i j hi hj s s' hs
    have hw := pixel_lt nlines nsamps i j hi hj
    unfold dilatePixel
    dsimp only
    rw [hs _ hw, hsrc _ hw]
    split
    · exact foldl_rel (SameOnRaster (nlines * nsamps)) _ _ _
        (fun t t' k _ ht =>
          dilateLine_local nlines nsamps tgt tgt' htgt add r j t t' k ht)
        s s' hs
    · exact hs
  unfold dilatePass
  refine foldl_rel (SameOnRaster (nlines * nsamps)) _ _ _ ?_ c c' h
  intro s s' i hi hs
  exact foldl_rel (SameOnRaster (nlines * nsamps)) _ _ _
    (fun t t' j hj ht =>
      hpix i j (List.mem_range.mp hi) (List.mem_range.mp hj) t t' ht)
    s s' hs

theorem int_pixel_lt (nlines nsamps : Nat) (k l : Int) (hk0 : 0 ≤ k)
    (hk : k < (nlines : Int)) (hl0 : 0 ≤ l) (hl : l < (nsamps : Int)) :
    (k * (nsamps : Int) + l).toNat < nlines * nsamps := by
  obtain ⟨kn, rfl⟩ := Int.eq_ofNat_of_zero_le hk0
  obtain ⟨ln, rfl⟩ := Int.eq_ofNat_of_zero_le hl0
  have e : ((kn : Int) * (nsamps : Int) + (ln : Int))
      = ((kn * nsamps + ln : Nat) : Int) := by
    push_cast
    rfl
  rw [e, Int.toNat_natCast]
  exact pixel_lt nlines nsamps kn ln (by exact_mod_cast hk) (by exact_mod_cast hl)

/-- The record of the cloud-height search: once a candidate has been stored
(`mband5 < 9999`), `mband5k` and `mband5l` are a line and a sample of the
raster. -/
theorem shadowSearch_index (nlines nsamps : Nat) (sband : Nat → Nat → Int)
    (cloud : Nat → Nat) (facl fack : ℚ) (i j : Nat) (hs : List Int) :
    (hs.foldl (shadowStep nlines nsamps sband cloud facl fack i j)
        { mband5 := 9999, mband5k := -9999, mband5l := -9999 }).mband5 < 9999 →
    0 ≤ (hs.foldl (shadowStep nlines nsamps sband cloud facl fack i j)
        { mband5 := 9999, mband5k := -9999, mband5l := -9999 }).mband5k ∧
    (hs.foldl (shadowStep nlines nsamps sband cloud facl fack i j)
        { mband5 := 9999, mband5k := -9999, mband5l := -9999 }).mband5k
      < (nlines : Int) ∧
    0 ≤ (hs.foldl (shadowStep nlines nsamps sband cloud facl fack i j)
        { mband5 := 9999, mband5k := -9999, mband5l := -9999 }).mband5l ∧
    (hs.foldl (shadowStep nlines nsamps sband cloud facl fack i j)
        { mband5 := 9999, mband5k := -9999, mband5l := -9999 }).mband5l
      < (nsamps : Int) := by
  refine foldl_inv
    (fun m : ShadowMin => m.mband5 < 9999 →
      0 ≤ m.mband5k ∧ m.mband5k < (nlines : Int) ∧ 0 ≤ m.mband5l ∧
        m.mband5l < (nsamps : Int))
    _ ?_ hs _ ?_
  · intro m icldh hm
    unfold shadowStep
    dsimp only
    split_ifs with h1 h2 h3 h4
    · exact hm
    · exact hm
    · intro _
      dsimp only
      omega
    · exact hm
    · exact hm
  · intro h
    exact absurd h (by decide)

theorem shadowCastPixel_frame (c : Consts) (nlines nsamps : Nat)
    (sband : Nat → Nat → Int) (facl fack mclear : ℚ) (i j : Nat)
    (cloud : Nat → Nat) (q : Nat) (hq : nlines * nsamps ≤ q) :
    shadowCastPixel c nlines nsamps sband facl fack mclear i cloud j q
      = cloud q := by
  have hidx := shadowSearch_index nlines nsamps sband cloud facl fack i j
    (shadowHeights c sband mclear (i * nsamps + j))
  unfold shadowCastPixel
  dsimp only
  split_ifs with h1 h2
  · obtain ⟨a1, a2, a3, a4⟩ := hidx h2
    have := int_pixel_lt nlines nsamps _ _ a1 a2 a3 a4
    exact Function.update_noteq (by omega) _ _
  · rfl
  · rfl

theorem shadowStep_congr (nlines nsamps : Nat) (sband sband' : Nat → Nat → Int)
    (cloud cloud' : Nat → Nat) (facl fack : ℚ) (i j : Nat)
    (hband : ∀ b, SameOnRaster (nlines * nsamps) (sband b) (sband' b))
    (hcloud : SameOnRaster (nlines * nsamps) cloud cloud') :
    shadowStep nlines nsamps sband cloud facl fack i j
      = shadowStep nlines nsamps sband' cloud' facl fack i j := by
  funext m icldh
  unfold shadowStep
  dsimp only
  by_cases hr : truncToInt ((i : ℚ) + facl * ((icldh : ℚ) * 10)) < 0 ∨
      truncToInt ((i : ℚ) + facl * ((icldh : ℚ) * 10)) ≥ (nlines : Int) ∨
      truncToInt ((j : ℚ) - fack * ((icldh : ℚ) * 10)) < 0 ∨
      truncToInt ((j : ℚ) - fack * ((icldh : ℚ) * 10)) ≥ (nsamps : Int)
  · rw [if_pos hr, if_pos hr]
  · rw [if_neg hr, if_neg hr]
    have hw := int_pixel_lt nlines nsamps
      (truncToInt ((i : ℚ) + facl * ((icldh : ℚ) * 10)))
      (truncToInt ((j : ℚ) - fack * ((icldh : ℚ) * 10))) (by omega) (by omega)
      (by omega) (by omega)
    rw [hband SR_BAND6 _ hw, hband SR_BAND3 _ hw, hband SR_BAND4 _ hw,
      hcloud _ hw]

theorem shadowCastPixel_local (c : Consts) (nlines nsamps : Nat)
    (sband sband' : Nat → Nat → Int) (facl fack mclear : ℚ) (i j : Nat)
    (hi : i < nlines) (hj : j < nsamps) (cloud cloud' : Nat → Nat)
    (hband : ∀ b, SameOnRaster (nlines * nsamps) (sband b) (sband' b))
    (hcloud : SameOnRaster (nlines * nsamps) cloud cloud') :
    SameOnRaster (nlines * nsamps)
      (shadowCastPixel c nlines nsamps sband facl fack mclear i cloud j)
      (shadowCastPixel c nlines nsamps sband' facl fack mclear i cloud' j) := by
  have hcur := pixel_lt nlines nsamps i j hi hj
  have hh : shadowHeights c sband mclear (i * nsamps + j)
      = shadowHeights c sband' mclear (i * nsamps + j) := by
    unfold shadowHeights
    rw [hband SR_BAND10 _ hcur]
  have hidx := shadowSearch_index nlines nsamps sband' cloud' facl fack i j
    (shadowHeights c sband' mclear (i * nsamps + j))
  unfold shadowCastPixel
  dsimp only
  rw [hh, shadowStep_congr nlines nsamps sband sband' cloud cloud' facl fack i j
    hband hcloud, hcloud _ hcur]
  split_ifs with h1 h2
  · obtain ⟨a1, a2, a3, a4⟩ := hidx h2
    have hw := int_pixel_lt nlines nsamps _ _ a1 a2 a3 a4
    intro p hp
    by_cases e : p = ((List.foldl
        (shadowStep nlines nsamps sband' cloud' facl fack i j)
        { mband5 := 9999, mband5k := -9999, mband5l := -9999 }
        (shadowHeights c sband' mclear (i * nsamps + j))).mband5k
          * (nsamps : Int)
        + (List.foldl (shadowStep nlines nsamps sband' cloud' facl fack i j)
        { mband5 := 9999, mband5k := -9999, mband5l := -9999 }
        (shadowHeights c sband' mclear (i * nsamps + j))).mband5l).toNat
    · rw [e, Function.update_same, Function.update_same, hcloud _ hw]
    · rw [Function.update_noteq e, Function.update_noteq e]
      exact hcloud p hp
  · exact hcloud
  · exact hcloud

theorem shadowCastPass_frame (c : Consts) (nlines nsamps : Nat)
    (sband : Nat → Nat → Int) (facl fack mclear : ℚ) (cloud : Nat → Nat)
    (q : Nat) (hq : nlines * nsamps ≤ q) :
    shadowCastPass c nlines nsamps sband facl fack mclear cloud q = cloud q := by
  unfold shadowCastPass
  refine foldl_inv (fun s : Nat → Nat => s q = cloud q) _ ?_ _ cloud rfl
  intro s i hs
  exact foldl_inv (fun t : Nat → Nat => t q = cloud q) _
    (fun t j ht =>
      (shadowCastPixel_frame c nlines nsamps sband facl fack mclear i j t q
        hq).trans ht)
    _ s hs

theorem shadowCastPass_local (c : Consts) (nlines nsamps : Nat)
    (sband sband' : Nat → Nat → Int) (facl fack mclear : ℚ)
    (cloud cloud' : Nat → Nat)
    (hband : ∀ b, SameOnRaster (nlines * nsamps) (sband b) (sband' b))
    (hcloud : SameOnRaster (nlines * nsamps) cloud cloud') :
    SameOnRaster (nlines * nsamps)
      (shadowCastPass c nlines nsamps sband facl fack mclear cloud)
      (shadowCastPass c nlines nsamps sband' facl fack mclear cloud') := by
  unfold shadowCastPass
  refine foldl_rel (SameOnRaster (nlines * nsamps)) _ _ _ ?_ cloud cloud' hcloud
  intro s s' i hi hs
  exact foldl_rel (SameOnRaster (nlines * nsamps)) _ _ _
    (fun t t' j hj ht =>
      shadowCastPixel_local c nlines nsamps sband sband' facl fack mclear i j
        (List.mem_range.mp hi) (List.mem_range.mp hj) t t' hband ht)
    s s' hs

theorem blockAccum_foldl_congr (cloud cloud' : Nat → Nat) (f f' : AotField)
    (ws : List Nat)
    (h : ∀ w, w ∈ ws → cloud w = cloud' w ∧ f.taero w = f'.taero w ∧
      f.tresi w = f'.tresi w) :
    ∀ acc : BlockSum,
      ws.foldl (blockAccum cloud f) acc = ws.foldl (blockAccum cloud' f') acc := by
  induction ws with
  | nil => intro acc; rfl
  | cons w ws ih =>
    intro acc
    obtain ⟨e1, e2, e3⟩ := h w (List.mem_cons_self _ _)
    have hstep : blockAccum cloud f acc w = blockAccum cloud' f' acc w := by
      unfold blockAccum
      rw [e1, e2, e3]
    rw [List.foldl_cons, List.foldl_cons, hstep]
    exact ih (fun x hx => h x (List.mem_cons_of_mem _ hx)) _

theorem blockFill_local (npix : Nat) (cloud cloud' : Nat → Nat) (aaot : ℚ)
    (f f' : AotField) (w : Nat) (hw : w < npix)
    (hcloud : SameOnRaster npix cloud cloud')
    (h : SameOnRaster npix f.taero f'.taero ∧
      SameOnRaster npix f.tresi f'.tresi) :
    SameOnRaster npix (blockFill cloud aaot f w).taero
        (blockFill cloud' aaot f' w).taero ∧
    SameOnRaster npix (blockFill cloud aaot f w).tresi
        (blockFill cloud' aaot f' w).tresi := by
  unfold blockFill
  rw [hcloud w hw, h.2 w hw]
  split
  · constructor
    · intro p hp
      dsimp only
      by_cases e : p = w
      · rw [e, Function.update_same, Function.update_same]
      · rw [Function.update_noteq e, Function.update_noteq e]
        exact h.1 p hp
    · intro p hp
      dsimp only
      by_cases e : p = w
      · rw [e, Function.update_same, Function.update_same]
      · rw [Function.update_noteq e, Function.update_noteq e]
        exact h.2 p hp
  · exact h

theorem gapFillBlock_local (nlines nsamps step : Nat)
    (cloud cloud' : Nat → Nat) (i : Nat) (st st' : AotField × Nat) (j : Nat)
    (hcloud : SameOnRaster (nlines * nsamps) cloud cloud')
    (h : (SameOnRaster (nlines * nsamps) st.1.taero st'.1.taero ∧
      SameOnRaster (nlines * nsamps) st.1.tresi st'.1.tresi) ∧ st.2 = st'.2) :
    (SameOnRaster (nlines * nsamps)
        (gapFillBlock nlines nsamps step cloud i st j).1.taero
        (gapFillBlock nlines nsamps step cloud' i st' j).1.taero ∧
      SameOnRaster (nlines * nsamps)
        (gapFillBlock nlines nsamps step cloud i st j).1.tresi
        (gapFillBlock nlines nsamps step cloud' i st' j).1.tresi) ∧
    (gapFillBlock nlines nsamps step cloud i st j).2
      = (gapFillBlock nlines nsamps step cloud' i st' j).2 := by
  have hacc := blockAccum_foldl_congr cloud cloud' st.1 st'.1
    (blockWindow nlines nsamps step i j)
    (fun w hw =>
      ⟨hcloud w (blockWindow_lt nlines nsamps step i j w hw),
        h.1.1 w (blockWindow_lt nlines nsamps step i j w hw),
        h.1.2 w (blockWindow_lt nlines nsamps step i j w hw)⟩)
    { nbaot := 0, aaot := 0, sresi := 0 }
  unfold gapFillBlock
  dsimp only
  rw [hacc]
  split
  · refine ⟨?_, h.2⟩
    exact foldl_rel
      (fun a b : AotField =>
        SameOnRaster (nlines * nsamps) a.taero b.taero ∧
          SameOnRaster (nlines * nsamps) a.tresi b.tresi)
      _ _ _
      (fun a b w hw hab =>
        blockFill_local (nlines * nsamps) cloud cloud' _ a b w
          (blockWindow_lt nlines nsamps step i j w hw) hcloud hab)
      st.1 st'.1 h.1
  · exact ⟨h.1, by rw [h.2]⟩

theorem gapFillSweep_local (nlines nsamps step : Nat)
    (cloud cloud' : Nat → Nat) (f f' : AotField)
    (hcloud : SameOnRaster (nlines * nsamps) cloud cloud')
    (h : SameOnRaster (nlines * nsamps) f.taero f'.taero ∧
      SameOnRaster (nlines * nsamps) f.tresi f'.tresi) :
    (SameOnRaster (nlines * nsamps)
        (gapFillSweep nlines nsamps step cloud f).1.taero
        (gapFillSweep nlines nsamps step cloud' f').1.taero ∧
      SameOnRaster (nlines * nsamps)
        (gapFillSweep nlines nsamps step cloud f).1.tresi
        (gapFillSweep nlines nsamps step cloud' f').1.tresi) ∧
    (gapFillSweep nlines nsamps step cloud f).2
      = (gapFillSweep nlines nsamps step cloud' f').2 := by
  unfold gapFillSweep
  refine foldl_rel
    (fun a b : AotField × Nat =>
      (SameOnRaster (nlines * nsamps) a.1.taero b.1.taero ∧
        SameOnRaster (nlines * nsamps) a.1.tresi b.1.tresi) ∧ a.2 = b.2)
    _ _ _ ?_ (f, 0) (f', 0) ⟨h, rfl⟩
  intro s s' i _ hs
  exact foldl_rel
    (fun a b : AotField × Nat =>
      (SameOnRaster (nlines * nsamps) a.1.taero b.1.taero ∧
        SameOnRaster (nlines * nsamps) a.1.tresi b.1.tresi) ∧ a.2 = b.2)
    _ _ _
    (fun a b j _ hab =>
      gapFillBlock_local nlines nsamps step cloud cloud' i a b j hcloud hab)
    s s' hs

theorem gapFillLoop_local (nlines nsamps : Nat) (cloud cloud' : Nat → Nat)
    (hcloud : SameOnRaster (nlines * nsamps) cloud cloud') (fuel : Nat) :
    ∀ (f f' : AotField) (hole step : Nat),
      (SameOnRaster (nlines * nsamps) f.taero f'.taero ∧
        SameOnRaster (nlines * nsamps) f.tresi f'.tresi) →
      (SameOnRaster (nlines * nsamps)
          (gapFillLoop nlines nsamps cloud fuel f hole step).1.taero
          (gapFillLoop nlines nsamps cloud' fuel f' hole step).1.taero ∧
        SameOnRaster (nlines * nsamps)
          (gapFillLoop nlines nsamps cloud fuel f hole step).1.tresi
          (gapFillLoop nlines nsamps cloud' fuel f' hole step).1.tresi) ∧
      (gapFillLoop nlines nsamps cloud fuel f hole step).2
        = (gapFillLoop nlines nsamps cloud' fuel f' hole step).2 := by
  induction fuel with
  | zero =>
    intro f f' hole step h
    exact ⟨h, rfl⟩
  | succ n ih =>
    intro f f' hole step h
    obtain ⟨hs1, hs2⟩ := gapFillSweep_local nlines nsamps step cloud cloud' f f'
      hcloud h
    by_cases hc : hole ≠ 0 ∧ step < 1000
    · have e1 : gapFillLoop nlines nsamps cloud (n + 1) f hole step
          = gapFillLoop nlines nsamps cloud n
              (gapFillSweep nlines nsamps step cloud f).1
              (gapFillSweep nlines nsamps step cloud f).2 (step * 2) := by
        rw [gapFillLoop, if_pos hc]
      have e2 : gapFillLoop nlines nsamps cloud' (n + 1) f' hole step
          = gapFillLoop nlines nsamps cloud' n
              (gapFillSweep nlines nsamps step cloud' f').1
              (gapFillSweep nlines nsamps step cloud' f').2 (step * 2) := by
        rw [gapFillLoop, if_pos hc]
      rw [e1, e2, hs2]
      exact ih _ _ _ _ hs1
    · have e1 : gapFillLoop nlines nsamps cloud (n + 1) f hole step
          = (f, hole, step) := by
        rw [gapFillLoop, if_neg hc]
      have e2 : gapFillLoop nlines nsamps cloud' (n + 1) f' hole step
          = (f', hole, step) := by
        rw [gapFillLoop, if_neg hc]
      rw [e1, e2]
      exact ⟨h, rfl⟩

theorem aerosolInterp_frame (nlines nsamps : Nat) (cloud : Nat → Nat)
    (f : AotField) (q : Nat) (hq : nlines * nsamps ≤ q) :
    (aerosolInterp nlines nsamps cloud f).1.taero q = f.taero q ∧
    (aerosolInterp nlines nsamps cloud f).1.tresi q = f.tresi q := by
  obtain ⟨n, _, he, _, _⟩ := gapFillLoop_rounds nlines nsamps cloud 7 f 1 10
  have he' : aerosolInterp nlines nsamps cloud f
      = (gapFillRound nlines nsamps cloud)^[n] (f, 1, 10) := he
  rw [he']
  rcases gapFillRounds_pixel nlines nsamps cloud (f, 1, 10) q n with
    h | ⟨_, _, _, b, _, hb2, _⟩
  · exact h
  · have := blockWindow_lt nlines nsamps _ b.1 b.2 q hb2
    omega

/-- C35: raster index safety of the neighbourhood passes. For every raster
size: (1) the indices formed by the passes lie in `[0, nlines*nsamps)`: the
current pixel `i*nsamps + j`, a window cell that passes the two validity
tests of a dilation pass, a projected pixel that passes the validity test of
the shadow casting, the pixel `mband5k*nsamps + mband5l` written by the shadow
casting whenever a candidate was recorded (`mband5 < 9999`), and every pixel
of a block window of the aerosol interpolation. (2) No pass writes outside
the raster: the adjacency pass, the shadow casting, the shadow expansion and
the aerosol interpolation leave every array element of index
`>= nlines*nsamps` as it was. (3) No pass reads outside the raster: two runs
of a pass whose input arrays (mask, bands, residuals, aerosol values) hold
the same values at every raster pixel give the same values at every raster
pixel, and the same hole count and final block size for the
interpolation. -/
theorem neighbourhood_passes_stay_in_raster (nlines nsamps : Nat) :
    ((∀ i j, i < nlines → j < nsamps → i * nsamps + j < nlines * nsamps) ∧
      (∀ k l : Int, ¬ (k < 0 ∨ k ≥ (nlines : Int)) →
        ¬ (l < 0 ∨ l ≥ (nsamps : Int)) →
        k.toNat * nsamps + l.toNat < nlines * nsamps) ∧
      (∀ k l : Int,
        ¬ (k < 0 ∨ k ≥ (nlines : Int) ∨ l < 0 ∨ l ≥ (nsamps : Int)) →
        (k * (nsamps : Int) + l).toNat < nlines * nsamps) ∧
      (∀ (c : Consts) (sband : Nat → Nat → Int) (cloud : Nat → Nat)
          (facl fack mclear : ℚ) (i j : Nat),
        ((shadowHeights c sband mclear (i * nsamps + j)).foldl
            (shadowStep nlines nsamps sband cloud facl fack i j)
            { mband5 := 9999, mband5k := -9999, mband5l := -9999 }).mband5
          < 9999 →
        (((shadowHeights c sband mclear (i * nsamps + j)).foldl
            (shadowStep nlines nsamps sband cloud facl fack i j)
            { mband5 := 9999, mband5k := -9999, mband5l := -9999 }).mband5k
            * (nsamps : Int)
          + ((shadowHeights c sband mclear (i * nsamps + j)).foldl
            (shadowStep nlines nsamps sband cloud facl fack i j)
            { mband5 := 9999, mband5k := -9999, mband5l := -9999 }).mband5l).toNat
          < nlines * nsamps) ∧
      (∀ step i j w, w ∈ blockWindow nlines nsamps step i j →
        w < nlines * nsamps)) ∧
    ((∀ (cloud : Nat → Nat) q, nlines * nsamps ≤ q →
        adjacencyPass nlines nsamps cloud q = cloud q) ∧
      (∀ (c : Consts) (sband : Nat → Nat → Int) (facl fack mclear : ℚ)
          (cloud : Nat → Nat) q, nlines * nsamps ≤ q →
        shadowCastPass c nlines nsamps sband facl fack mclear cloud q
          = cloud q) ∧
      (∀ (tresi : Nat → ℚ) (cloud : Nat → Nat) q, nlines * nsamps ≤ q →
        shadowExpandPass nlines nsamps tresi cloud q = cloud q) ∧
      (∀ (cloud : Nat → Nat) (f : AotField) q, nlines * nsamps ≤ q →
        (aerosolInterp nlines nsamps cloud f).1.taero q = f.taero q ∧
        (aerosolInterp nlines nsamps cloud f).1.tresi q = f.tresi q)) ∧
    ((∀ cloud cloud' : Nat → Nat,
        SameOnRaster (nlines * nsamps) cloud cloud' →
        SameOnRaster (nlines * nsamps) (adjacencyPass nlines nsamps cloud)
          (adjacencyPass nlines nsamps cloud')) ∧
      (∀ (c : Consts) (sband sband' : Nat → Nat → Int) (facl fack mclear : ℚ)
          (cloud cloud' : Nat → Nat),
        (∀ b, SameOnRaster (nlines * nsamps) (sband b) (sband' b)) →
        SameOnRaster (nlines * nsamps) cloud cloud' →
        SameOnRaster (nlines * nsamps)
          (shadowCastPass c nlines nsamps sband facl fack mclear cloud)
          (shadowCastPass c nlines nsamps sband' facl fack mclear cloud')) ∧
      (∀ (tresi tresi' : Nat → ℚ) (cloud cloud' : Nat → Nat),
        SameOnRaster (nlines * nsamps) tresi tresi' →
        SameOnRaster (nlines * nsamps) cloud cloud' →
        SameOnRaster (nlines * nsamps)
          (shadowExpandPass nlines nsamps tresi cloud)
          (shadowExpandPass nlines nsamps tresi' cloud')) ∧
      (∀ (cloud cloud' : Nat → Nat) (f f' : AotField),
        SameOnRaster (nlines * nsamps) cloud cloud' →
        SameOnRaster (nlines * nsamps) f.taero f'.taero →
        SameOnRaster (nlines * nsamps) f.tresi f'.tresi →
        SameOnRaster (nlines * nsamps)
          (aerosolInterp nlines nsamps cloud f).1.taero
          (aerosolInterp nlines nsamps cloud' f').1.taero ∧
        SameOnRaster (nlines * nsamps)
          (aerosolInterp nlines nsamps cloud f).1.tresi
          (aerosolInterp nlines nsamps cloud' f').1.tresi ∧
        (aerosolInterp nlines nsamps cloud f).2
          = (aerosolInterp nlines nsamps cloud' f').2)) := by
  refine ⟨⟨pixel_lt nlines nsamps, window_index_lt nlines nsamps, ?_, ?_,
      blockWindow_lt nlines nsamps⟩,
    ⟨?_, ?_, ?_, aerosolInterp_frame nlines nsamps⟩, ⟨?_, ?_, ?_, ?_⟩⟩
  · intro k l h
    exact int_pixel_lt nlines nsamps k l (by omega) (by omega) (by omega)
      (by omega)
  · intro c sband cloud facl fack mclear i j h
    obtain ⟨a1, a2, a3, a4⟩ := shadowSearch_index nlines nsamps sband cloud facl
      fack i j (shadowHeights c sband mclear (i * nsamps + j)) h
    exact int_pixel_lt nlines nsamps _ _ a1 a2 a3 a4
  · intro cloud q hq
    exact dilatePass_frame nlines nsamps adjSource adjTarget 4 5 cloud q hq
  · intro c sband facl fack mclear cloud q hq
    exact shadowCastPass_frame c nlines nsamps sband facl fack mclear cloud q hq
  · intro tresi cloud q hq
    exact dilatePass_frame nlines nsamps shadowSource (shadowTarget tresi) 16 6
      cloud q hq
  · intro cloud cloud' h
    exact dilatePass_local nlines nsamps adjSource adjSource adjTarget adjTarget
      (fun _ _ _ => rfl) (fun _ _ _ => rfl) 4 5 cloud cloud' h
  · intro c sband sband' facl fack mclear cloud cloud' hb hc
    exact shadowCastPass_local c nlines nsamps sband sband' facl fack mclear
      cloud cloud' hb hc
  · intro tresi tresi' cloud cloud' ht hc
    refine dilatePass_local nlines nsamps shadowSource shadowSource
      (shadowTarget tresi) (shadowTarget tresi') (fun _ _ _ => rfl) ?_ 16 6
      cloud cloud' hc
    intro p hp v
    unfold shadowTarget
    rw [ht p hp]
  · intro cloud cloud' f f' hc h1 h2
    obtain ⟨⟨r1, r2⟩, r3⟩ := gapFillLoop_local nlines nsamps cloud cloud' hc 7
      f f' 1 10 ⟨h1, h2⟩
    exact ⟨r1, r2, r3⟩

end L8SR
